import Mathlib

/-!
# CISC lexer: a shallow embedding of `src/lexer.c` and `src/utils.c`

The C sources are embedded as Lean functions over explicit state.

* A `char` is a natural number (its code); character literals of the source are
  written `'x'.toNat`.
* The buffer `line` that `getline` fills (lexer.c:138, 153) is a `List Nat`: the cells in
  front of the last null that a call of `getline` has written.  The cells the cursor walks
  over are `line ++ [0]`.  `lexer` uses one buffer for all lines, and `getline` writes a
  line and its terminating null over the front of it, so behind the terminating null of a
  line stand the cells that earlier, longer lines have left (`getline` below).  The first
  null is the one that ends the current line.  A read behind the last null is a read of a
  cell that no call has written and is a `Fault.oob`.
* The cursor `char **c` is an index into that buffer, threaded through every
  function and returned next to the C return value.
* Heap blocks (`malloc`, `realloc`) are lists of cells; a cell is `none` while
  its content is indeterminate.  Allocation is assumed to succeed, and `size_t`
  and `int` counters are unbounded naturals (no line is long enough to wrap them).
* `<ctype.h>` predicates are those of the "C" locale (the program never calls
  `setlocale`): they hold for ASCII characters only.
* The two `printf` calls (`"error\n"`, `"not yet implemented\n"`) are not
  modelled as output; the first is visible as the flag `lexer` returns.
* Loops run on a bound (`loop_bound`) large enough for every line; running out of it
  would be `Fault.fuel`, which no theorem below relies on: a statement that a function
  returns names the value it returns.
* `string_append` asserts `len != (size_t)-1`.  Theorems that promise a result take
  lines with `line.length + 1 < SIZE_MAX`, as every line in memory is; theorems about
  a result already in hand need no such bound.
-/

set_option maxRecDepth 100000
set_option maxHeartbeats 1000000

namespace CISC

/-! ## Outcomes -/

/-- Ways in which a run leaves defined behaviour (or, for `fuel`, the model's loop bound). -/
inductive Fault where
  | oob
  | assertion
  | fuel
deriving DecidableEq, Repr

/-- Outcome of a piece of C code: a value, a jump to the enclosing function's
`error:` label, or a fault. -/
inductive Res (α : Type) where
  | ok (a : α)
  | error
  | fault (f : Fault)
deriving DecidableEq, Repr

/-- Sequencing: a jump or a fault skips the rest. -/
def Res.bind {α β : Type} (x : Res α) (f : α → Res β) : Res β :=
  match x with
  | .ok a => f a
  | .error => .error
  | .fault e => .fault e

instance : Monad Res where
  pure := Res.ok
  bind := Res.bind

/-- The statement `goto error;`. -/
def goto_error {α : Type} : Res α := Res.error

/-- The statement `if (cond) goto error;`. -/
def error_if (cond : Bool) : Res Unit := if cond then Res.error else Res.ok ()

/-! ## Memory -/

/-- A heap block: one cell per byte, `none` while indeterminate. -/
abbrev Block := List (Option Nat)

/-- A `char *`: `none` is `NULL`. -/
abbrev Ptr := Option Block

/-- Result of `malloc(n)`: a fresh block of `n` indeterminate cells. -/
def malloc (n : Nat) : Ptr := some (List.replicate n none)

/-- Result of `realloc(p, n)`: the old content, cut or extended by indeterminate cells. -/
def realloc (p : Ptr) (n : Nat) : Ptr :=
  match p with
  | none => malloc n
  | some b => some (b.take n ++ List.replicate (n - b.length) none)

/-- The assignment `p[i] = v`. -/
def store (p : Ptr) (i : Nat) (v : Nat) : Res Ptr :=
  match p with
  | none => .fault .oob
  | some b => if i < b.length then .ok (some (b.set i (some v))) else .fault .oob

/-- The read `p[i]`. -/
def load (p : Ptr) (i : Nat) : Res Nat :=
  match p with
  | none => .fault .oob
  | some b =>
    match b.getD i none with
    | some v => .ok v
    | none => .fault .oob

/-- Characters of a string literal of the source. -/
def cs (s : String) : List Nat := s.toList.map Char.toNat

/-- The read `**c` at cursor `i` of the buffer `line`: the cells in front of the last null
that was written to the buffer, then that null, then nothing. -/
def rd (line : List Nat) (i : Nat) : Res Nat :=
  match (line ++ [0])[i]? with
  | some x => .ok x
  | none => .fault .oob

/-! ## `utils.c` -/

/-- Mirror of `struct string` (utils.h). -/
structure string where
  len : Nat
  capacity : Nat
  arr : Ptr
deriving DecidableEq, Repr

/-- The value `(size_t)-1`. -/
abbrev SIZE_MAX : Nat := 2 ^ 64 - 1

/-- Function `string_init` (utils.c:5-9). -/
def string_init : string := { len := 0, capacity := 0, arr := none }

/-- Function `string_destroy` (utils.c:11-16). -/
def string_destroy (_str : string) : string :=
  { len := SIZE_MAX, capacity := SIZE_MAX, arr := none }

/-- Function `string_append` (utils.c:18-32). -/
def string_append (str : string) (c : Nat) : Res string := do
  if str.len == SIZE_MAX then Res.fault Fault.assertion else
  let str : string :=
    if str.capacity == 0 then
      { str with arr := malloc 16, capacity := 16 }
    else if str.len + 1 == str.capacity then
      { str with arr := realloc str.arr (2 * str.capacity), capacity := str.capacity * 2 }
    else str
  let arr ← store str.arr str.len c
  let str : string := { str with arr := arr }
  let str : string := { str with len := str.len + 1 }
  let arr ← store str.arr str.len 0
  pure { str with arr := arr }

/-- Function `string_clear` (utils.c:34-39). -/
def string_clear (str : string) : Res string := do
  if str.len == SIZE_MAX then Res.fault Fault.assertion else
  let str : string := { str with len := 0 }
  match str.arr with
  | none => pure str
  | some _ => do
    let arr ← store str.arr 0 0
    pure { str with arr := arr }

/-- Bytes written by `strncpy(dest, src, n)`, reading `src` from index `i`: the characters
of `src` up to its first null, then nulls up to `n` bytes. -/
def strncpy_bytes (src : Ptr) : Nat → Nat → Res (List Nat)
  | 0, _ => pure []
  | n + 1, i => do
    let x ← load src i
    if x == 0 then pure (List.replicate (n + 1) 0)
    else do
      let r ← strncpy_bytes src n (i + 1)
      pure (x :: r)

/-- Library call `strncpy(dest, src, n)`. -/
def strncpy (dest src : Ptr) (n : Nat) : Res Ptr :=
  match dest with
  | none => .fault .oob
  | some d =>
    if d.length < n then .fault .oob
    else do
      let bs ← strncpy_bytes src n 0
      pure (some (bs.map some ++ d.drop n))

/-- Function `string_copy` (utils.c:41-48). -/
def string_copy (dest src : string) : Res string := do
  if !(dest.len == 0 && dest.capacity == 0 && dest.arr == none) then
    Res.fault Fault.assertion
  else
  let dest : string := { dest with len := src.len }
  let dest : string := { dest with capacity := src.len + 1 }
  let dest : string := { dest with arr := malloc (src.len + 1) }
  let arr ← strncpy dest.arr src.arr (src.len + 1)
  pure { dest with arr := arr }

/-- Library call `strcmp(p, q) == 0` for a pointer `p` and a string literal `q` (free of
nulls), comparing from index `i`: characters are compared in turn up to the first
difference or the common terminator. -/
def strcmp_eq (p : Ptr) : List Nat → Nat → Res Bool
  | [], i => do
    let x ← load p i
    pure (x == 0)
  | y :: q, i => do
    let x ← load p i
    if x == y then strcmp_eq p q (i + 1) else pure false

/-! ## `lexer.h` -/

/-! ### `enum token_type` (lexer.h:8-118) -/

abbrev TOKEN_AUTO : Nat := 0
abbrev TOKEN_BREAK : Nat := 1
abbrev TOKEN_CASE : Nat := 2
abbrev TOKEN_CHAR : Nat := 3
abbrev TOKEN_CONST : Nat := 4
abbrev TOKEN_CONTINUE : Nat := 5
abbrev TOKEN_DEFAULT : Nat := 6
abbrev TOKEN_DO : Nat := 7
abbrev TOKEN_DOUBLE : Nat := 8
abbrev TOKEN_ELSE : Nat := 9
abbrev TOKEN_ENUM : Nat := 10
abbrev TOKEN_EXTERN : Nat := 11
abbrev TOKEN_FLOAT : Nat := 12
abbrev TOKEN_FOR : Nat := 13
abbrev TOKEN_GOTO : Nat := 14
abbrev TOKEN_IF : Nat := 15
abbrev TOKEN_INLINE : Nat := 16
abbrev TOKEN_INT : Nat := 17
abbrev TOKEN_LONG : Nat := 18
abbrev TOKEN_REGISTER : Nat := 19
abbrev TOKEN_RESTRICT : Nat := 20
abbrev TOKEN_RETURN : Nat := 21
abbrev TOKEN_SHORT : Nat := 22
abbrev TOKEN_SIGNED : Nat := 23
abbrev TOKEN_SIZEOF : Nat := 24
abbrev TOKEN_STATIC : Nat := 25
abbrev TOKEN_STRUCT : Nat := 26
abbrev TOKEN_SWITCH : Nat := 27
abbrev TOKEN_TYPEDEF : Nat := 28
abbrev TOKEN_UNION : Nat := 29
abbrev TOKEN_UNSIGNED : Nat := 30
abbrev TOKEN_VOID : Nat := 31
abbrev TOKEN_VOLATILE : Nat := 32
abbrev TOKEN_WHILE : Nat := 33
abbrev TOKEN_ALIGNAS : Nat := 34
abbrev TOKEN_ALIGNOF : Nat := 35
abbrev TOKEN_ATOMIC : Nat := 36
abbrev TOKEN_BOOL : Nat := 37
abbrev TOKEN_COMPLEX : Nat := 38
abbrev TOKEN_GENERIC : Nat := 39
abbrev TOKEN_IMAGINARY : Nat := 40
abbrev TOKEN_NORETURN : Nat := 41
abbrev TOKEN_STATIC_ASSERT : Nat := 42
abbrev TOKEN_THREAD_LOCAL : Nat := 43
abbrev TOKEN_IDENTIFER : Nat := 44
abbrev TOKEN_INT_CONST : Nat := 45
abbrev TOKEN_FLOAT_CONST : Nat := 46
abbrev TOKEN_CHAR_CONST : Nat := 47
abbrev TOKEN_STRING_LITERAL : Nat := 48
abbrev TOKEN_BRACKET_OPEN : Nat := 49
abbrev TOKEN_BRACKET_CLOSE : Nat := 50
abbrev TOKEN_PAREN_OPEN : Nat := 51
abbrev TOKEN_PAREN_CLOSE : Nat := 52
abbrev TOKEN_BRACE_OPEN : Nat := 53
abbrev TOKEN_BRACE_CLOSE : Nat := 54
abbrev TOKEN_PERIOD : Nat := 55
abbrev TOKEN_ARROW : Nat := 56
abbrev TOKEN_TWO_PLUS : Nat := 57
abbrev TOKEN_TWO_MINUS : Nat := 58
abbrev TOKEN_AMPERSAND : Nat := 59
abbrev TOKEN_ASTERISK : Nat := 60
abbrev TOKEN_PLUS : Nat := 61
abbrev TOKEN_MINUS : Nat := 62
abbrev TOKEN_TILDE : Nat := 63
abbrev TOKEN_EXCLAMATION : Nat := 64
abbrev TOKEN_SLASH : Nat := 65
abbrev TOKEN_PERCENT : Nat := 66
abbrev TOKEN_LSHIFT : Nat := 67
abbrev TOKEN_RSHIFT : Nat := 68
abbrev TOKEN_LESS_THAN : Nat := 69
abbrev TOKEN_GREATER_THAN : Nat := 70
abbrev TOKEN_LEQ : Nat := 71
abbrev TOKEN_GEQ : Nat := 72
abbrev TOKEN_EQUAL : Nat := 73
abbrev TOKEN_NOT_EQUAL : Nat := 74
abbrev TOKEN_CARROT : Nat := 75
abbrev TOKEN_VERT_BAR : Nat := 76
abbrev TOKEN_TWO_AMPERSAND : Nat := 77
abbrev TOKEN_TWO_VERT_BAR : Nat := 78
abbrev TOKEN_QUESTION : Nat := 79
abbrev TOKEN_COLON : Nat := 80
abbrev TOKEN_SEMICOLON : Nat := 81
abbrev TOKEN_THREE_PERIOD : Nat := 82
abbrev TOKEN_ASSIGN : Nat := 83
abbrev TOKEN_MUL_ASSIGN : Nat := 84
abbrev TOKEN_DIV_ASSIGN : Nat := 85
abbrev TOKEN_MOD_ASSIGN : Nat := 86
abbrev TOKEN_ADD_ASSIGN : Nat := 87
abbrev TOKEN_SUB_ASSIGN : Nat := 88
abbrev TOKEN_LSHIFT_ASSIGN : Nat := 89
abbrev TOKEN_RSHIFT_ASSIGN : Nat := 90
abbrev TOKEN_AND_ASSIGN : Nat := 91
abbrev TOKEN_XOR_ASSIGN : Nat := 92
abbrev TOKEN_OR_ASSIGN : Nat := 93
abbrev TOKEN_COMMA : Nat := 94
abbrev TOKEN_SHARP : Nat := 95
abbrev TOKEN_TWO_SHARP : Nat := 96
abbrev TOKEN_INDETERMINATE : Nat := 97

/-- Mirror of `struct token` (lexer.h:120-123). -/
structure token where
  type : Nat
  str : string
deriving DecidableEq, Repr

/-- Mirror of `struct token_array` (lexer.h:125-129); `tokens` is the heap block, one cell
per `struct token`. -/
structure token_array where
  len : Nat
  capacity : Nat
  tokens : List (Option token)
deriving DecidableEq, Repr

/-! ## `lexer.c` -/

/-- Table `keyword_table` (lexer.c:13-58). -/
def keyword_table : List (List Nat) :=
  [
   "auto", "break", "case", "char", "const", "continue",
   "default", "do", "double", "else", "enum", "extern",
   "float", "for", "goto", "if", "inline", "int",
   "long", "register", "restrict", "return", "short", "signed",
   "sizeof", "static", "struct", "switch", "typedef", "union",
   "unsigned", "void", "volatile", "while", "_Alignas", "_Alignof",
   "_Atomic", "_Bool", "_Complex", "_Generic", "_Imaginary", "_Noreturn",
   "_Static_assert", "_Thread_local"
  ].map cs

/-- Table `punctuator_table` (lexer.c:60-109). -/
def punctuator_table : List (List Nat) :=
  [
   "[", "]", "(", ")", "\x7b", "\x7d", ".", "->", "++", "--", "&", "*",
   "+", "-", "~", "!", "/", "%", "<<", ">>", "<", ">", "<=", ">=",
   "==", "!=", "^", "|", "&&", "||", "?", ":", ";", "...", "=", "*=",
   "/=", "%=", "+=", "-=", "<<=", ">>=", "&=", "^=", "|=", ",", "#", "##"
  ].map cs

/-- Constant `NUM_KEYWORDS` (lexer.c:111). -/
abbrev NUM_KEYWORDS : Nat := 44

/-! ### `<ctype.h>` in the "C" locale -/

/-- Library predicate `isdigit`. -/
def isdigit (c : Nat) : Bool := '0'.toNat ≤ c && c ≤ '9'.toNat

/-- Library predicate `isalpha`. -/
def isalpha (c : Nat) : Bool :=
  ('A'.toNat ≤ c && c ≤ 'Z'.toNat) || ('a'.toNat ≤ c && c ≤ 'z'.toNat)

/-- Library predicate `isalnum`. -/
def isalnum (c : Nat) : Bool := isalpha c || isdigit c

/-- Library predicate `isxdigit`. -/
def isxdigit (c : Nat) : Bool :=
  isdigit c || ('A'.toNat ≤ c && c ≤ 'F'.toNat) || ('a'.toNat ≤ c && c ≤ 'f'.toNat)

/-- Library predicate `isspace`: space, `\t`, `\n`, `\v`, `\f`, `\r`. -/
def isspace (c : Nat) : Bool := c == ' '.toNat || (9 ≤ c && c ≤ 13)

/-! ### Token sequence (lexer.c:186-199) -/

/-- Function `token_array_init` (lexer.c:186-190). -/
def token_array_init : token_array :=
  { len := 0, capacity := 8, tokens := List.replicate 8 none }

/-- Function `token_array_append` (lexer.c:192-199). -/
def token_array_append (tokarr : token_array) (tok : token) : Res token_array := do
  let tokarr : token_array :=
    if tokarr.len == tokarr.capacity then
      { tokarr with
        tokens := tokarr.tokens.take (tokarr.capacity * 2) ++
          List.replicate (tokarr.capacity * 2 - tokarr.tokens.length) none,
        capacity := tokarr.capacity * 2 }
    else tokarr
  if tokarr.len < tokarr.tokens.length then
    let tokarr : token_array := { tokarr with tokens := tokarr.tokens.set tokarr.len (some tok) }
    pure { tokarr with len := tokarr.len + 1 }
  else Res.fault Fault.oob

/-- The tokens a `struct token_array` holds: cells `0 .. len-1` of its block. -/
def token_array.elems (tokarr : token_array) : List (Option token) :=
  tokarr.tokens.take tokarr.len

/-! ### Character classifiers (lexer.c:201-226) -/

/-- Function `is_identifier_nondigit` (lexer.c:201-203). -/
def is_identifier_nondigit (c : Nat) : Bool := isalpha c || c == '_'.toNat

/-- Function `is_identifier` (lexer.c:205-207). -/
def is_identifier (c : Nat) : Bool := isalnum c || c == '_'.toNat

/-- Function `is_nonzero_digit` (lexer.c:209-211). -/
def is_nonzero_digit (c : Nat) : Bool := isdigit c && c != '0'.toNat

/-- Function `is_octal_digit` (lexer.c:213-216). -/
def is_octal_digit (c : Nat) : Bool :=
  c == '0'.toNat || c == '1'.toNat || c == '2'.toNat || c == '3'.toNat || c == '4'.toNat
    || c == '5'.toNat || c == '6'.toNat || c == '7'.toNat

/-- Function `is_simple_escape_sequence_character` (lexer.c:218-222). -/
def is_simple_escape_sequence_character (c : Nat) : Bool :=
  c == '\''.toNat || c == '\"'.toNat || c == '?'.toNat || c == '\\'.toNat || c == 'a'.toNat
    || c == 'b'.toNat || c == 'f'.toNat || c == 'n'.toNat || c == 'r'.toNat || c == 't'.toNat
    || c == 'v'.toNat

/-- Function `is_floating_suffix` (lexer.c:224-226). -/
def is_floating_suffix (c : Nat) : Bool :=
  c == 'f'.toNat || c == 'l'.toNat || c == 'F'.toNat || c == 'L'.toNat

/-! ### Cursor macros and loops -/

/-- Macro `ADV(c)` (lexer.c:10): `(*c)++`. -/
def ADV (c : Nat) : Nat := c + 1

/-- Macro `APPADV(str, c)` (lexer.c:11): read the character under the cursor, advance, append. -/
def APPADV (line : List Nat) (str : string) (c : Nat) : Res (string × Nat) := do
  let x ← rd line c
  let c := c + 1
  let str ← string_append str x
  pure (str, c)

/-- Bound handed to every loop over the buffer: no loop runs more often than the buffer has
cells, plus the pass that leaves it. -/
def loop_bound (line : List Nat) : Nat := line.length + 2

/-- The loop `while (p(**c)) APPADV(str, c);`. -/
def while_APPADV (p : Nat → Bool) (line : List Nat) : Nat → string → Nat → Res (string × Nat)
  | 0, _, _ => Res.fault Fault.fuel
  | fuel + 1, str, c => do
    let x ← rd line c
    if p x then do
      let (str, c) ← APPADV line str c
      while_APPADV p line fuel str c
    else pure (str, c)

/-- The loop `while (p(**c)) APPADV(str, c), cnt++;`. -/
def while_APPADV_cnt (p : Nat → Bool) (line : List Nat) :
    Nat → string → Nat → Nat → Res (string × Nat × Nat)
  | 0, _, _, _ => Res.fault Fault.fuel
  | fuel + 1, str, c, cnt => do
    let x ← rd line c
    if p x then do
      let (str, c) ← APPADV line str c
      let cnt := cnt + 1
      while_APPADV_cnt p line fuel str c cnt
    else pure (str, c, cnt)

/-- The short-circuit `a && b`, where only `b` reads memory. -/
def and_then (a : Bool) (b : Res Bool) : Res Bool := if a then b else pure false

/-- Exit of a token reader: `return 0` with the cursor and token the body reached, or the
`error:` label (`*c = co; return -1;`) with the token as it stood at the jump. -/
def reader_exit (co : Nat) (tok : token) (body : Res (Nat × token)) : Res (Int × Nat × token) :=
  match body with
  | .ok (c, tok1) => .ok (0, c, tok1)
  | .error => .ok (-1, co, tok)
  | .fault f => .fault f

/-! ### `read_keyword_or_identifier` (lexer.c:228-263) -/

/-- The keyword lookup (lexer.c:245-249): `n` entries are left to try, starting at `i`. -/
def keyword_lookup (str : string) : Nat → Nat → token → Res token
  | 0, _, tok => pure tok
  | n + 1, i, tok => do
    let eq ← strcmp_eq str.arr (keyword_table.getD i []) 0
    if eq then pure { tok with type := i }
    else keyword_lookup str n (i + 1) tok

/-- Function `read_keyword_or_identifier` (lexer.c:228-263). -/
def read_keyword_or_identifier (line : List Nat) (c : Nat) (tok : token) :
    Res (Int × Nat × token) :=
  let co := c
  let str := string_init
  reader_exit co tok (do
    let x ← rd line c
    error_if (!is_identifier_nondigit x)
    let (str, c) ← while_APPADV is_identifier line (loop_bound line) str c
    let x ← rd line c
    error_if (x == '\''.toNat || x == '\"'.toNat)
    let tok ← keyword_lookup str NUM_KEYWORDS 0 tok
    let tok : token :=
      if tok.type == TOKEN_INDETERMINATE then { tok with type := TOKEN_IDENTIFER } else tok
    let s ← string_copy tok.str str
    pure (c, { tok with str := s }))

/-! ### `read_integer_constant` (lexer.c:265-329) -/

/-- Digits of an integer constant (lexer.c:275-296). -/
def read_integer_constant.digits (line : List Nat) (str : string) (c : Nat) :
    Res (string × Nat) := do
  let x ← rd line c
  if is_nonzero_digit x then
    while_APPADV isdigit line (loop_bound line) str c
  else if x == '0'.toNat then do
    let (str, c) ← APPADV line str c
    let x ← rd line c
    if x == 'x'.toNat || x == 'X'.toNat then do
      let (str, c) ← APPADV line str c
      let (str, c) ← while_APPADV isxdigit line (loop_bound line) str c
      let p ← rd line (c - 1)
      error_if (p == 'x'.toNat || p == 'X'.toNat)
      pure (str, c)
    else
      while_APPADV is_octal_digit line (loop_bound line) str c
  else pure (str, c)

/-- The integer-suffix (lexer.c:298-309). -/
def read_integer_constant.suffix (line : List Nat) (str : string) (c : Nat) :
    Res (string × Nat) := do
  let x ← rd line c
  if x == 'u'.toNat || x == 'U'.toNat then do
    let (str, c) ← APPADV line str c
    let x ← rd line c
    if x == 'l'.toNat || x == 'L'.toNat then do
      let (str, c) ← APPADV line str c
      let x ← rd line c
      let p ← rd line (c - 1)
      if x == p then APPADV line str c else pure (str, c)
    else pure (str, c)
  else if x == 'l'.toNat || x == 'L'.toNat then do
    let (str, c) ← APPADV line str c
    let x ← rd line c
    let p ← rd line (c - 1)
    let (str, c) ← (if x == p then APPADV line str c else pure (str, c))
    let x ← rd line c
    if x == 'u'.toNat || x == 'U'.toNat then APPADV line str c else pure (str, c)
  else pure (str, c)

/-- Function `read_integer_constant` (lexer.c:265-329). -/
def read_integer_constant (line : List Nat) (c : Nat) (tok : token) :
    Res (Int × Nat × token) :=
  let co := c
  let str := string_init
  let tok : token := { tok with type := TOKEN_INT_CONST }
  reader_exit co tok (do
    let x ← rd line c
    error_if (!isdigit x)
    let (str, c) ← read_integer_constant.digits line str c
    let (str, c) ← read_integer_constant.suffix line str c
    let x ← rd line c
    error_if (is_identifier x)
    error_if (x == '.'.toNat)
    let s ← string_copy tok.str str
    pure (c, { tok with str := s }))

/-! ### `read_floating_constant` (lexer.c:331-413) -/

/-- An optional sign, then at least one digit (lexer.c:360-362 and 386-388). -/
def read_floating_constant.exponent_digits (line : List Nat) (str : string) (c : Nat) :
    Res (string × Nat) := do
  let x ← rd line c
  let (str, c) ←
    (if x == '+'.toNat || x == '-'.toNat then APPADV line str c else pure (str, c))
  let x ← rd line c
  error_if (!isdigit x)
  while_APPADV isdigit line (loop_bound line) str c

/-- The hexadecimal branch (lexer.c:342-362). -/
def read_floating_constant.hexadecimal (line : List Nat) (str : string) (c : Nat) :
    Res (string × Nat) := do
  let (str, c) ← APPADV line str c
  let (str, c) ← APPADV line str c
  let cnt := 0
  let (str, c, cnt) ← while_APPADV_cnt isxdigit line (loop_bound line) str c cnt
  let x ← rd line c
  let (str, c) ←
    (if x == '.'.toNat then do
      let (str, c) ← APPADV line str c
      let cnt := cnt + 1
      let (str, c, cnt) ← while_APPADV_cnt isxdigit line (loop_bound line) str c cnt
      error_if (cnt == 1)
      pure (str, c)
    else do
      error_if (cnt == 0)
      pure (str, c))
  let x ← rd line c
  error_if (x != 'p'.toNat && x != 'P'.toNat)
  let (str, c) ← APPADV line str c
  read_floating_constant.exponent_digits line str c

/-- The decimal branch (lexer.c:370-389). -/
def read_floating_constant.decimal (line : List Nat) (str : string) (c : Nat) :
    Res (string × Nat) := do
  let cnt := 0
  let digit_seq_only := false
  let (str, c, cnt) ← while_APPADV_cnt isdigit line (loop_bound line) str c cnt
  let x ← rd line c
  let (str, c, digit_seq_only) ←
    (if x == '.'.toNat then do
      let (str, c) ← APPADV line str c
      let cnt := cnt + 1
      let (str, c, cnt) ← while_APPADV_cnt isdigit line (loop_bound line) str c cnt
      error_if (cnt == 1)
      pure (str, c, digit_seq_only)
    else do
      error_if (cnt == 0)
      pure (str, c, true))
  let x ← rd line c
  error_if (digit_seq_only && x != 'e'.toNat && x != 'E'.toNat)
  if x == 'e'.toNat || x == 'E'.toNat then do
    let (str, c) ← APPADV line str c
    read_floating_constant.exponent_digits line str c
  else pure (str, c)

/-- Function `read_floating_constant` (lexer.c:331-413). -/
def read_floating_constant (line : List Nat) (c : Nat) (tok : token) :
    Res (Int × Nat × token) :=
  let co := c
  let str := string_init
  let tok : token := { tok with type := TOKEN_FLOAT_CONST }
  reader_exit co tok (do
    let x ← rd line c
    let hex ← and_then (x == '0'.toNat) (do
      let y ← rd line (c + 1)
      pure (y == 'x'.toNat || y == 'X'.toNat))
    let (str, c) ←
      (if hex then read_floating_constant.hexadecimal line str c
       else read_floating_constant.decimal line str c)
    let x ← rd line c
    let (str, c) ← (if is_floating_suffix x then APPADV line str c else pure (str, c))
    let x ← rd line c
    error_if (is_identifier x)
    error_if (x == '.'.toNat)
    let s ← string_copy tok.str str
    pure (c, { tok with str := s }))

/-! ### Char-sequence sub-readers (lexer.c:677-770) -/

/-- Function `read_universal_character_name` (lexer.c:677-680). -/
def read_universal_character_name (_line : List Nat) (c : Nat) (str : string) :
    Res (Int × Nat × string) :=
  pure (-1, c, str)

/-- Body of the `while` loop of `read_c_char_sequence` (lexer.c:686-716) and, word for word,
of `read_s_char_sequence` (lexer.c:731-761).  The flag is `false` where the body leaves by
`goto error`. -/
def char_sequence_body (line : List Nat) (str : string) (c : Nat) :
    Res (Bool × string × Nat) := do
  let x ← rd line c
  if x == '\n'.toNat then pure (false, str, c)
  else if x == '\\'.toNat then do
    let (str, c) ← APPADV line str c
    let y ← rd line c
    if is_simple_escape_sequence_character y then do
      let (str, c) ← APPADV line str c
      pure (true, str, c)
    else if is_octal_digit y then do
      let (str, c) ← APPADV line str c
      let y ← rd line c
      if is_octal_digit y then do
        let (str, c) ← APPADV line str c
        let y ← rd line c
        if is_octal_digit y then do
          let (str, c) ← APPADV line str c
          pure (true, str, c)
        else pure (true, str, c)
      else pure (true, str, c)
    else if y == 'x'.toNat then do
      let (str, c) ← APPADV line str c
      let (str, c) ← while_APPADV isxdigit line (loop_bound line) str c
      pure (true, str, c)
    else do
      let (r, c, str) ← read_universal_character_name line c str
      if r == 0 then pure (true, str, c) else pure (false, str, c)
  else do
    let (str, c) ← APPADV line str c
    pure (true, str, c)

/-- The loop `while (**c != q) { ... }` of the two char-sequence readers, `q` the closing
quote.  The flag is `false` where the loop was left by `goto error`. -/
def char_sequence_loop (q : Nat) (line : List Nat) : Nat → string → Nat → Res (Bool × string × Nat)
  | 0, _, _ => Res.fault Fault.fuel
  | fuel + 1, str, c => do
    let x ← rd line c
    if x != q then do
      let (go_on, str, c) ← char_sequence_body line str c
      if go_on then char_sequence_loop q line fuel str c
      else pure (false, str, c)
    else pure (true, str, c)

/-- Exit of the two char-sequence readers: `return 0`, or the `error:` label
(`str->len = leno; str->arr[leno] = '\0'; return -1;`). -/
def char_sequence_exit (leno : Nat) (r : Bool × string × Nat) : Res (Int × Nat × string) :=
  match r with
  | (true, str, c) => pure (0, c, str)
  | (false, str, c) => do
    let str : string := { str with len := leno }
    let arr ← store str.arr leno 0
    pure (-1, c, { str with arr := arr })

/-- Function `read_c_char_sequence` (lexer.c:682-725). -/
def read_c_char_sequence (line : List Nat) (c : Nat) (str : string) :
    Res (Int × Nat × string) := do
  let leno := str.len
  let r ← char_sequence_loop '\''.toNat line (loop_bound line) str c
  char_sequence_exit leno r

/-- Function `read_s_char_sequence` (lexer.c:727-770). -/
def read_s_char_sequence (line : List Nat) (c : Nat) (str : string) :
    Res (Int × Nat × string) := do
  let leno := str.len
  let r ← char_sequence_loop '\"'.toNat line (loop_bound line) str c
  char_sequence_exit leno r

/-! ### `read_character_constant` and `read_string_literal` (lexer.c:415-486) -/

/-- The opening of a character constant (lexer.c:422-428): `'`, or `L'`, `u'`, `U'`. -/
def read_character_constant.opening (line : List Nat) (str : string) (c : Nat) :
    Res (string × Nat) := do
  let x ← rd line c
  if x == '\''.toNat then APPADV line str c
  else do
    let enc ← and_then (x == 'L'.toNat || x == 'u'.toNat || x == 'U'.toNat) (do
      let y ← rd line (c + 1)
      pure (y == '\''.toNat))
    if enc then do
      let (str, c) ← APPADV line str c
      APPADV line str c
    else goto_error

/-- Function `read_character_constant` (lexer.c:415-447). -/
def read_character_constant (line : List Nat) (c : Nat) (tok : token) :
    Res (Int × Nat × token) :=
  let co := c
  let str := string_init
  let tok : token := { tok with type := TOKEN_CHAR_CONST }
  reader_exit co tok (do
    let (str, c) ← read_character_constant.opening line str c
    let (r, c, str) ← read_c_char_sequence line c str
    error_if (r != 0)
    let x ← rd line c
    error_if (x != '\''.toNat)
    let (str, c) ← APPADV line str c
    let s ← string_copy tok.str str
    pure (c, { tok with str := s }))

/-- The condition `**c == 'u' && *(*c+1) == '8' && *(*c+2) == '\"'` (lexer.c:462). -/
def read_string_literal.u8 (line : List Nat) (c : Nat) : Res Bool := do
  let x ← rd line c
  and_then (x == 'u'.toNat) (do
    let y ← rd line (c + 1)
    and_then (y == '8'.toNat) (do
      let z ← rd line (c + 2)
      pure (z == '\"'.toNat)))

/-- The opening of a string literal (lexer.c:456-467): `"`, or `u"`, `U"`, `L"`, or `u8"`. -/
def read_string_literal.opening (line : List Nat) (str : string) (c : Nat) :
    Res (string × Nat) := do
  let x ← rd line c
  if x == '\"'.toNat then APPADV line str c
  else do
    let enc ← and_then (x == 'u'.toNat || x == 'U'.toNat || x == 'L'.toNat) (do
      let y ← rd line (c + 1)
      pure (y == '\"'.toNat))
    if enc then do
      let (str, c) ← APPADV line str c
      APPADV line str c
    else do
      let enc8 ← read_string_literal.u8 line c
      if enc8 then do
        let (str, c) ← APPADV line str c
        let (str, c) ← APPADV line str c
        APPADV line str c
      else goto_error

/-- Function `read_string_literal` (lexer.c:449-486). -/
def read_string_literal (line : List Nat) (c : Nat) (tok : token) :
    Res (Int × Nat × token) :=
  let co := c
  let str := string_init
  let tok : token := { tok with type := TOKEN_STRING_LITERAL }
  reader_exit co tok (do
    let (str, c) ← read_string_literal.opening line str c
    let (r, c, str) ← read_s_char_sequence line c str
    error_if (r != 0)
    let x ← rd line c
    error_if (x != '\"'.toNat)
    let (str, c) ← APPADV line str c
    let s ← string_copy tok.str str
    pure (c, { tok with str := s }))

/-! ### `read_punctuator` (lexer.c:488-675) -/

/-- The decision tree of `read_punctuator` (lexer.c:491-668): the cursor behind the
punctuator and its kind, or `goto error`.  `x` is the character at the entry cursor, `y`
the one behind it. -/
def read_punctuator.tree (line : List Nat) (c : Nat) : Res (Nat × Nat) := do
  let x ← rd line c
  if x == '['.toNat then pure (ADV c, TOKEN_BRACKET_OPEN)
  else if x == ']'.toNat then pure (ADV c, TOKEN_BRACKET_CLOSE)
  else if x == '('.toNat then pure (ADV c, TOKEN_PAREN_OPEN)
  else if x == ')'.toNat then pure (ADV c, TOKEN_PAREN_CLOSE)
  else if x == '{'.toNat then pure (ADV c, TOKEN_BRACE_OPEN)
  else if x == '}'.toNat then pure (ADV c, TOKEN_BRACE_CLOSE)
  else if x == '.'.toNat then do
    let c := ADV c
    let y ← rd line c
    let dots ← and_then (y == '.'.toNat) (do
      let z ← rd line (c + 1)
      pure (z == '.'.toNat))
    if dots then pure (ADV (ADV c), TOKEN_THREE_PERIOD)
    else pure (c, TOKEN_PERIOD)
  else if x == '-'.toNat then do
    let c := ADV c
    let y ← rd line c
    if y == '>'.toNat then pure (ADV c, TOKEN_ARROW)
    else if y == '-'.toNat then pure (ADV c, TOKEN_TWO_MINUS)
    else if y == '='.toNat then pure (ADV c, TOKEN_SUB_ASSIGN)
    else pure (c, TOKEN_MINUS)
  else if x == '+'.toNat then do
    let c := ADV c
    let y ← rd line c
    if y == '+'.toNat then pure (ADV c, TOKEN_TWO_PLUS)
    else if y == '='.toNat then pure (ADV c, TOKEN_ADD_ASSIGN)
    else pure (c, TOKEN_PLUS)
  else if x == '&'.toNat then do
    let c := ADV c
    let y ← rd line c
    if y == '&'.toNat then pure (ADV c, TOKEN_TWO_AMPERSAND)
    else if y == '='.toNat then pure (ADV c, TOKEN_AND_ASSIGN)
    else pure (c, TOKEN_AMPERSAND)
  else if x == '*'.toNat then do
    let c := ADV c
    let y ← rd line c
    if y == '='.toNat then pure (ADV c, TOKEN_MUL_ASSIGN)
    else pure (c, TOKEN_ASTERISK)
  else if x == '~'.toNat then pure (ADV c, TOKEN_TILDE)
  else if x == '!'.toNat then do
    let c := ADV c
    let y ← rd line c
    if y == '='.toNat then pure (ADV c, TOKEN_NOT_EQUAL)
    else pure (c, TOKEN_EXCLAMATION)
  else if x == '/'.toNat then do
    let c := ADV c
    let y ← rd line c
    if y == '='.toNat then pure (ADV c, TOKEN_DIV_ASSIGN)
    else pure (c, TOKEN_SLASH)
  else if x == '%'.toNat then do
    let c := ADV c
    let y ← rd line c
    if y == '='.toNat then pure (ADV c, TOKEN_MOD_ASSIGN)
    else if y == '>'.toNat then pure (ADV c, TOKEN_BRACE_CLOSE)
    else do
      let sharp ← and_then (y == ':'.toNat) (do
        let z ← rd line (c + 1)
        pure (z != '%'.toNat))
      if sharp then pure (ADV c, TOKEN_SHARP)
      else do
        let two ← and_then (y == ':'.toNat) (do
          let z ← rd line (c + 1)
          and_then (z == '%'.toNat) (do
            let w ← rd line (c + 2)
            pure (w == ':'.toNat)))
        if two then pure (ADV (ADV (ADV c)), TOKEN_TWO_SHARP)
        else pure (c, TOKEN_PERCENT)
  else if x == '<'.toNat then do
    let c := ADV c
    let y ← rd line c
    let shift ← and_then (y == '<'.toNat) (do
      let z ← rd line (c + 1)
      pure (z != '='.toNat))
    if shift then pure (ADV c, TOKEN_LSHIFT)
    else if y == '='.toNat then pure (ADV c, TOKEN_LEQ)
    else do
      let assign ← and_then (y == '<'.toNat) (do
        let z ← rd line (c + 1)
        pure (z == '='.toNat))
      if assign then pure (ADV (ADV c), TOKEN_LSHIFT_ASSIGN)
      else if y == ':'.toNat then pure (ADV c, TOKEN_BRACKET_OPEN)
      else if y == '%'.toNat then pure (ADV c, TOKEN_BRACE_OPEN)
      else pure (c, TOKEN_LESS_THAN)
  else if x == '>'.toNat then do
    let c := ADV c
    let y ← rd line c
    let shift ← and_then (y == '>'.toNat) (do
      let z ← rd line (c + 1)
      pure (z != '='.toNat))
    if shift then pure (ADV c, TOKEN_RSHIFT)
    else if y == '='.toNat then pure (ADV c, TOKEN_GEQ)
    else do
      let assign ← and_then (y == '>'.toNat) (do
        let z ← rd line (c + 1)
        pure (z == '='.toNat))
      if assign then pure (ADV (ADV c), TOKEN_RSHIFT_ASSIGN)
      else pure (c, TOKEN_GREATER_THAN)
  else if x == '='.toNat then do
    let c := ADV c
    let y ← rd line c
    if y == '='.toNat then pure (ADV c, TOKEN_EQUAL)
    else pure (c, TOKEN_ASSIGN)
  else if x == '^'.toNat then do
    let c := ADV c
    let y ← rd line c
    if y == '='.toNat then pure (ADV c, TOKEN_XOR_ASSIGN)
    else pure (c, TOKEN_CARROT)
  else if x == '|'.toNat then do
    let c := ADV c
    let y ← rd line c
    if y == '|'.toNat then pure (ADV c, TOKEN_TWO_VERT_BAR)
    else if y == '='.toNat then pure (ADV c, TOKEN_OR_ASSIGN)
    else pure (c, TOKEN_VERT_BAR)
  else if x == '?'.toNat then pure (ADV c, TOKEN_QUESTION)
  else if x == ':'.toNat then do
    let c := ADV c
    let y ← rd line c
    if y == '>'.toNat then pure (ADV c, TOKEN_BRACKET_CLOSE)
    else pure (c, TOKEN_COLON)
  else if x == ';'.toNat then pure (ADV c, TOKEN_SEMICOLON)
  else if x == ','.toNat then pure (ADV c, TOKEN_COMMA)
  else if x == '#'.toNat then do
    let c := ADV c
    let y ← rd line c
    if y == '#'.toNat then pure (ADV c, TOKEN_TWO_SHARP)
    else pure (c, TOKEN_SHARP)
  else goto_error

/-- Function `read_punctuator` (lexer.c:488-675).  Only `tok->type` is written: the token's
`str` is left as the caller passed it. -/
def read_punctuator (line : List Nat) (c : Nat) (tok : token) : Res (Int × Nat × token) :=
  let co := c
  reader_exit co tok (do
    let (c, type) ← read_punctuator.tree line c
    pure (c, { tok with type := type }))

/-! ### `lexer` (lexer.c:136-184) -/

/-- The loop `while (isspace(*c)) c++;` (lexer.c:157). -/
def skip_space (line : List Nat) : Nat → Nat → Res Nat
  | 0, _ => Res.fault Fault.fuel
  | fuel + 1, c => do
    let x ← rd line c
    if isspace x then skip_space line fuel (c + 1) else pure c

/-- The condition of lexer.c:163-168: the six readers in order, each tried only when all
before it returned non-zero.  The flag is the value of the condition: `true` when every
reader failed. -/
def try_readers (line : List Nat) (c : Nat) (tok : token) : Res (Bool × Nat × token) := do
  let (r, c, tok) ← read_keyword_or_identifier line c tok
  if r == 0 then pure (false, c, tok) else
  let (r, c, tok) ← read_integer_constant line c tok
  if r == 0 then pure (false, c, tok) else
  let (r, c, tok) ← read_floating_constant line c tok
  if r == 0 then pure (false, c, tok) else
  let (r, c, tok) ← read_character_constant line c tok
  if r == 0 then pure (false, c, tok) else
  let (r, c, tok) ← read_string_literal line c tok
  if r == 0 then pure (false, c, tok) else
  let (r, c, tok) ← read_punctuator line c tok
  if r == 0 then pure (false, c, tok) else
  pure (true, c, tok)

/-- The inner loop `while (1) { ... }` over one line (lexer.c:156-174).  The flag is `true`
when the loop was left through `printf("error\n"); return tokarr;`. -/
def scan_line (line : List Nat) : Nat → Nat → token_array → Res (Bool × token_array)
  | 0, _, _ => Res.fault Fault.fuel
  | fuel + 1, c, tokarr => do
    let c ← skip_space line (loop_bound line) c
    let x ← rd line c
    if x == 0 then pure (false, tokarr)
    else do
      let tok : token := { type := TOKEN_INDETERMINATE, str := string_init }
      let (failed, c, tok) ← try_readers line c tok
      if failed then pure (true, tokarr)
      else do
        let tokarr ← token_array_append tokarr tok
        scan_line line fuel c tokarr

/-- Library call `getline(&line, &line_len, file)` (lexer.c:153) that reads the line `l`
(the characters in front of its terminating null) into the buffer `line`: the characters of
`l` and the terminating null are written over the front of the buffer, and the cells behind
them stay as they were (where the block is too small it is enlarged by `realloc`, which
keeps its contents).  The result is the buffer after the call: where `l` is shorter than
what the buffer held, its terminating null is followed by the old cells from index
`l.length + 1` on; otherwise nothing of the old contents is left.  `[]` is the buffer no
line was read into (`line = NULL`, lexer.c:138). -/
def getline (line l : List Nat) : List Nat :=
  if l.length < line.length then l ++ 0 :: line.drop (l.length + 1) else l

/-- The outer loop `while (getline(...) != EOF) { ... }` (lexer.c:153-175) over the lines
`getline` delivers, entered with the buffer `line`. -/
def scan_lines : List (List Nat) → List Nat → token_array → Res (Bool × token_array)
  | [], _, tokarr => pure (false, tokarr)
  | l :: rest, line, tokarr => do
    let line := getline line l
    let (failed, tokarr) ← scan_line line (loop_bound line) 0 tokarr
    if failed then pure (true, tokarr)
    else scan_lines rest line tokarr

/-- Function `lexer` (lexer.c:136-184) on the lines of `file`: the returned `struct
token_array`, and whether `"error"` was printed. -/
def lexer (file : List (List Nat)) : Res (Bool × token_array) :=
  scan_lines file [] token_array_init

/-- The `struct string` that `string_copy` leaves for the characters `w`. -/
def string_lit (w : List Nat) : string :=
  { len := w.length, capacity := w.length + 1, arr := some ((w ++ [0]).map some) }

/-- Kinds and lexemes of a run of `lexer`. -/
def lexer_tokens (file : List (List Nat)) : Res (Bool × List (Option token)) := do
  let (failed, tokarr) ← lexer file
  pure (failed, tokarr.elems)

/-! ## Specification vocabulary -/

/-- The six token readers, in the order the dispatcher tries them (lexer.c:163-168). -/
def token_readers : List (List Nat → Nat → token → Res (Int × Nat × token)) :=
  [read_keyword_or_identifier, read_integer_constant, read_floating_constant,
   read_character_constant, read_string_literal, read_punctuator]

/-- The token as the dispatcher resets it before every attempt (lexer.c:160-161). -/
def fresh_token : token := { type := TOKEN_INDETERMINATE, str := string_init }

/-- The digraphs with the primary spelling each stands for (comments of lexer.h:67-114). -/
def digraph_table : List (List Nat × List Nat) :=
  [(cs "<:", cs "["), (cs ":>", cs "]"), (cs "<%", cs "\x7b"), (cs "%>", cs "\x7d"),
   (cs "%:", cs "#"), (cs "%:%:", cs "##")]

/-- Every punctuator spelling: the primary ones and the digraphs. -/
def punctuator_spellings : List (List Nat) :=
  punctuator_table ++ digraph_table.map Prod.fst

/-- The token array holding exactly one token of kind `kind` with the string `str`, as
`lexer_tokens` shows it after a run without `"error"`. -/
def one_token (kind : Nat) (str : string) : Res (Bool × List (Option token)) :=
  Res.ok (false, [some { type := kind, str := str }])

/-- The text of the buffer `line ++ [0]` from cursor `a` up to, not including, cursor `b`. -/
def slice (line : List Nat) (a b : Nat) : List Nat := ((line ++ [0]).drop a).take (b - a)

/-- The buffer `str` holds the characters `w`: `len` is their number, and either nothing was
ever appended (`w` empty, no block), or the block starts with `w` and its terminating null
and has `capacity` cells. -/
def string.Holds (str : string) (w : List Nat) : Prop :=
  str.len = w.length ∧
  ((w = [] ∧ str.capacity = 0 ∧ str.arr = none) ∨
   ∃ rest : Block, str.arr = some ((w ++ [0]).map some ++ rest)
      ∧ str.capacity = w.length + 1 + rest.length)

/-- Accumulator invariant of a reader entered at cursor `co`: the cursor `c` is not in front of
`co` and has not left the buffer, and `str` holds the text between the two. -/
def Acc (line : List Nat) (co : Nat) (str : string) (c : Nat) : Prop :=
  co ≤ c ∧ c ≤ line.length + 1 ∧ str.Holds (slice line co c)

/-- What a reader did that was entered at cursor `c` with token `tok` and returned 0 with
cursor `c1` and token `tok1`: it moved the cursor forward by at least one character without
leaving the buffer, and copied the text between the two cursors into the unused string of
the token. -/
def Consumed (line : List Nat) (c : Nat) (tok : token) (c1 : Nat) (tok1 : token) : Prop :=
  c < c1 ∧ c1 ≤ line.length ∧
    ∃ str : string, str.Holds (slice line c c1) ∧ string_copy tok.str str = Res.ok tok1.str

/-- Shape of a `struct token_array`: the block has `capacity` cells, at least one, and `len`
of them are in use. -/
def token_array.WF (tokarr : token_array) : Prop :=
  tokarr.tokens.length = tokarr.capacity ∧ tokarr.len ≤ tokarr.capacity ∧ 0 < tokarr.capacity

/-- Every cell in use of `tokarr` holds a token, and that token satisfies `P`. -/
def token_array.All (P : token → Prop) (tokarr : token_array) : Prop :=
  ∀ cell ∈ tokarr.elems, ∃ tok, cell = some tok ∧ P tok

/-- The text `pre` is a run of whole char-sequence units, none of them the closing quote
`q`: single characters other than `q` and the backslash, and pairs of a backslash and any
one character. -/
def char_units (q : Nat) : List Nat → Bool
  | [] => true
  | [x] => x != '\\'.toNat && x != q
  | x :: y :: ys =>
    if x == '\\'.toNat then char_units q ys else x != q && char_units q (y :: ys)

/-- The character `d` does not continue an escape sequence that the char-sequence readers
accept: it is no simple-escape character, no octal digit and not `x`. -/
def bad_escape (d : Nat) : Bool :=
  !is_simple_escape_sequence_character d && !is_octal_digit d && d != 'x'.toNat

/-- The text `tail` stops a char sequence: it starts with a newline, or with a backslash
that no accepted escape follows. -/
def stops_sequence (tail : List Nat) : Prop :=
  (∃ r, tail = '\n'.toNat :: r)
    ∨ (∃ r, tail = '\\'.toNat :: r ∧ bad_escape (r.headD 0) = true)

/-- A newline is the next character of `tail` to be read by a char-sequence reader: `tail`
starts with it, or with a backslash and it. -/
def newline_next (tail : List Nat) : Bool :=
  match tail with
  | [] => false
  | x :: r => x == '\n'.toNat || (x == '\\'.toNat && r.headD 0 == '\n'.toNat)

/-- The openings of a character constant: the quote, bare or behind `L`, `u`, `U`. -/
def character_openings : List (List Nat) := [cs "'", cs "L'", cs "u'", cs "U'"]

/-- The openings of a string literal: the quote, bare or behind `u8`, `u`, `U`, `L`. -/
def string_openings : List (List Nat) := [cs "\"", cs "u8\"", cs "u\"", cs "U\"", cs "L\""]

/-- The buffer states reachable from `string_init` by calls of `string_append` and
`string_clear` that return. -/
inductive string.Reachable : string → Prop where
  | init : string.Reachable string_init
  | append (str str1 : string) (c : Nat) :
      string.Reachable str → string_append str c = Res.ok str1 → string.Reachable str1
  | clear (str str1 : string) :
      string.Reachable str → string_clear str = Res.ok str1 → string.Reachable str1

/-- The buffer `str` holds the characters `w` followed by a null terminator: its block starts
with them, `len` is the number of characters, and `capacity` the number of cells of the
block (so that `capacity ≥ len + 1`). -/
def string.Terminated (str : string) (w : List Nat) : Prop :=
  w.length = str.len ∧ str.len + 1 ≤ str.capacity ∧
    ∃ rest : Block, str.arr = some ((w ++ [0]).map some ++ rest)
      ∧ str.capacity = str.len + 1 + rest.length

/-- The buffer `str` was never appended to: it is as `string_init` leaves it, without a
block. -/
def string.Unallocated (str : string) : Prop :=
  str.len = 0 ∧ str.capacity = 0 ∧ str.arr = none

/-- The text `body` holds neither the closing quote `q` nor a newline nor a backslash. -/
def unescaped_text (q : Nat) (body : List Nat) : Bool :=
  body.all (fun x => x != q && x != '\n'.toNat && x != '\\'.toNat)

/-- The dispatcher recognises the tokens `toks`, in this order, on `line` between the cursors
`c` and `c1`: each time it skips white space from the cursor it has reached, finds a
character other than the terminating null, and one of the six readers returns 0 there for
the reset token, leaving the next token of `toks` and the next cursor. -/
inductive Scanned (line : List Nat) : Nat → List token → Nat → Prop where
  | done (c : Nat) : Scanned line c [] c
  | step (c s x c2 c3 : Nat) (tok : token) (toks : List token) :
      skip_space line (loop_bound line) c = Res.ok s → rd line s = Res.ok x → x ≠ 0 →
      try_readers line s fresh_token = Res.ok (false, c2, tok) →
      Scanned line c2 toks c3 → Scanned line c (tok :: toks) c3

/-- The tokens the inner loop recognises on `line` from cursor `c` on, in order, and whether
it left through the error exit: the loop of lexer.c:156-174 with the tokens collected in a
list instead of the caller's token sequence. -/
def line_tokens (line : List Nat) : Nat → Nat → Res (Bool × List token)
  | 0, _ => Res.fault Fault.fuel
  | fuel + 1, c => do
    let c ← skip_space line (loop_bound line) c
    let x ← rd line c
    if x == 0 then pure (false, [])
    else do
      let (failed, c, tok) ← try_readers line c fresh_token
      if failed then pure (true, [])
      else do
        let (failed, toks) ← line_tokens line fuel c
        pure (failed, tok :: toks)

/-- Lexing line by line: every line is lexed alone, by a run of `lexer` of its own, and the
token sequences are concatenated in order, up to and including the first line whose run
leaves through the error exit. -/
def lexer_by_line : List (List Nat) → Res (Bool × List (Option token))
  | [] => pure (false, [])
  | line :: rest => do
    let (failed, toks) ← lexer_tokens [line]
    if failed then pure (true, toks)
    else do
      let (failed, toks1) ← lexer_by_line rest
      pure (failed, toks ++ toks1)

/-- The tokens the outer loop recognises on the lines of `file`, in order, and whether it
left through the error exit: the loop of lexer.c:153-175, entered with the buffer `line`,
with the tokens collected in a list. -/
def file_tokens : List (List Nat) → List Nat → Res (Bool × List token)
  | [], _ => pure (false, [])
  | l :: rest, line => do
    let line := getline line l
    let (failed, toks) ← line_tokens line (loop_bound line) 0
    if failed then pure (true, toks)
    else do
      let (failed, toks1) ← file_tokens rest line
      pure (failed, toks ++ toks1)

/-- The contents of the buffer `line` during the scan of each line of `file`, in order,
when the outer loop is entered with the buffer `line`. -/
def buffers : List Nat → List (List Nat) → List (List Nat)
  | _, [] => []
  | line, l :: rest => getline line l :: buffers (getline line l) rest

/-- The outcome `r1` is a fault, or the two outcomes are the same. -/
def Res.below {α : Type} (r1 r2 : Res α) : Prop := (∃ f, r1 = Res.fault f) ∨ r1 = r2

/-- Every cell that can be read in the buffer `A` holds the same in the buffer `B`: `B` is
`A` with its terminating null, and further cells behind it. -/
def Ext (A B : List Nat) : Prop := ∀ i x, rd A i = Res.ok x → rd B i = Res.ok x

/-- The cells in use of a token sequence that holds exactly the tokens `toks`. -/
def cells (r : Res (Bool × List token)) : Res (Bool × List (Option token)) := do
  let (failed, toks) ← r
  pure (failed, toks.map some)

/-- The integer suffixes: none, `u` or `U` alone or followed by `l`, `L`, `ll` or `LL`, and
`l`, `L`, `ll` or `LL` alone or followed by `u` or `U`. -/
def integer_suffixes : List (List Nat) :=
  ["", "u", "U", "ul", "uL", "ull", "uLL", "Ul", "UL", "Ull", "ULL",
   "l", "L", "ll", "LL", "lu", "lU", "Lu", "LU", "llu", "llU", "LLu", "LLU"].map cs

/-- The digits of an integer constant: a nonzero digit followed by decimal digits, or `0`
followed by octal digits, or `0x` or `0X` followed by at least one hexadecimal digit. -/
def integer_digits (w : List Nat) : Bool :=
  match w with
  | [] => false
  | d :: ds =>
    (is_nonzero_digit d && ds.all isdigit)
    || (d == '0'.toNat && ds.all is_octal_digit)
    || (d == '0'.toNat &&
        match ds with
        | [] => false
        | x :: hs => (x == 'x'.toNat || x == 'X'.toNat) && !hs.isEmpty && hs.all isxdigit)

/-- The text `w` is an integer constant: digits, then a suffix or none. -/
def integer_constant (w : List Nat) : Prop :=
  ∃ digits suffix : List Nat,
    w = digits ++ suffix ∧ integer_digits digits = true ∧ suffix ∈ integer_suffixes

/-- An exponent part with mark `m1` or `m2`: the mark, an optional sign, and at least one
decimal digit. -/
def exponent_part (m1 m2 : Nat) (w : List Nat) : Prop :=
  ∃ (m : Nat) (sign digits : List Nat),
    w = m :: (sign ++ digits) ∧ (m = m1 ∨ m = m2)
      ∧ (sign = [] ∨ sign = ['+'.toNat] ∨ sign = ['-'.toNat])
      ∧ digits ≠ [] ∧ ∀ x ∈ digits, isdigit x = true

/-- A digit sequence with a period: digits that satisfy `p` on both sides of the period, at
least one of them in all. -/
def fractional_part (p : Nat → Bool) (w : List Nat) : Prop :=
  ∃ whole frac : List Nat,
    w = whole ++ '.'.toNat :: frac ∧ (whole ≠ [] ∨ frac ≠ [])
      ∧ (∀ x ∈ whole, p x = true) ∧ ∀ x ∈ frac, p x = true

/-- A digit sequence without period: at least one digit that satisfies `p`. -/
def digit_sequence (p : Nat → Bool) (w : List Nat) : Prop :=
  w ≠ [] ∧ ∀ x ∈ w, p x = true

/-- The floating suffixes: none, or one of `f`, `l`, `F`, `L`. -/
def floating_suffixes : List (List Nat) := ["", "f", "l", "F", "L"].map cs

/-- The text `w` is a floating constant.  Decimal form: a digit sequence with a period and
an optional exponent, or one without period and an exponent (`e` or `E`).  Hexadecimal
form: `0x` or `0X`, a hexadecimal digit sequence with or without period, and a binary
exponent (`p` or `P`).  Then a floating suffix or none. -/
def floating_constant (w : List Nat) : Prop :=
  ∃ body suffix : List Nat, w = body ++ suffix ∧ suffix ∈ floating_suffixes ∧
    ((∃ ds ex : List Nat, body = ds ++ ex ∧ fractional_part isdigit ds
        ∧ (ex = [] ∨ exponent_part 'e'.toNat 'E'.toNat ex))
    ∨ (∃ ds ex : List Nat, body = ds ++ ex ∧ digit_sequence isdigit ds
        ∧ exponent_part 'e'.toNat 'E'.toNat ex)
    ∨ (∃ (x : Nat) (hs ex : List Nat), body = '0'.toNat :: x :: (hs ++ ex)
        ∧ (x = 'x'.toNat ∨ x = 'X'.toNat)
        ∧ (fractional_part isxdigit hs ∨ digit_sequence isxdigit hs)
        ∧ exponent_part 'p'.toNat 'P'.toNat ex))

/-- A character that ends every token: the terminating null or white space. -/
def inert (x : Nat) : Bool := x == 0 || isspace x

/-- The line `B` shows from cursor `d` the `n` characters that the line `A` shows from cursor
`c`, and behind them a character that ends every token. -/
def Window (A : List Nat) (c : Nat) (B : List Nat) (d n : Nat) : Prop :=
  (∀ i, i < n → rd B (d + i) = rd A (c + i)) ∧ ∃ y, rd B (d + n) = Res.ok y ∧ inert y = true

/-- The characters of a token's lexeme: the `len` characters its string holds, none for the
string that was never appended to. -/
def lexeme (tok : token) : List Nat :=
  match tok.str.arr with
  | none => []
  | some b => (b.take tok.str.len).filterMap id

/-- The words `ws` joined by single spaces into one line. -/
def join_spaces : List (List Nat) → List Nat
  | [] => []
  | [w] => w
  | w :: v :: ws => w ++ ' '.toNat :: join_spaces (v :: ws)

/-- A token of a kind below the punctuator kinds: a keyword, an identifier, a constant or a
string literal. -/
def token.carries_text (tok : token) : Bool := decide (tok.type < TOKEN_BRACKET_OPEN)

/-- A token of the returned sequence with the place it was read at: the index of the line
of the file that stood in the buffer (`row`), the cursor at which the dispatcher entered the
readers (`start`) and the cursor the successful reader left (`stop`). -/
structure located where
  row : Nat
  start : Nat
  stop : Nat
  tok : token

/-- Source order of two located tokens: the first was read during an earlier line, or during
the same line and ends where the second starts or before. -/
def located.before (a b : located) : Prop :=
  a.row < b.row ∨ (a.row = b.row ∧ a.stop ≤ b.start)

/-- The two numeric readers in the order of the dispatcher (lexer.c:164-165):
`read_integer_constant`, and `read_floating_constant` only when that returned non-zero. -/
def integer_then_floating (line : List Nat) (c : Nat) (tok : token) :
    Res (Int × Nat × token) := do
  let (r, c, tok) ← read_integer_constant line c tok
  if r == 0 then pure (r, c, tok) else read_floating_constant line c tok

/-- The two numeric readers in the other order: `read_floating_constant`, and
`read_integer_constant` only when that returned non-zero. -/
def floating_then_integer (line : List Nat) (c : Nat) (tok : token) :
    Res (Int × Nat × token) := do
  let (r, c, tok) ← read_floating_constant line c tok
  if r == 0 then pure (r, c, tok) else read_integer_constant line c tok

/-! ## Properties -/

/-! ### Outcome algebra -/

@[simp] theorem pure_eq_ok {α : Type} (a : α) : (pure a : Res α) = Res.ok a := rfl

@[simp] theorem ok_bind {α β : Type} (a : α) (f : α → Res β) : (Res.ok a >>= f) = f a := rfl

@[simp] theorem error_bind {α β : Type} (f : α → Res β) :
    ((Res.error : Res α) >>= f) = Res.error := rfl

@[simp] theorem fault_bind {α β : Type} (e : Fault) (f : α → Res β) :
    ((Res.fault e : Res α) >>= f) = Res.fault e := rfl

theorem bind_eq_ok {α β : Type} {x : Res α} {f : α → Res β} {b : β}
    (h : (x >>= f) = Res.ok b) : ∃ a, x = Res.ok a ∧ f a = Res.ok b := by
  cases x with
  | ok a => exact ⟨a, rfl, h⟩
  | error => simp at h
  | fault e => simp at h

@[simp] theorem error_if_true : error_if true = Res.error := rfl

@[simp] theorem error_if_false : error_if false = Res.ok () := rfl

theorem reader_exit_failure {co : Nat} {tok : token} {body : Res (Nat × token)}
    {r : Int} {c1 : Nat} {tok1 : token}
    (h : reader_exit co tok body = Res.ok (r, c1, tok1)) (hr : r ≠ 0) : c1 = co := by
  unfold reader_exit at h
  split at h
  · simp only [Res.ok.injEq, Prod.mk.injEq] at h
    exact absurd h.1.symm hr
  · simp only [Res.ok.injEq, Prod.mk.injEq] at h
    exact h.2.1.symm
  · simp at h


/-! ### Reading the line buffer -/

theorem rd_lt {line : List Nat} {i : Nat} (h : i < line.length) :
    rd line i = Res.ok (line.getD i 0) := by
  unfold rd
  simp [List.getElem?_append_left h, List.getD_eq_getElem?_getD, h]

theorem rd_length (line : List Nat) : rd line line.length = Res.ok 0 := by
  unfold rd
  simp

theorem rd_gt {line : List Nat} {i : Nat} (h : line.length < i) :
    rd line i = Res.fault Fault.oob := by
  unfold rd
  have : (line ++ [0])[i]? = none := by
    rw [List.getElem?_eq_none_iff]; simp; omega
  simp [this]

theorem rd_ok_le {line : List Nat} {i x : Nat} (h : rd line i = Res.ok x) :
    i ≤ line.length := by
  by_contra hc
  rw [rd_gt (by omega)] at h
  simp at h

theorem rd_ok_ne_zero {line : List Nat} {i x : Nat} (h : rd line i = Res.ok x) (hx : x ≠ 0) :
    i < line.length := by
  have := rd_ok_le h
  rcases Nat.lt_or_eq_of_le this with h1 | h1
  · exact h1
  · subst h1; rw [rd_length] at h; simp at h; exact absurd h.symm hx

theorem rd_drop {line : List Nat} {i : Nat} (h : i ≤ line.length) :
    rd line i = Res.ok ((line.drop i).headD 0) := by
  rcases Nat.lt_or_eq_of_le h with h1 | h1
  · rw [rd_lt h1]
    congr 1
    rw [List.getD_eq_getElem _ _ h1]
    rw [List.drop_eq_getElem_cons h1]; rfl
  · subst h1; rw [rd_length]; simp

theorem slice_self (line : List Nat) (a : Nat) : slice line a a = [] := by simp [slice]

theorem slice_succ {line : List Nat} {a b x : Nat} (hab : a ≤ b) (h : rd line b = Res.ok x) :
    slice line a (b + 1) = slice line a b ++ [x] := by
  have hb := rd_ok_le h
  unfold slice
  unfold rd at h
  have hlen : b < (line ++ [0]).length := by simp; omega
  rw [List.getElem?_eq_getElem hlen] at h
  simp only [Res.ok.injEq] at h
  have : b + 1 - a = (b - a) + 1 := by omega
  rw [this, List.take_succ]
  congr 1
  rw [List.getElem?_drop]
  have : a + (b - a) = b := by omega
  rw [this, List.getElem?_eq_getElem hlen, h]
  rfl

/-! ### The text buffer -/

theorem set_at_length {α : Type} (a : List α) (y v : α) (b : List α) :
    (a ++ y :: b).set a.length v = a ++ v :: b := by
  induction a with
  | nil => rfl
  | cons x a ih => simp [ih]

theorem string_init_holds : string_init.Holds [] := by
  simp [string.Holds, string_init]

theorem string_lit_holds (w : List Nat) : (string_lit w).Holds w := by
  refine ⟨rfl, Or.inr ⟨[], ?_, ?_⟩⟩ <;> simp [string_lit]

theorem store_char (w : List Nat) (x : Nat) (r : Option Nat) (rest : Block) :
    store (some ((w ++ [0]).map some ++ r :: rest)) w.length x
      = Res.ok (some (w.map some ++ some x :: r :: rest)) := by
  have h := set_at_length (w.map some) (some 0) (some x) (r :: rest)
  simp only [List.length_map] at h
  simp [store, h]

theorem store_null (w : List Nat) (x : Nat) (r : Option Nat) (rest : Block) :
    store (some (w.map some ++ some x :: r :: rest)) (w.length + 1) 0
      = Res.ok (some (((w ++ [x]) ++ [0]).map some ++ rest)) := by
  have h := set_at_length (w.map some ++ [some x]) r (some 0) rest
  simp only [List.length_append, List.length_map, List.length_singleton, List.append_assoc,
    List.singleton_append] at h
  simp [store, h]

theorem string_append_holds {str : string} {w : List Nat} (x : Nat)
    (h : str.Holds w) (hlen : w.length ≠ SIZE_MAX) :
    ∃ str1, string_append str x = Res.ok str1 ∧ str1.Holds (w ++ [x]) := by
  obtain ⟨hl, h⟩ := h
  have hne : (str.len == SIZE_MAX) = false := by
    rw [hl]; exact beq_false_of_ne hlen
  rcases h with ⟨hw, hcap, harr⟩ | ⟨rest, harr, hcap⟩
  · subst hw
    unfold string_append
    simp [hne, hcap, harr, hl, malloc, store, List.replicate]
    refine ⟨rfl, Or.inr ⟨List.replicate 14 none, ?_, ?_⟩⟩
    · simp [List.replicate]
    · simp
  · unfold string_append
    have hcap0 : (str.capacity == 0) = false := by
      rw [hcap]; simp
    simp only [hne, hcap0, Bool.false_eq_true, if_false]
    rw [hl] at hne
    simp only [hl]
    by_cases hfull : w.length + 1 = str.capacity
    · have hrest : rest = [] := by
        rw [hcap] at hfull
        exact List.eq_nil_of_length_eq_zero (by omega)
      subst hrest
      have hre : realloc str.arr (2 * str.capacity)
          = some ((w ++ [0]).map some ++ none :: List.replicate w.length none) := by
        rw [harr, hcap]
        simp [realloc, List.take_of_length_le, Nat.two_mul, List.replicate_succ]
      have hfull1 : (w.length + 1 == str.capacity) = true := by simp [hfull]
      simp only [hfull1, if_true, hre, store_char, store_null, ok_bind, pure_eq_ok]
      refine ⟨_, rfl, by simp, Or.inr ⟨List.replicate w.length none, rfl, ?_⟩⟩
      simp [hcap]; omega
    · have hfull2 : (w.length + 1 == str.capacity) = false := beq_false_of_ne hfull
      obtain ⟨r, rest1, hrest⟩ : ∃ r rest1, rest = r :: rest1 := by
        cases rest with
        | nil => exact absurd (by rw [hcap]; simp) hfull
        | cons r rest1 => exact ⟨r, rest1, rfl⟩
      subst hrest
      simp only [hfull2, Bool.false_eq_true, if_false, harr, hl, store_char, store_null, ok_bind,
        pure_eq_ok]
      refine ⟨_, rfl, by simp, Or.inr ⟨rest1, rfl, ?_⟩⟩
      simp [hcap]; omega

theorem string_append_ok {str str1 : string} {w : List Nat} {x : Nat}
    (h : str.Holds w) (hret : string_append str x = Res.ok str1) : str1.Holds (w ++ [x]) := by
  by_cases hlen : w.length = SIZE_MAX
  · have : (str.len == SIZE_MAX) = true := by rw [h.1, hlen]; rfl
    unfold string_append at hret
    simp [this] at hret
  · obtain ⟨str2, h2, hh⟩ := string_append_holds x h hlen
    rw [h2] at hret
    simp only [Res.ok.injEq] at hret
    exact hret ▸ hh

theorem load_at_length (pre : Block) (v : Nat) (rest : Block) :
    load (some (pre ++ some v :: rest)) pre.length = Res.ok v := by
  have h : (pre ++ some v :: rest).getD pre.length none = some v := by
    rw [List.getD_eq_getElem?_getD, List.getElem?_append_right (Nat.le_refl _)]
    simp
  simp only [load, h]

theorem strncpy_bytes_holds (w : List Nat) (hw : 0 ∉ w) (pre rest : Block) :
    strncpy_bytes (some (pre ++ (w.map some ++ some 0 :: rest))) (w.length + 1) pre.length
      = Res.ok (w ++ [0]) := by
  induction w generalizing pre with
  | nil =>
    simp [strncpy_bytes, load_at_length]
  | cons y w ih =>
    have hy : y ≠ 0 := fun h => hw (by simp [h])
    have hw1 : 0 ∉ w := fun h => hw (by simp [h])
    have hstep := ih hw1 (pre ++ [some y])
    simp only [List.length_append, List.length_singleton, List.append_assoc,
      List.singleton_append] at hstep
    rw [List.length_cons, strncpy_bytes]
    simp only [List.cons_append, List.map_cons, load_at_length, ok_bind, beq_iff_eq, hy,
      if_false, hstep, pure_eq_ok]

theorem string_copy_holds {src : string} {w : List Nat} (h : src.Holds w) (hne : w ≠ [])
    (hw : 0 ∉ w) : string_copy string_init src = Res.ok (string_lit w) := by
  obtain ⟨hl, h⟩ := h
  rcases h with ⟨hw0, -, -⟩ | ⟨rest, harr, -⟩
  · exact absurd hw0 hne
  · have hb := strncpy_bytes_holds w hw [] rest
    simp only [List.nil_append, List.length_nil] at hb
    unfold string_copy
    simp [string_init, malloc, strncpy, hl, harr, hb, string_lit]

theorem string_copy_ok_dest {dest src s : string} (h : string_copy dest src = Res.ok s) :
    dest = string_init := by
  unfold string_copy at h
  by_cases hd : (dest.len == 0 && dest.capacity == 0 && dest.arr == none) = true
  · simp only [Bool.and_eq_true, beq_iff_eq] at hd
    obtain ⟨⟨h1, h2⟩, h3⟩ := hd
    cases dest
    simp_all [string_init]
  · simp [hd] at h

theorem strcmp_eq_holds (q w : List Nat) (hq : 0 ∉ q) (hw : 0 ∉ w) (pre rest : Block) :
    strcmp_eq (some (pre ++ (w.map some ++ some 0 :: rest))) q pre.length
      = Res.ok (decide (w = q)) := by
  induction q generalizing w pre with
  | nil =>
    cases w with
    | nil => simp [strcmp_eq, load_at_length]
    | cons y w =>
      have hy : y ≠ 0 := fun h => hw (by simp [h])
      simp [strcmp_eq, load_at_length, hy]
  | cons z q ih =>
    have hz : z ≠ 0 := fun h => hq (by simp [h])
    have hq1 : 0 ∉ q := fun h => hq (by simp [h])
    cases w with
    | nil => simp [strcmp_eq, load_at_length, Ne.symm hz]
    | cons y w =>
      have hw1 : 0 ∉ w := fun h => hw (by simp [h])
      have hstep := ih w hq1 hw1 (pre ++ [some y])
      simp only [List.length_append, List.length_singleton, List.append_assoc,
        List.singleton_append] at hstep
      rw [strcmp_eq]
      by_cases hyz : y = z
      · subst hyz
        simp [load_at_length, hstep]
      · simp [load_at_length, hyz]

theorem strcmp_eq_of_holds {str : string} {w : List Nat} (h : str.Holds w) (hne : w ≠ [])
    (hw : 0 ∉ w) (q : List Nat) (hq : 0 ∉ q) :
    strcmp_eq str.arr q 0 = Res.ok (decide (w = q)) := by
  obtain ⟨-, h⟩ := h
  rcases h with ⟨hw0, -, -⟩ | ⟨rest, harr, -⟩
  · exact absurd hw0 hne
  · have hb := strcmp_eq_holds q w hq hw [] rest
    simp only [List.nil_append, List.length_nil] at hb
    rw [harr]
    simpa using hb

/-! ### The accumulator invariant -/

theorem slice_length {line : List Nat} {a b : Nat} (hb : b ≤ line.length + 1) :
    (slice line a b).length = b - a := by
  simp [slice]; omega

theorem acc_entry (line : List Nat) (co : Nat) (hco : co ≤ line.length + 1) :
    Acc line co string_init co :=
  ⟨Nat.le_refl _, hco, by rw [slice_self]; exact string_init_holds⟩

theorem APPADV_ok {line : List Nat} {co c c1 : Nat} {str str1 : string}
    (hacc : Acc line co str c) (hret : APPADV line str c = Res.ok (str1, c1)) :
    c1 = c + 1 ∧ c ≤ line.length ∧ Acc line co str1 c1 := by
  unfold APPADV at hret
  obtain ⟨x, hx, hret⟩ := bind_eq_ok hret
  obtain ⟨s, hs, hret⟩ := bind_eq_ok hret
  simp only [pure_eq_ok, Res.ok.injEq, Prod.mk.injEq] at hret
  obtain ⟨h1, h2⟩ := hret
  subst h1 h2
  have hle := rd_ok_le hx
  refine ⟨rfl, hle, by have := hacc.1; omega, by omega, ?_⟩
  rw [slice_succ hacc.1 hx]
  exact string_append_ok hacc.2.2 hs

theorem APPADV_total {line : List Nat} {co c : Nat} {str : string}
    (hsize : line.length + 1 < SIZE_MAX) (hacc : Acc line co str c) (hc : c ≤ line.length) :
    ∃ str1, APPADV line str c = Res.ok (str1, c + 1) ∧ Acc line co str1 (c + 1) := by
  have hlen : (slice line co c).length ≠ SIZE_MAX := by
    rw [slice_length hacc.2.1]; omega
  obtain ⟨str1, h1, -⟩ := string_append_holds ((line.drop c).headD 0) hacc.2.2 hlen
  have hret : APPADV line str c = Res.ok (str1, c + 1) := by
    unfold APPADV
    simp only [rd_drop hc, ok_bind, h1, pure_eq_ok]
  exact ⟨str1, hret, (APPADV_ok hacc hret).2.2⟩

theorem while_APPADV_ok (p : Nat → Bool) {line : List Nat} {co : Nat} (fuel : Nat) :
    ∀ {c c1 : Nat} {str str1 : string}, Acc line co str c →
      while_APPADV p line fuel str c = Res.ok (str1, c1) →
      c ≤ c1 ∧ Acc line co str1 c1 ∧ (∀ x, rd line c = Res.ok x → p x = true → c < c1) := by
  induction fuel with
  | zero => intro c c1 str str1 _ h; simp [while_APPADV] at h
  | succ fuel ih =>
    intro c c1 str str1 hacc h
    rw [while_APPADV] at h
    obtain ⟨x, hx, h⟩ := bind_eq_ok h
    by_cases hp : p x = true
    · simp only [hp, if_true] at h
      obtain ⟨⟨s, c2⟩, h2, h⟩ := bind_eq_ok h
      obtain ⟨hc2, -, hacc2⟩ := APPADV_ok hacc h2
      obtain ⟨hle, hacc1, -⟩ := ih hacc2 h
      exact ⟨by omega, hacc1, fun _ _ _ => by omega⟩
    · simp only [hp, Bool.false_eq_true, if_false, pure_eq_ok, Res.ok.injEq, Prod.mk.injEq] at h
      obtain ⟨h1, h2⟩ := h
      subst h1 h2
      refine ⟨Nat.le_refl _, hacc, fun y hy hpy => ?_⟩
      rw [hx] at hy
      simp only [Res.ok.injEq] at hy
      exact absurd (hy ▸ hpy) hp

theorem while_APPADV_cnt_ok (p : Nat → Bool) {line : List Nat} {co : Nat} (fuel : Nat) :
    ∀ {c c1 cnt cnt1 : Nat} {str str1 : string}, Acc line co str c →
      while_APPADV_cnt p line fuel str c cnt = Res.ok (str1, c1, cnt1) →
      c ≤ c1 ∧ Acc line co str1 c1 ∧ cnt1 + c = cnt + c1 := by
  induction fuel with
  | zero => intro c c1 cnt cnt1 str str1 _ h; simp [while_APPADV_cnt] at h
  | succ fuel ih =>
    intro c c1 cnt cnt1 str str1 hacc h
    rw [while_APPADV_cnt] at h
    obtain ⟨x, hx, h⟩ := bind_eq_ok h
    by_cases hp : p x = true
    · simp only [hp, if_true] at h
      obtain ⟨⟨s, c2⟩, h2, h⟩ := bind_eq_ok h
      obtain ⟨hc2, -, hacc2⟩ := APPADV_ok hacc h2
      obtain ⟨hle, hacc1, hcnt⟩ := ih hacc2 h
      exact ⟨by omega, hacc1, by omega⟩
    · simp only [hp, Bool.false_eq_true, if_false, pure_eq_ok, Res.ok.injEq, Prod.mk.injEq] at h
      obtain ⟨h1, h2, h3⟩ := h
      subst h1 h2 h3
      exact ⟨Nat.le_refl _, hacc, rfl⟩

theorem while_APPADV_total (p : Nat → Bool) (hp0 : p 0 = false) {line : List Nat} {co : Nat}
    (hsize : line.length + 1 < SIZE_MAX) (fuel : Nat) :
    ∀ {c : Nat} {str : string}, Acc line co str c → c ≤ line.length →
      line.length - c < fuel →
      ∃ str1, while_APPADV p line fuel str c
          = Res.ok (str1, c + ((line.drop c).takeWhile p).length)
        ∧ Acc line co str1 (c + ((line.drop c).takeWhile p).length)
        ∧ c + ((line.drop c).takeWhile p).length ≤ line.length := by
  induction fuel with
  | zero => intro c str _ _ h; omega
  | succ fuel ih =>
    intro c str hacc hc hfuel
    rw [while_APPADV, rd_drop hc]
    simp only [ok_bind]
    cases hdrop : line.drop c with
    | nil =>
      simp only [List.headD_nil, hp0, Bool.false_eq_true, if_false,
        pure_eq_ok, List.takeWhile_nil, List.length_nil, Nat.add_zero]
      exact ⟨str, rfl, hacc, hc⟩
    | cons y ys =>
      have hys : line.drop (c + 1) = ys := by
        rw [← List.tail_drop, hdrop]; rfl
      have hlt : c < line.length := by
        by_contra hge
        rw [List.drop_eq_nil_of_le (by omega)] at hdrop
        simp at hdrop
      simp only [List.headD_cons]
      by_cases hp : p y = true
      · obtain ⟨s, hs, hacc1⟩ := APPADV_total hsize hacc hc
        obtain ⟨str1, h1, hacc2, hle⟩ := ih hacc1 (by omega) (by omega)
        rw [hys] at h1 hacc2 hle
        refine ⟨str1, ?_, ?_, ?_⟩
        · simp only [hp, if_true, hs, ok_bind, h1, List.takeWhile_cons_of_pos,
            List.length_cons, Res.ok.injEq, Prod.mk.injEq, true_and]
          omega
        · simp only [hp, List.takeWhile_cons_of_pos, List.length_cons]
          have : c + ((List.takeWhile p ys).length + 1)
              = c + 1 + (List.takeWhile p ys).length := by omega
          rw [this]; exact hacc2
        · simp only [hp, List.takeWhile_cons_of_pos, List.length_cons]
          omega
      · simp only [hp, Bool.false_eq_true, if_false, pure_eq_ok, List.takeWhile_cons_of_neg,
          not_false_eq_true, List.length_nil, Nat.add_zero]
        exact ⟨str, rfl, hacc, hc⟩

/-! ### C1: a failed reader leaves the cursor where it was -/

/-- C1. Whenever one of the six token readers returns failure (a non-zero value), the
cursor it hands back is the cursor it was entered with. -/
theorem reader_failure_restores_cursor
    (reader : List Nat → Nat → token → Res (Int × Nat × token))
    (hreader : reader ∈ token_readers)
    (line : List Nat) (c : Nat) (tok : token) (r : Int) (c1 : Nat) (tok1 : token)
    (hret : reader line c tok = Res.ok (r, c1, tok1)) (hfail : r ≠ 0) : c1 = c := by
  simp only [token_readers, List.mem_cons, List.mem_singleton, List.not_mem_nil, or_false]
    at hreader
  rcases hreader with h | h | h | h | h | h <;> subst h
  · exact reader_exit_failure hret hfail
  · exact reader_exit_failure hret hfail
  · exact reader_exit_failure hret hfail
  · exact reader_exit_failure hret hfail
  · exact reader_exit_failure hret hfail
  · exact reader_exit_failure hret hfail

/-- C1 at a concrete input: on the line `x 08` the integer reader, entered at the `0`,
reads the `0`, meets the `8`, fails, and hands back cursor 2. -/
theorem reader_failure_restores_cursor_witness :
    read_integer_constant (cs "x 08") 2 fresh_token
        = Res.ok (-1, 2, { type := TOKEN_INT_CONST, str := string_init })
      ∧ (2 : Nat) = 2 :=
  ⟨by decide,
   reader_failure_restores_cursor read_integer_constant (by simp [token_readers])
     (cs "x 08") 2 fresh_token (-1) 2 { type := TOKEN_INT_CONST, str := string_init }
     (by decide) (by decide)⟩

/-! ### C3: punctuator spellings -/

/-- C3. Each of the 48 entries of `punctuator_table`, alone on a line (with or without the
line's newline), lexes to exactly one token of kind `TOKEN_BRACKET_OPEN` plus the entry's
index, `read_punctuator` consuming the whole spelling; and each digraph alone on a line
lexes to exactly one token of the kind of its primary spelling. -/
theorem punctuator_spelling_alone :
    (∀ i : Fin 48,
      lexer_tokens [punctuator_table.getD i []] = one_token (TOKEN_BRACKET_OPEN + i) string_init
      ∧ lexer_tokens [punctuator_table.getD i [] ++ cs "\n"]
          = one_token (TOKEN_BRACKET_OPEN + i) string_init
      ∧ read_punctuator (punctuator_table.getD i []) 0 fresh_token
          = Res.ok (0, (punctuator_table.getD i []).length,
              { type := TOKEN_BRACKET_OPEN + i, str := string_init }))
    ∧ (∀ d ∈ digraph_table,
      d.2 ∈ punctuator_table
      ∧ lexer_tokens [d.1]
          = one_token (TOKEN_BRACKET_OPEN + punctuator_table.indexOf d.2) string_init
      ∧ lexer_tokens [d.1 ++ cs "\n"]
          = one_token (TOKEN_BRACKET_OPEN + punctuator_table.indexOf d.2) string_init
      ∧ lexer_tokens [d.1] = lexer_tokens [d.2]
      ∧ read_punctuator d.1 0 fresh_token
          = Res.ok (0, d.1.length,
              { type := TOKEN_BRACKET_OPEN + punctuator_table.indexOf d.2, str := string_init })) := by
  constructor
  · decide
  · decide

/-! ### C4: maximal munch for punctuators -/

/-- C4 fails on `%:%`: `read_punctuator` succeeds having consumed the single character `%`
(kind `TOKEN_PERCENT`), although the longer prefix `%:` is a punctuator spelling; the line
lexes to `%`, `:`, `%`.  The instance the claim names holds: `<<=` is read as one
left-shift-assign token, all three characters consumed. -/
theorem punctuator_munch_percent_colon_percent :
    read_punctuator (cs "%:%") 0 fresh_token
        = Res.ok (0, 1, { type := TOKEN_PERCENT, str := string_init })
    ∧ (cs "%:%").take 1 ∈ punctuator_spellings
    ∧ (cs "%:%").take 2 ∈ punctuator_spellings
    ∧ lexer_tokens [cs "%:%"]
        = Res.ok (false, [some { type := TOKEN_PERCENT, str := string_init },
            some { type := TOKEN_COLON, str := string_init },
            some { type := TOKEN_PERCENT, str := string_init }])
    ∧ lexer_tokens [cs "%:%\n"]
        = Res.ok (false, [some { type := TOKEN_PERCENT, str := string_init },
            some { type := TOKEN_COLON, str := string_init },
            some { type := TOKEN_PERCENT, str := string_init }])
    ∧ lexer_tokens [cs "<<="] = one_token TOKEN_LSHIFT_ASSIGN string_init
    ∧ read_punctuator (cs "<<=") 0 fresh_token
        = Res.ok (0, 3, { type := TOKEN_LSHIFT_ASSIGN, str := string_init }) := by
  refine ⟨?_, ?_, ?_, ?_, ?_, ?_, ?_⟩ <;> decide

/-! ### C6: integer and floating constants through the dispatcher -/

/-- C6. The lines `123`, `123.`, `123.45e-6f`, `0x1A` and `0x1Ap3` each lex to exactly one
token: integer, floating, floating, integer and floating constant, with the text as
lexeme; the same holds when the line carries its newline. -/
theorem integer_float_disambiguation :
    lexer_tokens [cs "123"] = one_token TOKEN_INT_CONST (string_lit (cs "123"))
    ∧ lexer_tokens [cs "123."] = one_token TOKEN_FLOAT_CONST (string_lit (cs "123."))
    ∧ lexer_tokens [cs "123.45e-6f"]
        = one_token TOKEN_FLOAT_CONST (string_lit (cs "123.45e-6f"))
    ∧ lexer_tokens [cs "0x1A"] = one_token TOKEN_INT_CONST (string_lit (cs "0x1A"))
    ∧ lexer_tokens [cs "0x1Ap3"] = one_token TOKEN_FLOAT_CONST (string_lit (cs "0x1Ap3"))
    ∧ lexer_tokens [cs "123\n"] = one_token TOKEN_INT_CONST (string_lit (cs "123"))
    ∧ lexer_tokens [cs "123.\n"] = one_token TOKEN_FLOAT_CONST (string_lit (cs "123."))
    ∧ lexer_tokens [cs "123.45e-6f\n"]
        = one_token TOKEN_FLOAT_CONST (string_lit (cs "123.45e-6f"))
    ∧ lexer_tokens [cs "0x1A\n"] = one_token TOKEN_INT_CONST (string_lit (cs "0x1A"))
    ∧ lexer_tokens [cs "0x1Ap3\n"]
        = one_token TOKEN_FLOAT_CONST (string_lit (cs "0x1Ap3")) := by
  refine ⟨?_, ?_, ?_, ?_, ?_, ?_, ?_, ?_, ?_, ?_⟩ <;> decide

/-! ### C9: hexadecimal escapes -/

/-- C9 fails on the line `'\x'`: the char-sequence reader, entered behind the opening quote,
returns 0 with the cursor on the closing quote although no hexadecimal digit follows `\x`,
and the line lexes to one character constant. -/
theorem hex_escape_without_digits_accepted :
    read_c_char_sequence (cs "'\\x'") 1 (string_lit (cs "'"))
        = Res.ok (0, 3, string_lit (cs "'\\x"))
    ∧ isxdigit '\''.toNat = false
    ∧ lexer_tokens [cs "'\\x'"] = one_token TOKEN_CHAR_CONST (string_lit (cs "'\\x'")) := by
  decide

/-! ### C5: keywords and identifiers -/

theorem takeWhile_append_stop (p : Nat → Bool) (w rest : List Nat)
    (hw : ∀ x ∈ w, p x = true) (hrest : p (rest.headD 0) = false) :
    (w ++ rest).takeWhile p = w := by
  induction w with
  | nil =>
    cases rest with
    | nil => rfl
    | cons r rs => simpa using hrest
  | cons y w ih =>
    have hy : p y = true := hw y (by simp)
    simp only [List.cons_append, List.takeWhile_cons, hy, if_true]
    rw [ih (fun x hx => hw x (by simp [hx]))]

theorem slice_middle (pre w rest : List Nat) :
    slice (pre ++ w ++ rest) pre.length (pre.length + w.length) = w := by
  simp [slice, List.drop_append, List.take_append]

theorem keyword_table_no_null : ∀ kw ∈ keyword_table, 0 ∉ kw := by decide

theorem keyword_table_length : keyword_table.length = NUM_KEYWORDS := by decide

theorem keyword_table_distinct :
    ∀ i j : Fin 44, keyword_table.getD i [] = keyword_table.getD j [] → i = j := by decide

theorem keyword_getD_no_null (i : Nat) : 0 ∉ keyword_table.getD i [] := by
  by_cases hi : i < keyword_table.length
  · rw [List.getD_eq_getElem _ _ hi]
    exact keyword_table_no_null _ (List.getElem_mem _)
  · rw [List.getD_eq_default _ _ (by omega)]
    simp

theorem keyword_lookup_miss {str : string} {w : List Nat} (h : str.Holds w) (hne : w ≠ [])
    (hw : 0 ∉ w) (tok : token) (n : Nat) :
    ∀ i, (∀ j, i ≤ j → j < i + n → keyword_table.getD j [] ≠ w) →
      keyword_lookup str n i tok = Res.ok tok := by
  induction n with
  | zero => intro i _; rfl
  | succ n ih =>
    intro i hmiss
    rw [keyword_lookup, strcmp_eq_of_holds h hne hw _ (keyword_getD_no_null i)]
    have hi : w ≠ keyword_table.getD i [] := fun e => hmiss i (Nat.le_refl _) (by omega) e.symm
    simp only [ok_bind, hi, decide_False, Bool.false_eq_true, if_false]
    exact ih (i + 1) (fun j h1 h2 => hmiss j (by omega) (by omega))

theorem keyword_lookup_hit {str : string} {w : List Nat} (h : str.Holds w) (hne : w ≠ [])
    (hw : 0 ∉ w) (tok : token) (k : Nat) (hk : keyword_table.getD k [] = w) (n : Nat) :
    ∀ i, i ≤ k → k < i + n → (∀ j, i ≤ j → j < k → keyword_table.getD j [] ≠ w) →
      keyword_lookup str n i tok = Res.ok { tok with type := k } := by
  induction n with
  | zero => intro i h1 h2; omega
  | succ n ih =>
    intro i h1 h2 hmiss
    rw [keyword_lookup, strcmp_eq_of_holds h hne hw _ (keyword_getD_no_null i)]
    by_cases hik : i = k
    · subst hik
      have hd : decide (w = keyword_table.getD i []) = true := by
        rw [hk]; exact decide_eq_true rfl
      simp only [ok_bind, hd, if_true, pure_eq_ok]
    · have hi : w ≠ keyword_table.getD i [] :=
        fun e => hmiss i (Nat.le_refl _) (by omega) e.symm
      simp only [ok_bind, hi, decide_False, Bool.false_eq_true, if_false]
      exact ih (i + 1) (by omega) (by omega) (fun j h3 h4 => hmiss j (by omega) h4)

theorem is_identifier_ne_zero {x : Nat} (h : is_identifier x = true) : x ≠ 0 := by
  intro hx
  subst hx
  simp [is_identifier, isalnum, isalpha, isdigit] at h

/-- C5. An identifier-shaped text `w` (first character identifier-start, all characters
identifier-continue) that stands at the cursor and is followed by a character that is
neither identifier-continue nor a quote is read by `read_keyword_or_identifier` with
success, the cursor moving behind `w` and the lexeme being `w`: with kind `i` when `w` is
entry `i` of the 44 entries of `keyword_table`, and with kind `TOKEN_IDENTIFER` when `w` is
none of the entries. -/
theorem keyword_or_identifier_kind (pre w rest : List Nat)
    (hsize : (pre ++ w ++ rest).length + 1 < SIZE_MAX)
    (hw : w ≠ [])
    (hstart : is_identifier_nondigit (w.headD 0) = true)
    (hcont : ∀ x ∈ w, is_identifier x = true)
    (hnext : is_identifier (rest.headD 0) = false)
    (hquote : rest.headD 0 ≠ '\''.toNat ∧ rest.headD 0 ≠ '\"'.toNat) :
    (∀ i, i < NUM_KEYWORDS → keyword_table.getD i [] = w →
      read_keyword_or_identifier (pre ++ w ++ rest) pre.length fresh_token
        = Res.ok (0, pre.length + w.length, { type := i, str := string_lit w }))
    ∧ (w ∉ keyword_table →
      read_keyword_or_identifier (pre ++ w ++ rest) pre.length fresh_token
        = Res.ok (0, pre.length + w.length, { type := TOKEN_IDENTIFER, str := string_lit w })) := by
  have hc : pre.length ≤ (pre ++ w ++ rest).length := by simp
  have hdrop : (pre ++ w ++ rest).drop pre.length = w ++ rest := by
    simp [List.drop_append]
  have hhead : (w ++ rest).headD 0 = w.headD 0 := by
    cases w with
    | nil => exact absurd rfl hw
    | cons y w => rfl
  have hnul : 0 ∉ w := fun h0 => is_identifier_ne_zero (hcont 0 h0) rfl
  have htw := takeWhile_append_stop is_identifier w rest hcont hnext
  obtain ⟨str1, hloop, hacc, hle⟩ :=
    while_APPADV_total is_identifier (by decide) hsize (loop_bound (pre ++ w ++ rest))
      (acc_entry (pre ++ w ++ rest) pre.length (by omega)) hc
      (by simp only [loop_bound]; omega)
  rw [hdrop, htw] at hloop hacc hle
  have hholds : str1.Holds w := by
    have := hacc.2.2
    rwa [slice_middle] at this
  have hrd2 : rd (pre ++ w ++ rest) (pre.length + w.length) = Res.ok (rest.headD 0) := by
    rw [rd_drop hle]
    congr 2
    simp [List.drop_append]
  have hq : (rest.headD 0 == '\''.toNat || rest.headD 0 == '\"'.toNat) = false := by
    rw [Bool.or_eq_false_iff]
    exact ⟨beq_false_of_ne hquote.1, beq_false_of_ne hquote.2⟩
  constructor
  · intro i hi hget
    have hfirst : ∀ j, 0 ≤ j → j < i → keyword_table.getD j [] ≠ w := by
      intro j _ hj e
      have := keyword_table_distinct ⟨j, by simp only [NUM_KEYWORDS] at hi; omega⟩
        ⟨i, by simpa using hi⟩ (by simp only [e, hget])
      simp only [Fin.mk.injEq] at this
      omega
    have hnot : (i == TOKEN_INDETERMINATE) = false := by
      apply beq_false_of_ne
      simp only [NUM_KEYWORDS, TOKEN_INDETERMINATE] at hi ⊢
      omega
    unfold read_keyword_or_identifier
    simp only [rd_drop hc, hdrop, hhead, ok_bind, hstart, Bool.not_true, error_if_false, hloop,
      hrd2, hq]
    rw [keyword_lookup_hit hholds hw hnul fresh_token i hget NUM_KEYWORDS 0 (Nat.zero_le _)
      (by omega) hfirst]
    simp only [ok_bind, hnot, Bool.false_eq_true, if_false, fresh_token,
      string_copy_holds hholds hw hnul, pure_eq_ok, reader_exit]
  · intro hmem
    have hmiss : ∀ j, 0 ≤ j → j < 0 + NUM_KEYWORDS → keyword_table.getD j [] ≠ w := by
      intro j _ hj e
      have hjl : j < keyword_table.length := by rw [keyword_table_length]; omega
      rw [List.getD_eq_getElem _ _ hjl] at e
      exact hmem (e ▸ List.getElem_mem _)
    unfold read_keyword_or_identifier
    simp only [rd_drop hc, hdrop, hhead, ok_bind, hstart, Bool.not_true, error_if_false, hloop,
      hrd2, hq]
    rw [keyword_lookup_miss hholds hw hnul fresh_token NUM_KEYWORDS 0 hmiss]
    simp [fresh_token, string_copy_holds hholds hw hnul, reader_exit]

/-- C5 at concrete inputs: in `a intx = 1` the text `intx` at cursor 2 is an identifier
although `int` is a keyword. -/
theorem keyword_or_identifier_kind_witness :
    read_keyword_or_identifier (cs "a " ++ cs "intx" ++ cs " = 1") 2 fresh_token
      = Res.ok (0, 6, { type := TOKEN_IDENTIFER, str := string_lit (cs "intx") }) :=
  (keyword_or_identifier_kind (cs "a ") (cs "intx") (cs " = 1") (by decide) (by decide)
    (by decide) (by decide) (by decide) (by decide)).2 (by decide)

/-! ### What a successful reader leaves behind -/

theorem error_if_ok {b : Bool} {u : Unit} (h : error_if b = Res.ok u) : b = false := by
  cases b with
  | false => rfl
  | true => simp at h

theorem opt_APPADV_ok {line : List Nat} {co c c2 : Nat} {str s2 : string} {b : Bool}
    (hacc : Acc line co str c)
    (h : (if b = true then APPADV line str c else pure (str, c)) = Res.ok (s2, c2)) :
    c ≤ c2 ∧ Acc line co s2 c2 := by
  cases b with
  | true =>
    simp only [if_true] at h
    obtain ⟨h1, -, h3⟩ := APPADV_ok hacc h
    exact ⟨by omega, h3⟩
  | false =>
    simp only [Bool.false_eq_true, if_false, pure_eq_ok, Res.ok.injEq, Prod.mk.injEq] at h
    obtain ⟨h1, h2⟩ := h
    subst h1 h2
    exact ⟨Nat.le_refl _, hacc⟩

theorem exponent_digits_ok {line : List Nat} {co c c1 : Nat} {str str1 : string}
    (hacc : Acc line co str c)
    (h : read_floating_constant.exponent_digits line str c = Res.ok (str1, c1)) :
    c < c1 ∧ Acc line co str1 c1 := by
  unfold read_floating_constant.exponent_digits at h
  obtain ⟨x, hx, h⟩ := bind_eq_ok h
  obtain ⟨⟨s2, c2⟩, h2, h⟩ := bind_eq_ok h
  obtain ⟨y, hy, h⟩ := bind_eq_ok h
  obtain ⟨u, hu, h⟩ := bind_eq_ok h
  obtain ⟨hle, hacc2⟩ := opt_APPADV_ok hacc h2
  have hd : isdigit y = true := by simpa using error_if_ok hu
  obtain ⟨-, hacc1, hprog⟩ := while_APPADV_ok isdigit _ hacc2 h
  have := hprog y hy hd
  exact ⟨by omega, hacc1⟩

theorem hexadecimal_ok {line : List Nat} {co c c1 : Nat} {str str1 : string}
    (hacc : Acc line co str c)
    (h : read_floating_constant.hexadecimal line str c = Res.ok (str1, c1)) :
    c < c1 ∧ Acc line co str1 c1 := by
  unfold read_floating_constant.hexadecimal at h
  obtain ⟨⟨s2, c2⟩, h2, h⟩ := bind_eq_ok h
  obtain ⟨hc2, -, hacc2⟩ := APPADV_ok hacc h2
  obtain ⟨⟨s3, c3⟩, h3, h⟩ := bind_eq_ok h
  obtain ⟨hc3, -, hacc3⟩ := APPADV_ok hacc2 h3
  obtain ⟨⟨s4, c4, cnt4⟩, h4, h⟩ := bind_eq_ok h
  obtain ⟨hc4, hacc4, -⟩ := while_APPADV_cnt_ok isxdigit _ hacc3 h4
  obtain ⟨x, hx, h⟩ := bind_eq_ok h
  obtain ⟨⟨s5, c5⟩, h5, h⟩ := bind_eq_ok h
  have h5acc : c4 ≤ c5 ∧ Acc line co s5 c5 := by
    by_cases hdot : (x == '.'.toNat) = true
    · simp only [hdot, if_true] at h5
      obtain ⟨⟨s6, c6⟩, h6, h5⟩ := bind_eq_ok h5
      obtain ⟨hc6, -, hacc6⟩ := APPADV_ok hacc4 h6
      obtain ⟨⟨s7, c7, cnt7⟩, h7, h5⟩ := bind_eq_ok h5
      obtain ⟨hc7, hacc7, -⟩ := while_APPADV_cnt_ok isxdigit _ hacc6 h7
      obtain ⟨u, hu, h5⟩ := bind_eq_ok h5
      simp only [pure_eq_ok, Res.ok.injEq, Prod.mk.injEq] at h5
      obtain ⟨e1, e2⟩ := h5
      subst e1 e2
      exact ⟨by omega, hacc7⟩
    · simp only [hdot, Bool.false_eq_true, if_false] at h5
      obtain ⟨u, hu, h5⟩ := bind_eq_ok h5
      simp only [pure_eq_ok, Res.ok.injEq, Prod.mk.injEq] at h5
      obtain ⟨e1, e2⟩ := h5
      subst e1 e2
      exact ⟨Nat.le_refl _, hacc4⟩
  obtain ⟨y, hy, h⟩ := bind_eq_ok h
  obtain ⟨u, hu, h⟩ := bind_eq_ok h
  obtain ⟨⟨s8, c8⟩, h8, h⟩ := bind_eq_ok h
  obtain ⟨hc8, -, hacc8⟩ := APPADV_ok h5acc.2 h8
  obtain ⟨hlt, hacc1⟩ := exponent_digits_ok hacc8 h
  exact ⟨by omega, hacc1⟩

theorem decimal_ok {line : List Nat} {co c c1 : Nat} {str str1 : string}
    (hacc : Acc line co str c)
    (h : read_floating_constant.decimal line str c = Res.ok (str1, c1)) :
    c < c1 ∧ Acc line co str1 c1 := by
  unfold read_floating_constant.decimal at h
  obtain ⟨⟨s4, c4, cnt4⟩, h4, h⟩ := bind_eq_ok h
  obtain ⟨hc4, hacc4, hcnt4⟩ := while_APPADV_cnt_ok isdigit _ hacc h4
  obtain ⟨x, hx, h⟩ := bind_eq_ok h
  obtain ⟨⟨s5, c5, only5⟩, h5, h⟩ := bind_eq_ok h
  have h5acc : c < c5 ∧ Acc line co s5 c5 := by
    by_cases hdot : (x == '.'.toNat) = true
    · simp only [hdot, if_true] at h5
      obtain ⟨⟨s6, c6⟩, h6, h5⟩ := bind_eq_ok h5
      obtain ⟨hc6, -, hacc6⟩ := APPADV_ok hacc4 h6
      obtain ⟨⟨s7, c7, cnt7⟩, h7, h5⟩ := bind_eq_ok h5
      obtain ⟨hc7, hacc7, -⟩ := while_APPADV_cnt_ok isdigit _ hacc6 h7
      obtain ⟨u, hu, h5⟩ := bind_eq_ok h5
      simp only [pure_eq_ok, Res.ok.injEq, Prod.mk.injEq] at h5
      obtain ⟨e1, e2, -⟩ := h5
      subst e1 e2
      exact ⟨by omega, hacc7⟩
    · simp only [hdot, Bool.false_eq_true, if_false] at h5
      obtain ⟨u, hu, h5⟩ := bind_eq_ok h5
      have hcnt : cnt4 ≠ 0 := by simpa using error_if_ok hu
      simp only [pure_eq_ok, Res.ok.injEq, Prod.mk.injEq] at h5
      obtain ⟨e1, e2, -⟩ := h5
      subst e1 e2
      exact ⟨by omega, hacc4⟩
  obtain ⟨y, hy, h⟩ := bind_eq_ok h
  obtain ⟨u, hu, h⟩ := bind_eq_ok h
  by_cases hexp : (y == 'e'.toNat || y == 'E'.toNat) = true
  · simp only [hexp, if_true] at h
    obtain ⟨⟨s8, c8⟩, h8, h⟩ := bind_eq_ok h
    obtain ⟨hc8, -, hacc8⟩ := APPADV_ok h5acc.2 h8
    obtain ⟨hlt, hacc1⟩ := exponent_digits_ok hacc8 h
    exact ⟨by omega, hacc1⟩
  · simp only [hexp, Bool.false_eq_true, if_false, pure_eq_ok, Res.ok.injEq, Prod.mk.injEq] at h
    obtain ⟨e1, e2⟩ := h
    subst e1 e2
    exact h5acc

theorem digits_ok {line : List Nat} {co c c1 : Nat} {str str1 : string}
    (hacc : Acc line co str c)
    (h : read_integer_constant.digits line str c = Res.ok (str1, c1)) :
    c ≤ c1 ∧ Acc line co str1 c1 ∧ (∀ x, rd line c = Res.ok x → isdigit x = true → c < c1) := by
  unfold read_integer_constant.digits at h
  obtain ⟨x, hx, h⟩ := bind_eq_ok h
  by_cases hnz : is_nonzero_digit x = true
  · simp only [hnz, if_true] at h
    obtain ⟨hle, hacc1, hprog⟩ := while_APPADV_ok isdigit _ hacc h
    exact ⟨hle, hacc1, fun y hy hd => hprog y hy hd⟩
  · simp only [hnz, Bool.false_eq_true, if_false] at h
    by_cases hz : (x == '0'.toNat) = true
    · simp only [hz, if_true] at h
      obtain ⟨⟨s2, c2⟩, h2, h⟩ := bind_eq_ok h
      obtain ⟨hc2, -, hacc2⟩ := APPADV_ok hacc h2
      obtain ⟨y, hy, h⟩ := bind_eq_ok h
      by_cases hxx : (y == 'x'.toNat || y == 'X'.toNat) = true
      · simp only [hxx, if_true] at h
        obtain ⟨⟨s3, c3⟩, h3, h⟩ := bind_eq_ok h
        obtain ⟨hc3, -, hacc3⟩ := APPADV_ok hacc2 h3
        obtain ⟨⟨s4, c4⟩, h4, h⟩ := bind_eq_ok h
        obtain ⟨hc4, hacc4, -⟩ := while_APPADV_ok isxdigit _ hacc3 h4
        obtain ⟨z, hz, h⟩ := bind_eq_ok h
        obtain ⟨u, hu, h⟩ := bind_eq_ok h
        simp only [pure_eq_ok, Res.ok.injEq, Prod.mk.injEq] at h
        obtain ⟨e1, e2⟩ := h
        subst e1 e2
        exact ⟨by omega, hacc4, fun _ _ _ => by omega⟩
      · simp only [hxx, Bool.false_eq_true, if_false] at h
        obtain ⟨hc4, hacc4, -⟩ := while_APPADV_ok is_octal_digit _ hacc2 h
        exact ⟨by omega, hacc4, fun _ _ _ => by omega⟩
    · simp only [hz, Bool.false_eq_true, if_false, pure_eq_ok, Res.ok.injEq, Prod.mk.injEq] at h
      obtain ⟨e1, e2⟩ := h
      subst e1 e2
      refine ⟨Nat.le_refl _, hacc, fun y hy hd => ?_⟩
      rw [hx] at hy
      simp only [Res.ok.injEq] at hy
      subst hy
      simp only [is_nonzero_digit, hd, Bool.true_and, bne_iff_ne, ne_eq, Bool.not_eq_true,
        Bool.not_eq_true', beq_eq_false_iff_ne, Decidable.not_not] at hnz hz
      exact absurd hnz hz

theorem suffix_ok {line : List Nat} {co c c1 : Nat} {str str1 : string}
    (hacc : Acc line co str c)
    (h : read_integer_constant.suffix line str c = Res.ok (str1, c1)) :
    c ≤ c1 ∧ Acc line co str1 c1 := by
  unfold read_integer_constant.suffix at h
  obtain ⟨x, hx, h⟩ := bind_eq_ok h
  by_cases hu : (x == 'u'.toNat || x == 'U'.toNat) = true
  · simp only [hu, if_true] at h
    obtain ⟨⟨s2, c2⟩, h2, h⟩ := bind_eq_ok h
    obtain ⟨hc2, -, hacc2⟩ := APPADV_ok hacc h2
    obtain ⟨y, hy, h⟩ := bind_eq_ok h
    by_cases hl : (y == 'l'.toNat || y == 'L'.toNat) = true
    · simp only [hl, if_true] at h
      obtain ⟨⟨s3, c3⟩, h3, h⟩ := bind_eq_ok h
      obtain ⟨hc3, -, hacc3⟩ := APPADV_ok hacc2 h3
      obtain ⟨z, hz, h⟩ := bind_eq_ok h
      obtain ⟨p, hp, h⟩ := bind_eq_ok h
      obtain ⟨hle, hacc1⟩ := opt_APPADV_ok hacc3 h
      exact ⟨by omega, hacc1⟩
    · simp only [hl, Bool.false_eq_true, if_false, pure_eq_ok, Res.ok.injEq, Prod.mk.injEq] at h
      obtain ⟨e1, e2⟩ := h
      subst e1 e2
      exact ⟨by omega, hacc2⟩
  · simp only [hu, Bool.false_eq_true, if_false] at h
    by_cases hl : (x == 'l'.toNat || x == 'L'.toNat) = true
    · simp only [hl, if_true] at h
      obtain ⟨⟨s2, c2⟩, h2, h⟩ := bind_eq_ok h
      obtain ⟨hc2, -, hacc2⟩ := APPADV_ok hacc h2
      obtain ⟨y, hy, h⟩ := bind_eq_ok h
      obtain ⟨p, hp, h⟩ := bind_eq_ok h
      obtain ⟨⟨s3, c3⟩, h3, h⟩ := bind_eq_ok h
      obtain ⟨hle3, hacc3⟩ := opt_APPADV_ok hacc2 h3
      obtain ⟨z, hz, h⟩ := bind_eq_ok h
      obtain ⟨hle, hacc1⟩ := opt_APPADV_ok hacc3 h
      exact ⟨by omega, hacc1⟩
    · simp only [hl, Bool.false_eq_true, if_false, pure_eq_ok, Res.ok.injEq, Prod.mk.injEq] at h
      obtain ⟨e1, e2⟩ := h
      subst e1 e2
      exact ⟨Nat.le_refl _, hacc⟩

theorem char_sequence_body_ok {line : List Nat} {co c c1 : Nat} {str str1 : string}
    {flag : Bool} (hacc : Acc line co str c)
    (h : char_sequence_body line str c = Res.ok (flag, str1, c1)) :
    c ≤ c1 ∧ Acc line co str1 c1 := by
  unfold char_sequence_body at h
  obtain ⟨x, hx, h⟩ := bind_eq_ok h
  by_cases hnl : (x == '\n'.toNat) = true
  · simp only [hnl, if_true, pure_eq_ok, Res.ok.injEq, Prod.mk.injEq] at h
    obtain ⟨-, e1, e2⟩ := h
    subst e1 e2
    exact ⟨Nat.le_refl _, hacc⟩
  · simp only [hnl, Bool.false_eq_true, if_false] at h
    by_cases hbs : (x == '\\'.toNat) = true
    · simp only [hbs, if_true] at h
      obtain ⟨⟨s2, c2⟩, h2, h⟩ := bind_eq_ok h
      obtain ⟨hc2, -, hacc2⟩ := APPADV_ok hacc h2
      obtain ⟨y, hy, h⟩ := bind_eq_ok h
      by_cases hsimple : is_simple_escape_sequence_character y = true
      · simp only [hsimple, if_true] at h
        obtain ⟨⟨s3, c3⟩, h3, h⟩ := bind_eq_ok h
        obtain ⟨hc3, -, hacc3⟩ := APPADV_ok hacc2 h3
        simp only [pure_eq_ok, Res.ok.injEq, Prod.mk.injEq] at h
        obtain ⟨-, e1, e2⟩ := h
        subst e1 e2
        exact ⟨by omega, hacc3⟩
      · simp only [hsimple, Bool.false_eq_true, if_false] at h
        by_cases hoct : is_octal_digit y = true
        · simp only [hoct, if_true] at h
          obtain ⟨⟨s3, c3⟩, h3, h⟩ := bind_eq_ok h
          obtain ⟨hc3, -, hacc3⟩ := APPADV_ok hacc2 h3
          obtain ⟨y2, hy2, h⟩ := bind_eq_ok h
          by_cases hoct2 : is_octal_digit y2 = true
          · simp only [hoct2, if_true] at h
            obtain ⟨⟨s4, c4⟩, h4, h⟩ := bind_eq_ok h
            obtain ⟨hc4, -, hacc4⟩ := APPADV_ok hacc3 h4
            obtain ⟨y3, hy3, h⟩ := bind_eq_ok h
            by_cases hoct3 : is_octal_digit y3 = true
            · simp only [hoct3, if_true] at h
              obtain ⟨⟨s5, c5⟩, h5, h⟩ := bind_eq_ok h
              obtain ⟨hc5, -, hacc5⟩ := APPADV_ok hacc4 h5
              simp only [pure_eq_ok, Res.ok.injEq, Prod.mk.injEq] at h
              obtain ⟨-, e1, e2⟩ := h
              subst e1 e2
              exact ⟨by omega, hacc5⟩
            · simp only [hoct3, Bool.false_eq_true, if_false, pure_eq_ok, Res.ok.injEq,
                Prod.mk.injEq] at h
              obtain ⟨-, e1, e2⟩ := h
              subst e1 e2
              exact ⟨by omega, hacc4⟩
          · simp only [hoct2, Bool.false_eq_true, if_false, pure_eq_ok, Res.ok.injEq,
              Prod.mk.injEq] at h
            obtain ⟨-, e1, e2⟩ := h
            subst e1 e2
            exact ⟨by omega, hacc3⟩
        · simp only [hoct, Bool.false_eq_true, if_false] at h
          by_cases hhex : (y == 'x'.toNat) = true
          · simp only [hhex, if_true] at h
            obtain ⟨⟨s3, c3⟩, h3, h⟩ := bind_eq_ok h
            obtain ⟨hc3, -, hacc3⟩ := APPADV_ok hacc2 h3
            obtain ⟨⟨s4, c4⟩, h4, h⟩ := bind_eq_ok h
            obtain ⟨hc4, hacc4, -⟩ := while_APPADV_ok isxdigit _ hacc3 h4
            simp only [pure_eq_ok, Res.ok.injEq, Prod.mk.injEq] at h
            obtain ⟨-, e1, e2⟩ := h
            subst e1 e2
            exact ⟨by omega, hacc4⟩
          · simp only [hhex, Bool.false_eq_true, if_false, read_universal_character_name,
              pure_eq_ok, ok_bind] at h
            simp only [show ((-1 : Int) == 0) = false from rfl, Bool.false_eq_true, if_false,
              Res.ok.injEq, Prod.mk.injEq] at h
            obtain ⟨-, e1, e2⟩ := h
            subst e1 e2
            exact ⟨by omega, hacc2⟩
    · simp only [hbs, Bool.false_eq_true, if_false] at h
      obtain ⟨⟨s2, c2⟩, h2, h⟩ := bind_eq_ok h
      obtain ⟨hc2, -, hacc2⟩ := APPADV_ok hacc h2
      simp only [pure_eq_ok, Res.ok.injEq, Prod.mk.injEq] at h
      obtain ⟨-, e1, e2⟩ := h
      subst e1 e2
      exact ⟨by omega, hacc2⟩

theorem char_sequence_loop_ok (q : Nat) {line : List Nat} {co : Nat} (fuel : Nat) :
    ∀ {c c1 : Nat} {str str1 : string} {flag : Bool}, Acc line co str c →
      char_sequence_loop q line fuel str c = Res.ok (flag, str1, c1) →
      c ≤ c1 ∧ Acc line co str1 c1 ∧ (flag = true → rd line c1 = Res.ok q) := by
  induction fuel with
  | zero => intro c c1 str str1 flag _ h; simp [char_sequence_loop] at h
  | succ fuel ih =>
    intro c c1 str str1 flag hacc h
    rw [char_sequence_loop] at h
    obtain ⟨x, hx, h⟩ := bind_eq_ok h
    by_cases hq : x = q
    · subst hq
      simp only [bne_self_eq_false, Bool.false_eq_true, if_false, pure_eq_ok, Res.ok.injEq,
        Prod.mk.injEq] at h
      obtain ⟨-, e1, e2⟩ := h
      subst e1 e2
      exact ⟨Nat.le_refl _, hacc, fun _ => hx⟩
    · have hne : (x != q) = true := by simpa using hq
      simp only [hne, if_true] at h
      obtain ⟨⟨go_on, s2, c2⟩, h2, h⟩ := bind_eq_ok h
      obtain ⟨hc2, hacc2⟩ := char_sequence_body_ok hacc h2
      cases go_on with
      | true =>
        simp only [if_true] at h
        obtain ⟨hle, hacc1, hflag⟩ := ih hacc2 h
        exact ⟨by omega, hacc1, hflag⟩
      | false =>
        simp only [Bool.false_eq_true, if_false, pure_eq_ok, Res.ok.injEq, Prod.mk.injEq] at h
        obtain ⟨e0, e1, e2⟩ := h
        subst e0 e1 e2
        exact ⟨hc2, hacc2, fun hf => by simp at hf⟩

theorem char_sequence_exit_zero {leno : Nat} {r : Bool × string × Nat} {c1 : Nat}
    {str1 : string} (h : char_sequence_exit leno r = Res.ok (0, c1, str1)) :
    r = (true, str1, c1) := by
  obtain ⟨flag, s, c⟩ := r
  cases flag with
  | true =>
    simp only [char_sequence_exit, pure_eq_ok, Res.ok.injEq, Prod.mk.injEq, true_and] at h
    rw [h.1, h.2]
  | false =>
    simp only [char_sequence_exit] at h
    obtain ⟨arr, -, h⟩ := bind_eq_ok h
    simp at h

theorem read_c_char_sequence_ok {line : List Nat} {co c c1 : Nat} {str str1 : string}
    (hacc : Acc line co str c)
    (h : read_c_char_sequence line c str = Res.ok (0, c1, str1)) :
    c ≤ c1 ∧ Acc line co str1 c1 ∧ rd line c1 = Res.ok '\''.toNat := by
  unfold read_c_char_sequence at h
  obtain ⟨r, hr, h⟩ := bind_eq_ok h
  rw [char_sequence_exit_zero h] at hr
  obtain ⟨h1, h2, h3⟩ := char_sequence_loop_ok _ _ hacc hr
  exact ⟨h1, h2, h3 rfl⟩

theorem read_s_char_sequence_ok {line : List Nat} {co c c1 : Nat} {str str1 : string}
    (hacc : Acc line co str c)
    (h : read_s_char_sequence line c str = Res.ok (0, c1, str1)) :
    c ≤ c1 ∧ Acc line co str1 c1 ∧ rd line c1 = Res.ok '\"'.toNat := by
  unfold read_s_char_sequence at h
  obtain ⟨r, hr, h⟩ := bind_eq_ok h
  rw [char_sequence_exit_zero h] at hr
  obtain ⟨h1, h2, h3⟩ := char_sequence_loop_ok _ _ hacc hr
  exact ⟨h1, h2, h3 rfl⟩

theorem character_opening_ok {line : List Nat} {co c c1 : Nat} {str str1 : string}
    (hacc : Acc line co str c)
    (h : read_character_constant.opening line str c = Res.ok (str1, c1)) :
    c < c1 ∧ Acc line co str1 c1 := by
  unfold read_character_constant.opening at h
  obtain ⟨x, hx, h⟩ := bind_eq_ok h
  by_cases hq : (x == '\''.toNat) = true
  · simp only [hq, if_true] at h
    obtain ⟨hc1, -, hacc1⟩ := APPADV_ok hacc h
    exact ⟨by omega, hacc1⟩
  · simp only [hq, Bool.false_eq_true, if_false] at h
    obtain ⟨enc, henc, h⟩ := bind_eq_ok h
    cases enc with
    | true =>
      simp only [if_true] at h
      obtain ⟨⟨s2, c2⟩, h2, h⟩ := bind_eq_ok h
      obtain ⟨hc2, -, hacc2⟩ := APPADV_ok hacc h2
      obtain ⟨hc1, -, hacc1⟩ := APPADV_ok hacc2 h
      exact ⟨by omega, hacc1⟩
    | false => simp [goto_error] at h

theorem string_opening_ok {line : List Nat} {co c c1 : Nat} {str str1 : string}
    (hacc : Acc line co str c)
    (h : read_string_literal.opening line str c = Res.ok (str1, c1)) :
    c < c1 ∧ Acc line co str1 c1 := by
  unfold read_string_literal.opening at h
  obtain ⟨x, hx, h⟩ := bind_eq_ok h
  by_cases hq : (x == '\"'.toNat) = true
  · simp only [hq, if_true] at h
    obtain ⟨hc1, -, hacc1⟩ := APPADV_ok hacc h
    exact ⟨by omega, hacc1⟩
  · simp only [hq, Bool.false_eq_true, if_false] at h
    obtain ⟨enc, henc, h⟩ := bind_eq_ok h
    cases enc with
    | true =>
      simp only [if_true] at h
      obtain ⟨⟨s2, c2⟩, h2, h⟩ := bind_eq_ok h
      obtain ⟨hc2, -, hacc2⟩ := APPADV_ok hacc h2
      obtain ⟨hc1, -, hacc1⟩ := APPADV_ok hacc2 h
      exact ⟨by omega, hacc1⟩
    | false =>
      simp only [Bool.false_eq_true, if_false] at h
      obtain ⟨enc8, henc8, h⟩ := bind_eq_ok h
      cases enc8 with
      | true =>
        simp only [if_true] at h
        obtain ⟨⟨s2, c2⟩, h2, h⟩ := bind_eq_ok h
        obtain ⟨hc2, -, hacc2⟩ := APPADV_ok hacc h2
        obtain ⟨⟨s3, c3⟩, h3, h⟩ := bind_eq_ok h
        obtain ⟨hc3, -, hacc3⟩ := APPADV_ok hacc2 h3
        obtain ⟨hc1, -, hacc1⟩ := APPADV_ok hacc3 h
        exact ⟨by omega, hacc1⟩
      | false => simp [goto_error] at h

theorem reader_exit_zero {co : Nat} {tok : token} {body : Res (Nat × token)}
    {c1 : Nat} {tok1 : token}
    (h : reader_exit co tok body = Res.ok (0, c1, tok1)) : body = Res.ok (c1, tok1) := by
  unfold reader_exit at h
  split at h
  · simp only [Res.ok.injEq, Prod.mk.injEq, true_and] at h
    rw [h.1, h.2]
  · simp at h
  · simp at h

theorem reader_exit_nonzero {co : Nat} {tok : token} {body : Res (Nat × token)}
    {r : Int} {c1 : Nat} {tok1 : token}
    (h : reader_exit co tok body = Res.ok (r, c1, tok1)) (hr : r ≠ 0) :
    c1 = co ∧ tok1 = tok := by
  unfold reader_exit at h
  split at h
  · simp only [Res.ok.injEq, Prod.mk.injEq] at h
    exact absurd h.1.symm hr
  · simp only [Res.ok.injEq, Prod.mk.injEq] at h
    exact ⟨h.2.1.symm, h.2.2.symm⟩
  · simp at h

theorem keyword_lookup_ok {str : string} (n : Nat) :
    ∀ {i : Nat} {tok tok1 : token}, keyword_lookup str n i tok = Res.ok tok1 →
      tok1.str = tok.str ∧ (tok1.type = tok.type ∨ tok1.type < i + n) := by
  induction n with
  | zero =>
    intro i tok tok1 h
    simp only [keyword_lookup, pure_eq_ok, Res.ok.injEq] at h
    subst h
    exact ⟨rfl, Or.inl rfl⟩
  | succ n ih =>
    intro i tok tok1 h
    rw [keyword_lookup] at h
    obtain ⟨eq, -, h⟩ := bind_eq_ok h
    cases eq with
    | true =>
      simp only [if_true, pure_eq_ok, Res.ok.injEq] at h
      subst h
      exact ⟨rfl, Or.inr (by simp only; omega)⟩
    | false =>
      simp only [Bool.false_eq_true, if_false] at h
      obtain ⟨h1, h2⟩ := ih h
      exact ⟨h1, h2.imp id (fun h3 => by omega)⟩

theorem read_keyword_or_identifier_ok {line : List Nat} {c c1 : Nat} {tok tok1 : token}
    (h : read_keyword_or_identifier line c tok = Res.ok (0, c1, tok1)) :
    Consumed line c tok c1 tok1 ∧
      (tok1.type < NUM_KEYWORDS ∨ tok1.type = TOKEN_IDENTIFER
        ∨ (tok1.type = tok.type ∧ tok.type ≠ TOKEN_INDETERMINATE)) := by
  have h := reader_exit_zero h
  obtain ⟨x, hx, h⟩ := bind_eq_ok h
  obtain ⟨u, hu, h⟩ := bind_eq_ok h
  obtain ⟨⟨s2, c2⟩, h2, h⟩ := bind_eq_ok h
  obtain ⟨y, hy, h⟩ := bind_eq_ok h
  obtain ⟨u2, hu2, h⟩ := bind_eq_ok h
  obtain ⟨t, ht, h⟩ := bind_eq_ok h
  obtain ⟨s, hs, h⟩ := bind_eq_ok h
  simp only [pure_eq_ok, Res.ok.injEq, Prod.mk.injEq] at h
  obtain ⟨e1, e2⟩ := h
  subst e1 e2
  have hstart : is_identifier_nondigit x = true := by simpa using error_if_ok hu
  have hid : is_identifier x = true := by
    simp only [is_identifier_nondigit, Bool.or_eq_true] at hstart
    simp only [is_identifier, isalnum, Bool.or_eq_true]
    rcases hstart with h1 | h1
    · exact Or.inl (Or.inl h1)
    · exact Or.inr h1
  obtain ⟨hle, hacc, hprog⟩ :=
    while_APPADV_ok is_identifier _ (acc_entry line c (by have := rd_ok_le hx; omega)) h2
  obtain ⟨hstr, htype⟩ := keyword_lookup_ok _ ht
  refine ⟨⟨hprog x hx hid, rd_ok_le hy, s2, hacc.2.2, ?_⟩, ?_⟩
  · rw [← hstr]
    by_cases hind : (t.type == TOKEN_INDETERMINATE) = true
    · simpa only [hind, if_true] using hs
    · simpa only [hind, Bool.false_eq_true, if_false] using hs
  · by_cases hind : (t.type == TOKEN_INDETERMINATE) = true
    · rw [if_pos hind]
      exact Or.inr (Or.inl rfl)
    · rw [if_neg hind]
      rcases htype with h1 | h1
      · exact Or.inr (Or.inr ⟨h1, by rw [← h1]; simpa using hind⟩)
      · exact Or.inl (by simpa using h1)

theorem read_integer_constant_ok {line : List Nat} {c c1 : Nat} {tok tok1 : token}
    (h : read_integer_constant line c tok = Res.ok (0, c1, tok1)) :
    Consumed line c tok c1 tok1 ∧ tok1.type = TOKEN_INT_CONST := by
  have h := reader_exit_zero h
  obtain ⟨x, hx, h⟩ := bind_eq_ok h
  obtain ⟨u, hu, h⟩ := bind_eq_ok h
  obtain ⟨⟨s2, c2⟩, h2, h⟩ := bind_eq_ok h
  obtain ⟨⟨s3, c3⟩, h3, h⟩ := bind_eq_ok h
  obtain ⟨y, hy, h⟩ := bind_eq_ok h
  obtain ⟨u2, hu2, h⟩ := bind_eq_ok h
  obtain ⟨u3, hu3, h⟩ := bind_eq_ok h
  obtain ⟨s, hs, h⟩ := bind_eq_ok h
  simp only [pure_eq_ok, Res.ok.injEq, Prod.mk.injEq] at h
  obtain ⟨e1, e2⟩ := h
  subst e1 e2
  have hd : isdigit x = true := by simpa using error_if_ok hu
  obtain ⟨hle2, hacc2, hprog⟩ :=
    digits_ok (acc_entry line c (by have := rd_ok_le hx; omega)) h2
  obtain ⟨hle3, hacc3⟩ := suffix_ok hacc2 h3
  have := hprog x hx hd
  exact ⟨⟨by omega, rd_ok_le hy, s3, hacc3.2.2, hs⟩, rfl⟩

theorem read_floating_constant_ok {line : List Nat} {c c1 : Nat} {tok tok1 : token}
    (h : read_floating_constant line c tok = Res.ok (0, c1, tok1)) :
    Consumed line c tok c1 tok1 ∧ tok1.type = TOKEN_FLOAT_CONST := by
  have h := reader_exit_zero h
  obtain ⟨x, hx, h⟩ := bind_eq_ok h
  obtain ⟨hex, hhex, h⟩ := bind_eq_ok h
  obtain ⟨⟨s2, c2⟩, h2, h⟩ := bind_eq_ok h
  obtain ⟨y, hy, h⟩ := bind_eq_ok h
  obtain ⟨⟨s3, c3⟩, h3, h⟩ := bind_eq_ok h
  obtain ⟨z, hz, h⟩ := bind_eq_ok h
  obtain ⟨u2, hu2, h⟩ := bind_eq_ok h
  obtain ⟨u3, hu3, h⟩ := bind_eq_ok h
  obtain ⟨s, hs, h⟩ := bind_eq_ok h
  simp only [pure_eq_ok, Res.ok.injEq, Prod.mk.injEq] at h
  obtain ⟨e1, e2⟩ := h
  subst e1 e2
  have hentry := acc_entry line c (by have := rd_ok_le hx; omega)
  have h2acc : c < c2 ∧ Acc line c s2 c2 := by
    cases hex with
    | true => exact hexadecimal_ok hentry (by simpa using h2)
    | false => exact decimal_ok hentry (by simpa using h2)
  obtain ⟨hle3, hacc3⟩ := opt_APPADV_ok h2acc.2 h3
  exact ⟨⟨by omega, rd_ok_le hz, s3, hacc3.2.2, hs⟩, rfl⟩

theorem read_character_constant_ok {line : List Nat} {c c1 : Nat} {tok tok1 : token}
    (h : read_character_constant line c tok = Res.ok (0, c1, tok1)) :
    Consumed line c tok c1 tok1 ∧ tok1.type = TOKEN_CHAR_CONST
      ∧ rd line (c1 - 1) = Res.ok '\''.toNat := by
  have h := reader_exit_zero h
  obtain ⟨⟨s2, c2⟩, h2, h⟩ := bind_eq_ok h
  obtain ⟨⟨r, c3, s3⟩, h3, h⟩ := bind_eq_ok h
  obtain ⟨u, hu, h⟩ := bind_eq_ok h
  obtain ⟨y, hy, h⟩ := bind_eq_ok h
  obtain ⟨u2, hu2, h⟩ := bind_eq_ok h
  obtain ⟨⟨s4, c4⟩, h4, h⟩ := bind_eq_ok h
  obtain ⟨s, hs, h⟩ := bind_eq_ok h
  simp only [pure_eq_ok, Res.ok.injEq, Prod.mk.injEq] at h
  obtain ⟨e1, e2⟩ := h
  subst e1 e2
  have hc : c ≤ line.length + 1 := by
    by_contra hgt
    unfold read_character_constant.opening at h2
    rw [rd_gt (by omega)] at h2
    simp at h2
  obtain ⟨hlt2, hacc2⟩ := character_opening_ok (acc_entry line c hc) h2
  have hr : r = 0 := by simpa using error_if_ok hu
  subst hr
  obtain ⟨hle3, hacc3, -⟩ := read_c_char_sequence_ok hacc2 h3
  have hyq : y = '\''.toNat := by simpa using error_if_ok hu2
  obtain ⟨hc4, -, hacc4⟩ := APPADV_ok hacc3 h4
  have hlt : c3 < line.length := rd_ok_ne_zero hy (by rw [hyq]; decide)
  refine ⟨⟨by omega, by omega, s4, hacc4.2.2, hs⟩, rfl, ?_⟩
  rw [hc4, Nat.add_sub_cancel, hy, hyq]

theorem read_string_literal_ok {line : List Nat} {c c1 : Nat} {tok tok1 : token}
    (h : read_string_literal line c tok = Res.ok (0, c1, tok1)) :
    Consumed line c tok c1 tok1 ∧ tok1.type = TOKEN_STRING_LITERAL
      ∧ rd line (c1 - 1) = Res.ok '\"'.toNat := by
  have h := reader_exit_zero h
  obtain ⟨⟨s2, c2⟩, h2, h⟩ := bind_eq_ok h
  obtain ⟨⟨r, c3, s3⟩, h3, h⟩ := bind_eq_ok h
  obtain ⟨u, hu, h⟩ := bind_eq_ok h
  obtain ⟨y, hy, h⟩ := bind_eq_ok h
  obtain ⟨u2, hu2, h⟩ := bind_eq_ok h
  obtain ⟨⟨s4, c4⟩, h4, h⟩ := bind_eq_ok h
  obtain ⟨s, hs, h⟩ := bind_eq_ok h
  simp only [pure_eq_ok, Res.ok.injEq, Prod.mk.injEq] at h
  obtain ⟨e1, e2⟩ := h
  subst e1 e2
  have hc : c ≤ line.length + 1 := by
    by_contra hgt
    unfold read_string_literal.opening at h2
    rw [rd_gt (by omega)] at h2
    simp at h2
  obtain ⟨hlt2, hacc2⟩ := string_opening_ok (acc_entry line c hc) h2
  have hr : r = 0 := by simpa using error_if_ok hu
  subst hr
  obtain ⟨hle3, hacc3, -⟩ := read_s_char_sequence_ok hacc2 h3
  have hyq : y = '\"'.toNat := by simpa using error_if_ok hu2
  obtain ⟨hc4, -, hacc4⟩ := APPADV_ok hacc3 h4
  have hlt : c3 < line.length := rd_ok_ne_zero hy (by rw [hyq]; decide)
  refine ⟨⟨by omega, by omega, s4, hacc4.2.2, hs⟩, rfl, ?_⟩
  rw [hc4, Nat.add_sub_cancel, hy, hyq]

theorem punctuator_tree_ok {line : List Nat} {c c1 k : Nat}
    (h : read_punctuator.tree line c = Res.ok (c1, k)) :
    TOKEN_BRACKET_OPEN ≤ k ∧ k ≤ TOKEN_TWO_SHARP ∧ c < c1 := by
  unfold read_punctuator.tree at h
  obtain ⟨x, hx, h⟩ := bind_eq_ok h
  by_cases h0 : (x == '['.toNat) = true
  · rw [if_pos h0] at h
    all_goals (simp only [pure_eq_ok, Res.ok.injEq, Prod.mk.injEq] at h)
    all_goals (obtain ⟨e1, e2⟩ := h; subst e1 e2)
    all_goals exact ⟨by decide, by decide, by simp only [ADV]; omega⟩
  rw [if_neg h0] at h
  by_cases h1 : (x == ']'.toNat) = true
  · rw [if_pos h1] at h
    all_goals (simp only [pure_eq_ok, Res.ok.injEq, Prod.mk.injEq] at h)
    all_goals (obtain ⟨e1, e2⟩ := h; subst e1 e2)
    all_goals exact ⟨by decide, by decide, by simp only [ADV]; omega⟩
  rw [if_neg h1] at h
  by_cases h2 : (x == '('.toNat) = true
  · rw [if_pos h2] at h
    all_goals (simp only [pure_eq_ok, Res.ok.injEq, Prod.mk.injEq] at h)
    all_goals (obtain ⟨e1, e2⟩ := h; subst e1 e2)
    all_goals exact ⟨by decide, by decide, by simp only [ADV]; omega⟩
  rw [if_neg h2] at h
  by_cases h3 : (x == ')'.toNat) = true
  · rw [if_pos h3] at h
    all_goals (simp only [pure_eq_ok, Res.ok.injEq, Prod.mk.injEq] at h)
    all_goals (obtain ⟨e1, e2⟩ := h; subst e1 e2)
    all_goals exact ⟨by decide, by decide, by simp only [ADV]; omega⟩
  rw [if_neg h3] at h
  by_cases h4 : (x == '{'.toNat) = true
  · rw [if_pos h4] at h
    all_goals (simp only [pure_eq_ok, Res.ok.injEq, Prod.mk.injEq] at h)
    all_goals (obtain ⟨e1, e2⟩ := h; subst e1 e2)
    all_goals exact ⟨by decide, by decide, by simp only [ADV]; omega⟩
  rw [if_neg h4] at h
  by_cases h5 : (x == '}'.toNat) = true
  · rw [if_pos h5] at h
    all_goals (simp only [pure_eq_ok, Res.ok.injEq, Prod.mk.injEq] at h)
    all_goals (obtain ⟨e1, e2⟩ := h; subst e1 e2)
    all_goals exact ⟨by decide, by decide, by simp only [ADV]; omega⟩
  rw [if_neg h5] at h
  by_cases h6 : (x == '.'.toNat) = true
  · rw [if_pos h6] at h
    repeat' (first | (split at h) | (obtain ⟨_, _, h⟩ := bind_eq_ok h))
    all_goals (simp only [pure_eq_ok, Res.ok.injEq, Prod.mk.injEq] at h)
    all_goals (obtain ⟨e1, e2⟩ := h; subst e1 e2)
    all_goals exact ⟨by decide, by decide, by simp only [ADV]; omega⟩
  rw [if_neg h6] at h
  by_cases h7 : (x == '-'.toNat) = true
  · rw [if_pos h7] at h
    repeat' (first | (split at h) | (obtain ⟨_, _, h⟩ := bind_eq_ok h))
    all_goals (simp only [pure_eq_ok, Res.ok.injEq, Prod.mk.injEq] at h)
    all_goals (obtain ⟨e1, e2⟩ := h; subst e1 e2)
    all_goals exact ⟨by decide, by decide, by simp only [ADV]; omega⟩
  rw [if_neg h7] at h
  by_cases h8 : (x == '+'.toNat) = true
  · rw [if_pos h8] at h
    repeat' (first | (split at h) | (obtain ⟨_, _, h⟩ := bind_eq_ok h))
    all_goals (simp only [pure_eq_ok, Res.ok.injEq, Prod.mk.injEq] at h)
    all_goals (obtain ⟨e1, e2⟩ := h; subst e1 e2)
    all_goals exact ⟨by decide, by decide, by simp only [ADV]; omega⟩
  rw [if_neg h8] at h
  by_cases h9 : (x == '&'.toNat) = true
  · rw [if_pos h9] at h
    repeat' (first | (split at h) | (obtain ⟨_, _, h⟩ := bind_eq_ok h))
    all_goals (simp only [pure_eq_ok, Res.ok.injEq, Prod.mk.injEq] at h)
    all_goals (obtain ⟨e1, e2⟩ := h; subst e1 e2)
    all_goals exact ⟨by decide, by decide, by simp only [ADV]; omega⟩
  rw [if_neg h9] at h
  by_cases h10 : (x == '*'.toNat) = true
  · rw [if_pos h10] at h
    repeat' (first | (split at h) | (obtain ⟨_, _, h⟩ := bind_eq_ok h))
    all_goals (simp only [pure_eq_ok, Res.ok.injEq, Prod.mk.injEq] at h)
    all_goals (obtain ⟨e1, e2⟩ := h; subst e1 e2)
    all_goals exact ⟨by decide, by decide, by simp only [ADV]; omega⟩
  rw [if_neg h10] at h
  by_cases h11 : (x == '~'.toNat) = true
  · rw [if_pos h11] at h
    all_goals (simp only [pure_eq_ok, Res.ok.injEq, Prod.mk.injEq] at h)
    all_goals (obtain ⟨e1, e2⟩ := h; subst e1 e2)
    all_goals exact ⟨by decide, by decide, by simp only [ADV]; omega⟩
  rw [if_neg h11] at h
  by_cases h12 : (x == '!'.toNat) = true
  · rw [if_pos h12] at h
    repeat' (first | (split at h) | (obtain ⟨_, _, h⟩ := bind_eq_ok h))
    all_goals (simp only [pure_eq_ok, Res.ok.injEq, Prod.mk.injEq] at h)
    all_goals (obtain ⟨e1, e2⟩ := h; subst e1 e2)
    all_goals exact ⟨by decide, by decide, by simp only [ADV]; omega⟩
  rw [if_neg h12] at h
  by_cases h13 : (x == '/'.toNat) = true
  · rw [if_pos h13] at h
    repeat' (first | (split at h) | (obtain ⟨_, _, h⟩ := bind_eq_ok h))
    all_goals (simp only [pure_eq_ok, Res.ok.injEq, Prod.mk.injEq] at h)
    all_goals (obtain ⟨e1, e2⟩ := h; subst e1 e2)
    all_goals exact ⟨by decide, by decide, by simp only [ADV]; omega⟩
  rw [if_neg h13] at h
  by_cases h14 : (x == '%'.toNat) = true
  · rw [if_pos h14] at h
    repeat' (first | (split at h) | (obtain ⟨_, _, h⟩ := bind_eq_ok h))
    all_goals (simp only [pure_eq_ok, Res.ok.injEq, Prod.mk.injEq] at h)
    all_goals (obtain ⟨e1, e2⟩ := h; subst e1 e2)
    all_goals exact ⟨by decide, by decide, by simp only [ADV]; omega⟩
  rw [if_neg h14] at h
  by_cases h15 : (x == '<'.toNat) = true
  · rw [if_pos h15] at h
    repeat' (first | (split at h) | (obtain ⟨_, _, h⟩ := bind_eq_ok h))
    all_goals (simp only [pure_eq_ok, Res.ok.injEq, Prod.mk.injEq] at h)
    all_goals (obtain ⟨e1, e2⟩ := h; subst e1 e2)
    all_goals exact ⟨by decide, by decide, by simp only [ADV]; omega⟩
  rw [if_neg h15] at h
  by_cases h16 : (x == '>'.toNat) = true
  · rw [if_pos h16] at h
    repeat' (first | (split at h) | (obtain ⟨_, _, h⟩ := bind_eq_ok h))
    all_goals (simp only [pure_eq_ok, Res.ok.injEq, Prod.mk.injEq] at h)
    all_goals (obtain ⟨e1, e2⟩ := h; subst e1 e2)
    all_goals exact ⟨by decide, by decide, by simp only [ADV]; omega⟩
  rw [if_neg h16] at h
  by_cases h17 : (x == '='.toNat) = true
  · rw [if_pos h17] at h
    repeat' (first | (split at h) | (obtain ⟨_, _, h⟩ := bind_eq_ok h))
    all_goals (simp only [pure_eq_ok, Res.ok.injEq, Prod.mk.injEq] at h)
    all_goals (obtain ⟨e1, e2⟩ := h; subst e1 e2)
    all_goals exact ⟨by decide, by decide, by simp only [ADV]; omega⟩
  rw [if_neg h17] at h
  by_cases h18 : (x == '^'.toNat) = true
  · rw [if_pos h18] at h
    repeat' (first | (split at h) | (obtain ⟨_, _, h⟩ := bind_eq_ok h))
    all_goals (simp only [pure_eq_ok, Res.ok.injEq, Prod.mk.injEq] at h)
    all_goals (obtain ⟨e1, e2⟩ := h; subst e1 e2)
    all_goals exact ⟨by decide, by decide, by simp only [ADV]; omega⟩
  rw [if_neg h18] at h
  by_cases h19 : (x == '|'.toNat) = true
  · rw [if_pos h19] at h
    repeat' (first | (split at h) | (obtain ⟨_, _, h⟩ := bind_eq_ok h))
    all_goals (simp only [pure_eq_ok, Res.ok.injEq, Prod.mk.injEq] at h)
    all_goals (obtain ⟨e1, e2⟩ := h; subst e1 e2)
    all_goals exact ⟨by decide, by decide, by simp only [ADV]; omega⟩
  rw [if_neg h19] at h
  by_cases h20 : (x == '?'.toNat) = true
  · rw [if_pos h20] at h
    all_goals (simp only [pure_eq_ok, Res.ok.injEq, Prod.mk.injEq] at h)
    all_goals (obtain ⟨e1, e2⟩ := h; subst e1 e2)
    all_goals exact ⟨by decide, by decide, by simp only [ADV]; omega⟩
  rw [if_neg h20] at h
  by_cases h21 : (x == ':'.toNat) = true
  · rw [if_pos h21] at h
    repeat' (first | (split at h) | (obtain ⟨_, _, h⟩ := bind_eq_ok h))
    all_goals (simp only [pure_eq_ok, Res.ok.injEq, Prod.mk.injEq] at h)
    all_goals (obtain ⟨e1, e2⟩ := h; subst e1 e2)
    all_goals exact ⟨by decide, by decide, by simp only [ADV]; omega⟩
  rw [if_neg h21] at h
  by_cases h22 : (x == ';'.toNat) = true
  · rw [if_pos h22] at h
    all_goals (simp only [pure_eq_ok, Res.ok.injEq, Prod.mk.injEq] at h)
    all_goals (obtain ⟨e1, e2⟩ := h; subst e1 e2)
    all_goals exact ⟨by decide, by decide, by simp only [ADV]; omega⟩
  rw [if_neg h22] at h
  by_cases h23 : (x == ','.toNat) = true
  · rw [if_pos h23] at h
    all_goals (simp only [pure_eq_ok, Res.ok.injEq, Prod.mk.injEq] at h)
    all_goals (obtain ⟨e1, e2⟩ := h; subst e1 e2)
    all_goals exact ⟨by decide, by decide, by simp only [ADV]; omega⟩
  rw [if_neg h23] at h
  by_cases h24 : (x == '#'.toNat) = true
  · rw [if_pos h24] at h
    repeat' (first | (split at h) | (obtain ⟨_, _, h⟩ := bind_eq_ok h))
    all_goals (simp only [pure_eq_ok, Res.ok.injEq, Prod.mk.injEq] at h)
    all_goals (obtain ⟨e1, e2⟩ := h; subst e1 e2)
    all_goals exact ⟨by decide, by decide, by simp only [ADV]; omega⟩
  rw [if_neg h24] at h
  simp [goto_error] at h

theorem read_punctuator_ok {line : List Nat} {c c1 : Nat} {tok tok1 : token}
    (h : read_punctuator line c tok = Res.ok (0, c1, tok1)) :
    tok1.str = tok.str ∧ TOKEN_BRACKET_OPEN ≤ tok1.type ∧ tok1.type ≤ TOKEN_TWO_SHARP
      ∧ c < c1 := by
  have h := reader_exit_zero h
  obtain ⟨⟨c2, k⟩, h2, h⟩ := bind_eq_ok h
  simp only [pure_eq_ok, Res.ok.injEq, Prod.mk.injEq] at h
  obtain ⟨e1, e2⟩ := h
  subst e1 e2
  obtain ⟨h1, h3, h4⟩ := punctuator_tree_ok h2
  exact ⟨rfl, h1, h3, h4⟩

/-! ### The dispatcher -/

theorem reader_failure_keeps_string
    {reader : List Nat → Nat → token → Res (Int × Nat × token)}
    (hreader : reader ∈ token_readers)
    {line : List Nat} {c : Nat} {tok : token} {r : Int} {c1 : Nat} {tok1 : token}
    (hret : reader line c tok = Res.ok (r, c1, tok1)) (hfail : r ≠ 0) :
    c1 = c ∧ tok1.str = tok.str := by
  simp only [token_readers, List.mem_cons, List.mem_singleton, List.not_mem_nil, or_false]
    at hreader
  rcases hreader with h | h | h | h | h | h <;> subst h
  · obtain ⟨h1, h2⟩ := reader_exit_nonzero hret hfail
    exact ⟨h1, by rw [h2]⟩
  · obtain ⟨h1, h2⟩ := reader_exit_nonzero hret hfail
    exact ⟨h1, by rw [h2]⟩
  · obtain ⟨h1, h2⟩ := reader_exit_nonzero hret hfail
    exact ⟨h1, by rw [h2]⟩
  · obtain ⟨h1, h2⟩ := reader_exit_nonzero hret hfail
    exact ⟨h1, by rw [h2]⟩
  · obtain ⟨h1, h2⟩ := reader_exit_nonzero hret hfail
    exact ⟨h1, by rw [h2]⟩
  · obtain ⟨h1, h2⟩ := reader_exit_nonzero hret hfail
    exact ⟨h1, by rw [h2]⟩

/-- A successful attempt of the dispatcher is the success of one of the six readers, entered
at the attempt's cursor with a token whose string is the one the attempt started with. -/
theorem try_readers_ok {line : List Nat} {c c1 : Nat} {tok tok1 : token}
    (h : try_readers line c tok = Res.ok (false, c1, tok1)) :
    read_keyword_or_identifier line c tok = Res.ok (0, c1, tok1)
    ∨ ∃ t : token, t.str = tok.str ∧
        (read_integer_constant line c t = Res.ok (0, c1, tok1)
        ∨ read_floating_constant line c t = Res.ok (0, c1, tok1)
        ∨ read_character_constant line c t = Res.ok (0, c1, tok1)
        ∨ read_string_literal line c t = Res.ok (0, c1, tok1)
        ∨ read_punctuator line c t = Res.ok (0, c1, tok1)) := by
  unfold try_readers at h
  obtain ⟨⟨r1, c2, t2⟩, h1, g1⟩ := bind_eq_ok h
  clear h
  by_cases hr1 : r1 = 0
  · subst hr1
    simp only [beq_self_eq_true, if_true, pure_eq_ok, Res.ok.injEq, Prod.mk.injEq, true_and] at g1
    obtain ⟨e1, e2⟩ := g1
    subst e1 e2
    exact Or.inl h1
  have hb1 : (r1 == 0) = false := beq_false_of_ne hr1
  simp only [hb1, Bool.false_eq_true, if_false] at g1
  obtain ⟨e1, s1⟩ := reader_failure_keeps_string (by simp [token_readers]) h1 hr1
  subst e1
  right
  obtain ⟨⟨r2, c3, t3⟩, h2, g2⟩ := bind_eq_ok g1
  clear g1
  by_cases hr2 : r2 = 0
  · subst hr2
    simp only [beq_self_eq_true, if_true, pure_eq_ok, Res.ok.injEq, Prod.mk.injEq, true_and] at g2
    obtain ⟨e1, e2⟩ := g2
    subst e1 e2
    exact ⟨t2, by rw [s1], Or.inl h2⟩
  have hb2 : (r2 == 0) = false := beq_false_of_ne hr2
  simp only [hb2, Bool.false_eq_true, if_false] at g2
  obtain ⟨e1, s2⟩ := reader_failure_keeps_string (by simp [token_readers]) h2 hr2
  subst e1
  obtain ⟨⟨r3, c4, t4⟩, h3, g3⟩ := bind_eq_ok g2
  clear g2
  by_cases hr3 : r3 = 0
  · subst hr3
    simp only [beq_self_eq_true, if_true, pure_eq_ok, Res.ok.injEq, Prod.mk.injEq, true_and] at g3
    obtain ⟨e1, e2⟩ := g3
    subst e1 e2
    exact ⟨t3, by rw [s2, s1], Or.inr (Or.inl h3)⟩
  have hb3 : (r3 == 0) = false := beq_false_of_ne hr3
  simp only [hb3, Bool.false_eq_true, if_false] at g3
  obtain ⟨e1, s3⟩ := reader_failure_keeps_string (by simp [token_readers]) h3 hr3
  subst e1
  obtain ⟨⟨r4, c5, t5⟩, h4, g4⟩ := bind_eq_ok g3
  clear g3
  by_cases hr4 : r4 = 0
  · subst hr4
    simp only [beq_self_eq_true, if_true, pure_eq_ok, Res.ok.injEq, Prod.mk.injEq, true_and] at g4
    obtain ⟨e1, e2⟩ := g4
    subst e1 e2
    exact ⟨t4, by rw [s3, s2, s1], Or.inr (Or.inr (Or.inl h4))⟩
  have hb4 : (r4 == 0) = false := beq_false_of_ne hr4
  simp only [hb4, Bool.false_eq_true, if_false] at g4
  obtain ⟨e1, s4⟩ := reader_failure_keeps_string (by simp [token_readers]) h4 hr4
  subst e1
  obtain ⟨⟨r5, c6, t6⟩, h5, g5⟩ := bind_eq_ok g4
  clear g4
  by_cases hr5 : r5 = 0
  · subst hr5
    simp only [beq_self_eq_true, if_true, pure_eq_ok, Res.ok.injEq, Prod.mk.injEq, true_and] at g5
    obtain ⟨e1, e2⟩ := g5
    subst e1 e2
    exact ⟨t5, by rw [s4, s3, s2, s1], Or.inr (Or.inr (Or.inr (Or.inl h5)))⟩
  have hb5 : (r5 == 0) = false := beq_false_of_ne hr5
  simp only [hb5, Bool.false_eq_true, if_false] at g5
  obtain ⟨e1, s5⟩ := reader_failure_keeps_string (by simp [token_readers]) h5 hr5
  subst e1
  obtain ⟨⟨r6, c7, t7⟩, h6, g6⟩ := bind_eq_ok g5
  clear g5
  by_cases hr6 : r6 = 0
  · subst hr6
    simp only [beq_self_eq_true, if_true, pure_eq_ok, Res.ok.injEq, Prod.mk.injEq, true_and] at g6
    obtain ⟨e1, e2⟩ := g6
    subst e1 e2
    exact ⟨t6, by rw [s5, s4, s3, s2, s1], Or.inr (Or.inr (Or.inr (Or.inr h6)))⟩
  have hb6 : (r6 == 0) = false := beq_false_of_ne hr6
  simp [hb6] at g6

/-! ### The token sequence -/

theorem take_set_succ {α : Type} (l : List α) (v : α) :
    ∀ i, i < l.length → (l.set i v).take (i + 1) = l.take i ++ [v] := by
  induction l with
  | nil => intro i hi; simp at hi
  | cons x l ih =>
    intro i hi
    cases i with
    | zero => simp
    | succ i =>
      simp only [List.set_cons_succ, List.take_succ_cons, List.cons_append, List.cons.injEq,
        true_and]
      exact ih i (by simpa using hi)

theorem token_array_init_wf : token_array_init.WF := by
  simp [token_array.WF, token_array_init]

theorem token_array_append_ok {tokarr : token_array} (tok : token) (hwf : tokarr.WF) :
    ∃ tokarr1, token_array_append tokarr tok = Res.ok tokarr1 ∧ tokarr1.WF
      ∧ tokarr1.elems = tokarr.elems ++ [some tok] := by
  obtain ⟨hlen, hle, hpos⟩ := hwf
  unfold token_array_append
  by_cases hfull : tokarr.len = tokarr.capacity
  · have hb : (tokarr.len == tokarr.capacity) = true := by simp [hfull]
    have hlt : tokarr.len < (tokarr.tokens.take (tokarr.capacity * 2)
        ++ List.replicate (tokarr.capacity * 2 - tokarr.tokens.length) none).length := by
      simp only [List.length_append, List.length_take, List.length_replicate]
      omega
    simp only [hb, if_true, hlt, pure_eq_ok]
    refine ⟨_, rfl, ⟨?_, ?_, ?_⟩, ?_⟩
    · simp only [List.length_set, List.length_append, List.length_take, List.length_replicate]
      omega
    · simp only; omega
    · simp only; omega
    · simp only [token_array.elems]
      rw [take_set_succ _ _ _ hlt]
      congr 1
      rw [List.take_append_of_le_length (by simp only [List.length_take]; omega)]
      rw [List.take_take]
      congr 1
      omega
  · have hb : (tokarr.len == tokarr.capacity) = false := beq_false_of_ne hfull
    have hlt : tokarr.len < tokarr.tokens.length := by omega
    simp only [hb, Bool.false_eq_true, if_false, hlt, if_true, pure_eq_ok]
    refine ⟨_, rfl, ⟨?_, ?_, ?_⟩, ?_⟩
    · simp only [List.length_set]; exact hlen
    · simp only; omega
    · exact hpos
    · simp only [token_array.elems]
      exact take_set_succ _ _ _ hlt

theorem token_array_all_append {P : token → Prop} {tokarr tokarr1 : token_array} {tok : token}
    (hall : tokarr.All P) (htok : P tok) (helems : tokarr1.elems = tokarr.elems ++ [some tok]) :
    tokarr1.All P := by
  intro cell hcell
  rw [helems, List.mem_append, List.mem_singleton] at hcell
  rcases hcell with h | h
  · exact hall cell h
  · exact ⟨tok, h, htok⟩

/-- Whatever holds for the token of every successful attempt of the dispatcher holds for
every token of the sequence the inner loop hands back. -/
theorem scan_line_all (P : token → Prop)
    (hP : ∀ line c c1 tok1, try_readers line c fresh_token = Res.ok (false, c1, tok1) → P tok1)
    (line : List Nat) (fuel : Nat) :
    ∀ {c : Nat} {tokarr tokarr1 : token_array} {failed : Bool}, tokarr.WF → tokarr.All P →
      scan_line line fuel c tokarr = Res.ok (failed, tokarr1) →
      tokarr1.WF ∧ tokarr1.All P := by
  induction fuel with
  | zero => intro c tokarr tokarr1 failed _ _ h; simp [scan_line] at h
  | succ fuel ih =>
    intro c tokarr tokarr1 failed hwf hall h
    rw [scan_line] at h
    obtain ⟨c2, -, g1⟩ := bind_eq_ok h
    obtain ⟨x, -, g2⟩ := bind_eq_ok g1
    by_cases hx : (x == 0) = true
    · simp only [hx, if_true, pure_eq_ok, Res.ok.injEq, Prod.mk.injEq] at g2
      rw [← g2.2]
      exact ⟨hwf, hall⟩
    · simp only [hx, Bool.false_eq_true, if_false] at g2
      obtain ⟨⟨fl, c3, tok3⟩, h3, g3⟩ := bind_eq_ok g2
      cases fl with
      | true =>
        simp only [if_true, pure_eq_ok, Res.ok.injEq, Prod.mk.injEq] at g3
        rw [← g3.2]
        exact ⟨hwf, hall⟩
      | false =>
        simp only [Bool.false_eq_true, if_false] at g3
        obtain ⟨tokarr2, h4, g4⟩ := bind_eq_ok g3
        obtain ⟨tokarr3, h5, hwf3, helems⟩ := token_array_append_ok tok3 hwf
        rw [h5] at h4
        simp only [Res.ok.injEq] at h4
        subst h4
        exact ih hwf3 (token_array_all_append hall (hP line c2 c3 tok3 h3) helems) g4

theorem scan_lines_all (P : token → Prop)
    (hP : ∀ line c c1 tok1, try_readers line c fresh_token = Res.ok (false, c1, tok1) → P tok1)
    (file : List (List Nat)) :
    ∀ {buf : List Nat} {tokarr tokarr1 : token_array} {failed : Bool},
      tokarr.WF → tokarr.All P →
      scan_lines file buf tokarr = Res.ok (failed, tokarr1) →
      tokarr1.WF ∧ tokarr1.All P := by
  induction file with
  | nil =>
    intro buf tokarr tokarr1 failed hwf hall h
    simp only [scan_lines, pure_eq_ok, Res.ok.injEq, Prod.mk.injEq] at h
    rw [← h.2]
    exact ⟨hwf, hall⟩
  | cons line rest ih =>
    intro buf tokarr tokarr1 failed hwf hall h
    rw [scan_lines] at h
    obtain ⟨⟨fl, tokarr2⟩, h2, g2⟩ := bind_eq_ok h
    obtain ⟨hwf2, hall2⟩ := scan_line_all P hP _ _ hwf hall h2
    cases fl with
    | true =>
      simp only [if_true, pure_eq_ok, Res.ok.injEq, Prod.mk.injEq] at g2
      rw [← g2.2]
      exact ⟨hwf2, hall2⟩
    | false =>
      simp only [Bool.false_eq_true, if_false] at g2
      exact ih hwf2 hall2 g2

theorem lexer_all (P : token → Prop)
    (hP : ∀ line c c1 tok1, try_readers line c fresh_token = Res.ok (false, c1, tok1) → P tok1)
    {file : List (List Nat)} {failed : Bool} {tokarr : token_array}
    (h : lexer file = Res.ok (failed, tokarr)) : tokarr.All P :=
  (scan_lines_all P hP file token_array_init_wf
    (by intro cell hcell; simp [token_array.elems, token_array_init] at hcell) h).2

/-! ### C2: lexeme lengths -/

theorem string_copy_len {dest src s : string} (h : string_copy dest src = Res.ok s) :
    s.len = src.len := by
  unfold string_copy at h
  by_cases hd : (!(dest.len == 0 && dest.capacity == 0 && dest.arr == none)) = true
  · simp [hd] at h
  · simp only [hd, Bool.false_eq_true, if_false] at h
    obtain ⟨arr, -, g⟩ := bind_eq_ok h
    simp only [pure_eq_ok, Res.ok.injEq] at g
    rw [← g]

theorem consumed_len {line : List Nat} {c c1 : Nat} {tok tok1 : token}
    (h : Consumed line c tok c1 tok1) : tok1.str.len = c1 - c ∧ 1 ≤ tok1.str.len := by
  obtain ⟨hlt, hle, str, hholds, hcopy⟩ := h
  have h1 := string_copy_len hcopy
  have h2 := hholds.1
  rw [slice_length (by omega)] at h2
  omega

/-- Lexeme of the token of a successful attempt: not empty for the five readers that
accumulate text, the untouched empty string for `read_punctuator`. -/
theorem try_readers_lexeme {line : List Nat} {c c1 : Nat} {tok1 : token}
    (h : try_readers line c fresh_token = Res.ok (false, c1, tok1)) :
    (tok1.type < TOKEN_BRACKET_OPEN ∧ 1 ≤ tok1.str.len)
    ∨ (TOKEN_BRACKET_OPEN ≤ tok1.type ∧ tok1.type ≤ TOKEN_TWO_SHARP
        ∧ tok1.str = string_init) := by
  rcases try_readers_ok h with h1 | ⟨t, ht, h1 | h1 | h1 | h1 | h1⟩
  · obtain ⟨hcons, htype⟩ := read_keyword_or_identifier_ok h1
    refine Or.inl ⟨?_, (consumed_len hcons).2⟩
    rcases htype with h2 | h2 | ⟨-, h2⟩
    · simp only [NUM_KEYWORDS, TOKEN_BRACKET_OPEN] at h2 ⊢; omega
    · rw [h2]; decide
    · exact absurd rfl h2
  · obtain ⟨hcons, htype⟩ := read_integer_constant_ok h1
    exact Or.inl ⟨by rw [htype]; decide, (consumed_len hcons).2⟩
  · obtain ⟨hcons, htype⟩ := read_floating_constant_ok h1
    exact Or.inl ⟨by rw [htype]; decide, (consumed_len hcons).2⟩
  · obtain ⟨hcons, htype, -⟩ := read_character_constant_ok h1
    exact Or.inl ⟨by rw [htype]; decide, (consumed_len hcons).2⟩
  · obtain ⟨hcons, htype, -⟩ := read_string_literal_ok h1
    exact Or.inl ⟨by rw [htype]; decide, (consumed_len hcons).2⟩
  · obtain ⟨hstr, hlo, hhi, -⟩ := read_punctuator_ok h1
    exact Or.inr ⟨hlo, hhi, by rw [hstr, ht]; rfl⟩

/-- C2 fails on the line `;`: the one token `lexer` returns is the punctuator, and its
string is the empty one the dispatcher initialised (length 0, no characters). -/
theorem punctuator_lexeme_empty :
    lexer_tokens [cs ";"] = one_token TOKEN_SEMICOLON string_init
    ∧ ¬ (1 ≤ string_init.len) := by
  decide

/-- C2 as amended. Every cell in use of the sequence `lexer` returns holds a token; a token
of a kind below the punctuator kinds (keyword, identifier, constant, string literal) has a
non-empty lexeme, `str.len ≥ 1`; a token of a punctuator kind carries the empty string
(`str.len = 0`, no characters). -/
theorem lexeme_nonempty_unless_punctuator (file : List (List Nat)) (failed : Bool)
    (tokarr : token_array) (hret : lexer file = Res.ok (failed, tokarr)) :
    ∀ cell ∈ tokarr.elems, ∃ tok, cell = some tok ∧
      ((tok.type < TOKEN_BRACKET_OPEN ∧ 1 ≤ tok.str.len)
      ∨ (TOKEN_BRACKET_OPEN ≤ tok.type ∧ tok.type ≤ TOKEN_TWO_SHARP
          ∧ tok.str = string_init)) :=
  lexer_all _ (fun _ _ _ _ h => try_readers_lexeme h) hret

/-- C2 as amended, at the line `x;`: the identifier has a lexeme of length 1, the
semicolon the empty string. -/
theorem lexeme_nonempty_unless_punctuator_witness :
    lexer [cs "x;"] = Res.ok (false,
        { len := 2, capacity := 8,
          tokens := [some { type := TOKEN_IDENTIFER, str := string_lit (cs "x") },
            some { type := TOKEN_SEMICOLON, str := string_init }]
            ++ List.replicate 6 none })
    ∧ ∀ cell ∈ [some ({ type := TOKEN_IDENTIFER, str := string_lit (cs "x") } : token),
          some { type := TOKEN_SEMICOLON, str := string_init }],
        ∃ tok, cell = some tok ∧
          ((tok.type < TOKEN_BRACKET_OPEN ∧ 1 ≤ tok.str.len)
          ∨ (TOKEN_BRACKET_OPEN ≤ tok.type ∧ tok.type ≤ TOKEN_TWO_SHARP
              ∧ tok.str = string_init)) :=
  ⟨by decide,
   lexeme_nonempty_unless_punctuator [cs "x;"] false
     { len := 2, capacity := 8,
       tokens := [some { type := TOKEN_IDENTIFER, str := string_lit (cs "x") },
         some { type := TOKEN_SEMICOLON, str := string_init }]
         ++ List.replicate 6 none }
     (by decide)⟩

/-! ### C7: the lexeme of a literal is its source text -/

theorem slice_in_line {line : List Nat} {a b : Nat} (hb : b ≤ line.length) :
    slice line a b = (line.drop a).take (b - a) := by
  unfold slice
  by_cases ha : a ≤ line.length
  · rw [List.drop_append_of_le_length ha, List.take_append_of_le_length]
    simp only [List.length_drop]
    omega
  · have : b - a = 0 := by omega
    simp [this]

theorem consumed_lexeme {line : List Nat} {c c1 : Nat} {tok tok1 : token}
    (h : Consumed line c tok c1 tok1) (hw : 0 ∉ (line.drop c).take (c1 - c)) :
    tok1.str = string_lit ((line.drop c).take (c1 - c)) := by
  obtain ⟨hlt, hle, str, hholds, hcopy⟩ := h
  rw [slice_in_line hle] at hholds
  have hne : (line.drop c).take (c1 - c) ≠ [] := by
    intro he
    have := congrArg List.length he
    simp only [List.length_take, List.length_drop, List.length_nil] at this
    omega
  rw [string_copy_ok_dest hcopy, string_copy_holds hholds hne hw] at hcopy
  simp only [Res.ok.injEq] at hcopy
  exact hcopy.symm

/-- A text that holds a null, split at the first one. -/
theorem first_null {w : List Nat} (hm : 0 ∈ w) : ∃ u v, w = u ++ 0 :: v ∧ 0 ∉ u := by
  have hne : w.dropWhile (fun x => x != 0) ≠ [] := by
    intro he
    rw [List.dropWhile_eq_nil_iff] at he
    have := he 0 hm
    simp at this
  obtain ⟨y, ys, hy⟩ := List.exists_cons_of_ne_nil hne
  have hy0 : y = 0 := by
    have := List.head_dropWhile_not (fun x => x != 0) w hne
    simp only [hy, List.head_cons] at this
    simpa using this
  refine ⟨w.takeWhile (fun x => x != 0), ys, ?_, ?_⟩
  · have := List.takeWhile_append_dropWhile (fun x => x != 0) w
    rw [hy, hy0] at this
    exact this.symm
  · intro h0
    have := List.mem_takeWhile_imp h0
    simp at this

/-- The bytes `strncpy` writes for a text with a null in it: the characters in front of the
first null, and nulls in place of that null and of all that follows. -/
theorem strncpy_bytes_cut (u : List Nat) (hu : 0 ∉ u) (k : Nat) (pre rest : Block) :
    strncpy_bytes (some (pre ++ (u.map some ++ some 0 :: rest))) (u.length + 1 + k) pre.length
      = Res.ok (u ++ List.replicate (k + 1) 0) := by
  induction u generalizing pre with
  | nil =>
    rw [show ([] : List Nat).length + 1 + k = k + 1 by simp only [List.length_nil]; omega,
      strncpy_bytes]
    simp [load_at_length]
  | cons y u ih =>
    have hy : y ≠ 0 := fun h => hu (by simp [h])
    have hu1 : 0 ∉ u := fun h => hu (by simp [h])
    have hstep := ih hu1 (pre ++ [some y])
    simp only [List.length_append, List.length_singleton, List.append_assoc,
      List.singleton_append] at hstep
    rw [show (y :: u).length + 1 + k = (u.length + 1 + k) + 1 by simp; omega, strncpy_bytes]
    simp only [List.cons_append, List.map_cons, load_at_length, ok_bind, beq_iff_eq, hy,
      if_false, hstep, pure_eq_ok]

/-- What `string_copy` leaves for a text with a null in it. -/
theorem string_copy_cut {src : string} {u v : List Nat} (h : src.Holds (u ++ 0 :: v))
    (hu : 0 ∉ u) :
    string_copy string_init src
      = Res.ok { len := u.length + 1 + v.length, capacity := u.length + 1 + v.length + 1,
                 arr := some ((u ++ List.replicate (v.length + 2) 0).map some) } := by
  obtain ⟨hl, h⟩ := h
  rcases h with ⟨hw0, -, -⟩ | ⟨rest, harr, -⟩
  · simp at hw0
  · have hb := strncpy_bytes_cut u hu (v.length + 1) []
      ((v ++ [0]).map some ++ rest)
    simp only [List.nil_append, List.length_nil] at hb
    have hl2 : src.len = u.length + 1 + v.length := by
      rw [hl]; simp; omega
    have harr2 : src.arr = some (u.map some ++ some 0 :: ((v ++ [0]).map some ++ rest)) := by
      rw [harr]; simp
    unfold string_copy
    simp only [string_init, beq_self_eq_true, Bool.and_self, Bool.not_true,
      Bool.false_eq_true, if_false, malloc, strncpy, hl2, harr2, List.length_replicate,
      Nat.lt_irrefl, show u.length + 1 + v.length + 1 = u.length + 1 + (v.length + 1) by omega,
      hb, ok_bind, pure_eq_ok, List.drop_replicate, Nat.sub_self, List.replicate_zero,
      List.append_nil]

/-- The token of a reader that has passed over a null: its lexeme is the text up to the
first null, followed by nulls in place of the null and of what the reader passed over
behind it. -/
theorem consumed_cut {line : List Nat} {c c1 : Nat} {tok tok1 : token}
    (h : Consumed line c tok c1 tok1) {u v : List Nat}
    (hw : (line.drop c).take (c1 - c) = u ++ 0 :: v) (hu : 0 ∉ u) :
    tok1.str = { len := u.length + 1 + v.length, capacity := u.length + 1 + v.length + 1,
                 arr := some ((u ++ List.replicate (v.length + 2) 0).map some) }
      ∧ lexeme tok1 = u ++ List.replicate (v.length + 1) 0 := by
  obtain ⟨hlt, hle, str, hholds, hcopy⟩ := h
  rw [slice_in_line hle, hw] at hholds
  rw [string_copy_ok_dest hcopy, string_copy_cut hholds hu] at hcopy
  simp only [Res.ok.injEq] at hcopy
  refine ⟨hcopy.symm, ?_⟩
  unfold lexeme
  rw [← hcopy]
  simp only [List.map_append, List.map_replicate]
  rw [List.take_append_eq_append_take,
    List.take_of_length_le (by rw [List.length_map]; omega),
    List.length_map, show u.length + 1 + v.length - u.length = v.length + 1 by omega,
    List.take_replicate, Nat.min_eq_left (by omega)]
  simp [List.filterMap_append, List.filterMap_map, List.filterMap_replicate]

/-- A token whose lexeme holds no null was read from text that holds none. -/
theorem consumed_null_free {line : List Nat} {c c1 : Nat} {tok tok1 : token}
    (h : Consumed line c tok c1 tok1) (hlex : 0 ∉ lexeme tok1) :
    0 ∉ (line.drop c).take (c1 - c) := by
  intro hm
  obtain ⟨u, v, hw, hu⟩ := first_null hm
  apply hlex
  rw [(consumed_cut h hw hu).2]
  simp

/-- The last character a literal reader has passed over is the closing quote, so a lexeme
cut at a null is not the text the reader has passed over. -/
theorem cut_ne_text {line : List Nat} {c c1 q : Nat} {u v : List Nat}
    (hlt : c < c1) (hle : c1 ≤ line.length) (hq : rd line (c1 - 1) = Res.ok q) (hq0 : q ≠ 0)
    (hw : (line.drop c).take (c1 - c) = u ++ 0 :: v) :
    u ++ List.replicate (v.length + 1) 0 ≠ (line.drop c).take (c1 - c) := by
  intro he
  have hlen : u.length + 1 + v.length = c1 - c := by
    have := congrArg List.length hw
    simp only [List.length_take, List.length_drop, List.length_append, List.length_cons]
      at this
    omega
  have h1 : ((line.drop c).take (c1 - c)).getD (c1 - 1 - c) 0 = q := by
    rw [rd_lt (by omega)] at hq
    simp only [Res.ok.injEq] at hq
    rw [List.getD_eq_getElem?_getD, List.getElem?_take_of_lt (by omega), List.getElem?_drop,
      show c + (c1 - 1 - c) = c1 - 1 by omega, ← List.getD_eq_getElem?_getD, hq]
  have h2 : (u ++ List.replicate (v.length + 1) 0).getD (c1 - 1 - c) 0 = 0 := by
    rw [List.getD_eq_getElem?_getD, List.getElem?_append_right (by omega),
      List.getElem?_replicate]
    split <;> rfl
  rw [he, h1] at h2
  exact hq0 h2

/-- C7 fails where a literal reader passes over a null, as it does on the line `d= 'ab`
that follows the line `c = '\'' ;` in the buffer of `lexer`: `read_character_constant`,
entered at cursor 3, takes the terminating null at cursor 6 for a character of the constant,
finds the quote that the first line has left at cursor 7, and returns 0 with cursor 8; the
token's string is written by `strncpy`, which stops at the null and fills up with nulls, so
the lexeme is `'ab` and two nulls, not the text `'ab`, null, `'` between the cursors.  In
general, whenever `read_character_constant` or `read_string_literal` returns 0, the text
between the cursors ends with the closing quote; the token's string is exactly that text
if the text holds no null; and if it holds one, the lexeme is the text up to the first null
followed by nulls, and differs from the text.  The line `u8"ab"` lexes to exactly one string
literal with lexeme `u8"ab"`, the identifier reader having failed at cursor 0. -/
theorem literal_lexeme_cut_at_null :
    (getline (cs "c = '\\'' ;\n") (cs "d= 'ab") = cs "d= 'ab" ++ 0 :: cs "' ;\n"
      ∧ read_character_constant (cs "d= 'ab" ++ 0 :: cs "' ;\n") 3 fresh_token
          = Res.ok (0, 8,
              { type := TOKEN_CHAR_CONST,
                str := { len := 5, capacity := 6,
                         arr := some ((cs "'ab" ++ [0, 0, 0]).map some) } })
      ∧ ((cs "d= 'ab" ++ 0 :: cs "' ;\n").drop 3).take (8 - 3) = cs "'ab" ++ 0 :: cs "'"
      ∧ lexeme
            { type := TOKEN_CHAR_CONST,
              str := { len := 5, capacity := 6,
                       arr := some ((cs "'ab" ++ [0, 0, 0]).map some) } }
          = cs "'ab" ++ [0, 0])
    ∧ (∀ (line : List Nat) (c c1 : Nat) (tok tok1 : token),
      read_character_constant line c tok = Res.ok (0, c1, tok1) →
      c < c1 ∧ c1 ≤ line.length ∧ rd line (c1 - 1) = Res.ok '\''.toNat
        ∧ (0 ∉ (line.drop c).take (c1 - c) →
            tok1.str = string_lit ((line.drop c).take (c1 - c)))
        ∧ (0 ∈ (line.drop c).take (c1 - c) →
            lexeme tok1 ≠ (line.drop c).take (c1 - c)
            ∧ ∃ u v, (line.drop c).take (c1 - c) = u ++ 0 :: v ∧ 0 ∉ u
                ∧ lexeme tok1 = u ++ List.replicate (v.length + 1) 0))
    ∧ (∀ (line : List Nat) (c c1 : Nat) (tok tok1 : token),
      read_string_literal line c tok = Res.ok (0, c1, tok1) →
      c < c1 ∧ c1 ≤ line.length ∧ rd line (c1 - 1) = Res.ok '\"'.toNat
        ∧ (0 ∉ (line.drop c).take (c1 - c) →
            tok1.str = string_lit ((line.drop c).take (c1 - c)))
        ∧ (0 ∈ (line.drop c).take (c1 - c) →
            lexeme tok1 ≠ (line.drop c).take (c1 - c)
            ∧ ∃ u v, (line.drop c).take (c1 - c) = u ++ 0 :: v ∧ 0 ∉ u
                ∧ lexeme tok1 = u ++ List.replicate (v.length + 1) 0))
    ∧ lexer_tokens [cs "u8\"ab\""]
        = one_token TOKEN_STRING_LITERAL (string_lit (cs "u8\"ab\""))
    ∧ read_keyword_or_identifier (cs "u8\"ab\"") 0 fresh_token
        = Res.ok (-1, 0, fresh_token) := by
  refine ⟨⟨by decide, by decide, by decide, by decide⟩, ?_, ?_, by decide, by decide⟩
  · intro line c c1 tok tok1 h
    obtain ⟨hcons, -, hq⟩ := read_character_constant_ok h
    refine ⟨hcons.1, hcons.2.1, hq, fun hw => consumed_lexeme hcons hw, fun hm => ?_⟩
    obtain ⟨u, v, hw, hu⟩ := first_null hm
    obtain ⟨-, hlex⟩ := consumed_cut hcons hw hu
    refine ⟨?_, u, v, hw, hu, hlex⟩
    rw [hlex]
    exact cut_ne_text hcons.1 hcons.2.1 hq (by decide) hw
  · intro line c c1 tok tok1 h
    obtain ⟨hcons, -, hq⟩ := read_string_literal_ok h
    refine ⟨hcons.1, hcons.2.1, hq, fun hw => consumed_lexeme hcons hw, fun hm => ?_⟩
    obtain ⟨u, v, hw, hu⟩ := first_null hm
    obtain ⟨-, hlex⟩ := consumed_cut hcons hw hu
    refine ⟨?_, u, v, hw, hu, hlex⟩
    rw [hlex]
    exact cut_ne_text hcons.1 hcons.2.1 hq (by decide) hw

/-- C7 where it holds: in `x = L'\''` the character constant entered at cursor 4 ends at
cursor 9, the text between the two holds no null, and the lexeme is that text, `L'\''`. -/
theorem literal_lexeme_cut_at_null_witness :
    read_character_constant (cs "x = L'\\'';") 4 fresh_token
        = Res.ok (0, 9, { type := TOKEN_CHAR_CONST, str := string_lit (cs "L'\\''") })
    ∧ 0 ∉ ((cs "x = L'\\'';").drop 4).take (9 - 4)
    ∧ string_lit (cs "L'\\''") = string_lit (((cs "x = L'\\'';").drop 4).take (9 - 4)) :=
  ⟨by decide, by decide,
   (literal_lexeme_cut_at_null.2.1 (cs "x = L'\\'';") 4 9 fresh_token
     { type := TOKEN_CHAR_CONST, str := string_lit (cs "L'\\''") } (by decide)).2.2.2.1
     (by decide)⟩

/-! ### Char sequences that cannot succeed -/

theorem drop_cons_rd {line : List Nat} {c x : Nat} {r : List Nat} (h : line.drop c = x :: r) :
    rd line c = Res.ok x ∧ line.drop (c + 1) = r ∧ c < line.length := by
  have hlt : c < line.length := by
    by_contra hge
    rw [List.drop_eq_nil_of_le (by omega)] at h
    simp at h
  refine ⟨?_, ?_, hlt⟩
  · rw [rd_drop (by omega), h]; rfl
  · rw [← List.tail_drop, h]; rfl

theorem drop_rd_head {line : List Nat} {c : Nat} {r : List Nat} (hc : c ≤ line.length)
    (h : line.drop c = r) : rd line c = Res.ok (r.headD 0) := by
  rw [rd_drop hc, h]

theorem char_units_plain {q x : Nat} (l : List Nat) (hx : x ≠ '\\'.toNat) :
    char_units q (x :: l) = (x != q && char_units q l) := by
  have hx1 : x ≠ 92 := hx
  cases l with
  | nil => simp [char_units, hx1]
  | cons y ys => simp [char_units, hx1]

theorem char_units_backslash {q : Nat} {l : List Nat}
    (h : char_units q ('\\'.toNat :: l) = true) :
    ∃ y ys, l = y :: ys ∧ char_units q ys = true := by
  cases l with
  | nil => simp [char_units] at h
  | cons y ys => exact ⟨y, ys, rfl, by simpa [char_units] using h⟩

theorem isxdigit_ne_backslash {z : Nat} (h : isxdigit z = true) : z ≠ '\\'.toNat := by
  intro hz; subst hz; simp [isxdigit, isdigit] at h

theorem is_octal_digit_isxdigit {z : Nat} (h : is_octal_digit z = true) : isxdigit z = true := by
  simp only [is_octal_digit, Bool.or_eq_true, beq_iff_eq, Char.reduceToNat] at h
  simp only [isxdigit, isdigit, Bool.or_eq_true, Bool.and_eq_true, decide_eq_true_eq,
    Char.reduceToNat]
  omega

theorem isxdigit_ne_zero {z : Nat} (h : isxdigit z = true) : z ≠ 0 := by
  intro hz; subst hz; simp [isxdigit, isdigit] at h

theorem char_units_drop_hex {q : Nat} (w l : List Nat) (hw : ∀ z ∈ w, isxdigit z = true)
    (h : char_units q (w ++ l) = true) : char_units q l = true := by
  induction w with
  | nil => exact h
  | cons z w ih =>
    have hz := isxdigit_ne_backslash (hw z (by simp))
    rw [List.cons_append, char_units_plain _ hz, Bool.and_eq_true] at h
    exact ih (fun y hy => hw y (by simp [hy])) h.2

theorem step_info {line : List Nat} {c y : Nat} {r : List Nat} (_hc : c ≤ line.length)
    (hdrop : line.drop c = r) (hy : r.headD 0 = y) (hne : y ≠ 0) :
    r = y :: r.tail ∧ c < line.length ∧ line.drop (c + 1) = r.tail := by
  cases r with
  | nil => exact absurd hy.symm hne
  | cons z r2 =>
    simp only [List.headD_cons] at hy
    subst hy
    obtain ⟨-, h2, h3⟩ := drop_cons_rd hdrop
    exact ⟨rfl, h3, h2⟩

theorem is_octal_digit_ne_zero {z : Nat} (h : is_octal_digit z = true) : z ≠ 0 :=
  isxdigit_ne_zero (is_octal_digit_isxdigit h)

theorem is_simple_ne_zero {z : Nat} (h : is_simple_escape_sequence_character z = true) :
    z ≠ 0 := by
  intro hz; subst hz; simp [is_simple_escape_sequence_character] at h

theorem body_newline {line : List Nat} {c : Nat} {r : List Nat} (str : string)
    (hdrop : line.drop c = '\n'.toNat :: r) :
    char_sequence_body line str c = Res.ok (false, str, c) := by
  unfold char_sequence_body
  simp only [(drop_cons_rd hdrop).1, ok_bind, beq_self_eq_true, if_true, pure_eq_ok]

theorem body_bad_escape {line : List Nat} {co c : Nat} {str : string} {r : List Nat}
    (hsize : line.length + 1 < SIZE_MAX) (hacc : Acc line co str c)
    (hdrop : line.drop c = '\\'.toNat :: r) (hbad : bad_escape (r.headD 0) = true) :
    ∃ str1, char_sequence_body line str c = Res.ok (false, str1, c + 1)
      ∧ Acc line co str1 (c + 1) := by
  obtain ⟨hrd, hdrop1, hlt⟩ := drop_cons_rd hdrop
  obtain ⟨s1, hs1, hacc1⟩ := APPADV_total hsize hacc (Nat.le_of_lt hlt)
  have hrd1 := drop_rd_head (by omega) hdrop1
  simp only [bad_escape, Bool.and_eq_true, Bool.not_eq_true', bne_iff_ne] at hbad
  obtain ⟨⟨h1, h2⟩, h3⟩ := hbad
  refine ⟨s1, ?_, hacc1⟩
  unfold char_sequence_body
  simp only [hrd, ok_bind, show ('\\'.toNat == '\n'.toNat) = false from rfl, Bool.false_eq_true,
    if_false, beq_self_eq_true, if_true, hs1, hrd1, h1, h2, beq_false_of_ne h3,
    read_universal_character_name, pure_eq_ok, show ((-1 : Int) == 0) = false from rfl]

/-- One pass of the loop body over a character of the line: it ends without fault; where it
does not leave by `goto error`, it has read one character that is no backslash, or a
backslash, one more character, and hexadecimal digits behind them. -/
theorem body_total {line : List Nat} {co c x : Nat} {str : string} {r : List Nat}
    (hsize : line.length + 1 < SIZE_MAX) (hacc : Acc line co str c)
    (hdrop : line.drop c = x :: r) :
    ∃ flag str1 c1, char_sequence_body line str c = Res.ok (flag, str1, c1)
      ∧ Acc line co str1 c1
      ∧ (flag = true → x ≠ '\n'.toNat
          ∧ ((x ≠ '\\'.toNat ∧ c1 = c + 1)
            ∨ (x = '\\'.toNat ∧ ∃ y w r3, r = y :: (w ++ r3) ∧ c1 = c + 2 + w.length
                ∧ ∀ z ∈ w, isxdigit z = true))) := by
  obtain ⟨hrd, hdrop1, hlt⟩ := drop_cons_rd hdrop
  by_cases hnl : x = '\n'.toNat
  · subst hnl
    exact ⟨false, str, c, body_newline str hdrop, hacc, fun h => by simp at h⟩
  have hnlb : (x == '\n'.toNat) = false := beq_false_of_ne hnl
  obtain ⟨s1, hs1, hacc1⟩ := APPADV_total hsize hacc (Nat.le_of_lt hlt)
  by_cases hbs : x = '\\'.toNat
  swap
  · have hbsb : (x == '\\'.toNat) = false := beq_false_of_ne hbs
    refine ⟨true, s1, c + 1, ?_, hacc1, fun _ => ⟨hnl, Or.inl ⟨hbs, rfl⟩⟩⟩
    unfold char_sequence_body
    simp only [hrd, ok_bind, hnlb, Bool.false_eq_true, if_false, hbsb, hs1, pure_eq_ok]
  subst hbs
  have hrd1 := drop_rd_head (by omega) hdrop1
  by_cases hsimple : is_simple_escape_sequence_character (r.headD 0) = true
  · obtain ⟨hr, hlt1, hdrop2⟩ := step_info (by omega) hdrop1 rfl (is_simple_ne_zero hsimple)
    obtain ⟨s2, hs2, hacc2⟩ := APPADV_total hsize hacc1 (Nat.le_of_lt hlt1)
    refine ⟨true, s2, c + 1 + 1, ?_, hacc2, fun _ => ⟨hnl, Or.inr ⟨rfl, r.headD 0, [], r.tail,
      by simpa using hr, by simp, by simp⟩⟩⟩
    unfold char_sequence_body
    simp only [hrd, ok_bind, hnlb, Bool.false_eq_true, if_false, beq_self_eq_true, if_true,
      hs1, hrd1, hsimple, hs2, pure_eq_ok]
  by_cases hoct : is_octal_digit (r.headD 0) = true
  · obtain ⟨hr, hlt1, hdrop2⟩ := step_info (by omega) hdrop1 rfl (is_octal_digit_ne_zero hoct)
    obtain ⟨s2, hs2, hacc2⟩ := APPADV_total hsize hacc1 (Nat.le_of_lt hlt1)
    have hrd2 := drop_rd_head (by omega) hdrop2
    by_cases hoct2 : is_octal_digit (r.tail.headD 0) = true
    · obtain ⟨hr2, hlt2, hdrop3⟩ :=
        step_info (by omega) hdrop2 rfl (is_octal_digit_ne_zero hoct2)
      obtain ⟨s3, hs3, hacc3⟩ := APPADV_total hsize hacc2 (Nat.le_of_lt hlt2)
      have hrd3 := drop_rd_head (by omega) hdrop3
      by_cases hoct3 : is_octal_digit (r.tail.tail.headD 0) = true
      · obtain ⟨hr3, hlt3, hdrop4⟩ :=
          step_info (by omega) hdrop3 rfl (is_octal_digit_ne_zero hoct3)
        obtain ⟨s4, hs4, hacc4⟩ := APPADV_total hsize hacc3 (Nat.le_of_lt hlt3)
        refine ⟨true, s4, c + 1 + 1 + 1 + 1, ?_, hacc4, fun _ => ⟨hnl, Or.inr ⟨rfl, r.headD 0,
          [r.tail.headD 0, r.tail.tail.headD 0], r.tail.tail.tail, ?_, by simp, ?_⟩⟩⟩
        · unfold char_sequence_body
          simp only [hrd, ok_bind, hnlb, Bool.false_eq_true, if_false, beq_self_eq_true,
            if_true, hs1, hrd1, hsimple, hoct, hs2, hrd2, hoct2, hs3, hrd3, hoct3, hs4,
            pure_eq_ok]
        · rw [List.cons_append, List.cons_append, List.nil_append, ← hr3, ← hr2, ← hr]
        · intro z hz
          simp only [List.mem_cons, List.mem_singleton, List.not_mem_nil, or_false] at hz
          rcases hz with hz | hz <;> subst hz
          · exact is_octal_digit_isxdigit hoct2
          · exact is_octal_digit_isxdigit hoct3
      · refine ⟨true, s3, c + 1 + 1 + 1, ?_, hacc3, fun _ => ⟨hnl, Or.inr ⟨rfl, r.headD 0,
          [r.tail.headD 0], r.tail.tail, ?_, by simp, ?_⟩⟩⟩
        · unfold char_sequence_body
          simp only [hrd, ok_bind, hnlb, Bool.false_eq_true, if_false, beq_self_eq_true,
            if_true, hs1, hrd1, hsimple, hoct, hs2, hrd2, hoct2, hs3, hrd3, hoct3,
            pure_eq_ok]
        · rw [List.cons_append, List.nil_append, ← hr2, ← hr]
        · intro z hz
          simp only [List.mem_singleton] at hz
          subst hz
          exact is_octal_digit_isxdigit hoct2
    · refine ⟨true, s2, c + 1 + 1, ?_, hacc2, fun _ => ⟨hnl, Or.inr ⟨rfl, r.headD 0, [],
        r.tail, by simpa using hr, by simp, by simp⟩⟩⟩
      unfold char_sequence_body
      simp only [hrd, ok_bind, hnlb, Bool.false_eq_true, if_false, beq_self_eq_true, if_true,
        hs1, hrd1, hsimple, hoct, hs2, hrd2, hoct2, pure_eq_ok]
  by_cases hhex : r.headD 0 = 'x'.toNat
  · obtain ⟨hr, hlt1, hdrop2⟩ :=
      step_info (by omega) hdrop1 rfl (by rw [hhex]; decide)
    obtain ⟨s2, hs2, hacc2⟩ := APPADV_total hsize hacc1 (Nat.le_of_lt hlt1)
    obtain ⟨s3, hs3, hacc3, hle3⟩ :=
      while_APPADV_total isxdigit (by decide) hsize (loop_bound line) hacc2
        (show c + 1 + 1 ≤ line.length by omega) (by simp only [loop_bound]; omega)
    rw [hdrop2] at hs3 hacc3
    refine ⟨true, s3, c + 1 + 1 + (List.takeWhile isxdigit r.tail).length, ?_, hacc3,
      fun _ => ⟨hnl, Or.inr ⟨rfl, r.headD 0, List.takeWhile isxdigit r.tail,
        List.dropWhile isxdigit r.tail, ?_, by omega, fun z hz => List.mem_takeWhile_imp hz⟩⟩⟩
    · unfold char_sequence_body
      simp only [hrd, ok_bind, hnlb, Bool.false_eq_true, if_false, beq_self_eq_true, if_true,
        hs1, hrd1, hhex, hs2, hs3, pure_eq_ok,
        show is_simple_escape_sequence_character 'x'.toNat = false from by decide,
        show is_octal_digit 'x'.toNat = false from by decide]
    · rw [List.takeWhile_append_dropWhile, ← hr]
  · have hbad : bad_escape (r.headD 0) = true := by
      simp only [bad_escape, Bool.and_eq_true, Bool.not_eq_true', bne_iff_ne]
      exact ⟨⟨Bool.eq_false_iff.mpr hsimple, Bool.eq_false_iff.mpr hoct⟩, hhex⟩
    obtain ⟨s, hs, hacc⟩ := body_bad_escape hsize hacc hdrop hbad
    exact ⟨false, s, c + 1, hs, hacc, fun h => by simp at h⟩

theorem drop_append_length {line a b : List Nat} {c : Nat} (h : line.drop c = a ++ b) :
    line.drop (c + a.length) = b := by
  rw [← List.drop_drop, h, List.drop_left]

theorem stops_sequence_head {tail : List Nat} (h : stops_sequence tail) :
    ∃ z r, tail = z :: r ∧ isxdigit z = false := by
  rcases h with ⟨r, hr⟩ | ⟨r, hr, -⟩
  · exact ⟨_, r, hr, by decide⟩
  · exact ⟨_, r, hr, by decide⟩

/-- A char-sequence loop that meets, behind whole units without closing quote, a newline or
a backslash with no accepted escape behind it leaves by `goto error`, without fault. -/
theorem char_sequence_loop_fails (q : Nat) (hq1 : q ≠ '\\'.toNat) (hq2 : q ≠ '\n'.toNat)
    {line : List Nat} {co : Nat}
    (hsize : line.length + 1 < SIZE_MAX) (n : Nat) :
    ∀ (pre tail : List Nat) (c : Nat) (str : string) (fuel : Nat),
      pre.length ≤ n → line.drop c = pre ++ tail → char_units q pre = true →
      stops_sequence tail → Acc line co str c → pre.length < fuel →
      ∃ str1 c1, char_sequence_loop q line fuel str c = Res.ok (false, str1, c1)
        ∧ Acc line co str1 c1 := by
  induction n with
  | zero =>
    intro pre tail c str fuel hn hdrop _ hstop hacc hfuel
    have hpre : pre = [] := List.eq_nil_of_length_eq_zero (by omega)
    subst hpre
    obtain ⟨f, rfl⟩ : ∃ f, fuel = f + 1 := ⟨fuel - 1, by omega⟩
    rw [List.nil_append] at hdrop
    rw [char_sequence_loop]
    rcases hstop with ⟨r, hr⟩ | ⟨r, hr, hbad⟩
    · rw [hr] at hdrop
      have hne : ('\n'.toNat != q) = true := by simpa using Ne.symm hq2
      simp only [(drop_cons_rd hdrop).1, ok_bind, hne, if_true, body_newline str hdrop,
        Bool.false_eq_true, if_false, pure_eq_ok]
      exact ⟨str, c, rfl, hacc⟩
    · rw [hr] at hdrop
      have hne : ('\\'.toNat != q) = true := by simpa using Ne.symm hq1
      obtain ⟨s1, hs1, hacc1⟩ := body_bad_escape hsize hacc hdrop hbad
      simp only [(drop_cons_rd hdrop).1, ok_bind, hne, if_true, hs1,
        Bool.false_eq_true, if_false, pure_eq_ok]
      exact ⟨s1, c + 1, rfl, hacc1⟩
  | succ n ih =>
    intro pre tail c str fuel hn hdrop hunits hstop hacc hfuel
    cases pre with
    | nil => exact ih [] tail c str fuel (by simp) hdrop hunits hstop hacc hfuel
    | cons x pre1 =>
      obtain ⟨f, rfl⟩ : ∃ f, fuel = f + 1 := ⟨fuel - 1, by omega⟩
      rw [List.cons_append] at hdrop
      simp only [List.length_cons] at hn hfuel
      have hxq : (x != q) = true := by
        by_cases hbs : x = '\\'.toNat
        · rw [hbs]; simpa using Ne.symm hq1
        · rw [char_units_plain _ hbs, Bool.and_eq_true] at hunits
          exact hunits.1
      obtain ⟨flag, s1, c1, hbody, hacc1, hflag⟩ := body_total hsize hacc hdrop
      rw [char_sequence_loop]
      simp only [(drop_cons_rd hdrop).1, ok_bind, hxq, if_true, hbody]
      cases flag with
      | false =>
        simp only [Bool.false_eq_true, if_false, pure_eq_ok]
        exact ⟨s1, c1, rfl, hacc1⟩
      | true =>
        simp only [if_true]
        obtain ⟨-, hcase⟩ := hflag rfl
        rcases hcase with ⟨hbs, hc1⟩ | ⟨hbs, y, w, r3, hr, hc1, hw⟩
        · subst hc1
          rw [char_units_plain _ hbs, Bool.and_eq_true] at hunits
          exact ih pre1 tail (c + 1) s1 f (by omega) (drop_cons_rd hdrop).2.1 hunits.2 hstop
            hacc1 (by omega)
        · subst hbs
          obtain ⟨y1, ys, hpre1, hys⟩ := char_units_backslash hunits
          subst hpre1
          rw [List.cons_append, List.cons.injEq] at hr
          obtain ⟨-, hr⟩ := hr
          obtain ⟨z, rt, htail, hz⟩ := stops_sequence_head hstop
          have hsplit : ∃ ys1, ys = w ++ ys1 ∧ r3 = ys1 ++ tail := by
            rcases List.append_eq_append_iff.mp hr with ⟨a, h1, h2⟩ | ⟨b, h1, h2⟩
            · cases a with
              | nil =>
                refine ⟨[], ?_, ?_⟩
                · simpa using h1.symm
                · simpa using h2.symm
              | cons z1 a1 =>
                exfalso
                rw [htail, List.cons_append, List.cons.injEq] at h2
                have := hw z1 (by rw [h1]; simp)
                rw [← h2.1, hz] at this
                simp at this
            · exact ⟨b, h1, h2⟩
          obtain ⟨ys1, hys1, hr3⟩ := hsplit
          subst hys1
          have hdrop1 : line.drop c1 = ys1 ++ tail := by
            have h := drop_append_length (a := '\\'.toNat :: y1 :: w) (b := ys1 ++ tail)
              (by rw [hdrop]; simp)
            simp only [List.length_cons] at h
            rw [hc1, ← h]
            congr 1
            omega
          simp only [List.length_cons, List.length_append] at hn hfuel
          exact ih ys1 tail c1 s1 f (by omega) hdrop1 (char_units_drop_hex w ys1 hw hys)
            hstop hacc1 (by omega)

theorem store_in_holds {str : string} {w : List Nat} (h : str.Holds w) (hne : w ≠ [])
    {i : Nat} (hi : i ≤ w.length) : ∃ arr, store str.arr i 0 = Res.ok arr := by
  obtain ⟨-, h⟩ := h
  rcases h with ⟨hw, -, -⟩ | ⟨rest, harr, -⟩
  · exact absurd hw hne
  · rw [harr]
    unfold store
    have : i < ((w ++ [0]).map some ++ rest).length := by
      simp only [List.length_append, List.length_map, List.length_singleton]
      omega
    simp only [this, if_true]
    exact ⟨_, rfl⟩

/-- The exit of a char-sequence reader whose loop left by `goto error`: it returns -1. -/
theorem char_sequence_exit_fails {line : List Nat} {co c c1 : Nat} {str s1 : string}
    (hco : co < c) (hacc : Acc line co str c) (hc1 : c ≤ c1) (hacc1 : Acc line co s1 c1) :
    ∃ s2, char_sequence_exit str.len (false, s1, c1) = Res.ok (-1, c1, s2) := by
  have hlen : str.len = c - co := by
    rw [hacc.2.2.1, slice_length hacc.2.1]
  have hlen1 : (slice line co c1).length = c1 - co := slice_length hacc1.2.1
  have hne : slice line co c1 ≠ [] := by
    intro he
    rw [he] at hlen1
    simp only [List.length_nil] at hlen1
    omega
  obtain ⟨arr, harr⟩ := store_in_holds hacc1.2.2 hne (i := str.len) (by omega)
  refine ⟨{ len := str.len, capacity := s1.capacity, arr := arr }, ?_⟩
  simp only [char_sequence_exit, harr, ok_bind, pure_eq_ok]

theorem read_c_char_sequence_fails {line : List Nat} {co c : Nat} {str : string}
    (hsize : line.length + 1 < SIZE_MAX) (hco : co < c) (hacc : Acc line co str c)
    (pre tail : List Nat) (hdrop : line.drop c = pre ++ tail)
    (hunits : char_units '\''.toNat pre = true) (hstop : stops_sequence tail) :
    ∃ c1 s2, read_c_char_sequence line c str = Res.ok (-1, c1, s2) := by
  obtain ⟨s1, c1, hloop, hacc1⟩ :=
    char_sequence_loop_fails '\''.toNat (by decide) (by decide) hsize pre.length pre tail c str
      (loop_bound line) (Nat.le_refl _) hdrop hunits hstop hacc (by
        have := congrArg List.length hdrop
        simp only [List.length_drop, List.length_append] at this
        simp only [loop_bound]; omega)
  obtain ⟨hle, -, -⟩ := char_sequence_loop_ok _ _ hacc hloop
  obtain ⟨s2, hs2⟩ := char_sequence_exit_fails hco hacc hle hacc1
  exact ⟨c1, s2, by unfold read_c_char_sequence; simp only [hloop, ok_bind, hs2]⟩

theorem read_s_char_sequence_fails {line : List Nat} {co c : Nat} {str : string}
    (hsize : line.length + 1 < SIZE_MAX) (hco : co < c) (hacc : Acc line co str c)
    (pre tail : List Nat) (hdrop : line.drop c = pre ++ tail)
    (hunits : char_units '\"'.toNat pre = true) (hstop : stops_sequence tail) :
    ∃ c1 s2, read_s_char_sequence line c str = Res.ok (-1, c1, s2) := by
  obtain ⟨s1, c1, hloop, hacc1⟩ :=
    char_sequence_loop_fails '\"'.toNat (by decide) (by decide) hsize pre.length pre tail c str
      (loop_bound line) (Nat.le_refl _) hdrop hunits hstop hacc (by
        have := congrArg List.length hdrop
        simp only [List.length_drop, List.length_append] at this
        simp only [loop_bound]; omega)
  obtain ⟨hle, -, -⟩ := char_sequence_loop_ok _ _ hacc hloop
  obtain ⟨s2, hs2⟩ := char_sequence_exit_fails hco hacc hle hacc1
  exact ⟨c1, s2, by unfold read_s_char_sequence; simp only [hloop, ok_bind, hs2]⟩

theorem character_opening_total {line : List Nat} {c : Nat} (hsize : line.length + 1 < SIZE_MAX)
    (op rest : List Nat) (hop : op ∈ character_openings) (hdrop : line.drop c = op ++ rest) :
    ∃ str1, read_character_constant.opening line string_init c = Res.ok (str1, c + op.length)
      ∧ Acc line c str1 (c + op.length) := by
  have hc : c ≤ line.length := by
    by_contra hgt
    rw [List.drop_eq_nil_of_le (by omega)] at hdrop
    have := congrArg List.length hdrop
    simp only [character_openings, List.mem_cons, List.mem_singleton, List.not_mem_nil,
      or_false] at hop
    rcases hop with h | h | h | h <;> subst h <;> simp [cs] at this
  have hentry := acc_entry line c (by omega)
  simp only [character_openings, List.mem_cons, List.mem_singleton, List.not_mem_nil,
    or_false] at hop
  rcases hop with h | h | h | h <;> subst h
  · have hd : line.drop c = '\''.toNat :: rest := hdrop
    obtain ⟨hrd, -, hlt⟩ := drop_cons_rd hd
    obtain ⟨s1, hs1, hacc1⟩ := APPADV_total hsize hentry hc
    refine ⟨s1, ?_, hacc1⟩
    unfold read_character_constant.opening
    simp only [hrd, ok_bind, beq_self_eq_true, if_true, hs1]
    rfl
  all_goals
    have hd : line.drop c = _ :: '\''.toNat :: rest := hdrop
    obtain ⟨hrd, hd1, hlt⟩ := drop_cons_rd hd
    obtain ⟨hrd1, -, hlt1⟩ := drop_cons_rd hd1
    obtain ⟨s1, hs1, hacc1⟩ := APPADV_total hsize hentry hc
    obtain ⟨s2, hs2, hacc2⟩ := APPADV_total hsize hacc1 (Nat.le_of_lt hlt1)
    refine ⟨s2, ?_, hacc2⟩
    unfold read_character_constant.opening
    simp only [hrd, ok_bind, hrd1, and_then, hs1, hs2]
    rfl

theorem string_opening_total {line : List Nat} {c : Nat} (hsize : line.length + 1 < SIZE_MAX)
    (op rest : List Nat) (hop : op ∈ string_openings) (hdrop : line.drop c = op ++ rest) :
    ∃ str1, read_string_literal.opening line string_init c = Res.ok (str1, c + op.length)
      ∧ Acc line c str1 (c + op.length) := by
  have hc : c ≤ line.length := by
    by_contra hgt
    rw [List.drop_eq_nil_of_le (by omega)] at hdrop
    have := congrArg List.length hdrop
    simp only [string_openings, List.mem_cons, List.mem_singleton, List.not_mem_nil,
      or_false] at hop
    rcases hop with h | h | h | h | h <;> subst h <;> simp [cs] at this
  have hentry := acc_entry line c (by omega)
  simp only [string_openings, List.mem_cons, List.mem_singleton, List.not_mem_nil,
    or_false] at hop
  rcases hop with h | h | h | h | h <;> subst h
  · have hd : line.drop c = '\"'.toNat :: rest := hdrop
    obtain ⟨hrd, -, hlt⟩ := drop_cons_rd hd
    obtain ⟨s1, hs1, hacc1⟩ := APPADV_total hsize hentry hc
    refine ⟨s1, ?_, hacc1⟩
    unfold read_string_literal.opening
    simp only [hrd, ok_bind, beq_self_eq_true, if_true, hs1]
    rfl
  · have hd : line.drop c = 'u'.toNat :: '8'.toNat :: '\"'.toNat :: rest := hdrop
    obtain ⟨hrd, hd1, hlt⟩ := drop_cons_rd hd
    obtain ⟨hrd1, hd2, hlt1⟩ := drop_cons_rd hd1
    obtain ⟨hrd2, -, hlt2⟩ := drop_cons_rd hd2
    obtain ⟨s1, hs1, hacc1⟩ := APPADV_total hsize hentry hc
    obtain ⟨s2, hs2, hacc2⟩ := APPADV_total hsize hacc1 (Nat.le_of_lt hlt1)
    obtain ⟨s3, hs3, hacc3⟩ := APPADV_total hsize hacc2 (Nat.le_of_lt hlt2)
    refine ⟨s3, ?_, hacc3⟩
    unfold read_string_literal.opening read_string_literal.u8
    simp only [hrd, ok_bind, hrd1, hrd2, and_then, hs1, hs2, hs3]
    rfl
  all_goals
    have hd : line.drop c = _ :: '\"'.toNat :: rest := hdrop
    obtain ⟨hrd, hd1, hlt⟩ := drop_cons_rd hd
    obtain ⟨hrd1, -, hlt1⟩ := drop_cons_rd hd1
    obtain ⟨s1, hs1, hacc1⟩ := APPADV_total hsize hentry hc
    obtain ⟨s2, hs2, hacc2⟩ := APPADV_total hsize hacc1 (Nat.le_of_lt hlt1)
    refine ⟨s2, ?_, hacc2⟩
    unfold read_string_literal.opening
    simp only [hrd, ok_bind, hrd1, and_then, hs1, hs2]
    rfl

theorem character_openings_length {op : List Nat} (hop : op ∈ character_openings) :
    0 < op.length := by
  simp only [character_openings, List.mem_cons, List.mem_singleton, List.not_mem_nil,
    or_false] at hop
  rcases hop with h | h | h | h <;> subst h <;> decide

theorem string_openings_length {op : List Nat} (hop : op ∈ string_openings) :
    0 < op.length := by
  simp only [string_openings, List.mem_cons, List.mem_singleton, List.not_mem_nil,
    or_false] at hop
  rcases hop with h | h | h | h | h <;> subst h <;> decide

/-- A character constant whose char sequence meets, behind whole units without closing
quote, a newline or a backslash with no accepted escape behind it: the sub-reader, entered
behind the opening, returns -1, and the reader returns -1 with the entry cursor. -/
theorem read_character_constant_fails {line : List Nat} {c : Nat}
    (hsize : line.length + 1 < SIZE_MAX) (op pre tail : List Nat)
    (hop : op ∈ character_openings) (hdrop : line.drop c = op ++ (pre ++ tail))
    (hunits : char_units '\''.toNat pre = true) (hstop : stops_sequence tail) (tok : token) :
    (∃ str1, read_character_constant.opening line string_init c = Res.ok (str1, c + op.length)
      ∧ ∃ c1 s2, read_c_char_sequence line (c + op.length) str1 = Res.ok (-1, c1, s2))
    ∧ read_character_constant line c tok
        = Res.ok (-1, c, { tok with type := TOKEN_CHAR_CONST }) := by
  obtain ⟨str1, hopen, hacc⟩ := character_opening_total hsize op _ hop hdrop
  obtain ⟨c1, s2, hseq⟩ := read_c_char_sequence_fails hsize
    (by have := character_openings_length hop; omega) hacc pre tail
    (drop_append_length hdrop) hunits hstop
  refine ⟨⟨str1, hopen, c1, s2, hseq⟩, ?_⟩
  unfold read_character_constant
  simp only [hopen, ok_bind, hseq, show (((-1 : Int) != 0)) = true from rfl, error_if_true,
    error_bind, reader_exit]

/-- A string literal whose char sequence meets, behind whole units without closing quote, a
newline or a backslash with no accepted escape behind it: the sub-reader, entered behind
the opening, returns -1, and the reader returns -1 with the entry cursor. -/
theorem read_string_literal_fails {line : List Nat} {c : Nat}
    (hsize : line.length + 1 < SIZE_MAX) (op pre tail : List Nat)
    (hop : op ∈ string_openings) (hdrop : line.drop c = op ++ (pre ++ tail))
    (hunits : char_units '\"'.toNat pre = true) (hstop : stops_sequence tail) (tok : token) :
    (∃ str1, read_string_literal.opening line string_init c = Res.ok (str1, c + op.length)
      ∧ ∃ c1 s2, read_s_char_sequence line (c + op.length) str1 = Res.ok (-1, c1, s2))
    ∧ read_string_literal line c tok
        = Res.ok (-1, c, { tok with type := TOKEN_STRING_LITERAL }) := by
  obtain ⟨str1, hopen, hacc⟩ := string_opening_total hsize op _ hop hdrop
  obtain ⟨c1, s2, hseq⟩ := read_s_char_sequence_fails hsize
    (by have := string_openings_length hop; omega) hacc pre tail
    (drop_append_length hdrop) hunits hstop
  refine ⟨⟨str1, hopen, c1, s2, hseq⟩, ?_⟩
  unfold read_string_literal
  simp only [hopen, ok_bind, hseq, show (((-1 : Int) != 0)) = true from rfl, error_if_true,
    error_bind, reader_exit]

/-! ### C10: universal character names -/

/-- C10. `read_universal_character_name` returns -1 on every input, leaving cursor and
accumulator as they are.  Hence a character constant or string literal in which, behind the
opening and whole char-sequence units without closing quote, a backslash is followed by a
character that is no simple-escape character, no octal digit and not `x` (`u` and `U` are
such characters) makes its reader return -1 with the cursor it was entered with. -/
theorem universal_character_name_fails :
    (∀ (line : List Nat) (c : Nat) (str : string),
      read_universal_character_name line c str = Res.ok (-1, c, str))
    ∧ bad_escape 'u'.toNat = true ∧ bad_escape 'U'.toNat = true
    ∧ (∀ (line : List Nat) (c : Nat) (tok : token) (op pre rest : List Nat),
      line.length + 1 < SIZE_MAX → op ∈ character_openings →
      line.drop c = op ++ (pre ++ '\\'.toNat :: rest) → char_units '\''.toNat pre = true →
      bad_escape (rest.headD 0) = true →
      read_character_constant line c tok
        = Res.ok (-1, c, { tok with type := TOKEN_CHAR_CONST }))
    ∧ (∀ (line : List Nat) (c : Nat) (tok : token) (op pre rest : List Nat),
      line.length + 1 < SIZE_MAX → op ∈ string_openings →
      line.drop c = op ++ (pre ++ '\\'.toNat :: rest) → char_units '\"'.toNat pre = true →
      bad_escape (rest.headD 0) = true →
      read_string_literal line c tok
        = Res.ok (-1, c, { tok with type := TOKEN_STRING_LITERAL })) := by
  refine ⟨fun _ _ _ => rfl, by decide, by decide, ?_, ?_⟩
  · intro line c tok op pre rest hsize hop hdrop hunits hbad
    exact (read_character_constant_fails hsize op pre _ hop hdrop hunits
      (Or.inr ⟨rest, rfl, hbad⟩) tok).2
  · intro line c tok op pre rest hsize hop hdrop hunits hbad
    exact (read_string_literal_fails hsize op pre _ hop hdrop hunits
      (Or.inr ⟨rest, rfl, hbad⟩) tok).2

/-- C10 at a concrete input: in `x = 'a\u0041';` the character constant entered at cursor 4
meets `\u` behind the unit `a`; the reader returns -1 with cursor 4. -/
theorem universal_character_name_fails_witness :
    read_character_constant (cs "x = 'a\\u0041';") 4 fresh_token
      = Res.ok (-1, 4, { type := TOKEN_CHAR_CONST, str := string_init }) :=
  universal_character_name_fails.2.2.2.1 (cs "x = 'a\\u0041';") 4 fresh_token
    (cs "'") (cs "a") (cs "u0041';") (by decide) (by decide) (by decide) (by decide)
    (by decide)

/-! ### The other readers at the opening of a literal -/

/-- First characters of the openings of character constants and string literals. -/
theorem opening_first {line : List Nat} {c : Nat} {op rest : List Nat}
    (hop : op ∈ character_openings ∨ op ∈ string_openings)
    (hdrop : line.drop c = op ++ rest) :
    ∃ x, rd line c = Res.ok x
      ∧ (x = '\''.toNat ∨ x = '\"'.toNat ∨ x = 'L'.toNat ∨ x = 'u'.toNat ∨ x = 'U'.toNat) := by
  simp only [character_openings, string_openings, List.mem_cons, List.mem_singleton,
    List.not_mem_nil, or_false] at hop
  rcases hop with (h | h | h | h) | (h | h | h | h | h) <;> subst h
  · exact ⟨_, (drop_cons_rd (x := '\''.toNat) hdrop).1, by decide⟩
  · exact ⟨_, (drop_cons_rd (x := 'L'.toNat) hdrop).1, by decide⟩
  · exact ⟨_, (drop_cons_rd (x := 'u'.toNat) hdrop).1, by decide⟩
  · exact ⟨_, (drop_cons_rd (x := 'U'.toNat) hdrop).1, by decide⟩
  · exact ⟨_, (drop_cons_rd (x := '\"'.toNat) hdrop).1, by decide⟩
  · exact ⟨_, (drop_cons_rd (x := 'u'.toNat) hdrop).1, by decide⟩
  · exact ⟨_, (drop_cons_rd (x := 'u'.toNat) hdrop).1, by decide⟩
  · exact ⟨_, (drop_cons_rd (x := 'U'.toNat) hdrop).1, by decide⟩
  · exact ⟨_, (drop_cons_rd (x := 'L'.toNat) hdrop).1, by decide⟩

theorem read_punctuator_fails_at_opening {line : List Nat} {c x : Nat}
    (hrd : rd line c = Res.ok x)
    (hx : x = '\''.toNat ∨ x = '\"'.toNat ∨ x = 'L'.toNat ∨ x = 'u'.toNat ∨ x = 'U'.toNat)
    (tok : token) : read_punctuator line c tok = Res.ok (-1, c, tok) := by
  have htree : read_punctuator.tree line c = Res.error := by
    unfold read_punctuator.tree
    rw [hrd]
    rcases hx with h | h | h | h | h <;> subst h <;> rfl
  unfold read_punctuator
  simp only [htree, error_bind, reader_exit]

theorem read_integer_constant_fails_at_opening {line : List Nat} {c x : Nat}
    (hrd : rd line c = Res.ok x)
    (hx : x = '\''.toNat ∨ x = '\"'.toNat ∨ x = 'L'.toNat ∨ x = 'u'.toNat ∨ x = 'U'.toNat)
    (tok : token) :
    read_integer_constant line c tok = Res.ok (-1, c, { tok with type := TOKEN_INT_CONST }) := by
  have hd : isdigit x = false := by
    rcases hx with h | h | h | h | h <;> subst h <;> decide
  unfold read_integer_constant
  simp only [hrd, ok_bind, hd, Bool.not_false, error_if_true, error_bind, reader_exit]

theorem read_floating_constant_fails_at_opening {line : List Nat} {c x : Nat}
    (hrd : rd line c = Res.ok x)
    (hx : x = '\''.toNat ∨ x = '\"'.toNat ∨ x = 'L'.toNat ∨ x = 'u'.toNat ∨ x = 'U'.toNat)
    (tok : token) :
    read_floating_constant line c tok
      = Res.ok (-1, c, { tok with type := TOKEN_FLOAT_CONST }) := by
  have hd : isdigit x = false := by
    rcases hx with h | h | h | h | h <;> subst h <;> decide
  have hz : (x == '0'.toNat) = false := by
    rcases hx with h | h | h | h | h <;> subst h <;> decide
  have hdot : (x == '.'.toNat) = false := by
    rcases hx with h | h | h | h | h <;> subst h <;> decide
  have hloop : while_APPADV_cnt isdigit line (loop_bound line) string_init c 0
      = Res.ok (string_init, c, 0) := by
    show while_APPADV_cnt isdigit line (line.length + 1 + 1) string_init c 0 = _
    rw [while_APPADV_cnt]
    simp only [hrd, ok_bind, hd, Bool.false_eq_true, if_false, pure_eq_ok]
  have hdec : read_floating_constant.decimal line string_init c = Res.error := by
    unfold read_floating_constant.decimal
    simp only [hloop, hrd, ok_bind, hdot, Bool.false_eq_true, if_false,
      beq_self_eq_true, error_if_true, error_bind]
  unfold read_floating_constant
  simp only [hrd, ok_bind, hz, and_then, Bool.false_eq_true, if_false, pure_eq_ok, hdec,
    error_bind, reader_exit]

theorem read_string_literal_fails_at_character_opening {line : List Nat} {c : Nat}
    {op rest : List Nat} (hop : op ∈ character_openings) (hdrop : line.drop c = op ++ rest)
    (tok : token) :
    read_string_literal line c tok
      = Res.ok (-1, c, { tok with type := TOKEN_STRING_LITERAL }) := by
  have hopen : read_string_literal.opening line string_init c = Res.error := by
    simp only [character_openings, List.mem_cons, List.mem_singleton, List.not_mem_nil,
      or_false] at hop
    rcases hop with h | h | h | h <;> subst h
    · have hd : line.drop c = '\''.toNat :: rest := hdrop
      unfold read_string_literal.opening read_string_literal.u8
      simp only [(drop_cons_rd hd).1, ok_bind]
      rfl
    all_goals
      have hd : line.drop c = _ :: '\''.toNat :: rest := hdrop
      obtain ⟨hrd, hd1, -⟩ := drop_cons_rd hd
      unfold read_string_literal.opening read_string_literal.u8
      simp only [hrd, (drop_cons_rd hd1).1, ok_bind, and_then]
      rfl
  unfold read_string_literal
  simp only [hopen, error_bind, reader_exit]

theorem read_character_constant_fails_at_string_opening {line : List Nat} {c : Nat}
    {op rest : List Nat} (hop : op ∈ string_openings) (hdrop : line.drop c = op ++ rest)
    (tok : token) :
    read_character_constant line c tok
      = Res.ok (-1, c, { tok with type := TOKEN_CHAR_CONST }) := by
  have hopen : read_character_constant.opening line string_init c = Res.error := by
    simp only [string_openings, List.mem_cons, List.mem_singleton, List.not_mem_nil,
      or_false] at hop
    rcases hop with h | h | h | h | h <;> subst h
    · have hd : line.drop c = '\"'.toNat :: rest := hdrop
      unfold read_character_constant.opening
      simp only [(drop_cons_rd hd).1, ok_bind]
      rfl
    all_goals
      have hd : line.drop c = _ :: _ :: _ := hdrop
      obtain ⟨hrd, hd1, -⟩ := drop_cons_rd hd
      unfold read_character_constant.opening
      simp only [hrd, (drop_cons_rd hd1).1, ok_bind, and_then]
      rfl
  unfold read_character_constant
  simp only [hopen, error_bind, reader_exit]

theorem read_keyword_fails_before_quote {line : List Nat} {c : Nat}
    (hsize : line.length + 1 < SIZE_MAX) (w : List Nat) (q : Nat) (r : List Nat)
    (hdrop : line.drop c = w ++ q :: r) (hw : w ≠ [])
    (hstart : is_identifier_nondigit (w.headD 0) = true)
    (hcont : ∀ x ∈ w, is_identifier x = true)
    (hq : q = '\''.toNat ∨ q = '\"'.toNat) (tok : token) :
    read_keyword_or_identifier line c tok = Res.ok (-1, c, tok) := by
  have hc : c ≤ line.length := by
    by_contra hgt
    rw [List.drop_eq_nil_of_le (by omega)] at hdrop
    have := congrArg List.length hdrop
    simp only [List.length_nil, List.length_append, List.length_cons] at this
    omega
  have hhead : (w ++ q :: r).headD 0 = w.headD 0 := by
    cases w with
    | nil => exact absurd rfl hw
    | cons y w => rfl
  have hqid : is_identifier ((q :: r).headD 0) = false := by
    show is_identifier q = false
    rcases hq with h | h <;> subst h <;> decide
  have htw := takeWhile_append_stop is_identifier w (q :: r) hcont hqid
  obtain ⟨str1, hloop, -, hle⟩ :=
    while_APPADV_total is_identifier (by decide) hsize (loop_bound line)
      (acc_entry line c (by omega)) hc (by simp only [loop_bound]; omega)
  rw [hdrop, htw] at hloop hle
  have hrd2 : rd line (c + w.length) = Res.ok q :=
    (drop_cons_rd (drop_append_length hdrop)).1
  have hqq : (q == '\''.toNat || q == '\"'.toNat) = true := by
    rcases hq with h | h <;> subst h <;> decide
  unfold read_keyword_or_identifier
  simp only [rd_drop hc, hdrop, hhead, ok_bind, hstart, Bool.not_true, error_if_false, hloop,
    hrd2, hqq, error_if_true, error_bind, reader_exit]

theorem read_keyword_fails_at_opening {line : List Nat} {c : Nat}
    (hsize : line.length + 1 < SIZE_MAX) {op rest : List Nat}
    (hop : op ∈ character_openings ∨ op ∈ string_openings)
    (hdrop : line.drop c = op ++ rest) (tok : token) :
    read_keyword_or_identifier line c tok = Res.ok (-1, c, tok) := by
  have hquote : ∀ q, (q = '\''.toNat ∨ q = '\"'.toNat) → line.drop c = q :: rest →
      read_keyword_or_identifier line c tok = Res.ok (-1, c, tok) := by
    intro q hq hd
    have hnd : is_identifier_nondigit q = false := by
      rcases hq with h | h <;> subst h <;> decide
    unfold read_keyword_or_identifier
    simp only [(drop_cons_rd hd).1, ok_bind, hnd, Bool.not_false, error_if_true, error_bind,
      reader_exit]
  simp only [character_openings, string_openings, List.mem_cons, List.mem_singleton,
    List.not_mem_nil, or_false] at hop
  rcases hop with (h | h | h | h) | (h | h | h | h | h) <;> subst h
  · exact hquote _ (Or.inl rfl) hdrop
  · exact read_keyword_fails_before_quote hsize (cs "L") _ rest hdrop (by decide) (by decide)
      (by decide) (Or.inl rfl) tok
  · exact read_keyword_fails_before_quote hsize (cs "u") _ rest hdrop (by decide) (by decide)
      (by decide) (Or.inl rfl) tok
  · exact read_keyword_fails_before_quote hsize (cs "U") _ rest hdrop (by decide) (by decide)
      (by decide) (Or.inl rfl) tok
  · exact hquote _ (Or.inr rfl) hdrop
  · exact read_keyword_fails_before_quote hsize (cs "u8") _ rest hdrop (by decide) (by decide)
      (by decide) (Or.inr rfl) tok
  · exact read_keyword_fails_before_quote hsize (cs "u") _ rest hdrop (by decide) (by decide)
      (by decide) (Or.inr rfl) tok
  · exact read_keyword_fails_before_quote hsize (cs "U") _ rest hdrop (by decide) (by decide)
      (by decide) (Or.inr rfl) tok
  · exact read_keyword_fails_before_quote hsize (cs "L") _ rest hdrop (by decide) (by decide)
      (by decide) (Or.inr rfl) tok

/-- At the opening of a literal whose own reader fails, all six readers fail, and the inner
loop of the dispatcher, arriving there, leaves through the error return with the token
sequence as it was. -/
theorem scan_line_fails_at_literal {line : List Nat} {c : Nat}
    (hsize : line.length + 1 < SIZE_MAX) {op rest : List Nat}
    (hop : op ∈ character_openings ∨ op ∈ string_openings)
    (hdrop : line.drop c = op ++ rest)
    (hchar : ∀ tok, read_character_constant line c tok
      = Res.ok (-1, c, { tok with type := TOKEN_CHAR_CONST }))
    (hstr : ∀ tok, read_string_literal line c tok
      = Res.ok (-1, c, { tok with type := TOKEN_STRING_LITERAL })) :
    try_readers line c fresh_token
        = Res.ok (true, c, { type := TOKEN_STRING_LITERAL, str := string_init })
    ∧ ∀ (fuel : Nat) (tokarr : token_array),
        scan_line line (fuel + 1) c tokarr = Res.ok (true, tokarr) := by
  obtain ⟨x, hrd, hx⟩ := opening_first hop hdrop
  have htry : try_readers line c fresh_token
      = Res.ok (true, c, { type := TOKEN_STRING_LITERAL, str := string_init }) := by
    unfold try_readers
    simp only [read_keyword_fails_at_opening hsize hop hdrop, ok_bind,
      read_integer_constant_fails_at_opening hrd hx,
      read_floating_constant_fails_at_opening hrd hx, hchar, hstr,
      read_punctuator_fails_at_opening hrd hx,
      show (((-1 : Int) == 0)) = false from rfl, Bool.false_eq_true, if_false, pure_eq_ok]
    rfl
  refine ⟨htry, fun fuel tokarr => ?_⟩
  have hsp : isspace x = false := by
    rcases hx with h | h | h | h | h <;> subst h <;> decide
  have hx0 : (x == 0) = false := by
    rcases hx with h | h | h | h | h <;> subst h <;> decide
  have hskip : skip_space line (loop_bound line) c = Res.ok c := by
    show skip_space line (line.length + 1 + 1) c = _
    rw [skip_space]
    simp only [hrd, ok_bind, hsp, Bool.false_eq_true, if_false, pure_eq_ok]
  have htry1 : try_readers line c { type := TOKEN_INDETERMINATE, str := string_init }
      = Res.ok (true, c, { type := TOKEN_STRING_LITERAL, str := string_init }) := htry
  rw [scan_line]
  simp only [hskip, ok_bind, hrd, hx0, Bool.false_eq_true, if_false, htry1, if_true,
    pure_eq_ok]

/-! ### C8: a newline inside a literal -/

theorem newline_next_stops {tail : List Nat} (h : newline_next tail = true) :
    stops_sequence tail := by
  cases tail with
  | nil => simp [newline_next] at h
  | cons x r =>
    simp only [newline_next, Bool.or_eq_true, Bool.and_eq_true, beq_iff_eq] at h
    rcases h with h | ⟨h1, h2⟩
    · exact Or.inl ⟨r, by rw [h]⟩
    · exact Or.inr ⟨r, by rw [h1], by rw [h2]; decide⟩

/-- C8. Take a line in which, at cursor `c`, a character constant (string literal) opens and
in which, behind the opening and whole char-sequence units without closing quote, a newline
is the next character (directly, or behind a backslash).  Then `read_c_char_sequence`
(`read_s_char_sequence`), entered behind the opening, returns -1; the enclosing reader
returns -1 with cursor `c`; all six readers fail at `c`; and the inner loop of the
dispatcher, arriving at `c`, leaves through the error return with the token sequence
unchanged.  The line `'\n'` (backslash, letter n) lexes to exactly one character
constant. -/
theorem newline_in_literal_fails :
    (∀ (line : List Nat) (c : Nat) (op pre tail : List Nat),
      line.length + 1 < SIZE_MAX → op ∈ character_openings →
      line.drop c = op ++ (pre ++ tail) → char_units '\''.toNat pre = true →
      newline_next tail = true →
      (∃ str1, read_character_constant.opening line string_init c
            = Res.ok (str1, c + op.length)
          ∧ ∃ c1 s2, read_c_char_sequence line (c + op.length) str1 = Res.ok (-1, c1, s2))
      ∧ (∀ tok, read_character_constant line c tok
          = Res.ok (-1, c, { tok with type := TOKEN_CHAR_CONST }))
      ∧ try_readers line c fresh_token
          = Res.ok (true, c, { type := TOKEN_STRING_LITERAL, str := string_init })
      ∧ ∀ (fuel : Nat) (tokarr : token_array),
          scan_line line (fuel + 1) c tokarr = Res.ok (true, tokarr))
    ∧ (∀ (line : List Nat) (c : Nat) (op pre tail : List Nat),
      line.length + 1 < SIZE_MAX → op ∈ string_openings →
      line.drop c = op ++ (pre ++ tail) → char_units '\"'.toNat pre = true →
      newline_next tail = true →
      (∃ str1, read_string_literal.opening line string_init c
            = Res.ok (str1, c + op.length)
          ∧ ∃ c1 s2, read_s_char_sequence line (c + op.length) str1 = Res.ok (-1, c1, s2))
      ∧ (∀ tok, read_string_literal line c tok
          = Res.ok (-1, c, { tok with type := TOKEN_STRING_LITERAL }))
      ∧ try_readers line c fresh_token
          = Res.ok (true, c, { type := TOKEN_STRING_LITERAL, str := string_init })
      ∧ ∀ (fuel : Nat) (tokarr : token_array),
          scan_line line (fuel + 1) c tokarr = Res.ok (true, tokarr))
    ∧ lexer_tokens [cs "'\\n'"] = one_token TOKEN_CHAR_CONST (string_lit (cs "'\\n'")) := by
  refine ⟨?_, ?_, by decide⟩
  · intro line c op pre tail hsize hop hdrop hunits hnl
    have hfail := fun tok => read_character_constant_fails hsize op pre tail hop hdrop hunits
      (newline_next_stops hnl) tok
    have hscan := scan_line_fails_at_literal hsize (Or.inl hop) hdrop (fun tok => (hfail tok).2)
      (fun tok => read_string_literal_fails_at_character_opening hop hdrop tok)
    exact ⟨(hfail fresh_token).1, fun tok => (hfail tok).2, hscan.1, hscan.2⟩
  · intro line c op pre tail hsize hop hdrop hunits hnl
    have hfail := fun tok => read_string_literal_fails hsize op pre tail hop hdrop hunits
      (newline_next_stops hnl) tok
    have hscan := scan_line_fails_at_literal hsize (Or.inr hop) hdrop
      (fun tok => read_character_constant_fails_at_string_opening hop hdrop tok)
      (fun tok => (hfail tok).2)
    exact ⟨(hfail fresh_token).1, fun tok => (hfail tok).2, hscan.1, hscan.2⟩

/-- C8 at a concrete input: on the line `s = "a\"b` that ends in a newline, the string
literal opening at cursor 4 is not closed before the newline (the quote behind the backslash
is escaped); the inner loop, arriving there with the tokens of `s` and `=`, leaves through
the error return with those two tokens. -/
theorem newline_in_literal_fails_witness :
    lexer [cs "s = \"a\\\"b\n"]
      = Res.ok (true,
          { len := 2, capacity := 8,
            tokens := [some { type := TOKEN_IDENTIFER, str := string_lit (cs "s") },
              some { type := TOKEN_ASSIGN, str := string_init }] ++ List.replicate 6 none })
    ∧ scan_line (cs "s = \"a\\\"b\n") 1 4 token_array_init = Res.ok (true, token_array_init) :=
  ⟨by decide,
   (newline_in_literal_fails.2.1 (cs "s = \"a\\\"b\n") 4 (cs "\"") (cs "a\\\"b") (cs "\n")
     (by decide) (by decide) (by decide) (by decide) (by decide)).2.2.2 0
     token_array_init⟩

/-! ### C13: a declaration, end to end -/

/-- C13: lexing the single line `int x = 42 + y;` (without and with its newline) returns
without `"error"` and yields exactly seven tokens, of kinds `TOKEN_INT`, `TOKEN_IDENTIFER`,
`TOKEN_ASSIGN`, `TOKEN_INT_CONST`, `TOKEN_PLUS`, `TOKEN_IDENTIFER`, `TOKEN_SEMICOLON`; the
keyword, identifier and constant tokens carry the lexemes `int`, `x`, `42`, `y`, the three
punctuator tokens the string the dispatcher initialised. -/
theorem end_to_end_declaration :
    lexer_tokens [cs "int x = 42 + y;"]
      = Res.ok (false,
          [some { type := TOKEN_INT, str := string_lit (cs "int") },
           some { type := TOKEN_IDENTIFER, str := string_lit (cs "x") },
           some { type := TOKEN_ASSIGN, str := string_init },
           some { type := TOKEN_INT_CONST, str := string_lit (cs "42") },
           some { type := TOKEN_PLUS, str := string_init },
           some { type := TOKEN_IDENTIFER, str := string_lit (cs "y") },
           some { type := TOKEN_SEMICOLON, str := string_init }])
    ∧ lexer_tokens [cs "int x = 42 + y;\n"]
      = Res.ok (false,
          [some { type := TOKEN_INT, str := string_lit (cs "int") },
           some { type := TOKEN_IDENTIFER, str := string_lit (cs "x") },
           some { type := TOKEN_ASSIGN, str := string_init },
           some { type := TOKEN_INT_CONST, str := string_lit (cs "42") },
           some { type := TOKEN_PLUS, str := string_init },
           some { type := TOKEN_IDENTIFER, str := string_lit (cs "y") },
           some { type := TOKEN_SEMICOLON, str := string_init }]) := by
  refine ⟨?_, ?_⟩ <;> decide

/-! ### C16: no token is left indeterminate -/

/-- C16: every cell in use of the sequence `lexer` returns (through either exit) holds a
token whose kind is not `TOKEN_INDETERMINATE`: it is a keyword kind, the identifier kind, one
of the four constant and literal kinds, or a punctuator kind. -/
theorem no_indeterminate_token (file : List (List Nat)) (failed : Bool)
    (tokarr : token_array) (hret : lexer file = Res.ok (failed, tokarr)) :
    ∀ cell ∈ tokarr.elems, ∃ tok, cell = some tok ∧ tok.type ≠ TOKEN_INDETERMINATE ∧
      (tok.type < NUM_KEYWORDS ∨ tok.type = TOKEN_IDENTIFER
        ∨ tok.type = TOKEN_INT_CONST ∨ tok.type = TOKEN_FLOAT_CONST
        ∨ tok.type = TOKEN_CHAR_CONST ∨ tok.type = TOKEN_STRING_LITERAL
        ∨ (TOKEN_BRACKET_OPEN ≤ tok.type ∧ tok.type ≤ TOKEN_TWO_SHARP)) := by
  refine lexer_all _ (fun line c c1 tok1 h => ?_) hret
  have hk := try_readers_lexeme h
  have e1 : TOKEN_INDETERMINATE = 97 := rfl
  have e2 : NUM_KEYWORDS = 44 := rfl
  have e3 : TOKEN_IDENTIFER = 44 := rfl
  have e4 : TOKEN_INT_CONST = 45 := rfl
  have e5 : TOKEN_FLOAT_CONST = 46 := rfl
  have e6 : TOKEN_CHAR_CONST = 47 := rfl
  have e7 : TOKEN_STRING_LITERAL = 48 := rfl
  have e8 : TOKEN_BRACKET_OPEN = 49 := rfl
  have e9 : TOKEN_TWO_SHARP = 96 := rfl
  rw [e8, e9] at hk
  rw [e1, e2, e3, e4, e5, e6, e7, e8, e9]
  omega

/-- C16 at the two lines `x = 'a';` and `1.5 "s" @`: the six tokens returned through the
error exit are of kinds identifier, `=`, character constant, `;`, floating constant, string
literal, none of them `TOKEN_INDETERMINATE`. -/
theorem no_indeterminate_token_witness :
    lexer [cs "x = 'a';\n", cs "1.5 \"s\" @\n"] = Res.ok (true,
        { len := 6, capacity := 8,
          tokens := [some { type := TOKEN_IDENTIFER, str := string_lit (cs "x") },
            some { type := TOKEN_ASSIGN, str := string_init },
            some { type := TOKEN_CHAR_CONST, str := string_lit (cs "'a'") },
            some { type := TOKEN_SEMICOLON, str := string_init },
            some { type := TOKEN_FLOAT_CONST, str := string_lit (cs "1.5") },
            some { type := TOKEN_STRING_LITERAL, str := string_lit (cs "\"s\"") }]
            ++ List.replicate 2 none })
    ∧ ∀ cell ∈ token_array.elems
          { len := 6, capacity := 8,
            tokens := [some { type := TOKEN_IDENTIFER, str := string_lit (cs "x") },
              some { type := TOKEN_ASSIGN, str := string_init },
              some { type := TOKEN_CHAR_CONST, str := string_lit (cs "'a'") },
              some { type := TOKEN_SEMICOLON, str := string_init },
              some { type := TOKEN_FLOAT_CONST, str := string_lit (cs "1.5") },
              some { type := TOKEN_STRING_LITERAL, str := string_lit (cs "\"s\"") }]
              ++ List.replicate 2 none },
        ∃ tok, cell = some tok ∧ tok.type ≠ TOKEN_INDETERMINATE ∧
          (tok.type < NUM_KEYWORDS ∨ tok.type = TOKEN_IDENTIFER
            ∨ tok.type = TOKEN_INT_CONST ∨ tok.type = TOKEN_FLOAT_CONST
            ∨ tok.type = TOKEN_CHAR_CONST ∨ tok.type = TOKEN_STRING_LITERAL
            ∨ (TOKEN_BRACKET_OPEN ≤ tok.type ∧ tok.type ≤ TOKEN_TWO_SHARP)) :=
  ⟨by decide,
   no_indeterminate_token [cs "x = 'a';\n", cs "1.5 \"s\" @\n"] true
     { len := 6, capacity := 8,
       tokens := [some { type := TOKEN_IDENTIFER, str := string_lit (cs "x") },
         some { type := TOKEN_ASSIGN, str := string_init },
         some { type := TOKEN_CHAR_CONST, str := string_lit (cs "'a'") },
         some { type := TOKEN_SEMICOLON, str := string_init },
         some { type := TOKEN_FLOAT_CONST, str := string_lit (cs "1.5") },
         some { type := TOKEN_STRING_LITERAL, str := string_lit (cs "\"s\"") }]
         ++ List.replicate 2 none }
     (by decide)⟩

/-! ### C20: the text buffer -/

theorem holds_cases {str : string} {w : List Nat} (h : str.Holds w) :
    (w = [] ∧ str.Unallocated) ∨ str.Terminated w := by
  obtain ⟨hlen, h | ⟨rest, harr, hcap⟩⟩ := h
  · left
    obtain ⟨hw, hc, ha⟩ := h
    subst hw
    exact ⟨rfl, hlen, hc, ha⟩
  · right
    exact ⟨hlen.symm, by omega, rest, harr, by omega⟩

theorem string_append_capacity {str str1 : string} {c : Nat}
    (h : string_append str c = Res.ok str1) :
    str1.len = str.len + 1 ∧
      ((str.capacity = 0 ∧ str1.capacity = 16)
      ∨ (str.capacity ≠ 0 ∧ str.len + 1 = str.capacity ∧ str1.capacity = 2 * str.capacity)
      ∨ (str.capacity ≠ 0 ∧ str.len + 1 ≠ str.capacity ∧ str1.capacity = str.capacity)) := by
  unfold string_append at h
  split at h
  · exact absurd h (by simp)
  · obtain ⟨a1, _, h⟩ := bind_eq_ok h
    obtain ⟨a2, _, h⟩ := bind_eq_ok h
    have h := Res.ok.inj h
    subst h
    by_cases h0 : str.capacity = 0
    · simp [h0]
    · by_cases h1 : str.len + 1 = str.capacity
      · simp [h0, h1]; omega
      · simp [h0, h1]

theorem string_clear_holds {str : string} {w : List Nat} (h : str.Holds w)
    (hlen : str.len ≠ SIZE_MAX) :
    ∃ str1, string_clear str = Res.ok str1 ∧ str1.Holds [] ∧ str1.capacity = str.capacity := by
  obtain ⟨hl, h | ⟨rest, harr, hcap⟩⟩ := h
  · obtain ⟨hw, hc, ha⟩ := h
    refine ⟨{ str with len := 0 }, ?_, ⟨rfl, Or.inl ⟨rfl, hc, ha⟩⟩, rfl⟩
    unfold string_clear
    simp [hlen, ha]
  · cases w with
    | nil =>
      refine ⟨{ str with len := 0 }, ?_, ⟨rfl, Or.inr ⟨rest, harr, by simpa using hcap⟩⟩, rfl⟩
      unfold string_clear
      simp [hlen, harr, store]
    | cons x w =>
      refine ⟨{ str with len := 0, arr := some (some 0 :: ((w ++ [0]).map some ++ rest)) },
        ?_, ⟨rfl, Or.inr ⟨(w ++ [0]).map some ++ rest, by simp, ?_⟩⟩, rfl⟩
      · unfold string_clear
        simp [hlen, harr, store]
      · simp at hcap ⊢
        omega

theorem reachable_holds {str : string} (h : str.Reachable) : ∃ w, str.Holds w := by
  induction h with
  | init => exact ⟨[], string_init_holds⟩
  | append s s1 c _ hret ih =>
    obtain ⟨w, hw⟩ := ih
    exact ⟨w ++ [c], string_append_ok hw hret⟩
  | clear s s1 _ hret ih =>
    obtain ⟨w, hw⟩ := ih
    have hlen : s.len ≠ SIZE_MAX := by
      intro he
      unfold string_clear at hret
      simp [he] at hret
    obtain ⟨s2, h2, hh, _⟩ := string_clear_holds hw hlen
    rw [h2] at hret
    have := Res.ok.inj hret
    subst this
    exact ⟨[], hh⟩

/-- C20 fails for the buffer `string_init` leaves, and for that buffer after `string_clear`:
it is reachable, has `capacity = 0 < len + 1` and no block, hence no terminator. -/
theorem fresh_buffer_not_terminated :
    string_init.Reachable
    ∧ ¬ (string_init.len + 1 ≤ string_init.capacity)
    ∧ string_init.arr = none
    ∧ string_clear string_init = Res.ok string_init
    ∧ ∀ w, ¬ string_init.Terminated w := by
  refine ⟨string.Reachable.init, by decide, rfl, by decide, ?_⟩
  intro w h
  exact absurd h.2.1 (by decide)

/-- C20 as amended. A buffer state reachable from `string_init` by calls of `string_append`
and `string_clear` either was never appended to (`len = 0`, `capacity = 0`, no block) or holds
`len` characters `w` followed by a null terminator in a block of `capacity ≥ len + 1` cells.
On such a state `string_append(c)` returns unless `len` is `(size_t)-1`, and leaves `len + 1`
characters, the previous ones unchanged and `c` behind them, with their terminator, in a
buffer whose capacity is 16 (from 0), the double (when `len + 1` equalled it) or unchanged. -/
theorem text_buffer_invariant (str : string) (hreach : str.Reachable) :
    ∃ w : List Nat, (str.Unallocated ∨ str.Terminated w) ∧ w.length = str.len ∧
      ∀ c : Nat, str.len ≠ SIZE_MAX →
        ∃ str1, string_append str c = Res.ok str1
          ∧ str1.Terminated (w ++ [c])
          ∧ str1.len = str.len + 1
          ∧ ((str.capacity = 0 ∧ str1.capacity = 16)
            ∨ (str.capacity ≠ 0 ∧ str.len + 1 = str.capacity
                ∧ str1.capacity = 2 * str.capacity)
            ∨ (str.capacity ≠ 0 ∧ str.len + 1 ≠ str.capacity
                ∧ str1.capacity = str.capacity)) := by
  obtain ⟨w, hw⟩ := reachable_holds hreach
  refine ⟨w, ?_, hw.1.symm, ?_⟩
  · rcases holds_cases hw with h | h
    · exact Or.inl h.2
    · exact Or.inr h
  · intro c hlen
    obtain ⟨str1, hret, hh⟩ := string_append_holds c hw (by rw [← hw.1]; exact hlen)
    refine ⟨str1, hret, ?_, (string_append_capacity hret).1, (string_append_capacity hret).2⟩
    rcases holds_cases hh with h | h
    · exact absurd h.1 (by simp)
    · exact h

/-- C20 as amended, at the buffer reached by appending `a` and `b`: it holds `ab`, and
appending `c` leaves `abc` in the same 16 cells. -/
theorem text_buffer_invariant_witness :
    ∃ str : string, str.Reachable ∧ str.len = 2 ∧ str.capacity = 16 ∧
      ∃ w : List Nat, (str.Unallocated ∨ str.Terminated w) ∧ w.length = str.len ∧
        ∀ c : Nat, str.len ≠ SIZE_MAX →
          ∃ str1, string_append str c = Res.ok str1
            ∧ str1.Terminated (w ++ [c])
            ∧ str1.len = str.len + 1
            ∧ ((str.capacity = 0 ∧ str1.capacity = 16)
              ∨ (str.capacity ≠ 0 ∧ str.len + 1 = str.capacity
                  ∧ str1.capacity = 2 * str.capacity)
              ∨ (str.capacity ≠ 0 ∧ str.len + 1 ≠ str.capacity
                  ∧ str1.capacity = str.capacity)) :=
  ⟨{ len := 2, capacity := 16,
     arr := some ([some 'a'.toNat, some 'b'.toNat, some 0] ++ List.replicate 13 none) },
   string.Reachable.append
     { len := 1, capacity := 16,
       arr := some ([some 'a'.toNat, some 0] ++ List.replicate 14 none) }
     { len := 2, capacity := 16,
       arr := some ([some 'a'.toNat, some 'b'.toNat, some 0] ++ List.replicate 13 none) }
     'b'.toNat
     (string.Reachable.append string_init
       { len := 1, capacity := 16,
         arr := some ([some 'a'.toNat, some 0] ++ List.replicate 14 none) }
       'a'.toNat string.Reachable.init (by decide))
     (by decide),
   rfl, rfl,
   text_buffer_invariant
     { len := 2, capacity := 16,
       arr := some ([some 'a'.toNat, some 'b'.toNat, some 0] ++ List.replicate 13 none) }
     (string.Reachable.append
       { len := 1, capacity := 16,
         arr := some ([some 'a'.toNat, some 0] ++ List.replicate 14 none) }
       { len := 2, capacity := 16,
         arr := some ([some 'a'.toNat, some 'b'.toNat, some 0] ++ List.replicate 13 none) }
       'b'.toNat
       (string.Reachable.append string_init
         { len := 1, capacity := 16,
           arr := some ([some 'a'.toNat, some 0] ++ List.replicate 14 none) }
         'a'.toNat string.Reachable.init (by decide))
       (by decide))⟩

/-! ### C15: literals without closing quote -/

/-- One pass of the loop body over a character that is neither newline nor backslash (the
terminating null included): the character is appended and the cursor moves behind it. -/
theorem body_plain {line : List Nat} {co c x : Nat} {str : string}
    (hsize : line.length + 1 < SIZE_MAX) (hacc : Acc line co str c) (hc : c ≤ line.length)
    (hrd : rd line c = Res.ok x) (hnl : x ≠ '\n'.toNat) (hbs : x ≠ '\\'.toNat) :
    ∃ str1, char_sequence_body line str c = Res.ok (true, str1, c + 1)
      ∧ Acc line co str1 (c + 1) := by
  obtain ⟨s1, hs1, hacc1⟩ := APPADV_total hsize hacc hc
  refine ⟨s1, ?_, hacc1⟩
  unfold char_sequence_body
  simp only [hrd, ok_bind, beq_false_of_ne hnl, Bool.false_eq_true, if_false,
    beq_false_of_ne hbs, hs1, pure_eq_ok]

/-- A char-sequence loop over text without closing quote, newline and backslash that runs
to the end of the line appends the terminating null and reads the cell behind it. -/
theorem char_sequence_loop_runs_off (q : Nat) (hq0 : q ≠ 0) {line : List Nat} {co : Nat}
    (hsize : line.length + 1 < SIZE_MAX) :
    ∀ (body : List Nat) (c : Nat) (str : string) (fuel : Nat),
      c ≤ line.length → line.drop c = body → unescaped_text q body = true →
      Acc line co str c → body.length + 1 < fuel →
      char_sequence_loop q line fuel str c = Res.fault Fault.oob := by
  intro body
  induction body with
  | nil =>
    intro c str fuel hc hdrop _ hacc hfuel
    have hcl : c = line.length := by
      have := congrArg List.length hdrop
      simp only [List.length_drop, List.length_nil] at this
      omega
    subst hcl
    obtain ⟨f, rfl⟩ : ∃ f, fuel = f + 1 + 1 := ⟨fuel - 2, by simp at hfuel; omega⟩
    obtain ⟨s1, hs1, -⟩ := body_plain hsize hacc (Nat.le_refl _) (rd_length line)
      (by decide) (by decide)
    have hne : ((0 : Nat) != q) = true := by simpa using Ne.symm hq0
    rw [char_sequence_loop]
    simp only [rd_length, ok_bind, hne, if_true, hs1]
    rw [char_sequence_loop]
    simp only [rd_gt (Nat.lt_succ_self _), fault_bind]
  | cons x r ih =>
    intro c str fuel hc hdrop hplain hacc hfuel
    obtain ⟨hrd, hdrop1, hlt⟩ := drop_cons_rd hdrop
    simp only [unescaped_text, List.all_cons, Bool.and_eq_true, bne_iff_ne] at hplain
    obtain ⟨⟨⟨hxq, hxnl⟩, hxbs⟩, hr⟩ := hplain
    obtain ⟨f, rfl⟩ : ∃ f, fuel = f + 1 := ⟨fuel - 1, by omega⟩
    obtain ⟨s1, hs1, hacc1⟩ := body_plain hsize hacc hc hrd hxnl hxbs
    have hne : (x != q) = true := by simpa using hxq
    rw [char_sequence_loop]
    simp only [hrd, ok_bind, hne, if_true, hs1]
    simp only [List.length_cons] at hfuel
    exact ih (c + 1) s1 f (by omega) hdrop1 (by simpa [unescaped_text] using hr) hacc1
      (by omega)

theorem read_character_constant_runs_off {line : List Nat} {c : Nat}
    (hsize : line.length + 1 < SIZE_MAX) (op body : List Nat)
    (hop : op ∈ character_openings) (hdrop : line.drop c = op ++ body)
    (hplain : unescaped_text '\''.toNat body = true) (tok : token) :
    read_character_constant line c tok = Res.fault Fault.oob := by
  obtain ⟨str1, hopen, hacc⟩ := character_opening_total hsize op _ hop hdrop
  have hlen : c + op.length ≤ line.length := by
    have := congrArg List.length hdrop
    simp only [List.length_drop, List.length_append] at this
    have := character_openings_length hop
    omega
  have hloop := char_sequence_loop_runs_off '\''.toNat (by decide) hsize body (c + op.length)
    str1 (loop_bound line) hlen (drop_append_length hdrop) hplain hacc (by
      have := congrArg List.length hdrop
      simp only [List.length_drop, List.length_append] at this
      simp only [loop_bound]
      omega)
  unfold read_character_constant
  simp only [hopen, ok_bind, read_c_char_sequence, hloop, fault_bind, reader_exit]

theorem read_string_literal_runs_off {line : List Nat} {c : Nat}
    (hsize : line.length + 1 < SIZE_MAX) (op body : List Nat)
    (hop : op ∈ string_openings) (hdrop : line.drop c = op ++ body)
    (hplain : unescaped_text '\"'.toNat body = true) (tok : token) :
    read_string_literal line c tok = Res.fault Fault.oob := by
  obtain ⟨str1, hopen, hacc⟩ := string_opening_total hsize op _ hop hdrop
  have hlen : c + op.length ≤ line.length := by
    have := congrArg List.length hdrop
    simp only [List.length_drop, List.length_append] at this
    have := string_openings_length hop
    omega
  have hloop := char_sequence_loop_runs_off '\"'.toNat (by decide) hsize body (c + op.length)
    str1 (loop_bound line) hlen (drop_append_length hdrop) hplain hacc (by
      have := congrArg List.length hdrop
      simp only [List.length_drop, List.length_append] at this
      simp only [loop_bound]
      omega)
  unfold read_string_literal
  simp only [hopen, ok_bind, read_s_char_sequence, hloop, fault_bind, reader_exit]

/-- Text without the closing quote `q` in front of a newline splits into whole char-sequence
units and a tail that stops the sequence: the newline itself or a backslash that no accepted
escape follows. -/
theorem units_before_newline (q : Nat) (rest : List Nat) (n : Nat) :
    ∀ body : List Nat, body.length ≤ n → q ∉ body →
      ∃ pre tail, body ++ '\n'.toNat :: rest = pre ++ tail ∧ char_units q pre = true
        ∧ stops_sequence tail := by
  induction n with
  | zero =>
    intro body hn _
    have hb : body = [] := List.eq_nil_of_length_eq_zero (by omega)
    subst hb
    exact ⟨[], _, rfl, rfl, Or.inl ⟨rest, rfl⟩⟩
  | succ n ih =>
    intro body hn hq
    cases body with
    | nil => exact ⟨[], _, rfl, rfl, Or.inl ⟨rest, rfl⟩⟩
    | cons x b =>
      simp only [List.mem_cons, not_or] at hq
      simp only [List.length_cons] at hn
      by_cases hnl : x = '\n'.toNat
      · subst hnl
        exact ⟨[], _, rfl, rfl, Or.inl ⟨_, rfl⟩⟩
      by_cases hbs : x = '\\'.toNat
      · subst hbs
        by_cases hbad : bad_escape ((b ++ '\n'.toNat :: rest).headD 0) = true
        · exact ⟨[], _, rfl, rfl, Or.inr ⟨_, rfl, hbad⟩⟩
        · cases b with
          | nil =>
            exact absurd (show bad_escape '\n'.toNat = true from by decide) hbad
          | cons y b1 =>
            simp only [List.mem_cons, not_or] at hq
            simp only [List.length_cons] at hn
            obtain ⟨pre, tail, he, hu, hs⟩ := ih b1 (by omega) hq.2.2
            refine ⟨'\\'.toNat :: y :: pre, tail, ?_, ?_, hs⟩
            · simp only [List.cons_append, he]
            · simpa [char_units] using hu
      · obtain ⟨pre, tail, he, hu, hs⟩ := ih b (by omega) hq.2
        refine ⟨x :: pre, tail, ?_, ?_, hs⟩
        · simp only [List.cons_append, he]
        · rw [char_units_plain _ hbs, hu, Bool.and_true]
          simpa using Ne.symm hq.1

/-- C15 fails on every line that ends, without newline, in a literal that is not closed:
behind an opening (bare or prefixed) and text free of closing quote, newline and backslash
that runs to the end of the line, `read_character_constant` and `read_string_literal` do not
return -1 but append the terminating null and read the cell behind it (`Fault.oob`), as on
`'ab` and `"ab`, and `lexer` with them.  Where a newline follows the text (escapes allowed),
both readers return -1 with the entry cursor, and `lexer` leaves through the error exit.
(The line is all that the buffer holds here, as for the first line of a file; where a
longer line was read before, the readers read on in the cells it has left: see C7, C19 and
C23.) -/
theorem unterminated_literal_reads_past_terminator :
    (∀ (line : List Nat) (c : Nat) (op body : List Nat) (tok : token),
        line.length + 1 < SIZE_MAX → op ∈ character_openings → line.drop c = op ++ body →
        unescaped_text '\''.toNat body = true →
        read_character_constant line c tok = Res.fault Fault.oob)
    ∧ (∀ (line : List Nat) (c : Nat) (op body : List Nat) (tok : token),
        line.length + 1 < SIZE_MAX → op ∈ string_openings → line.drop c = op ++ body →
        unescaped_text '\"'.toNat body = true →
        read_string_literal line c tok = Res.fault Fault.oob)
    ∧ (∀ (line : List Nat) (c : Nat) (op body rest : List Nat) (tok : token),
        line.length + 1 < SIZE_MAX → op ∈ character_openings →
        line.drop c = op ++ (body ++ '\n'.toNat :: rest) → '\''.toNat ∉ body →
        read_character_constant line c tok
          = Res.ok (-1, c, { tok with type := TOKEN_CHAR_CONST }))
    ∧ (∀ (line : List Nat) (c : Nat) (op body rest : List Nat) (tok : token),
        line.length + 1 < SIZE_MAX → op ∈ string_openings →
        line.drop c = op ++ (body ++ '\n'.toNat :: rest) → '\"'.toNat ∉ body →
        read_string_literal line c tok
          = Res.ok (-1, c, { tok with type := TOKEN_STRING_LITERAL }))
    ∧ read_character_constant (cs "'ab") 0 fresh_token = Res.fault Fault.oob
    ∧ read_string_literal (cs "\"ab") 0 fresh_token = Res.fault Fault.oob
    ∧ lexer_tokens [cs "x = 'ab"] = Res.fault Fault.oob
    ∧ lexer_tokens [cs "x = 'ab\n"]
        = Res.ok (true, [some { type := TOKEN_IDENTIFER, str := string_lit (cs "x") },
            some { type := TOKEN_ASSIGN, str := string_init }]) := by
  refine ⟨?_, ?_, ?_, ?_, ?_, ?_, ?_, ?_⟩
  · intro line c op body tok hsize hop hdrop hplain
    exact read_character_constant_runs_off hsize op body hop hdrop hplain tok
  · intro line c op body tok hsize hop hdrop hplain
    exact read_string_literal_runs_off hsize op body hop hdrop hplain tok
  · intro line c op body rest tok hsize hop hdrop hq
    obtain ⟨pre, tail, he, hu, hs⟩ := units_before_newline '\''.toNat rest body.length body
      (Nat.le_refl _) hq
    rw [he] at hdrop
    exact (read_character_constant_fails hsize op pre tail hop hdrop hu hs tok).2
  · intro line c op body rest tok hsize hop hdrop hq
    obtain ⟨pre, tail, he, hu, hs⟩ := units_before_newline '\"'.toNat rest body.length body
      (Nat.le_refl _) hq
    rw [he] at hdrop
    exact (read_string_literal_fails hsize op pre tail hop hdrop hu hs tok).2
  · decide
  · decide
  · decide
  · decide

/-! ### The same run on a buffer with more cells

A run that stays inside the cells of a buffer is the same run on every buffer that holds the
same cells and further ones behind them: the buffer `getline` leaves for a line holds that
line, its terminating null, and what earlier lines left behind it. -/

theorem below_refl {α : Type} (r : Res α) : r.below r := Or.inr rfl

theorem below_fault {α : Type} (f : Fault) (r : Res α) : (Res.fault f).below r :=
  Or.inl ⟨f, rfl⟩

theorem below_ok {α : Type} {r1 r2 : Res α} {a : α} (h : r1.below r2) (h1 : r1 = Res.ok a) :
    r2 = Res.ok a := by
  rcases h with ⟨f, hf⟩ | h
  · rw [hf] at h1; simp at h1
  · rw [← h, h1]

theorem below_bind {α β : Type} {x x' : Res α} {f f' : α → Res β}
    (hx : x.below x') (hf : ∀ a, (f a).below (f' a)) : (x >>= f).below (x' >>= f') := by
  rcases hx with ⟨e, he⟩ | he
  · subst he
    exact Or.inl ⟨e, rfl⟩
  · subst he
    cases x with
    | ok a => exact hf a
    | error => exact Or.inr rfl
    | fault e => exact Or.inl ⟨e, rfl⟩

theorem below_bind2 {α β γ : Type} {x x' : Res (α × β)} {f f' : α × β → Res γ}
    (hx : x.below x') (hf : ∀ a b, (f (a, b)).below (f' (a, b))) :
    (x >>= f).below (x' >>= f') :=
  below_bind hx (fun p => hf p.1 p.2)

theorem below_bind3 {α β γ δ : Type} {x x' : Res (α × β × γ)} {f f' : α × β × γ → Res δ}
    (hx : x.below x') (hf : ∀ a b c, (f (a, b, c)).below (f' (a, b, c))) :
    (x >>= f).below (x' >>= f') :=
  below_bind hx (fun p => hf p.1 p.2.1 p.2.2)

theorem below_ite {α : Type} {c : Prop} [Decidable c] {a a' b b' : Res α}
    (ha : a.below a') (hb : b.below b') :
    (if c then a else b).below (if c then a' else b') := by
  split
  · exact ha
  · exact hb

theorem below_and_then {a : Bool} {b b' : Res Bool} (h : b.below b') :
    (and_then a b).below (and_then a b') := by
  unfold and_then
  exact below_ite h (below_refl _)

theorem below_reader_exit {co : Nat} {tok : token} {body body' : Res (Nat × token)}
    (h : body.below body') : (reader_exit co tok body).below (reader_exit co tok body') := by
  rcases h with ⟨e, he⟩ | he
  · subst he
    exact Or.inl ⟨e, rfl⟩
  · subst he
    exact Or.inr rfl

theorem rd_below {A B : List Nat} (h : Ext A B) (i : Nat) : (rd A i).below (rd B i) := by
  cases hr : rd A i with
  | ok x => exact Or.inr (h i x hr).symm
  | error => unfold rd at hr; split at hr <;> simp at hr
  | fault e => exact Or.inl ⟨e, rfl⟩

theorem ext_length {A B : List Nat} (h : Ext A B) : A.length ≤ B.length :=
  rd_ok_le (h _ _ (rd_length A))

theorem ext_refl (A : List Nat) : Ext A A := fun _ _ h => h

theorem ext_append (A rest : List Nat) : Ext A (A ++ 0 :: rest) := by
  intro i x h
  have hi := rd_ok_le h
  unfold rd at h ⊢
  have e : A ++ 0 :: rest ++ [0] = (A ++ [0]) ++ (rest ++ [0]) := by simp
  rw [e, List.getElem?_append_left (by simp; omega)]
  exact h

theorem ext_getline (line l : List Nat) : Ext l (getline line l) := by
  unfold getline
  split
  · exact ext_append _ _
  · exact ext_refl _

theorem APPADV_below {A B : List Nat} (h : Ext A B) (str : string) (c : Nat) :
    (APPADV A str c).below (APPADV B str c) := by
  unfold APPADV
  repeat' (first
    | exact rd_below h _
    | exact below_refl _
    | apply below_reader_exit
    | apply below_and_then
    | (apply below_bind; rotate_left; intro _))

theorem while_APPADV_below (p : Nat → Bool) {A B : List Nat} (h : Ext A B) (f1 : Nat) :
    ∀ (f2 : Nat) (str : string) (c : Nat), f1 ≤ f2 →
      (while_APPADV p A f1 str c).below (while_APPADV p B f2 str c) := by
  induction f1 with
  | zero => intro f2 _ _ _; exact below_fault _ _
  | succ f1 ih =>
    intro f2 str c hle
    cases f2 with
    | zero => omega
    | succ f2 =>
      rw [while_APPADV, while_APPADV]
      repeat' (first
        | exact APPADV_below h _ _
        | exact ih _ _ _ (by omega)
        | exact rd_below h _
        | exact below_refl _
        | apply below_reader_exit
        | apply below_and_then
        | (apply below_bind2; rotate_left; intro _ _; dsimp only)
        | (apply below_bind; rotate_left; intro _)
        | apply below_ite)

theorem while_APPADV_cnt_below (p : Nat → Bool) {A B : List Nat} (h : Ext A B) (f1 : Nat) :
    ∀ (f2 : Nat) (str : string) (c cnt : Nat), f1 ≤ f2 →
      (while_APPADV_cnt p A f1 str c cnt).below (while_APPADV_cnt p B f2 str c cnt) := by
  induction f1 with
  | zero => intro f2 _ _ _ _; exact below_fault _ _
  | succ f1 ih =>
    intro f2 str c cnt hle
    cases f2 with
    | zero => omega
    | succ f2 =>
      rw [while_APPADV_cnt, while_APPADV_cnt]
      repeat' (first
        | exact APPADV_below h _ _
        | exact ih _ _ _ _ (by omega)
        | exact rd_below h _
        | exact below_refl _
        | apply below_reader_exit
        | apply below_and_then
        | (apply below_bind2; rotate_left; intro _ _; dsimp only)
        | (apply below_bind; rotate_left; intro _)
        | apply below_ite)

theorem read_keyword_or_identifier_below {A B : List Nat} (h : Ext A B) (c : Nat) (tok : token) :
    (read_keyword_or_identifier A c tok).below (read_keyword_or_identifier B c tok) := by
  unfold read_keyword_or_identifier
  repeat' (first
    | exact while_APPADV_below _ h _ _ _ _ (by have := ext_length h; unfold loop_bound; omega)
    | exact rd_below h _
    | exact below_refl _
    | apply below_reader_exit
    | apply below_and_then
    | (apply below_bind2; rotate_left; intro _ _; dsimp only)
    | (apply below_bind; rotate_left; intro _))

theorem digits_below {A B : List Nat} (h : Ext A B) (str : string) (c : Nat) :
    (read_integer_constant.digits A str c).below (read_integer_constant.digits B str c) := by
  unfold read_integer_constant.digits
  repeat' (first
    | exact APPADV_below h _ _
    | exact while_APPADV_below _ h _ _ _ _ (by have := ext_length h; unfold loop_bound; omega)
    | exact rd_below h _
    | exact below_refl _
    | apply below_reader_exit
    | apply below_and_then
    | (apply below_bind2; rotate_left; intro _ _; dsimp only)
    | (apply below_bind; rotate_left; intro _)
    | apply below_ite)

theorem suffix_below {A B : List Nat} (h : Ext A B) (str : string) (c : Nat) :
    (read_integer_constant.suffix A str c).below (read_integer_constant.suffix B str c) := by
  unfold read_integer_constant.suffix
  repeat' (first
    | exact APPADV_below h _ _
    | exact rd_below h _
    | exact below_refl _
    | apply below_reader_exit
    | apply below_and_then
    | (apply below_bind2; rotate_left; intro _ _; dsimp only)
    | (apply below_bind; rotate_left; intro _)
    | apply below_ite)

theorem read_integer_constant_below {A B : List Nat} (h : Ext A B) (c : Nat) (tok : token) :
    (read_integer_constant A c tok).below (read_integer_constant B c tok) := by
  unfold read_integer_constant
  repeat' (first
    | exact digits_below h _ _
    | exact suffix_below h _ _
    | exact rd_below h _
    | exact below_refl _
    | apply below_reader_exit
    | apply below_and_then
    | (apply below_bind2; rotate_left; intro _ _; dsimp only)
    | (apply below_bind; rotate_left; intro _))

theorem exponent_digits_below {A B : List Nat} (h : Ext A B) (str : string) (c : Nat) :
    (read_floating_constant.exponent_digits A str c).below (read_floating_constant.exponent_digits B str c) := by
  unfold read_floating_constant.exponent_digits
  repeat' (first
    | exact APPADV_below h _ _
    | exact while_APPADV_below _ h _ _ _ _ (by have := ext_length h; unfold loop_bound; omega)
    | exact rd_below h _
    | exact below_refl _
    | apply below_reader_exit
    | apply below_and_then
    | (apply below_bind2; rotate_left; intro _ _; dsimp only)
    | (apply below_bind; rotate_left; intro _)
    | apply below_ite)

theorem hexadecimal_below {A B : List Nat} (h : Ext A B) (str : string) (c : Nat) :
    (read_floating_constant.hexadecimal A str c).below (read_floating_constant.hexadecimal B str c) := by
  unfold read_floating_constant.hexadecimal
  repeat' (first
    | exact APPADV_below h _ _
    | exact while_APPADV_cnt_below _ h _ _ _ _ _ (by have := ext_length h; unfold loop_bound; omega)
    | exact exponent_digits_below h _ _
    | exact rd_below h _
    | exact below_refl _
    | apply below_reader_exit
    | apply below_and_then
    | (apply below_bind3; rotate_left; intro _ _ _; dsimp only)
    | (apply below_bind2; rotate_left; intro _ _; dsimp only)
    | (apply below_bind; rotate_left; intro _)
    | apply below_ite)

theorem decimal_below {A B : List Nat} (h : Ext A B) (str : string) (c : Nat) :
    (read_floating_constant.decimal A str c).below (read_floating_constant.decimal B str c) := by
  unfold read_floating_constant.decimal
  repeat' (first
    | exact APPADV_below h _ _
    | exact while_APPADV_cnt_below _ h _ _ _ _ _ (by have := ext_length h; unfold loop_bound; omega)
    | exact exponent_digits_below h _ _
    | exact rd_below h _
    | exact below_refl _
    | apply below_reader_exit
    | apply below_and_then
    | (apply below_bind3; rotate_left; intro _ _ _; dsimp only)
    | (apply below_bind2; rotate_left; intro _ _; dsimp only)
    | (apply below_bind; rotate_left; intro _)
    | apply below_ite)

theorem read_floating_constant_below {A B : List Nat} (h : Ext A B) (c : Nat) (tok : token) :
    (read_floating_constant A c tok).below (read_floating_constant B c tok) := by
  unfold read_floating_constant
  repeat' (first
    | exact APPADV_below h _ _
    | exact hexadecimal_below h _ _
    | exact decimal_below h _ _
    | exact rd_below h _
    | exact below_refl _
    | apply below_reader_exit
    | apply below_and_then
    | (apply below_bind2; rotate_left; intro _ _; dsimp only)
    | (apply below_bind; rotate_left; intro _)
    | apply below_ite)

theorem char_sequence_body_below {A B : List Nat} (h : Ext A B) (str : string) (c : Nat) :
    (char_sequence_body A str c).below (char_sequence_body B str c) := by
  unfold char_sequence_body read_universal_character_name
  repeat' (first
    | exact APPADV_below h _ _
    | exact while_APPADV_below _ h _ _ _ _ (by have := ext_length h; unfold loop_bound; omega)
    | exact rd_below h _
    | exact below_refl _
    | apply below_reader_exit
    | apply below_and_then
    | (apply below_bind2; rotate_left; intro _ _; dsimp only)
    | (apply below_bind; rotate_left; intro _)
    | apply below_ite)

theorem char_sequence_loop_below (q : Nat) {A B : List Nat} (h : Ext A B) (f1 : Nat) :
    ∀ (f2 : Nat) (str : string) (c : Nat), f1 ≤ f2 →
      (char_sequence_loop q A f1 str c).below (char_sequence_loop q B f2 str c) := by
  induction f1 with
  | zero => intro f2 _ _ _; exact below_fault _ _
  | succ f1 ih =>
    intro f2 str c hle
    cases f2 with
    | zero => omega
    | succ f2 =>
      rw [char_sequence_loop, char_sequence_loop]
      repeat' (first
        | exact char_sequence_body_below h _ _
        | exact ih _ _ _ (by omega)
        | exact rd_below h _
        | exact below_refl _
        | apply below_reader_exit
        | apply below_and_then
        | (apply below_bind3; rotate_left; intro _ _ _; dsimp only)
        | (apply below_bind; rotate_left; intro _)
        | apply below_ite)

theorem read_c_char_sequence_below {A B : List Nat} (h : Ext A B) (c : Nat) (str : string) :
    (read_c_char_sequence A c str).below (read_c_char_sequence B c str) := by
  unfold read_c_char_sequence
  repeat' (first
    | exact char_sequence_loop_below _ h _ _ _ _ (by have := ext_length h; unfold loop_bound; omega)
    | exact rd_below h _
    | exact below_refl _
    | apply below_reader_exit
    | apply below_and_then
    | (apply below_bind3; rotate_left; intro _ _ _; dsimp only))

theorem read_s_char_sequence_below {A B : List Nat} (h : Ext A B) (c : Nat) (str : string) :
    (read_s_char_sequence A c str).below (read_s_char_sequence B c str) := by
  unfold read_s_char_sequence
  repeat' (first
    | exact char_sequence_loop_below _ h _ _ _ _ (by have := ext_length h; unfold loop_bound; omega)
    | exact rd_below h _
    | exact below_refl _
    | apply below_reader_exit
    | apply below_and_then
    | (apply below_bind3; rotate_left; intro _ _ _; dsimp only))

theorem character_opening_below {A B : List Nat} (h : Ext A B) (str : string) (c : Nat) :
    (read_character_constant.opening A str c).below (read_character_constant.opening B str c) := by
  unfold read_character_constant.opening goto_error
  repeat' (first
    | exact APPADV_below h _ _
    | exact rd_below h _
    | exact below_refl _
    | apply below_reader_exit
    | apply below_and_then
    | (apply below_bind2; rotate_left; intro _ _; dsimp only)
    | (apply below_bind; rotate_left; intro _)
    | apply below_ite)

theorem read_character_constant_below {A B : List Nat} (h : Ext A B) (c : Nat) (tok : token) :
    (read_character_constant A c tok).below (read_character_constant B c tok) := by
  unfold read_character_constant
  repeat' (first
    | exact APPADV_below h _ _
    | exact character_opening_below h _ _
    | exact read_c_char_sequence_below h _ _
    | exact rd_below h _
    | exact below_refl _
    | apply below_reader_exit
    | apply below_and_then
    | (apply below_bind3; rotate_left; intro _ _ _; dsimp only)
    | (apply below_bind2; rotate_left; intro _ _; dsimp only)
    | (apply below_bind; rotate_left; intro _))

theorem u8_below {A B : List Nat} (h : Ext A B) (c : Nat) :
    (read_string_literal.u8 A c).below (read_string_literal.u8 B c) := by
  unfold read_string_literal.u8
  repeat' (first
    | exact rd_below h _
    | exact below_refl _
    | apply below_reader_exit
    | apply below_and_then
    | (apply below_bind; rotate_left; intro _))

theorem string_opening_below {A B : List Nat} (h : Ext A B) (str : string) (c : Nat) :
    (read_string_literal.opening A str c).below (read_string_literal.opening B str c) := by
  unfold read_string_literal.opening goto_error
  repeat' (first
    | exact APPADV_below h _ _
    | exact u8_below h _
    | exact rd_below h _
    | exact below_refl _
    | apply below_reader_exit
    | apply below_and_then
    | (apply below_bind2; rotate_left; intro _ _; dsimp only)
    | (apply below_bind; rotate_left; intro _)
    | apply below_ite)

theorem read_string_literal_below {A B : List Nat} (h : Ext A B) (c : Nat) (tok : token) :
    (read_string_literal A c tok).below (read_string_literal B c tok) := by
  unfold read_string_literal
  repeat' (first
    | exact APPADV_below h _ _
    | exact string_opening_below h _ _
    | exact read_s_char_sequence_below h _ _
    | exact rd_below h _
    | exact below_refl _
    | apply below_reader_exit
    | apply below_and_then
    | (apply below_bind3; rotate_left; intro _ _ _; dsimp only)
    | (apply below_bind2; rotate_left; intro _ _; dsimp only)
    | (apply below_bind; rotate_left; intro _))

theorem punctuator_tree_below {A B : List Nat} (h : Ext A B) (c : Nat) :
    (read_punctuator.tree A c).below (read_punctuator.tree B c) := by
  unfold read_punctuator.tree goto_error
  repeat' (first
    | exact rd_below h _
    | exact below_refl _
    | apply below_reader_exit
    | apply below_and_then
    | (apply below_bind; rotate_left; intro _)
    | apply below_ite)

theorem read_punctuator_below {A B : List Nat} (h : Ext A B) (c : Nat) (tok : token) :
    (read_punctuator A c tok).below (read_punctuator B c tok) := by
  unfold read_punctuator
  repeat' (first
    | exact punctuator_tree_below h _
    | exact rd_below h _
    | exact below_refl _
    | apply below_reader_exit
    | apply below_and_then
    | (apply below_bind2; rotate_left; intro _ _; dsimp only))

theorem try_readers_below {A B : List Nat} (h : Ext A B) (c : Nat) (tok : token) :
    (try_readers A c tok).below (try_readers B c tok) := by
  unfold try_readers
  repeat' (first
    | exact read_keyword_or_identifier_below h _ _
    | exact read_integer_constant_below h _ _
    | exact read_floating_constant_below h _ _
    | exact read_character_constant_below h _ _
    | exact read_string_literal_below h _ _
    | exact read_punctuator_below h _ _
    | exact rd_below h _
    | exact below_refl _
    | apply below_reader_exit
    | apply below_and_then
    | (apply below_bind3; rotate_left; intro _ _ _; dsimp only)
    | apply below_ite)

theorem skip_space_below {A B : List Nat} (h : Ext A B) (f1 : Nat) :
    ∀ (f2 : Nat) (c : Nat), f1 ≤ f2 →
      (skip_space A f1 c).below (skip_space B f2 c) := by
  induction f1 with
  | zero => intro f2 _ _; exact below_fault _ _
  | succ f1 ih =>
    intro f2 c hle
    cases f2 with
    | zero => omega
    | succ f2 =>
      rw [skip_space, skip_space]
      repeat' (first
        | exact ih _ _ (by omega)
        | exact rd_below h _
        | exact below_refl _
        | apply below_reader_exit
        | apply below_and_then
        | (apply below_bind; rotate_left; intro _)
        | apply below_ite)

theorem scan_line_below {A B : List Nat} (h : Ext A B) (f1 : Nat) :
    ∀ (f2 : Nat) (c : Nat) (tokarr : token_array), f1 ≤ f2 →
      (scan_line A f1 c tokarr).below (scan_line B f2 c tokarr) := by
  induction f1 with
  | zero => intro f2 _ _ _; exact below_fault _ _
  | succ f1 ih =>
    intro f2 c tokarr hle
    cases f2 with
    | zero => omega
    | succ f2 =>
      rw [scan_line, scan_line]
      repeat' (first
        | exact skip_space_below h _ _ _ (by have := ext_length h; unfold loop_bound; omega)
        | exact try_readers_below h _ _
        | exact ih _ _ _ (by omega)
        | exact rd_below h _
        | exact below_refl _
        | apply below_reader_exit
        | apply below_and_then
        | (apply below_bind3; rotate_left; intro _ _ _; dsimp only)
        | (apply below_bind; rotate_left; intro _)
        | apply below_ite)

theorem line_tokens_below {A B : List Nat} (h : Ext A B) (f1 : Nat) :
    ∀ (f2 : Nat) (c : Nat), f1 ≤ f2 →
      (line_tokens A f1 c).below (line_tokens B f2 c) := by
  induction f1 with
  | zero => intro f2 _ _; exact below_fault _ _
  | succ f1 ih =>
    intro f2 c hle
    cases f2 with
    | zero => omega
    | succ f2 =>
      rw [line_tokens, line_tokens]
      repeat' (first
        | exact skip_space_below h _ _ _ (by have := ext_length h; unfold loop_bound; omega)
        | exact try_readers_below h _ _
        | exact ih _ _ (by omega)
        | exact rd_below h _
        | exact below_refl _
        | apply below_reader_exit
        | apply below_and_then
        | (apply below_bind3; rotate_left; intro _ _ _; dsimp only)
        | (apply below_bind2; rotate_left; intro _ _; dsimp only)
        | (apply below_bind; rotate_left; intro _)
        | apply below_ite)

/-! ### C14: what a total-match failure leaves in the token sequence -/

theorem skip_space_ge {line : List Nat} (fuel : Nat) :
    ∀ {c s : Nat}, skip_space line fuel c = Res.ok s → c ≤ s := by
  induction fuel with
  | zero => intro c s h; simp [skip_space] at h
  | succ fuel ih =>
    intro c s h
    rw [skip_space] at h
    obtain ⟨x, -, g⟩ := bind_eq_ok h
    by_cases hx : isspace x = true
    · simp only [hx, if_true] at g
      have := ih g
      omega
    · simp only [hx, Bool.false_eq_true, if_false, pure_eq_ok, Res.ok.injEq] at g
      omega

theorem try_readers_progress {line : List Nat} {c c1 : Nat} {tok tok1 : token}
    (h : try_readers line c tok = Res.ok (false, c1, tok1)) : c < c1 := by
  rcases try_readers_ok h with h1 | ⟨t, -, h2 | h3 | h4 | h5 | h6⟩
  · exact (read_keyword_or_identifier_ok h1).1.1
  · exact (read_integer_constant_ok h2).1.1
  · exact (read_floating_constant_ok h3).1.1
  · exact (read_character_constant_ok h4).1.1
  · exact (read_string_literal_ok h5).1.1
  · exact (read_punctuator_ok h6).2.2.2

/-- The inner loop does to any token sequence what `line_tokens` says: it appends the
tokens of the line, in order, and leaves through the same exit. -/
theorem scan_line_tokens (line : List Nat) (fuel : Nat) :
    ∀ (c : Nat) (tokarr : token_array), tokarr.WF →
      (∀ failed toks, line_tokens line fuel c = Res.ok (failed, toks) →
        ∃ tokarr1, scan_line line fuel c tokarr = Res.ok (failed, tokarr1) ∧ tokarr1.WF
          ∧ tokarr1.elems = tokarr.elems ++ toks.map some)
      ∧ (line_tokens line fuel c = Res.error → scan_line line fuel c tokarr = Res.error)
      ∧ (∀ f, line_tokens line fuel c = Res.fault f →
          scan_line line fuel c tokarr = Res.fault f) := by
  induction fuel with
  | zero =>
    intro c tokarr _
    simp [line_tokens, scan_line]
  | succ fuel ih =>
    intro c tokarr hwf
    rw [line_tokens, scan_line]
    cases hskip : skip_space line (loop_bound line) c with
    | error => simp [error_bind]
    | fault f => simp [fault_bind]
    | ok s =>
      simp only [ok_bind]
      cases hrd : rd line s with
      | error => simp [error_bind]
      | fault f => simp [fault_bind]
      | ok x =>
        simp only [ok_bind]
        by_cases hx : (x == 0) = true
        · simp only [hx, if_true, pure_eq_ok, Res.ok.injEq, Prod.mk.injEq]
          refine ⟨?_, by simp, by simp⟩
          rintro failed toks ⟨rfl, rfl⟩
          exact ⟨tokarr, ⟨rfl, rfl⟩, hwf, by simp⟩
        · simp only [hx, Bool.false_eq_true, if_false, fresh_token]
          cases htry : try_readers line s { type := TOKEN_INDETERMINATE, str := string_init } with
          | error => simp [error_bind]
          | fault f => simp [fault_bind]
          | ok r =>
            obtain ⟨fl, c2, tok⟩ := r
            simp only [ok_bind]
            cases fl with
            | true =>
              simp only [if_true, pure_eq_ok, Res.ok.injEq, Prod.mk.injEq]
              refine ⟨?_, by simp, by simp⟩
              rintro failed toks ⟨rfl, rfl⟩
              exact ⟨tokarr, ⟨rfl, rfl⟩, hwf, by simp⟩
            | false =>
              simp only [Bool.false_eq_true, if_false]
              obtain ⟨tokarr2, happ, hwf2, helems2⟩ := token_array_append_ok tok hwf
              obtain ⟨ih1, ih2, ih3⟩ := ih c2 tokarr2 hwf2
              simp only [happ, ok_bind]
              cases hrec : line_tokens line fuel c2 with
              | error => simp [error_bind, ih2 hrec]
              | fault f => simp [fault_bind, ih3 f hrec]
              | ok r =>
                obtain ⟨fl1, toks1⟩ := r
                obtain ⟨tokarr1, h1, hwf1, helems1⟩ := ih1 fl1 toks1 hrec
                simp only [ok_bind, pure_eq_ok, Res.ok.injEq, Prod.mk.injEq]
                refine ⟨?_, by simp, by simp⟩
                rintro failed toks ⟨rfl, rfl⟩
                refine ⟨tokarr1, h1, hwf1, ?_⟩
                rw [helems1, helems2]
                simp

/-- The outer loop does to any token sequence what `file_tokens` says. -/
theorem scan_lines_tokens (file : List (List Nat)) :
    ∀ (buf : List Nat) (tokarr : token_array), tokarr.WF →
      (∀ failed toks, file_tokens file buf = Res.ok (failed, toks) →
        ∃ tokarr1, scan_lines file buf tokarr = Res.ok (failed, tokarr1) ∧ tokarr1.WF
          ∧ tokarr1.elems = tokarr.elems ++ toks.map some)
      ∧ (file_tokens file buf = Res.error → scan_lines file buf tokarr = Res.error)
      ∧ (∀ f, file_tokens file buf = Res.fault f →
          scan_lines file buf tokarr = Res.fault f) := by
  induction file with
  | nil =>
    intro buf tokarr hwf
    simp only [file_tokens, scan_lines, pure_eq_ok, Res.ok.injEq, Prod.mk.injEq]
    refine ⟨?_, by simp, by simp⟩
    rintro failed toks ⟨rfl, rfl⟩
    exact ⟨tokarr, ⟨rfl, rfl⟩, hwf, by simp⟩
  | cons l rest ih =>
    intro buf tokarr hwf
    rw [file_tokens, scan_lines]
    simp only []
    generalize getline buf l = line
    obtain ⟨h1, h2, h3⟩ := scan_line_tokens line (loop_bound line) 0 tokarr hwf
    cases hline : line_tokens line (loop_bound line) 0 with
    | error => simp [error_bind, h2 hline]
    | fault f => simp [fault_bind, h3 f hline]
    | ok r =>
      obtain ⟨fl, toks⟩ := r
      obtain ⟨tokarr1, hs, hwf1, helems1⟩ := h1 fl toks hline
      simp only [hs, ok_bind]
      cases fl with
      | true =>
        simp only [if_true, pure_eq_ok, Res.ok.injEq, Prod.mk.injEq]
        refine ⟨?_, by simp, by simp⟩
        rintro failed toks2 ⟨rfl, rfl⟩
        exact ⟨tokarr1, ⟨rfl, rfl⟩, hwf1, helems1⟩
      | false =>
        simp only [Bool.false_eq_true, if_false]
        obtain ⟨g1, g2, g3⟩ := ih line tokarr1 hwf1
        cases hrest : file_tokens rest line with
        | error => simp [error_bind, g2 hrest]
        | fault f => simp [fault_bind, g3 f hrest]
        | ok r =>
          obtain ⟨fl1, toks1⟩ := r
          obtain ⟨tokarr2, hs2, hwf2, helems2⟩ := g1 fl1 toks1 hrest
          simp only [ok_bind, pure_eq_ok, Res.ok.injEq, Prod.mk.injEq]
          refine ⟨?_, by simp, by simp⟩
          rintro failed toks2 ⟨rfl, rfl⟩
          refine ⟨tokarr2, hs2, hwf2, ?_⟩
          rw [helems2, helems1]
          simp

/-- What `lexer` returns, as a list: the tokens of `file_tokens`. -/
theorem lexer_tokens_eq (file : List (List Nat)) :
    lexer_tokens file = cells (file_tokens file []) := by
  obtain ⟨h1, h2, h3⟩ := scan_lines_tokens file [] token_array_init token_array_init_wf
  unfold lexer_tokens lexer cells
  cases hf : file_tokens file [] with
  | error => simp [error_bind, h2 hf]
  | fault f => simp [fault_bind, h3 f hf]
  | ok r =>
    obtain ⟨fl, toks⟩ := r
    obtain ⟨tokarr1, hs, -, helems⟩ := h1 fl toks hf
    simp only [hs, ok_bind, helems, pure_eq_ok]
    simp [token_array.elems, token_array_init]

theorem getline_nil (l : List Nat) : getline [] l = l := by
  simp [getline]

/-- A run of `lexer` over one line, in terms of the tokens of that line. -/
theorem lexer_tokens_line (line : List Nat) :
    lexer_tokens [line] = cells (line_tokens line (loop_bound line) 0) := by
  rw [lexer_tokens_eq]
  simp only [file_tokens, cells, getline_nil]
  cases hline : line_tokens line (loop_bound line) 0 with
  | error => simp [error_bind]
  | fault f => simp [fault_bind]
  | ok r =>
    obtain ⟨fl, toks⟩ := r
    cases fl with
    | true => simp [ok_bind, pure_eq_ok]
    | false => simp [ok_bind, pure_eq_ok]

theorem cells_eq_ok {r : Res (Bool × List token)} {failed : Bool}
    {cs1 : List (Option token)} (h : cells r = Res.ok (failed, cs1)) :
    ∃ toks, r = Res.ok (failed, toks) ∧ cs1 = toks.map some := by
  unfold cells at h
  obtain ⟨⟨fl, toks⟩, hr, g⟩ := bind_eq_ok h
  simp only [pure_eq_ok, Res.ok.injEq, Prod.mk.injEq] at g
  exact ⟨toks, by rw [hr, g.1], g.2.symm⟩

/-- Where lexing line by line returns, lexing the file returns the same, whatever the buffer
held before: a line that is lexed alone without reading behind its terminating null is lexed
in the same way in the buffer of `lexer`. -/
theorem lexer_by_line_below (file : List (List Nat)) :
    ∀ (buf : List Nat), (lexer_by_line file).below (cells (file_tokens file buf)) := by
  induction file with
  | nil => intro buf; exact Or.inr rfl
  | cons l rest ih =>
    intro buf
    rw [lexer_by_line, lexer_tokens_line, file_tokens]
    simp only []
    have hb := line_tokens_below (ext_getline buf l) (loop_bound l)
      (loop_bound (getline buf l)) 0
      (by have := ext_length (ext_getline buf l); unfold loop_bound; omega)
    have ih := ih (getline buf l)
    generalize getline buf l = line at hb ih
    cases hline : line_tokens l (loop_bound l) 0 with
    | fault f => exact Or.inl ⟨f, by simp [cells]⟩
    | error =>
      rcases hb with ⟨f, hf⟩ | hb
      · rw [hline] at hf; simp at hf
      · rw [← hb, hline]
        exact Or.inr (by simp [cells])
    | ok r =>
      obtain ⟨fl, toks⟩ := r
      rcases hb with ⟨f, hf⟩ | hb
      · rw [hline] at hf; simp at hf
      rw [← hb, hline]
      cases fl with
      | true => exact Or.inr (by simp [cells])
      | false =>
        simp only [cells, ok_bind, pure_eq_ok, Bool.false_eq_true, if_false]
        cases hrest : lexer_by_line rest with
        | fault f => exact Or.inl ⟨f, by simp⟩
        | error =>
          rcases ih with ⟨f, hf⟩ | ih
          · rw [hrest] at hf; simp at hf
          · rw [hrest] at ih
            right
            cases hft : file_tokens rest line with
            | fault f => rw [hft] at ih; simp [cells] at ih
            | ok r2 => rw [hft] at ih; simp [cells] at ih
            | error => simp
        | ok r1 =>
          obtain ⟨fl1, cs1⟩ := r1
          rcases ih with ⟨f, hf⟩ | ih
          · rw [hrest] at hf; simp at hf
          · rw [hrest] at ih
            obtain ⟨toks1, hft, hcs⟩ := cells_eq_ok ih.symm
            right
            rw [hft, hcs]
            simp

/-- C19 fails: the lines share one buffer.  The line `d= 'ab`, the last of a file and
without newline, is lexed to four tokens behind the line `c = '\'' ;` and to six tokens
behind the line `c = '\'' + 9;`: its character constant is not closed, the reader takes the
terminating null for a character of the constant and reads on in what the longer first line
has left in the buffer, up to the quote that stands there, and the dispatcher goes on from
there to the end of the first line.  Lexed alone, the line is read past its end, and so is
the file lexed line by line.  What holds: where lexing line by line returns (no line is read
behind its terminating null), `lexer` on the file returns the same. -/
theorem lines_share_the_buffer :
    lexer_tokens [cs "c = '\\'' ;\n", cs "d= 'ab"] = Res.ok (false,
        [some { type := TOKEN_IDENTIFER, str := string_lit (cs "c") },
         some { type := TOKEN_ASSIGN, str := string_init },
         some { type := TOKEN_CHAR_CONST, str := string_lit (cs "'\\''") },
         some { type := TOKEN_SEMICOLON, str := string_init },
         some { type := TOKEN_IDENTIFER, str := string_lit (cs "d") },
         some { type := TOKEN_ASSIGN, str := string_init },
         some { type := TOKEN_CHAR_CONST,
                str := { len := 5, capacity := 6, arr := some ((cs "'ab" ++ [0, 0, 0]).map some) } },
         some { type := TOKEN_SEMICOLON, str := string_init }])
    ∧ lexer_tokens [cs "c = '\\'' + 9;\n", cs "d= 'ab"] = Res.ok (false,
        [some { type := TOKEN_IDENTIFER, str := string_lit (cs "c") },
         some { type := TOKEN_ASSIGN, str := string_init },
         some { type := TOKEN_CHAR_CONST, str := string_lit (cs "'\\''") },
         some { type := TOKEN_PLUS, str := string_init },
         some { type := TOKEN_INT_CONST, str := string_lit (cs "9") },
         some { type := TOKEN_SEMICOLON, str := string_init },
         some { type := TOKEN_IDENTIFER, str := string_lit (cs "d") },
         some { type := TOKEN_ASSIGN, str := string_init },
         some { type := TOKEN_CHAR_CONST,
                str := { len := 5, capacity := 6, arr := some ((cs "'ab" ++ [0, 0, 0]).map some) } },
         some { type := TOKEN_PLUS, str := string_init },
         some { type := TOKEN_INT_CONST, str := string_lit (cs "9") },
         some { type := TOKEN_SEMICOLON, str := string_init }])
    ∧ lexer_tokens [cs "d= 'ab"] = Res.fault Fault.oob
    ∧ lexer_by_line [cs "c = '\\'' ;\n", cs "d= 'ab"] = Res.fault Fault.oob
    ∧ ∀ (file : List (List Nat)) (r : Bool × List (Option token)),
        lexer_by_line file = Res.ok r → lexer_tokens file = Res.ok r := by
  refine ⟨by decide, by decide, by decide, by decide, fun file r h => ?_⟩
  rw [lexer_tokens_eq]
  exact below_ok (lexer_by_line_below file []) h

/-- C19 where it holds, at the lines `a b` and `c`, each with its newline: lexed line by
line they give `a`, `b` and `c`, and so does `lexer` on the file. -/
theorem lines_share_the_buffer_witness :
    lexer_by_line [cs "a b\n", cs "c\n"]
      = Res.ok (false, [some { type := TOKEN_IDENTIFER, str := string_lit (cs "a") },
          some { type := TOKEN_IDENTIFER, str := string_lit (cs "b") },
          some { type := TOKEN_IDENTIFER, str := string_lit (cs "c") }])
    ∧ lexer_tokens [cs "a b\n", cs "c\n"]
      = Res.ok (false, [some { type := TOKEN_IDENTIFER, str := string_lit (cs "a") },
          some { type := TOKEN_IDENTIFER, str := string_lit (cs "b") },
          some { type := TOKEN_IDENTIFER, str := string_lit (cs "c") }]) :=
  ⟨by decide,
   lines_share_the_buffer.2.2.2.2 [cs "a b\n", cs "c\n"]
     (false, [some { type := TOKEN_IDENTIFER, str := string_lit (cs "a") },
       some { type := TOKEN_IDENTIFER, str := string_lit (cs "b") },
       some { type := TOKEN_IDENTIFER, str := string_lit (cs "c") }]) (by decide)⟩

/-! ### The text a reader consumes -/

theorem slice_append (line : List Nat) {a b c : Nat} (hab : a ≤ b) (hbc : b ≤ c) :
    slice line a c = slice line a b ++ slice line b c := by
  unfold slice
  have h1 : c - a = (b - a) + (c - b) := by omega
  rw [h1, List.take_add, List.drop_drop]
  congr 3
  omega

theorem slice_one {line : List Nat} {a x : Nat} (h : rd line a = Res.ok x) :
    slice line a (a + 1) = [x] := by
  rw [slice_succ (Nat.le_refl a) h, slice_self, List.nil_append]

theorem APPADV_step {line : List Nat} {c c1 : Nat} {str str1 : string}
    (h : APPADV line str c = Res.ok (str1, c1)) :
    c1 = c + 1 ∧ ∃ x, rd line c = Res.ok x ∧ string_append str x = Res.ok str1 := by
  unfold APPADV at h
  obtain ⟨x, hx, h⟩ := bind_eq_ok h
  obtain ⟨s, hs, h⟩ := bind_eq_ok h
  simp only [pure_eq_ok, Res.ok.injEq, Prod.mk.injEq] at h
  obtain ⟨e1, e2⟩ := h
  subst e1 e2
  exact ⟨rfl, x, hx, hs⟩

/-- A loop `while (p(**c)) APPADV(str, c);` consumes a run of characters that satisfy `p` and
stops in front of one that does not. -/
theorem while_APPADV_run (p : Nat → Bool) {line : List Nat} (fuel : Nat) :
    ∀ {c c1 : Nat} {str str1 : string},
      while_APPADV p line fuel str c = Res.ok (str1, c1) →
      c ≤ c1 ∧ (∀ x ∈ slice line c c1, p x = true)
        ∧ ∃ y, rd line c1 = Res.ok y ∧ p y = false := by
  induction fuel with
  | zero => intro c c1 str str1 h; simp [while_APPADV] at h
  | succ fuel ih =>
    intro c c1 str str1 h
    rw [while_APPADV] at h
    obtain ⟨x, hx, h⟩ := bind_eq_ok h
    by_cases hp : p x = true
    · simp only [hp, if_true] at h
      obtain ⟨⟨s2, c2⟩, h2, h⟩ := bind_eq_ok h
      obtain ⟨hc2, -⟩ := APPADV_step h2
      subst hc2
      obtain ⟨hle, hall, hstop⟩ := ih h
      refine ⟨by omega, ?_, hstop⟩
      rw [slice_append line (Nat.le_succ c) hle, slice_one hx]
      intro z hz
      rcases List.mem_append.mp hz with hz | hz
      · rw [List.mem_singleton] at hz
        rw [hz]; exact hp
      · exact hall z hz
    · simp only [hp, Bool.false_eq_true, if_false, pure_eq_ok, Res.ok.injEq, Prod.mk.injEq] at h
      obtain ⟨-, e2⟩ := h
      subst e2
      exact ⟨Nat.le_refl _, by simp [slice_self], x, hx, by simpa using hp⟩

theorem while_APPADV_cnt_run (p : Nat → Bool) {line : List Nat} (fuel : Nat) :
    ∀ {c c1 cnt cnt1 : Nat} {str str1 : string},
      while_APPADV_cnt p line fuel str c cnt = Res.ok (str1, c1, cnt1) →
      c ≤ c1 ∧ cnt1 = cnt + (c1 - c) ∧ (∀ x ∈ slice line c c1, p x = true)
        ∧ ∃ y, rd line c1 = Res.ok y ∧ p y = false := by
  induction fuel with
  | zero => intro c c1 cnt cnt1 str str1 h; simp [while_APPADV_cnt] at h
  | succ fuel ih =>
    intro c c1 cnt cnt1 str str1 h
    rw [while_APPADV_cnt] at h
    obtain ⟨x, hx, h⟩ := bind_eq_ok h
    by_cases hp : p x = true
    · simp only [hp, if_true] at h
      obtain ⟨⟨s2, c2⟩, h2, h⟩ := bind_eq_ok h
      obtain ⟨hc2, -⟩ := APPADV_step h2
      subst hc2
      obtain ⟨hle, hcnt, hall, hstop⟩ := ih h
      refine ⟨by omega, by omega, ?_, hstop⟩
      rw [slice_append line (Nat.le_succ c) hle, slice_one hx]
      intro z hz
      rcases List.mem_append.mp hz with hz | hz
      · rw [List.mem_singleton] at hz
        rw [hz]; exact hp
      · exact hall z hz
    · simp only [hp, Bool.false_eq_true, if_false, pure_eq_ok, Res.ok.injEq, Prod.mk.injEq] at h
      obtain ⟨-, e2, e3⟩ := h
      subst e2 e3
      exact ⟨Nat.le_refl _, by omega, by simp [slice_self], x, hx, by simpa using hp⟩

theorem slice_two {line : List Nat} {a x y : Nat} (hx : rd line a = Res.ok x)
    (hy : rd line (a + 1) = Res.ok y) : slice line a (a + 1 + 1) = [x, y] := by
  rw [slice_succ (Nat.le_succ a) hy, slice_one hx]
  rfl

theorem slice_three {line : List Nat} {a x y z : Nat} (hx : rd line a = Res.ok x)
    (hy : rd line (a + 1) = Res.ok y) (hz : rd line (a + 1 + 1) = Res.ok z) :
    slice line a (a + 1 + 1 + 1) = [x, y, z] := by
  rw [slice_succ (by omega) hz, slice_two hx hy]
  rfl

theorem rd_inj {line : List Nat} {i x y : Nat} (hx : rd line i = Res.ok x)
    (hy : rd line i = Res.ok y) : x = y := by
  rw [hx] at hy
  exact Res.ok.inj hy

/-- The digits `read_integer_constant` consumes: a nonzero digit and a maximal run of decimal
digits; or `0`, not followed by `x` or `X`, and a maximal run of octal digits; or `0x` or `0X`
and a maximal, non-empty run of hexadecimal digits. -/
theorem digits_shape {line : List Nat} {c c1 x0 : Nat} {str str1 : string}
    (h : read_integer_constant.digits line str c = Res.ok (str1, c1))
    (hx0 : rd line c = Res.ok x0) (hd : isdigit x0 = true) :
    c < c1 ∧
    ((is_nonzero_digit x0 = true ∧ (∀ x ∈ slice line (c + 1) c1, isdigit x = true)
        ∧ ∃ y, rd line c1 = Res.ok y ∧ isdigit y = false)
    ∨ (x0 = '0'.toNat ∧ (∃ x1, rd line (c + 1) = Res.ok x1 ∧ x1 ≠ 'x'.toNat ∧ x1 ≠ 'X'.toNat)
        ∧ (∀ x ∈ slice line (c + 1) c1, is_octal_digit x = true)
        ∧ ∃ y, rd line c1 = Res.ok y ∧ is_octal_digit y = false)
    ∨ (x0 = '0'.toNat ∧ (∃ x1, rd line (c + 1) = Res.ok x1 ∧ (x1 = 'x'.toNat ∨ x1 = 'X'.toNat))
        ∧ c + 2 < c1 ∧ (∀ x ∈ slice line (c + 2) c1, isxdigit x = true)
        ∧ ∃ y, rd line c1 = Res.ok y ∧ isxdigit y = false)) := by
  unfold read_integer_constant.digits at h
  simp only [hx0, ok_bind] at h
  by_cases hnz : is_nonzero_digit x0 = true
  · simp only [hnz, if_true] at h
    obtain ⟨hle, hall, hstop⟩ := while_APPADV_run isdigit _ h
    have hlt : c < c1 := by
      rcases Nat.eq_or_lt_of_le hle with he | hl
      · subst he
        obtain ⟨y, hy, hpy⟩ := hstop
        rw [rd_inj hx0 hy, hpy] at hd
        exact absurd hd (by simp)
      · exact hl
    refine ⟨hlt, Or.inl ⟨hnz, fun x hx => hall x ?_, hstop⟩⟩
    rw [slice_append line (Nat.le_succ c) hlt]
    exact List.mem_append_right _ hx
  · simp only [hnz, Bool.false_eq_true, if_false] at h
    have hz : x0 = '0'.toNat := by
      simp only [is_nonzero_digit, hd, Bool.true_and, bne_iff_ne, ne_eq, Decidable.not_not]
        at hnz
      exact hnz
    subst hz
    simp only [beq_self_eq_true, if_true] at h
    obtain ⟨⟨s2, c2⟩, h2, h⟩ := bind_eq_ok h
    obtain ⟨hc2, -⟩ := APPADV_step h2
    subst hc2
    obtain ⟨x1, hx1, h⟩ := bind_eq_ok h
    by_cases hxx : (x1 == 'x'.toNat || x1 == 'X'.toNat) = true
    · simp only [hxx, if_true] at h
      obtain ⟨⟨s3, c3⟩, h3, h⟩ := bind_eq_ok h
      obtain ⟨hc3, -⟩ := APPADV_step h3
      subst hc3
      obtain ⟨⟨s4, c4⟩, h4, h⟩ := bind_eq_ok h
      obtain ⟨hle, hall, hstop⟩ := while_APPADV_run isxdigit _ h4
      obtain ⟨p, hp, h⟩ := bind_eq_ok h
      obtain ⟨u, hu, h⟩ := bind_eq_ok h
      simp only [pure_eq_ok, Res.ok.injEq, Prod.mk.injEq] at h
      obtain ⟨-, e2⟩ := h
      subst e2
      have hpx := error_if_ok hu
      have hlt : c + 2 < c4 := by
        rcases Nat.eq_or_lt_of_le hle with he | hl
        · subst he
          simp only [Nat.add_sub_cancel] at hp
          rw [rd_inj hp hx1, hxx] at hpx
          exact absurd hpx (by simp)
        · exact hl
      simp only [Bool.or_eq_true, beq_iff_eq] at hxx
      exact ⟨by omega, Or.inr (Or.inr ⟨rfl, ⟨x1, hx1, hxx⟩, hlt, hall, hstop⟩)⟩
    · simp only [hxx, Bool.false_eq_true, if_false] at h
      obtain ⟨hle, hall, hstop⟩ := while_APPADV_run is_octal_digit _ h
      simp only [Bool.or_eq_true, beq_iff_eq, not_or] at hxx
      exact ⟨by omega, Or.inr (Or.inl ⟨rfl, ⟨x1, hx1, hxx.1, hxx.2⟩, hall, hstop⟩)⟩

/-- The suffix `read_integer_constant` consumes is one of the integer suffixes, or none;
where one is consumed, the character it starts with is `u`, `U`, `l` or `L`. -/
theorem suffix_shape {line : List Nat} {c c1 : Nat} {str str1 : string}
    (h : read_integer_constant.suffix line str c = Res.ok (str1, c1)) :
    c ≤ c1 ∧ slice line c c1 ∈ integer_suffixes
      ∧ (c1 = c ∨ ∃ x, rd line c = Res.ok x
          ∧ (x = 'u'.toNat ∨ x = 'U'.toNat ∨ x = 'l'.toNat ∨ x = 'L'.toNat)) := by
  unfold read_integer_constant.suffix at h
  obtain ⟨x, hx, h⟩ := bind_eq_ok h
  by_cases hu : (x == 'u'.toNat || x == 'U'.toNat) = true
  · simp only [hu, if_true] at h
    obtain ⟨⟨s2, c2⟩, h2, h⟩ := bind_eq_ok h
    obtain ⟨hc2, -⟩ := APPADV_step h2
    subst hc2
    obtain ⟨y, hy, h⟩ := bind_eq_ok h
    simp only [Bool.or_eq_true, beq_iff_eq] at hu
    by_cases hl : (y == 'l'.toNat || y == 'L'.toNat) = true
    · simp only [hl, if_true] at h
      obtain ⟨⟨s3, c3⟩, h3, h⟩ := bind_eq_ok h
      obtain ⟨hc3, -⟩ := APPADV_step h3
      subst hc3
      obtain ⟨z, hz, h⟩ := bind_eq_ok h
      obtain ⟨p, hp, h⟩ := bind_eq_ok h
      simp only [Nat.add_sub_cancel] at hp
      have hpy := rd_inj hp hy
      subst hpy
      simp only [Bool.or_eq_true, beq_iff_eq] at hl
      by_cases hzp : (z == p) = true
      · simp only [hzp, if_true] at h
        obtain ⟨hc4, -⟩ := APPADV_step h
        subst hc4
        simp only [beq_iff_eq] at hzp
        subst hzp
        refine ⟨by omega, ?_, Or.inr ⟨x, hx, by tauto⟩⟩
        rw [slice_three hx hy hz]
        rcases hu with rfl | rfl <;> rcases hl with rfl | rfl <;> decide
      · simp only [hzp, Bool.false_eq_true, if_false, pure_eq_ok, Res.ok.injEq,
          Prod.mk.injEq] at h
        obtain ⟨-, e2⟩ := h
        subst e2
        refine ⟨by omega, ?_, Or.inr ⟨x, hx, by tauto⟩⟩
        rw [slice_two hx hy]
        rcases hu with rfl | rfl <;> rcases hl with rfl | rfl <;> decide
    · simp only [hl, Bool.false_eq_true, if_false, pure_eq_ok, Res.ok.injEq,
        Prod.mk.injEq] at h
      obtain ⟨-, e2⟩ := h
      subst e2
      refine ⟨by omega, ?_, Or.inr ⟨x, hx, by tauto⟩⟩
      rw [slice_one hx]
      rcases hu with rfl | rfl <;> decide
  · simp only [hu, Bool.false_eq_true, if_false] at h
    by_cases hl : (x == 'l'.toNat || x == 'L'.toNat) = true
    · simp only [hl, if_true] at h
      obtain ⟨⟨s2, c2⟩, h2, g1⟩ := bind_eq_ok h
      clear h
      obtain ⟨hc2, -⟩ := APPADV_step h2
      subst hc2
      obtain ⟨y, hy, g2⟩ := bind_eq_ok g1
      clear g1
      obtain ⟨p, hp, g3⟩ := bind_eq_ok g2
      clear g2
      simp only [Nat.add_sub_cancel] at hp
      have hpx := rd_inj hx hp
      subst hpx
      obtain ⟨⟨s3, c3⟩, h3, g4⟩ := bind_eq_ok g3
      clear g3
      obtain ⟨z, hz, g5⟩ := bind_eq_ok g4
      clear g4
      simp only [Bool.or_eq_true, beq_iff_eq] at hl
      by_cases hyp : (y == x) = true
      · simp only [hyp, if_true] at h3
        obtain ⟨hc3, -⟩ := APPADV_step h3
        subst hc3
        simp only [beq_iff_eq] at hyp
        subst hyp
        by_cases hzu : (z == 'u'.toNat || z == 'U'.toNat) = true
        · simp only [hzu, if_true] at g5
          obtain ⟨hc4, -⟩ := APPADV_step g5
          subst hc4
          simp only [Bool.or_eq_true, beq_iff_eq] at hzu
          refine ⟨by omega, ?_, Or.inr ⟨y, hx, by tauto⟩⟩
          rw [slice_three hx hy hz]
          rcases hl with rfl | rfl <;> rcases hzu with rfl | rfl <;> decide
        · simp only [hzu, Bool.false_eq_true, if_false, pure_eq_ok, Res.ok.injEq,
            Prod.mk.injEq] at g5
          obtain ⟨-, e2⟩ := g5
          subst e2
          refine ⟨by omega, ?_, Or.inr ⟨y, hx, by tauto⟩⟩
          rw [slice_two hx hy]
          rcases hl with rfl | rfl <;> decide
      · simp only [hyp, Bool.false_eq_true, if_false, pure_eq_ok, Res.ok.injEq,
          Prod.mk.injEq] at h3
        obtain ⟨-, e3⟩ := h3
        subst e3
        by_cases hzu : (z == 'u'.toNat || z == 'U'.toNat) = true
        · simp only [hzu, if_true] at g5
          obtain ⟨hc4, -⟩ := APPADV_step g5
          subst hc4
          simp only [Bool.or_eq_true, beq_iff_eq] at hzu
          refine ⟨by omega, ?_, Or.inr ⟨x, hx, by tauto⟩⟩
          rw [slice_two hx hz]
          rcases hl with rfl | rfl <;> rcases hzu with rfl | rfl <;> decide
        · simp only [hzu, Bool.false_eq_true, if_false, pure_eq_ok, Res.ok.injEq,
            Prod.mk.injEq] at g5
          obtain ⟨-, e2⟩ := g5
          subst e2
          refine ⟨by omega, ?_, Or.inr ⟨x, hx, by tauto⟩⟩
          rw [slice_one hx]
          rcases hl with rfl | rfl <;> decide
    · simp only [hl, Bool.false_eq_true, if_false, pure_eq_ok, Res.ok.injEq,
        Prod.mk.injEq] at h
      obtain ⟨-, e2⟩ := h
      subst e2
      exact ⟨Nat.le_refl _, by rw [slice_self]; decide, Or.inl rfl⟩

/-- The run of a successful `read_integer_constant`: a digit under the entry cursor, the
digits up to a cursor `c2`, the suffix from there to the exit cursor, and behind it a
character that is neither identifier-continue nor a period. -/
theorem read_integer_constant_run {line : List Nat} {c c1 : Nat} {tok tok1 : token}
    (h : read_integer_constant line c tok = Res.ok (0, c1, tok1)) :
    ∃ x0 c2 s2 s3, rd line c = Res.ok x0 ∧ isdigit x0 = true
      ∧ read_integer_constant.digits line string_init c = Res.ok (s2, c2)
      ∧ read_integer_constant.suffix line s2 c2 = Res.ok (s3, c1)
      ∧ ∃ y, rd line c1 = Res.ok y ∧ is_identifier y = false ∧ y ≠ '.'.toNat := by
  have h := reader_exit_zero h
  obtain ⟨x, hx, h⟩ := bind_eq_ok h
  obtain ⟨u, hu, h⟩ := bind_eq_ok h
  obtain ⟨⟨s2, c2⟩, h2, h⟩ := bind_eq_ok h
  obtain ⟨⟨s3, c3⟩, h3, h⟩ := bind_eq_ok h
  obtain ⟨y, hy, h⟩ := bind_eq_ok h
  obtain ⟨u2, hu2, h⟩ := bind_eq_ok h
  obtain ⟨u3, hu3, h⟩ := bind_eq_ok h
  obtain ⟨s, hs, h⟩ := bind_eq_ok h
  simp only [pure_eq_ok, Res.ok.injEq, Prod.mk.injEq] at h
  obtain ⟨e1, -⟩ := h
  subst e1
  have hd : isdigit x = true := by simpa using error_if_ok hu
  have hid : is_identifier y = false := error_if_ok hu2
  have hdot : y ≠ '.'.toNat := by simpa using error_if_ok hu3
  exact ⟨x, c2, s2, s3, hx, hd, h2, h3, y, hy, hid, hdot⟩

theorem slice_nonempty {line : List Nat} {a b : Nat} (hab : a < b) (hb : b ≤ line.length + 1) :
    ∃ z zs, slice line a b = z :: zs := by
  have hlen := slice_length (a := a) hb
  cases hs : slice line a b with
  | nil => rw [hs] at hlen; simp at hlen; omega
  | cons z zs => exact ⟨z, zs, rfl⟩

theorem digits_valid {line : List Nat} {c c1 x0 : Nat} {str str1 : string}
    (h : read_integer_constant.digits line str c = Res.ok (str1, c1))
    (hx0 : rd line c = Res.ok x0) (hd : isdigit x0 = true) :
    integer_digits (slice line c c1) = true := by
  obtain ⟨hlt, hcase⟩ := digits_shape h hx0 hd
  rw [slice_append line (Nat.le_succ c) hlt, slice_one hx0]
  rcases hcase with ⟨hnz, hall, -⟩ | ⟨hz, -, hall, -⟩ | ⟨hz, ⟨x1, hx1, hxx⟩, hlt2, hall, y, hy, -⟩
  · simp only [integer_digits, List.singleton_append, hnz, Bool.true_and, Bool.or_eq_true,
      List.all_eq_true]
    exact Or.inl (Or.inl hall)
  · subst hz
    simp only [integer_digits, List.singleton_append, beq_self_eq_true, Bool.true_and,
      Bool.or_eq_true, List.all_eq_true]
    exact Or.inl (Or.inr hall)
  · subst hz
    have hsplit : slice line (c + 1) c1 = x1 :: slice line (c + 2) c1 := by
      rw [slice_append line (Nat.le_succ (c + 1)) (by omega), slice_one hx1]
      rfl
    have hb : c1 ≤ line.length + 1 := by have := rd_ok_le hy; omega
    obtain ⟨z, zs, hzs⟩ := slice_nonempty hlt2 hb
    rw [hzs] at hall
    rw [hsplit, hzs]
    have hx1b : (x1 == 'x'.toNat || x1 == 'X'.toNat) = true := by
      simpa [Bool.or_eq_true, beq_iff_eq] using hxx
    simp only [integer_digits, List.singleton_append, beq_self_eq_true, Bool.true_and,
      Bool.or_eq_true, hx1b, List.isEmpty_cons, Bool.not_false, List.all_eq_true]
    exact Or.inr hall

/-- C17: whenever `read_integer_constant` returns 0, the text between entry and exit cursor
is an integer constant (a nonzero digit and decimal digits, or `0` and octal digits, or `0x`
or `0X` and at least one hexadecimal digit; then one of the integer suffixes, or none), and
the character under the exit cursor is neither identifier-continue nor a period.  On `08`,
on `0x`, on `1ulL` and on `123.` the reader returns -1 with the entry cursor. -/
theorem integer_constant_valid :
    (∀ (line : List Nat) (c c1 : Nat) (tok tok1 : token),
      read_integer_constant line c tok = Res.ok (0, c1, tok1) →
      integer_constant (slice line c c1)
        ∧ ∃ y, rd line c1 = Res.ok y ∧ is_identifier y = false ∧ y ≠ '.'.toNat)
    ∧ read_integer_constant (cs "08") 0 fresh_token
        = Res.ok (-1, 0, { type := TOKEN_INT_CONST, str := string_init })
    ∧ read_integer_constant (cs "0x") 0 fresh_token
        = Res.ok (-1, 0, { type := TOKEN_INT_CONST, str := string_init })
    ∧ read_integer_constant (cs "1ulL") 0 fresh_token
        = Res.ok (-1, 0, { type := TOKEN_INT_CONST, str := string_init })
    ∧ read_integer_constant (cs "123.") 0 fresh_token
        = Res.ok (-1, 0, { type := TOKEN_INT_CONST, str := string_init }) := by
  refine ⟨?_, by decide, by decide, by decide, by decide⟩
  intro line c c1 tok tok1 h
  obtain ⟨x0, c2, s2, s3, hx0, hd, hdig, hsuf, hfollow⟩ := read_integer_constant_run h
  obtain ⟨hlt, -⟩ := digits_shape hdig hx0 hd
  obtain ⟨hle, hmem, -⟩ := suffix_shape hsuf
  exact ⟨⟨slice line c c2, slice line c2 c1, slice_append line (Nat.le_of_lt hlt) hle,
    digits_valid hdig hx0 hd, hmem⟩, hfollow⟩

/-- C17 at the line `x = 0x1FuL;`, cursor 4: the reader returns 0 with exit cursor 10, the
text between the cursors is `0x1FuL`, digits `0x1F` and suffix `uL`, and `;` follows. -/
theorem integer_constant_valid_witness :
    read_integer_constant (cs "x = 0x1FuL;") 4 fresh_token
      = Res.ok (0, 10, { type := TOKEN_INT_CONST, str := string_lit (cs "0x1FuL") })
    ∧ slice (cs "x = 0x1FuL;") 4 10 = cs "0x1F" ++ cs "uL"
    ∧ integer_constant (slice (cs "x = 0x1FuL;") 4 10)
    ∧ ∃ y, rd (cs "x = 0x1FuL;") 10 = Res.ok y ∧ is_identifier y = false ∧ y ≠ '.'.toNat :=
  ⟨by decide, by decide,
   integer_constant_valid.1 (cs "x = 0x1FuL;") 4 10 fresh_token
     { type := TOKEN_INT_CONST, str := string_lit (cs "0x1FuL") } (by decide)⟩

/-! ### C18: what `read_floating_constant` accepts -/

theorem slice_le_nil (line : List Nat) {a b : Nat} (h : b ≤ a) : slice line a b = [] := by
  unfold slice
  rw [Nat.sub_eq_zero_of_le h, List.take_zero]

theorem slice_ne_nil {line : List Nat} {a b : Nat} (hab : a < b) (hb : b ≤ line.length + 1) :
    slice line a b ≠ [] := by
  obtain ⟨z, zs, h⟩ := slice_nonempty hab hb
  rw [h]
  exact List.cons_ne_nil _ _

/-- The text `exponent_digits` consumes: an optional sign and a maximal, non-empty run of
decimal digits. -/
theorem exponent_digits_shape {line : List Nat} {c c1 : Nat} {str str1 : string}
    (h : read_floating_constant.exponent_digits line str c = Res.ok (str1, c1)) :
    c < c1 ∧ ∃ sign digits : List Nat, slice line c c1 = sign ++ digits
      ∧ (sign = [] ∨ sign = ['+'.toNat] ∨ sign = ['-'.toNat])
      ∧ digits ≠ [] ∧ (∀ x ∈ digits, isdigit x = true)
      ∧ ∃ y, rd line c1 = Res.ok y ∧ isdigit y = false := by
  unfold read_floating_constant.exponent_digits at h
  obtain ⟨x, hx, g1⟩ := bind_eq_ok h
  clear h
  obtain ⟨⟨s2, c2⟩, h2, g2⟩ := bind_eq_ok g1
  clear g1
  obtain ⟨y, hy, g3⟩ := bind_eq_ok g2
  clear g2
  obtain ⟨u, hu, g4⟩ := bind_eq_ok g3
  clear g3
  have hd : isdigit y = true := by simpa using error_if_ok hu
  obtain ⟨hle, hall, z, hz, hpz⟩ := while_APPADV_run isdigit _ g4
  have hlt : c2 < c1 := by
    rcases Nat.eq_or_lt_of_le hle with he | hl
    · exfalso
      change c2 = c1 at he
      subst he
      have : y = z := rd_inj hy hz
      rw [this, hpz] at hd
      exact absurd hd (by simp)
    · exact hl
  have hb : c1 ≤ line.length + 1 := by have := rd_ok_le hz; omega
  by_cases hs : (x == '+'.toNat || x == '-'.toNat) = true
  · simp only [hs, if_true] at h2
    obtain ⟨hc2, -⟩ := APPADV_step h2
    subst hc2
    simp only [Bool.or_eq_true, beq_iff_eq] at hs
    refine ⟨by omega, [x], slice line (c + 1) c1, ?_, ?_, slice_ne_nil hlt hb, hall, z, hz,
      hpz⟩
    · rw [slice_append line (Nat.le_succ c) (Nat.le_of_lt hlt), slice_one hx]
    · rcases hs with rfl | rfl
      · exact Or.inr (Or.inl rfl)
      · exact Or.inr (Or.inr rfl)
  · simp only [hs, Bool.false_eq_true, if_false, pure_eq_ok, Res.ok.injEq, Prod.mk.injEq] at h2
    obtain ⟨-, e2⟩ := h2
    subst e2
    exact ⟨hlt, [], slice line c c1, rfl, Or.inl rfl, slice_ne_nil hlt hb, hall, z, hz, hpz⟩

/-- An exponent mark consumed by `APPADV`, followed by the text of `exponent_digits`. -/
theorem exponent_shape {line : List Nat} {c c1 m m1 m2 : Nat} {s2 str1 : string}
    (hm : rd line c = Res.ok m) (hmm : m = m1 ∨ m = m2)
    (h : read_floating_constant.exponent_digits line s2 (c + 1) = Res.ok (str1, c1)) :
    c < c1 ∧ exponent_part m1 m2 (slice line c c1)
      ∧ ∃ y, rd line c1 = Res.ok y ∧ isdigit y = false := by
  obtain ⟨hlt, sign, digits, hs, hsign, hne, hall, hstop⟩ := exponent_digits_shape h
  refine ⟨by omega, ⟨m, sign, digits, ?_, hmm, hsign, hne, hall⟩, hstop⟩
  rw [slice_append line (Nat.le_succ c) (Nat.le_of_lt hlt), slice_one hm, hs]
  rfl

/-- The text the decimal branch consumes: a maximal run of digits up to a cursor `c4`; then
either a period, a maximal run of digits up to a cursor `c7` (a digit on one side of the
period at least) and an exponent or none; or, without period, at least one digit in front
and an exponent. -/
theorem decimal_shape {line : List Nat} {c c1 : Nat} {str str1 : string}
    (h : read_floating_constant.decimal line str c = Res.ok (str1, c1)) :
    ∃ c4 x4, c ≤ c4 ∧ (∀ x ∈ slice line c c4, isdigit x = true)
      ∧ rd line c4 = Res.ok x4 ∧ isdigit x4 = false
      ∧ ((x4 = '.'.toNat ∧ ∃ c7, c4 + 1 ≤ c7 ∧ c7 ≤ c1
            ∧ (∀ x ∈ slice line (c4 + 1) c7, isdigit x = true)
            ∧ (c < c4 ∨ c4 + 1 < c7)
            ∧ (c1 = c7 ∨ exponent_part 'e'.toNat 'E'.toNat (slice line c7 c1)))
        ∨ (x4 ≠ '.'.toNat ∧ c < c4 ∧ c4 < c1 ∧ (x4 = 'e'.toNat ∨ x4 = 'E'.toNat)
            ∧ exponent_part 'e'.toNat 'E'.toNat (slice line c4 c1)))
      ∧ ∃ y, rd line c1 = Res.ok y := by
  unfold read_floating_constant.decimal at h
  obtain ⟨⟨s4, c4, cnt4⟩, h4, g1⟩ := bind_eq_ok h
  clear h
  obtain ⟨hle4, hcnt4, hall4, x4', hx4', hp4⟩ := while_APPADV_cnt_run isdigit _ h4
  obtain ⟨x4, hx4, g2⟩ := bind_eq_ok g1
  clear g1
  have hxe : x4' = x4 := rd_inj hx4' hx4
  subst hxe
  obtain ⟨⟨s5, c5, only5⟩, h5, g3⟩ := bind_eq_ok g2
  clear g2
  obtain ⟨y, hy, g4⟩ := bind_eq_ok g3
  clear g3
  obtain ⟨u, hu, g5⟩ := bind_eq_ok g4
  clear g4
  have hu := error_if_ok hu
  refine ⟨c4, x4', hle4, hall4, hx4, hp4, ?_⟩
  by_cases hdot : (x4' == '.'.toNat) = true
  · simp only [hdot, if_true] at h5
    obtain ⟨⟨s6, c6⟩, h6, k1⟩ := bind_eq_ok h5
    clear h5
    obtain ⟨hc6, -⟩ := APPADV_step h6
    subst hc6
    obtain ⟨⟨s7, c7, cnt7⟩, h7, k2⟩ := bind_eq_ok k1
    clear k1
    obtain ⟨hle7, hcnt7, hall7, -⟩ := while_APPADV_cnt_run isdigit _ h7
    obtain ⟨u2, hu2, k3⟩ := bind_eq_ok k2
    clear k2
    have hu2 := error_if_ok hu2
    simp only [pure_eq_ok, Res.ok.injEq, Prod.mk.injEq] at k3
    obtain ⟨-, e2, -⟩ := k3
    subst e2
    simp only [beq_iff_eq] at hdot
    have hcnt : c < c4 ∨ c4 + 1 < c7 := by
      simp only [beq_eq_false_iff_ne, ne_eq] at hu2
      omega
    by_cases hexp : (y == 'e'.toNat || y == 'E'.toNat) = true
    · simp only [hexp, if_true] at g5
      obtain ⟨⟨s8, c8⟩, h8, k4⟩ := bind_eq_ok g5
      clear g5
      obtain ⟨hc8, -⟩ := APPADV_step h8
      subst hc8
      simp only [Bool.or_eq_true, beq_iff_eq] at hexp
      obtain ⟨hlt, hex, z, hz, -⟩ := exponent_shape hy hexp k4
      exact ⟨Or.inl ⟨hdot, c7, hle7, by omega, hall7, hcnt, Or.inr hex⟩, z, hz⟩
    · simp only [hexp, Bool.false_eq_true, if_false, pure_eq_ok, Res.ok.injEq,
        Prod.mk.injEq] at g5
      obtain ⟨-, e2⟩ := g5
      subst e2
      exact ⟨Or.inl ⟨hdot, c7, hle7, Nat.le_refl _, hall7, hcnt, Or.inl rfl⟩, y, hy⟩
  · simp only [hdot, Bool.false_eq_true, if_false] at h5
    obtain ⟨u2, hu2, k3⟩ := bind_eq_ok h5
    clear h5
    have hu2 := error_if_ok hu2
    simp only [pure_eq_ok, Res.ok.injEq, Prod.mk.injEq] at k3
    obtain ⟨-, e2, e3⟩ := k3
    subst e2 e3
    simp only [beq_iff_eq] at hdot
    have hcnt : c < c4 := by
      simp only [beq_eq_false_iff_ne, ne_eq] at hu2
      omega
    have hexp : y = 'e'.toNat ∨ y = 'E'.toNat := by
      simp only [Bool.true_and, Bool.and_eq_false_imp, bne_iff_ne, ne_eq, bne_eq_false_iff_eq]
        at hu
      by_cases he : y = 'e'.toNat
      · exact Or.inl he
      · exact Or.inr (hu he)
    have hyx : y = x4' := rd_inj hy hx4
    subst hyx
    have hexpb : (y == 'e'.toNat || y == 'E'.toNat) = true := by
      simpa [Bool.or_eq_true, beq_iff_eq] using hexp
    simp only [hexpb, if_true] at g5
    obtain ⟨⟨s8, c8⟩, h8, k4⟩ := bind_eq_ok g5
    clear g5
    obtain ⟨hc8, -⟩ := APPADV_step h8
    subst hc8
    obtain ⟨hlt, hex, z, hz, -⟩ := exponent_shape hy hexp k4
    exact ⟨Or.inr ⟨hdot, hcnt, hlt, hexp, hex⟩, z, hz⟩

/-- The text the hexadecimal branch consumes: two characters (`0x` or `0X`, as the caller
has checked), a maximal run of hexadecimal digits up to a cursor `c4`; then either a period
and a maximal run of hexadecimal digits up to a cursor `c7` (a digit on one side of the
period at least), or, without period, at least one digit in front; and a binary exponent. -/
theorem hexadecimal_shape {line : List Nat} {c c1 : Nat} {str str1 : string}
    (h : read_floating_constant.hexadecimal line str c = Res.ok (str1, c1)) :
    ∃ c4 x4, c + 2 ≤ c4 ∧ (∀ x ∈ slice line (c + 2) c4, isxdigit x = true)
      ∧ rd line c4 = Res.ok x4 ∧ isxdigit x4 = false
      ∧ ((x4 = '.'.toNat ∧ ∃ c7, c4 + 1 ≤ c7 ∧ c7 < c1
            ∧ (∀ x ∈ slice line (c4 + 1) c7, isxdigit x = true)
            ∧ (c + 2 < c4 ∨ c4 + 1 < c7)
            ∧ exponent_part 'p'.toNat 'P'.toNat (slice line c7 c1))
        ∨ (x4 ≠ '.'.toNat ∧ c + 2 < c4 ∧ c4 < c1 ∧ (x4 = 'p'.toNat ∨ x4 = 'P'.toNat)
            ∧ exponent_part 'p'.toNat 'P'.toNat (slice line c4 c1)))
      ∧ ∃ y, rd line c1 = Res.ok y := by
  unfold read_floating_constant.hexadecimal at h
  obtain ⟨⟨s2, c2⟩, h2, g0⟩ := bind_eq_ok h
  clear h
  obtain ⟨hc2, -⟩ := APPADV_step h2
  subst hc2
  obtain ⟨⟨s3, c3⟩, h3, g00⟩ := bind_eq_ok g0
  clear g0
  obtain ⟨hc3, -⟩ := APPADV_step h3
  subst hc3
  obtain ⟨⟨s4, c4, cnt4⟩, h4, g1⟩ := bind_eq_ok g00
  clear g00
  obtain ⟨hle4, hcnt4, hall4, x4', hx4', hp4⟩ := while_APPADV_cnt_run isxdigit _ h4
  obtain ⟨x4, hx4, g2⟩ := bind_eq_ok g1
  clear g1
  have hxe : x4' = x4 := rd_inj hx4' hx4
  subst hxe
  obtain ⟨⟨s5, c5⟩, h5, g3⟩ := bind_eq_ok g2
  clear g2
  obtain ⟨y, hy, g4⟩ := bind_eq_ok g3
  clear g3
  obtain ⟨u, hu, g5⟩ := bind_eq_ok g4
  clear g4
  have hu := error_if_ok hu
  obtain ⟨⟨s8, c8⟩, h8, k4⟩ := bind_eq_ok g5
  clear g5
  obtain ⟨hc8, -⟩ := APPADV_step h8
  have hexp : y = 'p'.toNat ∨ y = 'P'.toNat := by
    simp only [Bool.and_eq_false_imp, bne_iff_ne, ne_eq, bne_eq_false_iff_eq] at hu
    by_cases he : y = 'p'.toNat
    · exact Or.inl he
    · exact Or.inr (hu he)
  refine ⟨c4, x4', hle4, hall4, hx4, hp4, ?_⟩
  by_cases hdot : (x4' == '.'.toNat) = true
  · simp only [hdot, if_true] at h5
    obtain ⟨⟨s6, c6⟩, h6, k1⟩ := bind_eq_ok h5
    clear h5
    obtain ⟨hc6, -⟩ := APPADV_step h6
    subst hc6
    obtain ⟨⟨s7, c7, cnt7⟩, h7, k2⟩ := bind_eq_ok k1
    clear k1
    obtain ⟨hle7, hcnt7, hall7, -⟩ := while_APPADV_cnt_run isxdigit _ h7
    obtain ⟨u2, hu2, k3⟩ := bind_eq_ok k2
    clear k2
    have hu2 := error_if_ok hu2
    simp only [pure_eq_ok, Res.ok.injEq, Prod.mk.injEq] at k3
    obtain ⟨-, e2⟩ := k3
    subst e2
    subst hc8
    simp only [beq_iff_eq] at hdot
    have hcnt : c + 2 < c4 ∨ c4 + 1 < c7 := by
      simp only [beq_eq_false_iff_ne, ne_eq] at hu2
      omega
    obtain ⟨hlt, hex, z, hz, -⟩ := exponent_shape hy hexp k4
    exact ⟨Or.inl ⟨hdot, c7, hle7, hlt, hall7, hcnt, hex⟩, z, hz⟩
  · simp only [hdot, Bool.false_eq_true, if_false] at h5
    obtain ⟨u2, hu2, k3⟩ := bind_eq_ok h5
    clear h5
    have hu2 := error_if_ok hu2
    simp only [pure_eq_ok, Res.ok.injEq, Prod.mk.injEq] at k3
    obtain ⟨-, e2⟩ := k3
    subst e2
    subst hc8
    simp only [beq_iff_eq] at hdot
    have hcnt : c + 2 < c4 := by
      simp only [beq_eq_false_iff_ne, ne_eq] at hu2
      omega
    have hyx : y = x4' := rd_inj hy hx4
    subst hyx
    obtain ⟨hlt, hex, z, hz, -⟩ := exponent_shape hy hexp k4
    exact ⟨Or.inr ⟨hdot, hcnt, hlt, hexp, hex⟩, z, hz⟩

/-- The run of a successful `read_floating_constant`: the branch taken (hexadecimal behind
`0x` or `0X`, decimal otherwise) up to a cursor `c5`, a floating suffix or none from there to
the exit cursor, and behind it a character that is neither identifier-continue nor a
period. -/
theorem read_floating_constant_run {line : List Nat} {c c1 : Nat} {tok tok1 : token}
    (h : read_floating_constant line c tok = Res.ok (0, c1, tok1)) :
    ∃ x0 c5 s5, rd line c = Res.ok x0
      ∧ ((x0 = '0'.toNat ∧ (∃ x1, rd line (c + 1) = Res.ok x1
              ∧ (x1 = 'x'.toNat ∨ x1 = 'X'.toNat))
            ∧ read_floating_constant.hexadecimal line string_init c = Res.ok (s5, c5))
        ∨ ((x0 ≠ '0'.toNat ∨ ∃ x1, rd line (c + 1) = Res.ok x1
              ∧ x1 ≠ 'x'.toNat ∧ x1 ≠ 'X'.toNat)
            ∧ read_floating_constant.decimal line string_init c = Res.ok (s5, c5)))
      ∧ c5 ≤ c1 ∧ slice line c5 c1 ∈ floating_suffixes
      ∧ ∃ y, rd line c1 = Res.ok y ∧ is_identifier y = false ∧ y ≠ '.'.toNat := by
  have h := reader_exit_zero h
  obtain ⟨x, hx, g1⟩ := bind_eq_ok h
  clear h
  obtain ⟨hex, hhex, g2⟩ := bind_eq_ok g1
  clear g1
  obtain ⟨⟨s5, c5⟩, h5, g3⟩ := bind_eq_ok g2
  clear g2
  obtain ⟨x5, hx5, g4⟩ := bind_eq_ok g3
  clear g3
  obtain ⟨⟨s6, c6⟩, h6, g5⟩ := bind_eq_ok g4
  clear g4
  obtain ⟨y, hy, g6⟩ := bind_eq_ok g5
  clear g5
  obtain ⟨u2, hu2, g7⟩ := bind_eq_ok g6
  clear g6
  obtain ⟨u3, hu3, g8⟩ := bind_eq_ok g7
  clear g7
  obtain ⟨s, hs, g9⟩ := bind_eq_ok g8
  clear g8
  simp only [pure_eq_ok, Res.ok.injEq, Prod.mk.injEq] at g9
  obtain ⟨e1, -⟩ := g9
  subst e1
  have hid : is_identifier y = false := error_if_ok hu2
  have hdot : y ≠ '.'.toNat := by simpa using error_if_ok hu3
  have hsuf : c5 ≤ c6 ∧ slice line c5 c6 ∈ floating_suffixes := by
    by_cases hfs : is_floating_suffix x5 = true
    · simp only [hfs, if_true] at h6
      obtain ⟨hc6, -⟩ := APPADV_step h6
      subst hc6
      refine ⟨Nat.le_succ _, ?_⟩
      rw [slice_one hx5]
      simp only [is_floating_suffix, Bool.or_eq_true, beq_iff_eq] at hfs
      rcases hfs with ((rfl | rfl) | rfl) | rfl <;> decide
    · simp only [hfs, Bool.false_eq_true, if_false, pure_eq_ok, Res.ok.injEq,
        Prod.mk.injEq] at h6
      obtain ⟨-, e2⟩ := h6
      subst e2
      exact ⟨Nat.le_refl _, by rw [slice_self]; decide⟩
  refine ⟨x, c5, s5, hx, ?_, hsuf.1, hsuf.2, y, hy, hid, hdot⟩
  unfold and_then at hhex
  by_cases hz : (x == '0'.toNat) = true
  · simp only [hz, if_true] at hhex
    obtain ⟨x1, hx1, k⟩ := bind_eq_ok hhex
    simp only [pure_eq_ok, Res.ok.injEq] at k
    subst k
    simp only [beq_iff_eq] at hz
    by_cases hxx : (x1 == 'x'.toNat || x1 == 'X'.toNat) = true
    · simp only [hxx, if_true] at h5
      simp only [Bool.or_eq_true, beq_iff_eq] at hxx
      exact Or.inl ⟨hz, ⟨x1, hx1, hxx⟩, h5⟩
    · simp only [hxx, Bool.false_eq_true, if_false] at h5
      simp only [Bool.or_eq_true, beq_iff_eq, not_or] at hxx
      exact Or.inr ⟨Or.inr ⟨x1, hx1, hxx.1, hxx.2⟩, h5⟩
  · simp only [hz, Bool.false_eq_true, if_false, pure_eq_ok, Res.ok.injEq] at hhex
    subst hhex
    simp only [Bool.false_eq_true, if_false] at h5
    simp only [beq_iff_eq] at hz
    exact Or.inr ⟨Or.inl hz, h5⟩

theorem decimal_valid {line : List Nat} {c c1 : Nat} {str str1 : string}
    (h : read_floating_constant.decimal line str c = Res.ok (str1, c1)) :
    (∃ ds ex : List Nat, slice line c c1 = ds ++ ex ∧ fractional_part isdigit ds
        ∧ (ex = [] ∨ exponent_part 'e'.toNat 'E'.toNat ex))
    ∨ (∃ ds ex : List Nat, slice line c c1 = ds ++ ex ∧ digit_sequence isdigit ds
        ∧ exponent_part 'e'.toNat 'E'.toNat ex) := by
  obtain ⟨c4, x4, hle4, hall4, hx4, -, hcase, y, hy⟩ := decimal_shape h
  have hb : c1 ≤ line.length + 1 := by have := rd_ok_le hy; omega
  rcases hcase with ⟨hdot, c7, hle7, hle1, hall7, hcnt, hex⟩ | ⟨-, hlt4, hlt1, -, hex⟩
  · subst hdot
    left
    refine ⟨slice line c c7, slice line c7 c1, slice_append line (by omega) hle1,
      ⟨slice line c c4, slice line (c4 + 1) c7, ?_, ?_, hall4, hall7⟩, ?_⟩
    · rw [slice_append line hle4 (show c4 ≤ c7 by omega),
        slice_append line (Nat.le_succ c4) hle7, slice_one hx4]
      rfl
    · rcases hcnt with h1 | h2
      · exact Or.inl (slice_ne_nil h1 (by omega))
      · exact Or.inr (slice_ne_nil h2 (by omega))
    · rcases hex with he | he
      · left; rw [he, slice_self]
      · exact Or.inr he
  · right
    exact ⟨slice line c c4, slice line c4 c1, slice_append line hle4 (Nat.le_of_lt hlt1),
      ⟨slice_ne_nil hlt4 (by omega), hall4⟩, hex⟩

theorem hexadecimal_valid {line : List Nat} {c c1 x0 x1 : Nat} {str str1 : string}
    (h : read_floating_constant.hexadecimal line str c = Res.ok (str1, c1))
    (hx0 : rd line c = Res.ok x0) (hx1 : rd line (c + 1) = Res.ok x1) :
    ∃ hs ex : List Nat, slice line c c1 = x0 :: x1 :: (hs ++ ex)
      ∧ (fractional_part isxdigit hs ∨ digit_sequence isxdigit hs)
      ∧ exponent_part 'p'.toNat 'P'.toNat ex := by
  obtain ⟨c4, x4, hle4, hall4, hx4, -, hcase, y, hy⟩ := hexadecimal_shape h
  have hb : c1 ≤ line.length + 1 := by have := rd_ok_le hy; omega
  have h2 : ∀ b, c + 2 ≤ b → slice line c b = x0 :: x1 :: slice line (c + 2) b := by
    intro b hb2
    rw [slice_append line (show c ≤ c + 1 + 1 by omega) hb2, slice_two hx0 hx1]
    rfl
  rcases hcase with ⟨hdot, c7, hle7, hlt1, hall7, hcnt, hex⟩ | ⟨-, hlt4, hlt1, -, hex⟩
  · subst hdot
    refine ⟨slice line (c + 2) c7, slice line c7 c1, ?_,
      Or.inl ⟨slice line (c + 2) c4, slice line (c4 + 1) c7, ?_, ?_, hall4, hall7⟩, hex⟩
    · rw [h2 c1 (by omega), slice_append line (show c + 2 ≤ c7 by omega) (Nat.le_of_lt hlt1)]
    · rw [slice_append line hle4 (show c4 ≤ c7 by omega),
        slice_append line (Nat.le_succ c4) hle7, slice_one hx4]
      rfl
    · rcases hcnt with h1 | h2
      · exact Or.inl (slice_ne_nil h1 (by omega))
      · exact Or.inr (slice_ne_nil h2 (by omega))
  · refine ⟨slice line (c + 2) c4, slice line c4 c1, ?_,
      Or.inr ⟨slice_ne_nil hlt4 (by omega), hall4⟩, hex⟩
    rw [h2 c1 (by omega), slice_append line hle4 (Nat.le_of_lt hlt1)]

/-- C18: whenever `read_floating_constant` returns 0, the text between entry and exit cursor
is a floating constant (decimal: digits with a period, at least one digit, and an optional
exponent, or digits without period and an exponent; hexadecimal: `0x` or `0X`, hexadecimal
digits with or without a period, at least one digit, and a binary exponent; an exponent
being its mark, an optional sign and at least one decimal digit; then at most one of `f`,
`l`, `F`, `L`), and the character under the exit cursor is neither identifier-continue nor a
period.  On `123`, on `.`, on `0x.p1`, on `1e` and on `1.5.3` the reader returns -1 with the
entry cursor. -/
theorem floating_constant_valid :
    (∀ (line : List Nat) (c c1 : Nat) (tok tok1 : token),
      read_floating_constant line c tok = Res.ok (0, c1, tok1) →
      floating_constant (slice line c c1)
        ∧ ∃ y, rd line c1 = Res.ok y ∧ is_identifier y = false ∧ y ≠ '.'.toNat)
    ∧ read_floating_constant (cs "123") 0 fresh_token
        = Res.ok (-1, 0, { type := TOKEN_FLOAT_CONST, str := string_init })
    ∧ read_floating_constant (cs ".") 0 fresh_token
        = Res.ok (-1, 0, { type := TOKEN_FLOAT_CONST, str := string_init })
    ∧ read_floating_constant (cs "0x.p1") 0 fresh_token
        = Res.ok (-1, 0, { type := TOKEN_FLOAT_CONST, str := string_init })
    ∧ read_floating_constant (cs "1e") 0 fresh_token
        = Res.ok (-1, 0, { type := TOKEN_FLOAT_CONST, str := string_init })
    ∧ read_floating_constant (cs "1.5.3") 0 fresh_token
        = Res.ok (-1, 0, { type := TOKEN_FLOAT_CONST, str := string_init }) := by
  refine ⟨?_, by decide, by decide, by decide, by decide, by decide⟩
  intro line c c1 tok tok1 h
  obtain ⟨x0, c5, s5, hx0, hbranch, hle, hsuf, hfollow⟩ := read_floating_constant_run h
  refine ⟨⟨slice line c c5, slice line c5 c1, ?_, hsuf, ?_⟩, hfollow⟩
  · have hacc := acc_entry line c (by have := rd_ok_le hx0; omega)
    rcases hbranch with ⟨-, -, hb⟩ | ⟨-, hb⟩
    · exact slice_append line (Nat.le_of_lt (hexadecimal_ok hacc hb).1) hle
    · exact slice_append line (Nat.le_of_lt (decimal_ok hacc hb).1) hle
  · rcases hbranch with ⟨hz, ⟨x1, hx1, hxx⟩, hb⟩ | ⟨-, hb⟩
    · subst hz
      obtain ⟨hs, ex, he, hfr, hex⟩ := hexadecimal_valid hb hx0 hx1
      exact Or.inr (Or.inr ⟨x1, hs, ex, he, hxx, hfr, hex⟩)
    · rcases decimal_valid hb with h1 | h2
      · exact Or.inl h1
      · exact Or.inr (Or.inl h2)

/-- C18 at the line `y = 0x1.8p-3f;`, cursor 4: the reader returns 0 with exit cursor 13,
the text between the cursors is `0x1.8p-3f`, and `;` follows. -/
theorem floating_constant_valid_witness :
    read_floating_constant (cs "y = 0x1.8p-3f;") 4 fresh_token
      = Res.ok (0, 13, { type := TOKEN_FLOAT_CONST, str := string_lit (cs "0x1.8p-3f") })
    ∧ slice (cs "y = 0x1.8p-3f;") 4 13 = cs "0x1.8p-3f"
    ∧ floating_constant (slice (cs "y = 0x1.8p-3f;") 4 13)
    ∧ ∃ y, rd (cs "y = 0x1.8p-3f;") 13 = Res.ok y ∧ is_identifier y = false
        ∧ y ≠ '.'.toNat :=
  ⟨by decide, by decide,
   floating_constant_valid.1 (cs "y = 0x1.8p-3f;") 4 13 fresh_token
     { type := TOKEN_FLOAT_CONST, str := string_lit (cs "0x1.8p-3f") } (by decide)⟩

/-! ### The same text on another line -/

theorem inert_lt {y : Nat} (h : inert y = true) : y < 33 := by
  simp only [inert, isspace, Bool.or_eq_true, beq_iff_eq, Bool.and_eq_true, decide_eq_true_eq,
    Char.reduceToNat] at h
  omega

theorem inert_beq {y : Nat} (h : inert y = true) (ch : Nat) (hch : 33 ≤ ch) :
    (y == ch) = false := by
  have := inert_lt h
  exact beq_false_of_ne (by omega)

theorem inert_isdigit {y : Nat} (h : inert y = true) : isdigit y = false := by
  have := inert_lt h
  simp only [isdigit, Char.reduceToNat, Bool.and_eq_false_imp, decide_eq_true_eq,
    decide_eq_false_iff_not]
  omega

theorem inert_isxdigit {y : Nat} (h : inert y = true) : isxdigit y = false := by
  have := inert_lt h
  simp only [isxdigit, isdigit, Char.reduceToNat, Bool.or_eq_false_iff, Bool.and_eq_false_imp,
    decide_eq_true_eq, decide_eq_false_iff_not]
  omega

theorem inert_is_octal_digit {y : Nat} (h : inert y = true) : is_octal_digit y = false := by
  have := inert_lt h
  simp only [is_octal_digit, Char.reduceToNat, Bool.or_eq_false_iff, beq_eq_false_iff_ne]
  omega

theorem inert_is_identifier {y : Nat} (h : inert y = true) : is_identifier y = false := by
  have := inert_lt h
  simp only [is_identifier, isalnum, isalpha, isdigit, Char.reduceToNat, Bool.or_eq_false_iff,
    Bool.and_eq_false_imp, decide_eq_true_eq, decide_eq_false_iff_not, beq_eq_false_iff_ne]
  omega

theorem inert_is_floating_suffix {y : Nat} (h : inert y = true) :
    is_floating_suffix y = false := by
  have := inert_lt h
  simp only [is_floating_suffix, Char.reduceToNat, Bool.or_eq_false_iff, beq_eq_false_iff_ne]
  omega

/-- Two cursors, `e` on `A` and `e'` on `B`, at the same distance from the start of the
window and inside it: the two lines show the same character. -/
theorem window_read {A B : List Nat} {c d n : Nat} (W : Window A c B d n) {e e' : Nat}
    (hrel : e + d = e' + c) (hc : c ≤ e) (hn : e < c + n) : rd B e' = rd A e := by
  have h := W.1 (e - c) (by omega)
  have h1 : d + (e - c) = e' := by omega
  have h2 : c + (e - c) = e := by omega
  rwa [h1, h2] at h

theorem window_read_ok {A B : List Nat} {c d n : Nat} (W : Window A c B d n) {e e' x : Nat}
    (hrel : e + d = e' + c) (hc : c ≤ e) (hn : e < c + n) (hx : rd A e = Res.ok x) :
    rd B e' = Res.ok x := by
  rw [window_read W hrel hc hn, hx]

theorem window_end {A B : List Nat} {c d n : Nat} (W : Window A c B d n) {e e' : Nat}
    (hrel : e + d = e' + c) (he : e = c + n) : ∃ y, rd B e' = Res.ok y ∧ inert y = true := by
  obtain ⟨y, hy, hin⟩ := W.2
  have h1 : d + n = e' := by omega
  rw [h1] at hy
  exact ⟨y, hy, hin⟩

theorem window_bound {A B : List Nat} {c d n : Nat} (W : Window A c B d n) :
    n < loop_bound B := by
  obtain ⟨y, hy, -⟩ := W.2
  have := rd_ok_le hy
  simp only [loop_bound]
  omega

/-- A test that comes out negative on `A` under a cursor inside the window or at its end
comes out negative on `B`. -/
theorem window_test_false {A B : List Nat} {c d n : Nat} (W : Window A c B d n) {e e' x : Nat}
    (hrel : e + d = e' + c) (hc : c ≤ e) (hn : e ≤ c + n) (hx : rd A e = Res.ok x)
    (t : Nat → Bool) (ht : ∀ y, inert y = true → t y = false) (hf : t x = false) :
    ∃ x', rd B e' = Res.ok x' ∧ t x' = false := by
  rcases Nat.lt_or_ge e (c + n) with h | h
  · exact ⟨x, window_read_ok W hrel hc h hx, hf⟩
  · obtain ⟨y, hy, hin⟩ := window_end W hrel (by omega)
    exact ⟨y, hy, ht y hin⟩

theorem APPADV_window {A B : List Nat} {c d n : Nat} (W : Window A c B d n)
    {e e' e2 : Nat} {str s1 : string} (hrel : e + d = e' + c) (hc : c ≤ e)
    (hn : e < c + n) (h : APPADV A str e = Res.ok (s1, e2)) :
    e2 = e + 1 ∧ APPADV B str e' = Res.ok (s1, e' + 1) := by
  obtain ⟨hc2, x, hx, hs⟩ := APPADV_step h
  refine ⟨hc2, ?_⟩
  unfold APPADV
  rw [window_read_ok W hrel hc hn hx]
  simp only [ok_bind, hs, pure_eq_ok]

/-- A loop `while (p(**c)) APPADV(str, c);` that stays inside the window does the same on
the other line. -/
theorem while_APPADV_window (p : Nat → Bool) (hp : ∀ y, inert y = true → p y = false)
    {A B : List Nat} {c d n : Nat} (W : Window A c B d n) (fuelA : Nat) :
    ∀ {fuelB e e' e2 : Nat} {str s1 : string}, e + d = e' + c → c ≤ e →
      while_APPADV p A fuelA str e = Res.ok (s1, e2) → e2 ≤ c + n → c + n - e < fuelB →
      ∃ e2', e2 + d = e2' + c ∧ e ≤ e2 ∧ while_APPADV p B fuelB str e' = Res.ok (s1, e2') := by
  induction fuelA with
  | zero => intro fuelB e e' e2 str s1 _ _ h; simp [while_APPADV] at h
  | succ fuelA ih =>
    intro fuelB e e' e2 str s1 hrel hc h hc2 hfuel
    obtain ⟨fb, rfl⟩ : ∃ fb, fuelB = fb + 1 := ⟨fuelB - 1, by omega⟩
    rw [while_APPADV] at h
    obtain ⟨x, hx, g⟩ := bind_eq_ok h
    rw [while_APPADV]
    by_cases hpx : p x = true
    · simp only [hpx, if_true] at g
      obtain ⟨⟨s2, c3⟩, h2, g2⟩ := bind_eq_ok g
      obtain ⟨hc3, -⟩ := APPADV_step h2
      subst hc3
      have hmono2 := (while_APPADV_run p _ g2).1
      have hk : e < c + n := by omega
      obtain ⟨-, hB⟩ := APPADV_window W hrel hc hk h2
      obtain ⟨e2', hrel2, hle, hrec⟩ :=
        ih (show e + 1 + d = e' + 1 + c by omega) (show c ≤ e + 1 by omega) g2 hc2
          (show c + n - (e + 1) < fb by omega)
      refine ⟨e2', hrel2, by omega, ?_⟩
      rw [window_read_ok W hrel hc hk hx]
      simp only [ok_bind, hpx, if_true, hB]
      exact hrec
    · simp only [hpx, Bool.false_eq_true, if_false, pure_eq_ok, Res.ok.injEq,
        Prod.mk.injEq] at g
      obtain ⟨e1, e2⟩ := g
      subst e1 e2
      obtain ⟨x', hx', hpx'⟩ := window_test_false W hrel hc hc2 hx p hp (by simpa using hpx)
      refine ⟨e', hrel, Nat.le_refl _, ?_⟩
      rw [hx']
      simp only [ok_bind, hpx', Bool.false_eq_true, if_false, pure_eq_ok]

theorem while_APPADV_cnt_window (p : Nat → Bool) (hp : ∀ y, inert y = true → p y = false)
    {A B : List Nat} {c d n : Nat} (W : Window A c B d n) (fuelA : Nat) :
    ∀ {fuelB e e' e2 cnt cnt1 : Nat} {str s1 : string}, e + d = e' + c → c ≤ e →
      while_APPADV_cnt p A fuelA str e cnt = Res.ok (s1, e2, cnt1) → e2 ≤ c + n →
      c + n - e < fuelB →
      ∃ e2', e2 + d = e2' + c ∧ e ≤ e2
        ∧ while_APPADV_cnt p B fuelB str e' cnt = Res.ok (s1, e2', cnt1) := by
  induction fuelA with
  | zero => intro fuelB e e' e2 cnt cnt1 str s1 _ _ h; simp [while_APPADV_cnt] at h
  | succ fuelA ih =>
    intro fuelB e e' e2 cnt cnt1 str s1 hrel hc h hc2 hfuel
    obtain ⟨fb, rfl⟩ : ∃ fb, fuelB = fb + 1 := ⟨fuelB - 1, by omega⟩
    rw [while_APPADV_cnt] at h
    obtain ⟨x, hx, g⟩ := bind_eq_ok h
    rw [while_APPADV_cnt]
    by_cases hpx : p x = true
    · simp only [hpx, if_true] at g
      obtain ⟨⟨s2, c3⟩, h2, g2⟩ := bind_eq_ok g
      obtain ⟨hc3, -⟩ := APPADV_step h2
      subst hc3
      have hmono2 := (while_APPADV_cnt_run p _ g2).1
      have hk : e < c + n := by omega
      obtain ⟨-, hB⟩ := APPADV_window W hrel hc hk h2
      obtain ⟨e2', hrel2, hle, hrec⟩ :=
        ih (show e + 1 + d = e' + 1 + c by omega) (show c ≤ e + 1 by omega) g2 hc2
          (show c + n - (e + 1) < fb by omega)
      refine ⟨e2', hrel2, by omega, ?_⟩
      rw [window_read_ok W hrel hc hk hx]
      simp only [ok_bind, hpx, if_true, hB]
      exact hrec
    · simp only [hpx, Bool.false_eq_true, if_false, pure_eq_ok, Res.ok.injEq,
        Prod.mk.injEq] at g
      obtain ⟨e1, e2, e3⟩ := g
      subst e1 e2 e3
      obtain ⟨x', hx', hpx'⟩ := window_test_false W hrel hc hc2 hx p hp (by simpa using hpx)
      refine ⟨e', hrel, Nat.le_refl _, ?_⟩
      rw [hx']
      simp only [ok_bind, hpx', Bool.false_eq_true, if_false, pure_eq_ok]

/-! ### Readers on the same text -/

theorem inert_not_quote {y : Nat} (h : inert y = true) :
    (y == '\''.toNat || y == '\"'.toNat) = false := by
  rw [inert_beq h _ (show 33 ≤ '\''.toNat by decide),
    inert_beq h _ (show 33 ≤ '\"'.toNat by decide)]
  rfl

theorem inert_not_u {y : Nat} (h : inert y = true) :
    (y == 'u'.toNat || y == 'U'.toNat) = false := by
  rw [inert_beq h _ (show 33 ≤ 'u'.toNat by decide),
    inert_beq h _ (show 33 ≤ 'U'.toNat by decide)]
  rfl

theorem inert_not_l {y : Nat} (h : inert y = true) :
    (y == 'l'.toNat || y == 'L'.toNat) = false := by
  rw [inert_beq h _ (show 33 ≤ 'l'.toNat by decide),
    inert_beq h _ (show 33 ≤ 'L'.toNat by decide)]
  rfl

theorem inert_not_x {y : Nat} (h : inert y = true) :
    (y == 'x'.toNat || y == 'X'.toNat) = false := by
  rw [inert_beq h _ (show 33 ≤ 'x'.toNat by decide),
    inert_beq h _ (show 33 ≤ 'X'.toNat by decide)]
  rfl

/-- `read_keyword_or_identifier` returns 0 on `B` wherever it does on `A`, if `B` shows the
same text followed by a character that ends every token. -/
theorem read_keyword_window {A B : List Nat} {c d n : Nat} (W : Window A c B d n)
    {tok tok1 : token}
    (h : read_keyword_or_identifier A c tok = Res.ok (0, c + n, tok1)) :
    read_keyword_or_identifier B d tok = Res.ok (0, d + n, tok1) := by
  have hn : 0 < n := by have := (read_keyword_or_identifier_ok h).1.1; omega
  have h := reader_exit_zero h
  obtain ⟨x, hx, g1⟩ := bind_eq_ok h
  clear h
  obtain ⟨u, hu, g2⟩ := bind_eq_ok g1
  clear g1
  obtain ⟨⟨s2, c2⟩, h2, g3⟩ := bind_eq_ok g2
  clear g2
  obtain ⟨y, hy, g4⟩ := bind_eq_ok g3
  clear g3
  obtain ⟨u2, hu2, g5⟩ := bind_eq_ok g4
  clear g4
  obtain ⟨tok2, hk, g6⟩ := bind_eq_ok g5
  clear g5
  obtain ⟨s, hs, g7⟩ := bind_eq_ok g6
  clear g6
  simp only [pure_eq_ok, Res.ok.injEq, Prod.mk.injEq] at g7
  obtain ⟨e1, e2⟩ := g7
  change c2 = c + n at e1
  subst e1
  obtain ⟨e2', hrel2, -, hB⟩ := while_APPADV_window is_identifier
    (fun y hy => inert_is_identifier hy) W _ (show c + d = d + c by omega) (Nat.le_refl c)
    h2 (Nat.le_refl _) (show c + n - c < loop_bound B by have := window_bound W; omega)
  obtain rfl : e2' = d + n := by omega
  obtain ⟨y', hy', hin⟩ := W.2
  unfold read_keyword_or_identifier
  rw [window_read_ok W (show c + d = d + c by omega) (Nat.le_refl c) (by omega) hx]
  simp only [ok_bind, hu, hB, hy', inert_not_quote hin, error_if_false, hk, hs,
    pure_eq_ok, reader_exit]
  rw [← e2]

theorem digits_window {A B : List Nat} {c d n : Nat} (W : Window A c B d n)
    {e e' e2 : Nat} {str s1 : string} (hrel : e + d = e' + c) (hc : c ≤ e) (hn : e < c + n)
    (h : read_integer_constant.digits A str e = Res.ok (s1, e2)) (hc2 : e2 ≤ c + n) :
    ∃ e2', e2 + d = e2' + c ∧ e ≤ e2
      ∧ read_integer_constant.digits B str e' = Res.ok (s1, e2') := by
  have hfuel := window_bound W
  unfold read_integer_constant.digits at h
  obtain ⟨x, hx, g1⟩ := bind_eq_ok h
  clear h
  unfold read_integer_constant.digits
  rw [window_read_ok W hrel hc hn hx]
  simp only [ok_bind]
  by_cases hnz : is_nonzero_digit x = true
  · simp only [hnz, if_true] at g1 ⊢
    exact while_APPADV_window isdigit (fun y hy => inert_isdigit hy) W _ hrel hc g1 hc2
      (by omega)
  · simp only [hnz, Bool.false_eq_true, if_false] at g1 ⊢
    by_cases hz : (x == '0'.toNat) = true
    · simp only [hz, if_true] at g1 ⊢
      obtain ⟨⟨s2, c3⟩, h2, g2⟩ := bind_eq_ok g1
      clear g1
      obtain ⟨hc3, hB2⟩ := APPADV_window W hrel hc hn h2
      subst hc3
      rw [hB2]
      simp only [ok_bind]
      obtain ⟨x1, hx1, g3⟩ := bind_eq_ok g2
      clear g2
      have hrel1 : e + 1 + d = e' + 1 + c := by omega
      by_cases hxx : (x1 == 'x'.toNat || x1 == 'X'.toNat) = true
      · simp only [hxx, if_true] at g3
        obtain ⟨⟨s3, c4⟩, h3, g4⟩ := bind_eq_ok g3
        clear g3
        obtain ⟨hc4, -⟩ := APPADV_step h3
        subst hc4
        obtain ⟨⟨s4, c5⟩, h4, g5⟩ := bind_eq_ok g4
        clear g4
        obtain ⟨p, hp, g6⟩ := bind_eq_ok g5
        clear g5
        obtain ⟨u, hu, g7⟩ := bind_eq_ok g6
        clear g6
        simp only [pure_eq_ok, Res.ok.injEq, Prod.mk.injEq] at g7
        obtain ⟨q1, q2⟩ := g7
        change c5 = e2 at q2
        subst q1 q2
        have hmono := (while_APPADV_run isxdigit _ h4).1
        have hk1 : e + 1 < c + n := by omega
        obtain ⟨-, hB3⟩ := APPADV_window W hrel1 (by omega) hk1 h3
        obtain ⟨e5', hrel5, hle, hB4⟩ := while_APPADV_window isxdigit
          (fun y hy => inert_isxdigit hy) W _ (show e + 1 + 1 + d = e' + 1 + 1 + c by omega)
          (show c ≤ e + 1 + 1 by omega) h4 hc2
          (show c + n - (e + 1 + 1) < loop_bound B by omega)
        refine ⟨e5', hrel5, by omega, ?_⟩
        rw [window_read_ok W hrel1 (by omega) hk1 hx1]
        simp only [ok_bind, hxx, if_true, hB3, hB4]
        have hpB : rd B (e5' - 1) = Res.ok p :=
          window_read_ok W (show c5 - 1 + d = e5' - 1 + c by omega) (by omega) (by omega) hp
        simp only [hpB, ok_bind, hu, pure_eq_ok]
      · simp only [hxx, Bool.false_eq_true, if_false] at g3
        have hmono := (while_APPADV_run is_octal_digit _ g3).1
        obtain ⟨e5', hrel5, hle, hB4⟩ := while_APPADV_window is_octal_digit
          (fun y hy => inert_is_octal_digit hy) W _ hrel1 (show c ≤ e + 1 by omega) g3 hc2
          (show c + n - (e + 1) < loop_bound B by omega)
        refine ⟨e5', hrel5, by omega, ?_⟩
        obtain ⟨x1', hx1', hxx'⟩ := window_test_false W hrel1 (show c ≤ e + 1 by omega)
          (by omega) hx1 (fun y => y == 'x'.toNat || y == 'X'.toNat)
          (fun y hy => inert_not_x hy) (by simpa using hxx)
        rw [hx1']
        simp only [ok_bind, hxx', Bool.false_eq_true, if_false]
        exact hB4
    · simp only [hz, Bool.false_eq_true, if_false, pure_eq_ok, Res.ok.injEq,
        Prod.mk.injEq] at g1 ⊢
      obtain ⟨q1, q2⟩ := g1
      subst q1 q2
      exact ⟨e', hrel, Nat.le_refl _, rfl, rfl⟩

theorem suffix_window {A B : List Nat} {c d n : Nat} (W : Window A c B d n)
    {e e' e2 : Nat} {str s1 : string} (hrel : e + d = e' + c) (hc : c ≤ e)
    (h : read_integer_constant.suffix A str e = Res.ok (s1, e2)) (hc2 : e2 ≤ c + n) :
    ∃ e2', e2 + d = e2' + c ∧ e ≤ e2
      ∧ read_integer_constant.suffix B str e' = Res.ok (s1, e2') := by
  have hrel1 : e + 1 + d = e' + 1 + c := by omega
  have hrel2 : e + 1 + 1 + d = e' + 1 + 1 + c := by omega
  unfold read_integer_constant.suffix at h
  obtain ⟨x, hx, g1⟩ := bind_eq_ok h
  clear h
  unfold read_integer_constant.suffix
  by_cases hu : (x == 'u'.toNat || x == 'U'.toNat) = true
  · simp only [hu, if_true] at g1
    obtain ⟨⟨s2, c3⟩, h2, g2⟩ := bind_eq_ok g1
    clear g1
    obtain ⟨hc3, -⟩ := APPADV_step h2
    subst hc3
    obtain ⟨y, hy, g3⟩ := bind_eq_ok g2
    clear g2
    by_cases hl : (y == 'l'.toNat || y == 'L'.toNat) = true
    · simp only [hl, if_true] at g3
      obtain ⟨⟨s3, c4⟩, h3, g4⟩ := bind_eq_ok g3
      clear g3
      obtain ⟨hc4, -⟩ := APPADV_step h3
      subst hc4
      obtain ⟨z, hz, g5⟩ := bind_eq_ok g4
      clear g4
      obtain ⟨p, hp, g6⟩ := bind_eq_ok g5
      clear g5
      simp only [Nat.add_sub_cancel] at hp
      have hpy : p = y := rd_inj hp hy
      subst hpy
      have hp33 : 33 ≤ p := by
        simp only [Bool.or_eq_true, beq_iff_eq, Char.reduceToNat] at hl
        omega
      by_cases hzp : (z == p) = true
      · simp only [hzp, if_true] at g6
        obtain ⟨hc5, -⟩ := APPADV_step g6
        change e2 = e + 1 + 1 + 1 at hc5
        subst hc5
        have hk0 : e < c + n := by omega
        have hk1 : e + 1 < c + n := by omega
        have hk2 : e + 1 + 1 < c + n := by omega
        obtain ⟨-, hB2⟩ := APPADV_window W hrel hc hk0 h2
        obtain ⟨-, hB3⟩ := APPADV_window W hrel1 (by omega) hk1 h3
        obtain ⟨-, hB4⟩ := APPADV_window W hrel2 (by omega) hk2 g6
        refine ⟨e' + 1 + 1 + 1, by omega, by omega, ?_⟩
        simp only [window_read_ok W hrel hc hk0 hx, ok_bind, hu, if_true, hB2,
          window_read_ok W hrel1 (by omega) hk1 hy, hl, hB3,
          window_read_ok W hrel2 (by omega) hk2 hz, Nat.add_sub_cancel, hzp, hB4]
      · simp only [hzp, Bool.false_eq_true, if_false, pure_eq_ok, Res.ok.injEq,
          Prod.mk.injEq] at g6
        obtain ⟨q1, q2⟩ := g6
        change e + 1 + 1 = e2 at q2
        subst q1 q2
        have hk0 : e < c + n := by omega
        have hk1 : e + 1 < c + n := by omega
        obtain ⟨-, hB2⟩ := APPADV_window W hrel hc hk0 h2
        obtain ⟨-, hB3⟩ := APPADV_window W hrel1 (by omega) hk1 h3
        obtain ⟨z', hz', hzf⟩ := window_test_false W hrel2 (by omega) hc2 hz
          (fun z => z == p) (fun y hy => inert_beq hy p hp33) (by simpa using hzp)
        refine ⟨e' + 1 + 1, by omega, by omega, ?_⟩
        simp only [window_read_ok W hrel hc hk0 hx, ok_bind, hu, if_true, hB2,
          window_read_ok W hrel1 (by omega) hk1 hy, hl, hB3, hz', Nat.add_sub_cancel, hzf,
          Bool.false_eq_true, if_false, pure_eq_ok]
    · simp only [hl, Bool.false_eq_true, if_false, pure_eq_ok, Res.ok.injEq,
        Prod.mk.injEq] at g3
      obtain ⟨q1, q2⟩ := g3
      change e + 1 = e2 at q2
      subst q1 q2
      have hk0 : e < c + n := by omega
      obtain ⟨-, hB2⟩ := APPADV_window W hrel hc hk0 h2
      obtain ⟨y', hy', hyf⟩ := window_test_false W hrel1 (by omega) hc2 hy
        (fun y => y == 'l'.toNat || y == 'L'.toNat) (fun y hy => inert_not_l hy)
        (by simpa using hl)
      refine ⟨e' + 1, by omega, by omega, ?_⟩
      simp only [window_read_ok W hrel hc hk0 hx, ok_bind, hu, if_true, hB2, hy', hyf,
        Bool.false_eq_true, if_false, pure_eq_ok]
  · simp only [hu, Bool.false_eq_true, if_false] at g1
    by_cases hl : (x == 'l'.toNat || x == 'L'.toNat) = true
    · simp only [hl, if_true] at g1
      obtain ⟨⟨s2, c3⟩, h2, g2⟩ := bind_eq_ok g1
      clear g1
      obtain ⟨hc3, -⟩ := APPADV_step h2
      subst hc3
      obtain ⟨y, hy, g3⟩ := bind_eq_ok g2
      clear g2
      obtain ⟨p, hp, g4⟩ := bind_eq_ok g3
      clear g3
      simp only [Nat.add_sub_cancel] at hp
      have hpx : p = x := rd_inj hp hx
      subst hpx
      have hp33 : 33 ≤ p := by
        simp only [Bool.or_eq_true, beq_iff_eq, Char.reduceToNat] at hl
        omega
      obtain ⟨⟨s3, c4⟩, h3, g5⟩ := bind_eq_ok g4
      clear g4
      obtain ⟨z, hz, g6⟩ := bind_eq_ok g5
      clear g5
      change rd A c4 = Res.ok z at hz
      by_cases hyp : (y == p) = true
      · simp only [hyp, if_true] at h3
        obtain ⟨hc4, -⟩ := APPADV_step h3
        change c4 = e + 1 + 1 at hc4
        subst hc4
        by_cases hzu : (z == 'u'.toNat || z == 'U'.toNat) = true
        · simp only [hzu, if_true] at g6
          obtain ⟨hc5, -⟩ := APPADV_step g6
          change e2 = e + 1 + 1 + 1 at hc5
          subst hc5
          have hk0 : e < c + n := by omega
          have hk1 : e + 1 < c + n := by omega
          have hk2 : e + 1 + 1 < c + n := by omega
          obtain ⟨-, hB2⟩ := APPADV_window W hrel hc hk0 h2
          obtain ⟨-, hB3⟩ := APPADV_window W hrel1 (by omega) hk1 h3
          obtain ⟨-, hB4⟩ := APPADV_window W hrel2 (by omega) hk2 g6
          have hxB := window_read_ok W hrel hc hk0 hx
          refine ⟨e' + 1 + 1 + 1, by omega, by omega, ?_⟩
          simp only [hxB, ok_bind, hu, Bool.false_eq_true, if_false, hl, if_true, hB2,
            window_read_ok W hrel1 (by omega) hk1 hy, Nat.add_sub_cancel, hyp, hB3,
            window_read_ok W hrel2 (by omega) hk2 hz, hzu, hB4]
        · simp only [hzu, Bool.false_eq_true, if_false, pure_eq_ok, Res.ok.injEq,
            Prod.mk.injEq] at g6
          obtain ⟨q1, q2⟩ := g6
          change e + 1 + 1 = e2 at q2
          subst q1 q2
          have hk0 : e < c + n := by omega
          have hk1 : e + 1 < c + n := by omega
          obtain ⟨-, hB2⟩ := APPADV_window W hrel hc hk0 h2
          obtain ⟨-, hB3⟩ := APPADV_window W hrel1 (by omega) hk1 h3
          obtain ⟨z', hz', hzf⟩ := window_test_false W hrel2 (by omega) hc2 hz
            (fun y => y == 'u'.toNat || y == 'U'.toNat) (fun y hy => inert_not_u hy)
            (by simpa using hzu)
          have hxB := window_read_ok W hrel hc hk0 hx
          refine ⟨e' + 1 + 1, by omega, by omega, ?_⟩
          simp only [hxB, ok_bind, hu, Bool.false_eq_true, if_false, hl, if_true, hB2,
            window_read_ok W hrel1 (by omega) hk1 hy, Nat.add_sub_cancel, hyp, hB3,
            hz', hzf, pure_eq_ok]
      · simp only [hyp, Bool.false_eq_true, if_false, pure_eq_ok, Res.ok.injEq,
          Prod.mk.injEq] at h3
        obtain ⟨q1, q2⟩ := h3
        change e + 1 = c4 at q2
        subst q1 q2
        have hzy : z = y := rd_inj hz hy
        subst hzy
        by_cases hzu : (z == 'u'.toNat || z == 'U'.toNat) = true
        · simp only [hzu, if_true] at g6
          obtain ⟨hc5, -⟩ := APPADV_step g6
          change e2 = e + 1 + 1 at hc5
          subst hc5
          have hk0 : e < c + n := by omega
          have hk1 : e + 1 < c + n := by omega
          obtain ⟨-, hB2⟩ := APPADV_window W hrel hc hk0 h2
          obtain ⟨-, hB4⟩ := APPADV_window W hrel1 (by omega) hk1 g6
          have hxB := window_read_ok W hrel hc hk0 hx
          refine ⟨e' + 1 + 1, by omega, by omega, ?_⟩
          simp only [hxB, ok_bind, hu, Bool.false_eq_true, if_false, hl, if_true, hB2,
            window_read_ok W hrel1 (by omega) hk1 hy, Nat.add_sub_cancel, hyp, pure_eq_ok,
            hzu, hB4]
        · simp only [hzu, Bool.false_eq_true, if_false, pure_eq_ok, Res.ok.injEq,
            Prod.mk.injEq] at g6
          obtain ⟨q1, q2⟩ := g6
          change e + 1 = e2 at q2
          subst q1 q2
          have hk0 : e < c + n := by omega
          obtain ⟨-, hB2⟩ := APPADV_window W hrel hc hk0 h2
          obtain ⟨z', hz', hzf⟩ := window_test_false W hrel1 (by omega) hc2 hz
            (fun y => (y == p) || (y == 'u'.toNat || y == 'U'.toNat))
            (fun y hy => by
              simp only [inert_beq hy p hp33, inert_not_u hy, Bool.or_self])
            (by simp only [hyp, hzu, Bool.or_self])
          simp only [Bool.or_eq_false_iff] at hzf
          have hxB := window_read_ok W hrel hc hk0 hx
          refine ⟨e' + 1, by omega, by omega, ?_⟩
          simp only [hxB, ok_bind, hu, Bool.false_eq_true, if_false, hl, if_true, hB2,
            hz', Nat.add_sub_cancel, hzf.1, pure_eq_ok, hzf.2.1, hzf.2.2, Bool.or_self]
    · simp only [hl, Bool.false_eq_true, if_false, pure_eq_ok, Res.ok.injEq,
        Prod.mk.injEq] at g1
      obtain ⟨q1, q2⟩ := g1
      subst q1 q2
      obtain ⟨x', hx', hxf⟩ := window_test_false W hrel hc hc2 hx
        (fun y => (y == 'u'.toNat || y == 'U'.toNat) || (y == 'l'.toNat || y == 'L'.toNat))
        (fun y hy => by simp only [inert_not_u hy, inert_not_l hy, Bool.or_self])
        (by simp only [hu, hl, Bool.or_self])
      simp only [Bool.or_eq_false_iff] at hxf
      refine ⟨e', hrel, Nat.le_refl _, ?_⟩
      have h1 : (x' == 'u'.toNat || x' == 'U'.toNat) = false := by
        simp only [Bool.or_eq_false_iff]; exact hxf.1
      have h2 : (x' == 'l'.toNat || x' == 'L'.toNat) = false := by
        simp only [Bool.or_eq_false_iff]; exact hxf.2
      simp only [hx', ok_bind, h1, Bool.false_eq_true, if_false, h2, pure_eq_ok]

/-- `read_integer_constant` returns 0 on `B` wherever it does on `A`, if `B` shows the same
text followed by a character that ends every token. -/
theorem read_integer_window {A B : List Nat} {c d n : Nat} (W : Window A c B d n)
    {tok tok1 : token}
    (h : read_integer_constant A c tok = Res.ok (0, c + n, tok1)) :
    read_integer_constant B d tok = Res.ok (0, d + n, tok1) := by
  have hn : 0 < n := by have := (read_integer_constant_ok h).1.1; omega
  have hrel : c + d = d + c := by omega
  have h := reader_exit_zero h
  obtain ⟨x, hx, g1⟩ := bind_eq_ok h
  clear h
  obtain ⟨u, hu, g2⟩ := bind_eq_ok g1
  clear g1
  obtain ⟨⟨s2, c2⟩, h2, g3⟩ := bind_eq_ok g2
  clear g2
  obtain ⟨⟨s3, c3⟩, h3, g4⟩ := bind_eq_ok g3
  clear g3
  obtain ⟨y, hy, g5⟩ := bind_eq_ok g4
  clear g4
  obtain ⟨u2, hu2, g6⟩ := bind_eq_ok g5
  clear g5
  obtain ⟨u3, hu3, g7⟩ := bind_eq_ok g6
  clear g6
  obtain ⟨s, hs, g8⟩ := bind_eq_ok g7
  clear g7
  simp only [pure_eq_ok, Res.ok.injEq, Prod.mk.injEq] at g8
  obtain ⟨q1, q2⟩ := g8
  change c3 = c + n at q1
  subst q1
  have hle3 := (suffix_shape h3).1
  obtain ⟨c2', hrel2, hle2, hB2⟩ := digits_window W hrel (Nat.le_refl c) (by omega) h2 hle3
  obtain ⟨c3', hrel3, -, hB3⟩ := suffix_window W hrel2 hle2 h3 (Nat.le_refl _)
  obtain rfl : c3' = d + n := by omega
  obtain ⟨y', hy', hin⟩ := W.2
  unfold read_integer_constant
  rw [window_read_ok W hrel (Nat.le_refl c) (by omega) hx]
  simp only [ok_bind, hu, hB2, hB3, hy', inert_is_identifier hin, error_if_false,
    inert_beq hin _ (show 33 ≤ '.'.toNat by decide), hs, pure_eq_ok, reader_exit]
  rw [← q2]

/-! ### `read_floating_constant` on the same text -/

theorem inert_not_sign {y : Nat} (h : inert y = true) :
    (y == '+'.toNat || y == '-'.toNat) = false := by
  rw [inert_beq h _ (show 33 ≤ '+'.toNat by decide),
    inert_beq h _ (show 33 ≤ '-'.toNat by decide)]
  rfl

theorem inert_not_e {y : Nat} (h : inert y = true) :
    (y == 'e'.toNat || y == 'E'.toNat) = false := by
  rw [inert_beq h _ (show 33 ≤ 'e'.toNat by decide),
    inert_beq h _ (show 33 ≤ 'E'.toNat by decide)]
  rfl

theorem exponent_digits_window {A B : List Nat} {c d n : Nat} (W : Window A c B d n)
    {e e' e2 : Nat} {str s1 : string} (hrel : e + d = e' + c) (hc : c ≤ e)
    (h : read_floating_constant.exponent_digits A str e = Res.ok (s1, e2))
    (hc2 : e2 ≤ c + n) :
    ∃ e2', e2 + d = e2' + c ∧ e < e2
      ∧ read_floating_constant.exponent_digits B str e' = Res.ok (s1, e2') := by
  have hfuel := window_bound W
  unfold read_floating_constant.exponent_digits at h
  obtain ⟨x, hx, g1⟩ := bind_eq_ok h
  clear h
  obtain ⟨⟨s2, c2⟩, h2, g2⟩ := bind_eq_ok g1
  clear g1
  obtain ⟨y, hy, g3⟩ := bind_eq_ok g2
  clear g2
  obtain ⟨u, hu, g4⟩ := bind_eq_ok g3
  clear g3
  change rd A c2 = Res.ok y at hy
  change while_APPADV isdigit A (loop_bound A) s2 c2 = Res.ok (s1, e2) at g4
  have hd : isdigit y = true := by simpa using error_if_ok hu
  obtain ⟨hle, -, z, hz, hpz⟩ := while_APPADV_run isdigit _ g4
  have hlt : c2 < e2 := by
    rcases Nat.eq_or_lt_of_le hle with he | hl
    · exfalso
      subst he
      rw [rd_inj hy hz, hpz] at hd
      exact absurd hd (by simp)
    · exact hl
  unfold read_floating_constant.exponent_digits
  by_cases hs : (x == '+'.toNat || x == '-'.toNat) = true
  · simp only [hs, if_true] at h2
    obtain ⟨hc3, -⟩ := APPADV_step h2
    change c2 = e + 1 at hc3
    subst hc3
    have hrel1 : e + 1 + d = e' + 1 + c := by omega
    obtain ⟨-, hB2⟩ := APPADV_window W hrel hc (by omega) h2
    obtain ⟨e2', hrel2, -, hB4⟩ := while_APPADV_window isdigit
      (fun y hy => inert_isdigit hy) W _ hrel1 (show c ≤ e + 1 by omega) g4 hc2
      (show c + n - (e + 1) < loop_bound B by omega)
    refine ⟨e2', hrel2, by omega, ?_⟩
    simp only [window_read_ok W hrel hc (show e < c + n by omega) hx, ok_bind, hs, if_true,
      hB2, window_read_ok W hrel1 (show c ≤ e + 1 by omega) (by omega) hy, hu, hB4]
  · simp only [hs, Bool.false_eq_true, if_false, pure_eq_ok, Res.ok.injEq,
      Prod.mk.injEq] at h2
    obtain ⟨q1, q2⟩ := h2
    subst q1 q2
    obtain ⟨e2', hrel2, -, hB4⟩ := while_APPADV_window isdigit
      (fun y hy => inert_isdigit hy) W _ hrel hc g4 hc2
      (show c + n - e < loop_bound B by omega)
    refine ⟨e2', hrel2, hlt, ?_⟩
    have hxy : x = y := rd_inj hx hy
    subst hxy
    have hxB := window_read_ok W hrel hc (show e < c + n by omega) hx
    simp only [hxB, ok_bind, hs, Bool.false_eq_true, if_false, pure_eq_ok, hu, hB4]

theorem decimal_window {A B : List Nat} {c d n : Nat} (W : Window A c B d n)
    {e e' e2 : Nat} {str s1 : string} (hrel : e + d = e' + c) (hc : c ≤ e)
    (h : read_floating_constant.decimal A str e = Res.ok (s1, e2)) (hc2 : e2 ≤ c + n) :
    ∃ e2', e2 + d = e2' + c ∧ e ≤ e2
      ∧ read_floating_constant.decimal B str e' = Res.ok (s1, e2') := by
  have hfuel := window_bound W
  unfold read_floating_constant.decimal at h
  obtain ⟨⟨s4, c4, cnt4⟩, h4, g1⟩ := bind_eq_ok h
  clear h
  obtain ⟨hle4, -⟩ := while_APPADV_cnt_run isdigit _ h4
  obtain ⟨x4, hx4, g2⟩ := bind_eq_ok g1
  clear g1
  change rd A c4 = Res.ok x4 at hx4
  obtain ⟨⟨s5, c5, only5⟩, h5, g3⟩ := bind_eq_ok g2
  clear g2
  obtain ⟨y, hy, g4⟩ := bind_eq_ok g3
  clear g3
  change rd A c5 = Res.ok y at hy
  obtain ⟨u, hu, g5⟩ := bind_eq_ok g4
  clear g4
  change (if (y == 'e'.toNat || y == 'E'.toNat) = true then do
      let (str, c) ← APPADV A s5 c5
      read_floating_constant.exponent_digits A str c
    else pure (s5, c5)) = Res.ok (s1, e2) at g5
  have hu := error_if_ok hu
  change (only5 && y != 'e'.toNat && y != 'E'.toNat) = false at hu
  -- the tail: an exponent or nothing
  have tail : c5 ≤ e2 ∧ (only5 = true → c5 < e2) ∧
      ∀ c5', c5 + d = c5' + c → c ≤ c5 →
        ∃ e2', e2 + d = e2' + c ∧
          (do
            let y ← rd B c5'
            error_if (only5 && y != 'e'.toNat && y != 'E'.toNat)
            if (y == 'e'.toNat || y == 'E'.toNat) = true then do
              let (str, c) ← APPADV B s5 c5'
              read_floating_constant.exponent_digits B str c
            else pure (s5, c5')) = Res.ok (s1, e2') := by
    by_cases hexp : (y == 'e'.toNat || y == 'E'.toNat) = true
    · simp only [hexp, if_true] at g5
      obtain ⟨⟨s8, c8⟩, h8, g6⟩ := bind_eq_ok g5
      obtain ⟨hc8, -⟩ := APPADV_step h8
      change c8 = c5 + 1 at hc8
      subst hc8
      change read_floating_constant.exponent_digits A s8 (c5 + 1) = Res.ok (s1, e2) at g6
      have hlt := (exponent_digits_shape g6).1
      refine ⟨by omega, fun _ => by omega, ?_⟩
      intro c5' hrel5 hc5
      obtain ⟨-, hB8⟩ := APPADV_window W hrel5 hc5 (by omega) h8
      obtain ⟨e2', hrel2, -, hB9⟩ := exponent_digits_window W
        (show c5 + 1 + d = c5' + 1 + c by omega) (show c ≤ c5 + 1 by omega) g6 hc2
      refine ⟨e2', hrel2, ?_⟩
      simp only [window_read_ok W hrel5 hc5 (show c5 < c + n by omega) hy, ok_bind, hu,
        error_if_false, hexp, if_true, hB8, hB9]
    · simp only [hexp, Bool.false_eq_true, if_false, pure_eq_ok, Res.ok.injEq,
        Prod.mk.injEq] at g5
      obtain ⟨q1, q2⟩ := g5
      subst q1 q2
      have honly : only5 = false := by
        cases only5 with
        | false => rfl
        | true =>
          exfalso
          simp only [Bool.or_eq_true, beq_iff_eq, not_or] at hexp
          simp only [Bool.true_and, Bool.and_eq_false_imp, bne_iff_ne, ne_eq,
            bne_eq_false_iff_eq] at hu
          exact hexp.2 (hu hexp.1)
      refine ⟨Nat.le_refl _, fun h => by rw [honly] at h; exact absurd h (by simp), ?_⟩
      intro c5' hrel5 hc5
      obtain ⟨y', hy', hyf⟩ := window_test_false W hrel5 hc5 hc2 hy
        (fun y => y == 'e'.toNat || y == 'E'.toNat) (fun y hy => inert_not_e hy)
        (by simpa using hexp)
      refine ⟨c5', hrel5, ?_⟩
      simp only [hy', ok_bind, honly, Bool.false_and, error_if_false, hyf, Bool.false_eq_true,
        if_false, pure_eq_ok]
  obtain ⟨hle5, honly, htail⟩ := tail
  unfold read_floating_constant.decimal
  by_cases hdot : (x4 == '.'.toNat) = true
  · simp only [hdot, if_true] at h5
    obtain ⟨⟨s6, c6⟩, h6, k1⟩ := bind_eq_ok h5
    clear h5
    obtain ⟨hc6, -⟩ := APPADV_step h6
    change c6 = c4 + 1 at hc6
    subst hc6
    obtain ⟨⟨s7, c7, cnt7⟩, h7, k2⟩ := bind_eq_ok k1
    clear k1
    change while_APPADV_cnt isdigit A (loop_bound A) s6 (c4 + 1) (cnt4 + 1)
      = Res.ok (s7, c7, cnt7) at h7
    obtain ⟨hle7, -⟩ := while_APPADV_cnt_run isdigit _ h7
    obtain ⟨u2, hu2, k3⟩ := bind_eq_ok k2
    clear k2
    simp only [pure_eq_ok, Res.ok.injEq, Prod.mk.injEq] at k3
    obtain ⟨q1, q2, q3⟩ := k3
    subst q1 q2 q3
    obtain ⟨c4', hrel4, -, hB4⟩ := while_APPADV_cnt_window isdigit
      (fun y hy => inert_isdigit hy) W _ hrel hc h4 (show c4 ≤ c + n by omega)
      (show c + n - e < loop_bound B by omega)
    obtain ⟨-, hB6⟩ := APPADV_window W hrel4 (by omega) (show c4 < c + n by omega) h6
    obtain ⟨c7', hrel7, -, hB7⟩ := while_APPADV_cnt_window isdigit
      (fun y hy => inert_isdigit hy) W _ (show c4 + 1 + d = c4' + 1 + c by omega)
      (show c ≤ c4 + 1 by omega) h7 (show c7 ≤ c + n by omega)
      (show c + n - (c4 + 1) < loop_bound B by omega)
    obtain ⟨e2', hrel2, hBt⟩ := htail c7' hrel7 (by omega)
    refine ⟨e2', hrel2, by omega, ?_⟩
    simp only [hB4, ok_bind,
      window_read_ok W hrel4 (show c ≤ c4 by omega) (show c4 < c + n by omega) hx4, hdot,
      if_true, hB6, hB7, hu2, pure_eq_ok]
    exact hBt
  · simp only [hdot, Bool.false_eq_true, if_false] at h5
    obtain ⟨u2, hu2, k3⟩ := bind_eq_ok h5
    clear h5
    simp only [pure_eq_ok, Res.ok.injEq, Prod.mk.injEq] at k3
    obtain ⟨q1, q2, q3⟩ := k3
    subst q1 q2 q3
    have hlt := honly rfl
    obtain ⟨c4', hrel4, -, hB4⟩ := while_APPADV_cnt_window isdigit
      (fun y hy => inert_isdigit hy) W _ hrel hc h4 (show c4 ≤ c + n by omega)
      (show c + n - e < loop_bound B by omega)
    obtain ⟨e2', hrel2, hBt⟩ := htail c4' hrel4 (by omega)
    refine ⟨e2', hrel2, by omega, ?_⟩
    have hx4B := window_read_ok W hrel4 (show c ≤ c4 by omega) (show c4 < c + n by omega) hx4
    simp only [hx4B, ok_bind] at hBt
    simp only [hB4, ok_bind, hx4B, hdot, Bool.false_eq_true, if_false, hu2, pure_eq_ok]
    exact hBt

theorem hexadecimal_window {A B : List Nat} {c d n : Nat} (W : Window A c B d n)
    {e e' e2 : Nat} {str s1 : string} (hrel : e + d = e' + c) (hc : c ≤ e)
    (h : read_floating_constant.hexadecimal A str e = Res.ok (s1, e2)) (hc2 : e2 ≤ c + n) :
    ∃ e2', e2 + d = e2' + c ∧ e ≤ e2
      ∧ read_floating_constant.hexadecimal B str e' = Res.ok (s1, e2') := by
  have hfuel := window_bound W
  unfold read_floating_constant.hexadecimal at h
  obtain ⟨⟨s2, c2⟩, h2, g0⟩ := bind_eq_ok h
  clear h
  obtain ⟨hc2', -⟩ := APPADV_step h2
  subst hc2'
  obtain ⟨⟨s3, c3⟩, h3, g00⟩ := bind_eq_ok g0
  clear g0
  obtain ⟨hc3, -⟩ := APPADV_step h3
  change c3 = e + 1 + 1 at hc3
  subst hc3
  obtain ⟨⟨s4, c4, cnt4⟩, h4, g1⟩ := bind_eq_ok g00
  clear g00
  change while_APPADV_cnt isxdigit A (loop_bound A) s3 (e + 1 + 1) 0
    = Res.ok (s4, c4, cnt4) at h4
  obtain ⟨hle4, -⟩ := while_APPADV_cnt_run isxdigit _ h4
  obtain ⟨x4, hx4, g2⟩ := bind_eq_ok g1
  clear g1
  change rd A c4 = Res.ok x4 at hx4
  obtain ⟨⟨s5, c5⟩, h5, g3⟩ := bind_eq_ok g2
  clear g2
  obtain ⟨y, hy, g4⟩ := bind_eq_ok g3
  clear g3
  change rd A c5 = Res.ok y at hy
  obtain ⟨u, hu, g5⟩ := bind_eq_ok g4
  clear g4
  obtain ⟨⟨s8, c8⟩, h8, g6⟩ := bind_eq_ok g5
  clear g5
  obtain ⟨hc8, -⟩ := APPADV_step h8
  change c8 = c5 + 1 at hc8
  subst hc8
  change read_floating_constant.exponent_digits A s8 (c5 + 1) = Res.ok (s1, e2) at g6
  have hlt := (exponent_digits_shape g6).1
  have tail : ∀ c5', c5 + d = c5' + c → c ≤ c5 →
      ∃ e2', e2 + d = e2' + c ∧
        (do
          let y ← rd B c5'
          error_if (y != 'p'.toNat && y != 'P'.toNat)
          let (str, c) ← APPADV B s5 c5'
          read_floating_constant.exponent_digits B str c) = Res.ok (s1, e2') := by
    intro c5' hrel5 hc5
    obtain ⟨-, hB8⟩ := APPADV_window W hrel5 hc5 (by omega) h8
    obtain ⟨e2', hrel2, -, hB9⟩ := exponent_digits_window W
      (show c5 + 1 + d = c5' + 1 + c by omega) (show c ≤ c5 + 1 by omega) g6 hc2
    refine ⟨e2', hrel2, ?_⟩
    simp only [window_read_ok W hrel5 hc5 (show c5 < c + n by omega) hy, ok_bind, hu, hB8, hB9]
  have hc5 : c4 ≤ c5 := by
    by_cases hdot : (x4 == '.'.toNat) = true
    · simp only [hdot, if_true] at h5
      obtain ⟨⟨s6, c6⟩, h6, k1⟩ := bind_eq_ok h5
      obtain ⟨hc6, -⟩ := APPADV_step h6
      obtain ⟨⟨s7, c7, cnt7⟩, h7, k2⟩ := bind_eq_ok k1
      obtain ⟨hle7, -⟩ := while_APPADV_cnt_run isxdigit _ h7
      obtain ⟨u2, hu2, k3⟩ := bind_eq_ok k2
      simp only [pure_eq_ok, Res.ok.injEq, Prod.mk.injEq] at k3
      have := k3.2
      change c7 = c5 at this
      change c6 ≤ c7 at hle7
      change c6 = c4 + 1 at hc6
      omega
    · simp only [hdot, Bool.false_eq_true, if_false] at h5
      obtain ⟨u2, hu2, k3⟩ := bind_eq_ok h5
      simp only [pure_eq_ok, Res.ok.injEq, Prod.mk.injEq] at k3
      have := k3.2
      omega
  have hrel1 : e + 1 + d = e' + 1 + c := by omega
  obtain ⟨-, hB2⟩ := APPADV_window W hrel hc (show e < c + n by omega) h2
  obtain ⟨-, hB3⟩ := APPADV_window W hrel1 (show c ≤ e + 1 by omega)
    (show e + 1 < c + n by omega) h3
  obtain ⟨c4', hrel4, -, hB4⟩ := while_APPADV_cnt_window isxdigit
    (fun y hy => inert_isxdigit hy) W _ (show e + 1 + 1 + d = e' + 1 + 1 + c by omega)
    (show c ≤ e + 1 + 1 by omega) h4 (show c4 ≤ c + n by omega)
    (show c + n - (e + 1 + 1) < loop_bound B by omega)
  have hx4B := window_read_ok W hrel4 (show c ≤ c4 by omega) (show c4 < c + n by omega) hx4
  unfold read_floating_constant.hexadecimal
  by_cases hdot : (x4 == '.'.toNat) = true
  · simp only [hdot, if_true] at h5
    obtain ⟨⟨s6, c6⟩, h6, k1⟩ := bind_eq_ok h5
    clear h5
    obtain ⟨hc6, -⟩ := APPADV_step h6
    change c6 = c4 + 1 at hc6
    subst hc6
    obtain ⟨⟨s7, c7, cnt7⟩, h7, k2⟩ := bind_eq_ok k1
    clear k1
    change while_APPADV_cnt isxdigit A (loop_bound A) s6 (c4 + 1) (cnt4 + 1)
      = Res.ok (s7, c7, cnt7) at h7
    obtain ⟨hle7, -⟩ := while_APPADV_cnt_run isxdigit _ h7
    obtain ⟨u2, hu2, k3⟩ := bind_eq_ok k2
    clear k2
    simp only [pure_eq_ok, Res.ok.injEq, Prod.mk.injEq] at k3
    obtain ⟨q1, q2⟩ := k3
    subst q1 q2
    obtain ⟨-, hB6⟩ := APPADV_window W hrel4 (by omega) (show c4 < c + n by omega) h6
    obtain ⟨c7', hrel7, -, hB7⟩ := while_APPADV_cnt_window isxdigit
      (fun y hy => inert_isxdigit hy) W _ (show c4 + 1 + d = c4' + 1 + c by omega)
      (show c ≤ c4 + 1 by omega) h7 (show c7 ≤ c + n by omega)
      (show c + n - (c4 + 1) < loop_bound B by omega)
    obtain ⟨e2', hrel2, hBt⟩ := tail c7' hrel7 (by omega)
    refine ⟨e2', hrel2, by omega, ?_⟩
    simp only [hB2, ok_bind, hB3, hB4, hx4B, hdot, if_true, hB6, hB7, hu2, pure_eq_ok]
    exact hBt
  · simp only [hdot, Bool.false_eq_true, if_false] at h5
    obtain ⟨u2, hu2, k3⟩ := bind_eq_ok h5
    clear h5
    simp only [pure_eq_ok, Res.ok.injEq, Prod.mk.injEq] at k3
    obtain ⟨q1, q2⟩ := k3
    subst q1 q2
    obtain ⟨e2', hrel2, hBt⟩ := tail c4' hrel4 (by omega)
    refine ⟨e2', hrel2, by omega, ?_⟩
    simp only [hx4B, ok_bind] at hBt
    simp only [hB2, ok_bind, hB3, hB4, hx4B, hdot, Bool.false_eq_true, if_false, hu2,
      pure_eq_ok]
    exact hBt

/-- `read_floating_constant` returns 0 on `B` wherever it does on `A`, if `B` shows the same
text followed by a character that ends every token. -/
theorem read_floating_window {A B : List Nat} {c d n : Nat} (W : Window A c B d n)
    {tok tok1 : token}
    (h : read_floating_constant A c tok = Res.ok (0, c + n, tok1)) :
    read_floating_constant B d tok = Res.ok (0, d + n, tok1) := by
  have hn : 0 < n := by have := (read_floating_constant_ok h).1.1; omega
  have hrel : c + d = d + c := by omega
  have h := reader_exit_zero h
  obtain ⟨x, hx, g1⟩ := bind_eq_ok h
  clear h
  obtain ⟨hex, hhex, g2⟩ := bind_eq_ok g1
  clear g1
  obtain ⟨⟨s5, c5⟩, h5, g3⟩ := bind_eq_ok g2
  clear g2
  obtain ⟨x5, hx5, g4⟩ := bind_eq_ok g3
  clear g3
  change rd A c5 = Res.ok x5 at hx5
  obtain ⟨⟨s6, c6⟩, h6, g5⟩ := bind_eq_ok g4
  clear g4
  obtain ⟨y, hy, g6⟩ := bind_eq_ok g5
  clear g5
  obtain ⟨u2, hu2, g7⟩ := bind_eq_ok g6
  clear g6
  obtain ⟨u3, hu3, g8⟩ := bind_eq_ok g7
  clear g7
  obtain ⟨s, hs, g9⟩ := bind_eq_ok g8
  clear g8
  simp only [pure_eq_ok, Res.ok.injEq, Prod.mk.injEq] at g9
  obtain ⟨q1, q2⟩ := g9
  change c6 = c + n at q1
  subst q1
  have hxB := window_read_ok W hrel (Nat.le_refl c) (show c < c + n by omega) hx
  -- the suffix
  have hle6 : c5 ≤ c + n := by
    by_cases hfs : is_floating_suffix x5 = true
    · simp only [hfs, if_true] at h6
      have := (APPADV_step h6).1
      change c + n = c5 + 1 at this
      omega
    · simp only [hfs, Bool.false_eq_true, if_false, pure_eq_ok, Res.ok.injEq,
        Prod.mk.injEq] at h6
      have := h6.2
      change c5 = c + n at this
      omega
  -- the branch
  have branch : ∃ c5', c5 + d = c5' + c ∧ c ≤ c5 ∧
      and_then (x == '0'.toNat) (do
          let y ← rd B (d + 1)
          pure (y == 'x'.toNat || y == 'X'.toNat)) = Res.ok hex ∧
      (if hex = true then read_floating_constant.hexadecimal B string_init d
        else read_floating_constant.decimal B string_init d) = Res.ok (s5, c5') := by
    unfold and_then at hhex ⊢
    by_cases hz : (x == '0'.toNat) = true
    · simp only [hz, if_true] at hhex ⊢
      obtain ⟨x1, hx1, k⟩ := bind_eq_ok hhex
      simp only [pure_eq_ok, Res.ok.injEq] at k
      subst k
      by_cases hxx : (x1 == 'x'.toNat || x1 == 'X'.toNat) = true
      · simp only [hxx, if_true] at h5 ⊢
        obtain ⟨c5', hrel5, hle5, hB5⟩ := hexadecimal_window W hrel (Nat.le_refl c) h5 hle6
        have hlt2 : c + 2 ≤ c5 := by
          obtain ⟨c4, x4, hc4, -, -, -, hcase, -⟩ := hexadecimal_shape h5
          rcases hcase with ⟨-, c7, h7, h8, -⟩ | ⟨-, -, h8, -⟩ <;> omega
        refine ⟨c5', hrel5, hle5, ?_, hB5⟩
        have hx1B := window_read_ok W (show c + 1 + d = d + 1 + c by omega)
          (show c ≤ c + 1 by omega) (show c + 1 < c + n by omega) hx1
        simp only [hx1B, ok_bind, pure_eq_ok, hxx]
      · simp only [hxx, Bool.false_eq_true, if_false] at h5 ⊢
        obtain ⟨c5', hrel5, hle5, hB5⟩ := decimal_window W hrel (Nat.le_refl c) h5 hle6
        obtain ⟨x1', hx1', hxx'⟩ := window_test_false W
          (show c + 1 + d = d + 1 + c by omega) (show c ≤ c + 1 by omega)
          (show c + 1 ≤ c + n by omega) hx1 (fun y => y == 'x'.toNat || y == 'X'.toNat)
          (fun y hy => inert_not_x hy) (by simpa using hxx)
        refine ⟨c5', hrel5, hle5, ?_, hB5⟩
        simp only [hx1', ok_bind, pure_eq_ok, hxx']
    · simp only [hz, Bool.false_eq_true, if_false, pure_eq_ok, Res.ok.injEq] at hhex ⊢
      subst hhex
      simp only [Bool.false_eq_true, if_false] at h5 ⊢
      obtain ⟨c5', hrel5, hle5, hB5⟩ := decimal_window W hrel (Nat.le_refl c) h5 hle6
      exact ⟨c5', hrel5, hle5, trivial, hB5⟩
  obtain ⟨c5', hrel5, hc5, hBhex, hB5⟩ := branch
  obtain ⟨y', hy', hin⟩ := W.2
  unfold read_floating_constant
  simp only [hxB, ok_bind, hBhex, hB5]
  by_cases hfs : is_floating_suffix x5 = true
  · simp only [hfs, if_true] at h6
    obtain ⟨hc6, -⟩ := APPADV_step h6
    change c + n = c5 + 1 at hc6
    obtain ⟨-, hB6⟩ := APPADV_window W hrel5 hc5 (show c5 < c + n by omega) h6
    have hcc : c5' + 1 = d + n := by omega
    rw [hcc] at hB6
    simp only [window_read_ok W hrel5 hc5 (show c5 < c + n by omega) hx5, ok_bind, hfs,
      if_true, hB6, hy', inert_is_identifier hin, error_if_false,
      inert_beq hin _ (show 33 ≤ '.'.toNat by decide), hs, pure_eq_ok, reader_exit]
    rw [← q2]
  · simp only [hfs, Bool.false_eq_true, if_false, pure_eq_ok, Res.ok.injEq,
      Prod.mk.injEq] at h6
    obtain ⟨q3, q4⟩ := h6
    change c5 = c + n at q4
    subst q3
    obtain rfl : c5' = d + n := by omega
    simp only [hy', ok_bind, inert_is_floating_suffix hin, Bool.false_eq_true, if_false,
      pure_eq_ok, inert_is_identifier hin, error_if_false,
      inert_beq hin _ (show 33 ≤ '.'.toNat by decide), hs, reader_exit]
    rw [← q2]

/-! ### Character constants and string literals on the same text -/

/-- One pass of the loop body that ends inside the window does the same on the other
line. -/
theorem char_sequence_body_window {A B : List Nat} {c d n : Nat} (W : Window A c B d n)
    {e e' e2 : Nat} {str s1 : string} {flag : Bool} (hrel : e + d = e' + c) (hc : c ≤ e)
    (h : char_sequence_body A str e = Res.ok (flag, s1, e2)) (hlt : e2 < c + n) :
    ∃ e2', e2 + d = e2' + c ∧ e ≤ e2 ∧ (flag = true → e < e2)
      ∧ char_sequence_body B str e' = Res.ok (flag, s1, e2') := by
  have hfuel := window_bound W
  have hrel1 : e + 1 + d = e' + 1 + c := by omega
  have hrel2 : e + 1 + 1 + d = e' + 1 + 1 + c := by omega
  have hrel3 : e + 1 + 1 + 1 + d = e' + 1 + 1 + 1 + c := by omega
  have hc1 : c ≤ e + 1 := by omega
  have hc2 : c ≤ e + 1 + 1 := by omega
  have hc3 : c ≤ e + 1 + 1 + 1 := by omega
  unfold char_sequence_body at h
  obtain ⟨x, hx, g1⟩ := bind_eq_ok h
  clear h
  unfold char_sequence_body
  by_cases hnl : (x == '\n'.toNat) = true
  · simp only [hnl, if_true, pure_eq_ok, Res.ok.injEq, Prod.mk.injEq] at g1
    obtain ⟨q1, q2, q3⟩ := g1
    subst q1 q2 q3
    refine ⟨e', hrel, Nat.le_refl _, fun hf => absurd hf (by decide), ?_⟩
    simp only [window_read_ok W hrel hc hlt hx, ok_bind, hnl, if_true, pure_eq_ok]
  simp only [hnl, Bool.false_eq_true, if_false] at g1
  by_cases hbs : (x == '\\'.toNat) = true
  swap
  · simp only [hbs, Bool.false_eq_true, if_false] at g1
    obtain ⟨⟨s2, c2⟩, h2, g2⟩ := bind_eq_ok g1
    clear g1
    obtain ⟨hc2', -⟩ := APPADV_step h2
    subst hc2'
    simp only [pure_eq_ok, Res.ok.injEq, Prod.mk.injEq] at g2
    obtain ⟨q1, q2, q3⟩ := g2
    change e + 1 = e2 at q3
    subst q1 q2 q3
    obtain ⟨-, hB2⟩ := APPADV_window W hrel hc (show e < c + n by omega) h2
    refine ⟨e' + 1, hrel1, by omega, fun _ => by omega, ?_⟩
    simp only [window_read_ok W hrel hc (show e < c + n by omega) hx, ok_bind, hnl,
      Bool.false_eq_true, if_false, hbs, hB2, pure_eq_ok]
  simp only [hbs, if_true] at g1
  obtain ⟨⟨s2, c2⟩, h2, g2⟩ := bind_eq_ok g1
  clear g1
  obtain ⟨hc2', -⟩ := APPADV_step h2
  subst hc2'
  obtain ⟨y, hy, g3⟩ := bind_eq_ok g2
  clear g2
  change rd A (e + 1) = Res.ok y at hy
  by_cases hsimple : is_simple_escape_sequence_character y = true
  · simp only [hsimple, if_true] at g3
    obtain ⟨⟨s3, c3⟩, h3, g4⟩ := bind_eq_ok g3
    clear g3
    obtain ⟨hc3', -⟩ := APPADV_step h3
    change c3 = e + 1 + 1 at hc3'
    subst hc3'
    simp only [pure_eq_ok, Res.ok.injEq, Prod.mk.injEq] at g4
    obtain ⟨q1, q2, q3⟩ := g4
    change e + 1 + 1 = e2 at q3
    subst q1 q2 q3
    obtain ⟨-, hB2⟩ := APPADV_window W hrel hc (show e < c + n by omega) h2
    obtain ⟨-, hB3⟩ := APPADV_window W hrel1 hc1 (show e + 1 < c + n by omega) h3
    refine ⟨e' + 1 + 1, hrel2, by omega, fun _ => by omega, ?_⟩
    simp only [window_read_ok W hrel hc (show e < c + n by omega) hx, ok_bind, hnl,
      Bool.false_eq_true, if_false, hbs, if_true, hB2,
      window_read_ok W hrel1 hc1 (show e + 1 < c + n by omega) hy, hsimple, hB3, pure_eq_ok]
  simp only [hsimple, Bool.false_eq_true, if_false] at g3
  by_cases hoct : is_octal_digit y = true
  · simp only [hoct, if_true] at g3
    obtain ⟨⟨s3, c3⟩, h3, g4⟩ := bind_eq_ok g3
    clear g3
    obtain ⟨hc3', -⟩ := APPADV_step h3
    change c3 = e + 1 + 1 at hc3'
    subst hc3'
    obtain ⟨y2, hy2, g5⟩ := bind_eq_ok g4
    clear g4
    change rd A (e + 1 + 1) = Res.ok y2 at hy2
    by_cases hoct2 : is_octal_digit y2 = true
    · simp only [hoct2, if_true] at g5
      obtain ⟨⟨s4, c4⟩, h4, g6⟩ := bind_eq_ok g5
      clear g5
      obtain ⟨hc4', -⟩ := APPADV_step h4
      change c4 = e + 1 + 1 + 1 at hc4'
      subst hc4'
      obtain ⟨y3, hy3, g7⟩ := bind_eq_ok g6
      clear g6
      change rd A (e + 1 + 1 + 1) = Res.ok y3 at hy3
      by_cases hoct3 : is_octal_digit y3 = true
      · simp only [hoct3, if_true] at g7
        obtain ⟨⟨s5, c5⟩, h5, g8⟩ := bind_eq_ok g7
        clear g7
        obtain ⟨hc5', -⟩ := APPADV_step h5
        change c5 = e + 1 + 1 + 1 + 1 at hc5'
        subst hc5'
        simp only [pure_eq_ok, Res.ok.injEq, Prod.mk.injEq] at g8
        obtain ⟨q1, q2, q3⟩ := g8
        change e + 1 + 1 + 1 + 1 = e2 at q3
        subst q1 q2 q3
        obtain ⟨-, hB2⟩ := APPADV_window W hrel hc (show e < c + n by omega) h2
        obtain ⟨-, hB3⟩ := APPADV_window W hrel1 hc1 (show e + 1 < c + n by omega) h3
        obtain ⟨-, hB4⟩ := APPADV_window W hrel2 hc2 (show e + 1 + 1 < c + n by omega) h4
        obtain ⟨-, hB5⟩ := APPADV_window W hrel3 hc3 (show e + 1 + 1 + 1 < c + n by omega) h5
        refine ⟨e' + 1 + 1 + 1 + 1, by omega, by omega, fun _ => by omega, ?_⟩
        simp only [window_read_ok W hrel hc (show e < c + n by omega) hx, ok_bind, hnl,
          Bool.false_eq_true, if_false, hbs, if_true, hB2,
          window_read_ok W hrel1 hc1 (show e + 1 < c + n by omega) hy, hsimple, hoct, hB3,
          window_read_ok W hrel2 hc2 (show e + 1 + 1 < c + n by omega) hy2, hoct2, hB4,
          window_read_ok W hrel3 hc3 (show e + 1 + 1 + 1 < c + n by omega) hy3, hoct3, hB5,
          pure_eq_ok]
      · simp only [hoct3, Bool.false_eq_true, if_false, pure_eq_ok, Res.ok.injEq,
          Prod.mk.injEq] at g7
        obtain ⟨q1, q2, q3⟩ := g7
        change e + 1 + 1 + 1 = e2 at q3
        subst q1 q2 q3
        obtain ⟨-, hB2⟩ := APPADV_window W hrel hc (show e < c + n by omega) h2
        obtain ⟨-, hB3⟩ := APPADV_window W hrel1 hc1 (show e + 1 < c + n by omega) h3
        obtain ⟨-, hB4⟩ := APPADV_window W hrel2 hc2 (show e + 1 + 1 < c + n by omega) h4
        refine ⟨e' + 1 + 1 + 1, by omega, by omega, fun _ => by omega, ?_⟩
        simp only [window_read_ok W hrel hc (show e < c + n by omega) hx, ok_bind, hnl,
          Bool.false_eq_true, if_false, hbs, if_true, hB2,
          window_read_ok W hrel1 hc1 (show e + 1 < c + n by omega) hy, hsimple, hoct, hB3,
          window_read_ok W hrel2 hc2 (show e + 1 + 1 < c + n by omega) hy2, hoct2, hB4,
          window_read_ok W hrel3 hc3 hlt hy3, hoct3, pure_eq_ok]
    · simp only [hoct2, Bool.false_eq_true, if_false, pure_eq_ok, Res.ok.injEq,
        Prod.mk.injEq] at g5
      obtain ⟨q1, q2, q3⟩ := g5
      change e + 1 + 1 = e2 at q3
      subst q1 q2 q3
      obtain ⟨-, hB2⟩ := APPADV_window W hrel hc (show e < c + n by omega) h2
      obtain ⟨-, hB3⟩ := APPADV_window W hrel1 hc1 (show e + 1 < c + n by omega) h3
      refine ⟨e' + 1 + 1, by omega, by omega, fun _ => by omega, ?_⟩
      simp only [window_read_ok W hrel hc (show e < c + n by omega) hx, ok_bind, hnl,
        Bool.false_eq_true, if_false, hbs, if_true, hB2,
        window_read_ok W hrel1 hc1 (show e + 1 < c + n by omega) hy, hsimple, hoct, hB3,
        window_read_ok W hrel2 hc2 hlt hy2, hoct2, pure_eq_ok]
  simp only [hoct, Bool.false_eq_true, if_false] at g3
  by_cases hhex : (y == 'x'.toNat) = true
  · simp only [hhex, if_true] at g3
    obtain ⟨⟨s3, c3⟩, h3, g4⟩ := bind_eq_ok g3
    clear g3
    obtain ⟨hc3', -⟩ := APPADV_step h3
    change c3 = e + 1 + 1 at hc3'
    subst hc3'
    obtain ⟨⟨s4, c4⟩, h4, g5⟩ := bind_eq_ok g4
    clear g4
    change while_APPADV isxdigit A (loop_bound A) s3 (e + 1 + 1) = Res.ok (s4, c4) at h4
    simp only [pure_eq_ok, Res.ok.injEq, Prod.mk.injEq] at g5
    obtain ⟨q1, q2, q3⟩ := g5
    change c4 = e2 at q3
    subst q1 q2 q3
    have hmono := (while_APPADV_run isxdigit _ h4).1
    obtain ⟨-, hB2⟩ := APPADV_window W hrel hc (show e < c + n by omega) h2
    obtain ⟨-, hB3⟩ := APPADV_window W hrel1 hc1 (show e + 1 < c + n by omega) h3
    obtain ⟨c4', hrel4, -, hB4⟩ := while_APPADV_window isxdigit
      (fun y hy => inert_isxdigit hy) W _ hrel2 hc2 h4 (show c4 ≤ c + n by omega)
      (show c + n - (e + 1 + 1) < loop_bound B by omega)
    refine ⟨c4', hrel4, by omega, fun _ => by omega, ?_⟩
    simp only [window_read_ok W hrel hc (show e < c + n by omega) hx, ok_bind, hnl,
      Bool.false_eq_true, if_false, hbs, if_true, hB2,
      window_read_ok W hrel1 hc1 (show e + 1 < c + n by omega) hy, hsimple, hoct, hhex, hB3,
      hB4, pure_eq_ok]
  · simp only [hhex, Bool.false_eq_true, if_false, read_universal_character_name, pure_eq_ok,
      ok_bind, show ((-1 : Int) == 0) = false from rfl, Res.ok.injEq, Prod.mk.injEq] at g3
    obtain ⟨q1, q2, q3⟩ := g3
    change e + 1 = e2 at q3
    subst q1 q2 q3
    obtain ⟨-, hB2⟩ := APPADV_window W hrel hc (show e < c + n by omega) h2
    refine ⟨e' + 1, by omega, by omega, fun _ => by omega, ?_⟩
    simp only [window_read_ok W hrel hc (show e < c + n by omega) hx, ok_bind, hnl,
      Bool.false_eq_true, if_false, hbs, if_true, hB2,
      window_read_ok W hrel1 hc1 hlt hy, hsimple, hoct, hhex, read_universal_character_name,
      pure_eq_ok, show ((-1 : Int) == 0) = false from rfl]

/-- The loop of a char-sequence reader that ends inside the window does the same on the
other line. -/
theorem char_sequence_loop_window (q : Nat) {A B : List Nat} {c d n : Nat}
    (W : Window A c B d n) (fuelA : Nat) :
    ∀ {fuelB e e' e2 co : Nat} {str s1 : string} {flag : Bool}, Acc A co str e →
      e + d = e' + c → c ≤ e →
      char_sequence_loop q A fuelA str e = Res.ok (flag, s1, e2) → e2 < c + n →
      c + n - e < fuelB →
      ∃ e2', e2 + d = e2' + c ∧ e ≤ e2
        ∧ char_sequence_loop q B fuelB str e' = Res.ok (flag, s1, e2') := by
  induction fuelA with
  | zero => intro fuelB e e' e2 co str s1 flag _ _ _ h; simp [char_sequence_loop] at h
  | succ fuelA ih =>
    intro fuelB e e' e2 co str s1 flag hacc hrel hc h hlt hfuel
    rw [char_sequence_loop] at h
    obtain ⟨x, hx, g1⟩ := bind_eq_ok h
    clear h
    obtain ⟨fuelB, rfl⟩ : ∃ k, fuelB = k + 1 := ⟨fuelB - 1, by omega⟩
    rw [char_sequence_loop]
    by_cases hxq : (x != q) = true
    · simp only [hxq, if_true] at g1
      obtain ⟨⟨go_on, s2, cb⟩, h2, g2⟩ := bind_eq_ok g1
      clear g1
      obtain ⟨hmono, hacc2⟩ := char_sequence_body_ok hacc h2
      cases go_on with
      | true =>
        simp only [if_true] at g2
        obtain ⟨hle, -, -⟩ := char_sequence_loop_ok q fuelA hacc2 g2
        obtain ⟨cb', hrelb, -, hprog, hB2⟩ :=
          char_sequence_body_window W hrel hc h2 (show cb < c + n by omega)
        have hprog := hprog rfl
        obtain ⟨e2', hrel2, -, hB3⟩ := ih hacc2 hrelb (show c ≤ cb by omega) g2 hlt
          (show c + n - cb < fuelB by omega)
        refine ⟨e2', hrel2, by omega, ?_⟩
        simp only [window_read_ok W hrel hc (show e < c + n by omega) hx, ok_bind, hxq,
          if_true, hB2, hB3]
      | false =>
        simp only [Bool.false_eq_true, if_false, pure_eq_ok, Res.ok.injEq,
          Prod.mk.injEq] at g2
        obtain ⟨q1, q2, q3⟩ := g2
        subst q1 q2 q3
        obtain ⟨cb', hrelb, -, -, hB2⟩ := char_sequence_body_window W hrel hc h2 hlt
        refine ⟨cb', hrelb, hmono, ?_⟩
        simp only [window_read_ok W hrel hc (show e < c + n by omega) hx, ok_bind, hxq,
          if_true, hB2, Bool.false_eq_true, if_false, pure_eq_ok]
    · simp only [hxq, Bool.false_eq_true, if_false, pure_eq_ok, Res.ok.injEq,
        Prod.mk.injEq] at g1
      obtain ⟨q1, q2, q3⟩ := g1
      subst q1 q2 q3
      refine ⟨e', hrel, Nat.le_refl _, ?_⟩
      simp only [window_read_ok W hrel hc hlt hx, ok_bind, hxq, Bool.false_eq_true, if_false,
        pure_eq_ok]

/-- A char-sequence reader that returns 0 inside the window does the same on the other
line. -/
theorem read_c_char_sequence_window {A B : List Nat} {c d n : Nat} (W : Window A c B d n)
    {e e' e2 co : Nat} {str s1 : string} (hacc : Acc A co str e) (hrel : e + d = e' + c)
    (hc : c ≤ e) (h : read_c_char_sequence A e str = Res.ok (0, e2, s1)) (hlt : e2 < c + n) :
    ∃ e2', e2 + d = e2' + c ∧ e ≤ e2 ∧ rd A e2 = Res.ok '\''.toNat
      ∧ read_c_char_sequence B e' str = Res.ok (0, e2', s1) := by
  have hq := (read_c_char_sequence_ok hacc h).2.2
  unfold read_c_char_sequence at h
  obtain ⟨r, hr, g1⟩ := bind_eq_ok h
  rw [char_sequence_exit_zero g1] at hr
  obtain ⟨e2', hrel2, hmono, hB⟩ := char_sequence_loop_window _ W _ hacc hrel hc hr hlt
    (show c + n - e < loop_bound B by have := window_bound W; omega)
  refine ⟨e2', hrel2, hmono, hq, ?_⟩
  unfold read_c_char_sequence
  simp only [hB, ok_bind, char_sequence_exit, pure_eq_ok]

theorem read_s_char_sequence_window {A B : List Nat} {c d n : Nat} (W : Window A c B d n)
    {e e' e2 co : Nat} {str s1 : string} (hacc : Acc A co str e) (hrel : e + d = e' + c)
    (hc : c ≤ e) (h : read_s_char_sequence A e str = Res.ok (0, e2, s1)) (hlt : e2 < c + n) :
    ∃ e2', e2 + d = e2' + c ∧ e ≤ e2 ∧ rd A e2 = Res.ok '\"'.toNat
      ∧ read_s_char_sequence B e' str = Res.ok (0, e2', s1) := by
  have hq := (read_s_char_sequence_ok hacc h).2.2
  unfold read_s_char_sequence at h
  obtain ⟨r, hr, g1⟩ := bind_eq_ok h
  rw [char_sequence_exit_zero g1] at hr
  obtain ⟨e2', hrel2, hmono, hB⟩ := char_sequence_loop_window _ W _ hacc hrel hc hr hlt
    (show c + n - e < loop_bound B by have := window_bound W; omega)
  refine ⟨e2', hrel2, hmono, hq, ?_⟩
  unfold read_s_char_sequence
  simp only [hB, ok_bind, char_sequence_exit, pure_eq_ok]

/-! ### The openings and the two literal readers on the same text -/

theorem and_then_true {a : Bool} {b : Res Bool} (h : and_then a b = Res.ok true) :
    a = true ∧ b = Res.ok true := by
  cases a with
  | true => exact ⟨rfl, h⟩
  | false => simp [and_then] at h

theorem and_then_false {a : Bool} {b : Res Bool} (h : and_then a b = Res.ok false) :
    a = false ∨ (a = true ∧ b = Res.ok false) := by
  cases a with
  | true => exact Or.inr ⟨rfl, h⟩
  | false => exact Or.inl rfl

theorem character_opening_window {A B : List Nat} {c d n : Nat} (W : Window A c B d n)
    {e e' e2 : Nat} {str s1 : string} (hrel : e + d = e' + c) (hc : c ≤ e)
    (h : read_character_constant.opening A str e = Res.ok (s1, e2)) (hle : e2 ≤ c + n) :
    ∃ e2', e2 + d = e2' + c ∧ e < e2
      ∧ read_character_constant.opening B str e' = Res.ok (s1, e2') := by
  have hrel1 : e + 1 + d = e' + 1 + c := by omega
  unfold read_character_constant.opening at h
  obtain ⟨x, hx, g1⟩ := bind_eq_ok h
  clear h
  unfold read_character_constant.opening
  by_cases hq : (x == '\''.toNat) = true
  · simp only [hq, if_true] at g1
    obtain ⟨hc2, -⟩ := APPADV_step g1
    subst hc2
    obtain ⟨-, hB⟩ := APPADV_window W hrel hc (show e < c + n by omega) g1
    refine ⟨e' + 1, hrel1, by omega, ?_⟩
    simp only [window_read_ok W hrel hc (show e < c + n by omega) hx, ok_bind, hq, if_true, hB]
  · simp only [hq, Bool.false_eq_true, if_false] at g1
    obtain ⟨enc, henc, g2⟩ := bind_eq_ok g1
    clear g1
    cases enc with
    | false => simp [goto_error] at g2
    | true =>
      simp only [if_true] at g2
      obtain ⟨⟨s2, c2⟩, h2, g3⟩ := bind_eq_ok g2
      clear g2
      obtain ⟨hc2, -⟩ := APPADV_step h2
      subst hc2
      change APPADV A s2 (e + 1) = Res.ok (s1, e2) at g3
      obtain ⟨hc3, -⟩ := APPADV_step g3
      subst hc3
      obtain ⟨hL, hy⟩ := and_then_true henc
      obtain ⟨y, hy, g4⟩ := bind_eq_ok hy
      obtain ⟨-, hB2⟩ := APPADV_window W hrel hc (show e < c + n by omega) h2
      obtain ⟨-, hB3⟩ := APPADV_window W hrel1 (show c ≤ e + 1 by omega)
        (show e + 1 < c + n by omega) g3
      refine ⟨e' + 1 + 1, by omega, by omega, ?_⟩
      have hyB := window_read_ok W hrel1 (show c ≤ e + 1 by omega)
        (show e + 1 < c + n by omega) hy
      simp only [window_read_ok W hrel hc (show e < c + n by omega) hx, ok_bind, hq,
        Bool.false_eq_true, if_false, and_then, hL, if_true, hyB, g4, hB2, hB3]

theorem string_opening_window {A B : List Nat} {c d n : Nat} (W : Window A c B d n)
    {e e' e2 : Nat} {str s1 : string} (hrel : e + d = e' + c) (hc : c ≤ e)
    (h : read_string_literal.opening A str e = Res.ok (s1, e2)) (hle : e2 ≤ c + n) :
    ∃ e2', e2 + d = e2' + c ∧ e < e2
      ∧ read_string_literal.opening B str e' = Res.ok (s1, e2') := by
  have hrel1 : e + 1 + d = e' + 1 + c := by omega
  have hrel2 : e + 1 + 1 + d = e' + 1 + 1 + c := by omega
  have hrel2' : e + 2 + d = e' + 2 + c := by omega
  unfold read_string_literal.opening at h
  obtain ⟨x, hx, g1⟩ := bind_eq_ok h
  clear h
  unfold read_string_literal.opening
  by_cases hq : (x == '\"'.toNat) = true
  · simp only [hq, if_true] at g1
    obtain ⟨hc2, -⟩ := APPADV_step g1
    subst hc2
    obtain ⟨-, hB⟩ := APPADV_window W hrel hc (show e < c + n by omega) g1
    refine ⟨e' + 1, hrel1, by omega, ?_⟩
    simp only [window_read_ok W hrel hc (show e < c + n by omega) hx, ok_bind, hq, if_true, hB]
  · simp only [hq, Bool.false_eq_true, if_false] at g1
    obtain ⟨enc, henc, g2⟩ := bind_eq_ok g1
    clear g1
    cases enc with
    | true =>
      simp only [if_true] at g2
      obtain ⟨⟨s2, c2⟩, h2, g3⟩ := bind_eq_ok g2
      clear g2
      obtain ⟨hc2, -⟩ := APPADV_step h2
      subst hc2
      change APPADV A s2 (e + 1) = Res.ok (s1, e2) at g3
      obtain ⟨hc3, -⟩ := APPADV_step g3
      subst hc3
      obtain ⟨hL, hy⟩ := and_then_true henc
      obtain ⟨y, hy, g4⟩ := bind_eq_ok hy
      obtain ⟨-, hB2⟩ := APPADV_window W hrel hc (show e < c + n by omega) h2
      obtain ⟨-, hB3⟩ := APPADV_window W hrel1 (show c ≤ e + 1 by omega)
        (show e + 1 < c + n by omega) g3
      refine ⟨e' + 1 + 1, by omega, by omega, ?_⟩
      have hyB := window_read_ok W hrel1 (show c ≤ e + 1 by omega)
        (show e + 1 < c + n by omega) hy
      simp only [window_read_ok W hrel hc (show e < c + n by omega) hx, ok_bind, hq,
        Bool.false_eq_true, if_false, and_then, hL, if_true, hyB, g4, hB2, hB3]
    | false =>
      simp only [Bool.false_eq_true, if_false] at g2
      obtain ⟨enc8, henc8, g3⟩ := bind_eq_ok g2
      clear g2
      cases enc8 with
      | false => simp [goto_error] at g3
      | true =>
        simp only [if_true] at g3
        obtain ⟨⟨s2, c2⟩, h2, g4⟩ := bind_eq_ok g3
        clear g3
        obtain ⟨hc2, -⟩ := APPADV_step h2
        subst hc2
        obtain ⟨⟨s3, c3⟩, h3, g5⟩ := bind_eq_ok g4
        clear g4
        change APPADV A s2 (e + 1) = Res.ok (s3, c3) at h3
        obtain ⟨hc3, -⟩ := APPADV_step h3
        subst hc3
        change APPADV A s3 (e + 1 + 1) = Res.ok (s1, e2) at g5
        obtain ⟨hc4, -⟩ := APPADV_step g5
        subst hc4
        unfold read_string_literal.u8 at henc8
        obtain ⟨x8, hx8, g6⟩ := bind_eq_ok henc8
        obtain rfl := rd_inj hx hx8
        obtain ⟨hu, g7⟩ := and_then_true g6
        obtain ⟨y, hy, g8⟩ := bind_eq_ok g7
        obtain ⟨h8, g9⟩ := and_then_true g8
        obtain ⟨z, hz, g10⟩ := bind_eq_ok g9
        have hxB := window_read_ok W hrel hc (show e < c + n by omega) hx
        have hyB := window_read_ok W hrel1 (show c ≤ e + 1 by omega)
          (show e + 1 < c + n by omega) hy
        have hzB := window_read_ok W hrel2' (show c ≤ e + 2 by omega)
          (show e + 2 < c + n by omega) hz
        obtain ⟨-, hB2⟩ := APPADV_window W hrel hc (show e < c + n by omega) h2
        obtain ⟨-, hB3⟩ := APPADV_window W hrel1 (show c ≤ e + 1 by omega)
          (show e + 1 < c + n by omega) h3
        obtain ⟨-, hB4⟩ := APPADV_window W hrel2 (show c ≤ e + 1 + 1 by omega)
          (show e + 1 + 1 < c + n by omega) g5
        have hencB : and_then (x == 'u'.toNat || x == 'U'.toNat || x == 'L'.toNat)
            (do let y ← rd B (e' + 1); pure (y == '\"'.toNat)) = Res.ok false := by
          rcases and_then_false henc with hf | ⟨ht, hf⟩
          · simp only [hf, and_then, Bool.false_eq_true, if_false, pure_eq_ok]
          · simp only [ht, and_then, if_true, hyB, ok_bind]
            simp only [and_then, ht, if_true, hy, ok_bind] at henc
            exact henc
        refine ⟨e' + 1 + 1 + 1, by omega, by omega, ?_⟩
        simp only [hxB, ok_bind, hq, Bool.false_eq_true, if_false, hencB]
        simp only [read_string_literal.u8, hxB, ok_bind, and_then, hu, if_true, hyB, h8, hzB,
          g10, hB2, hB3, hB4]

/-- `read_character_constant` returns 0 on `B` wherever it does on `A`, if `B` shows the same
text. -/
theorem read_character_window {A B : List Nat} {c d n : Nat} (W : Window A c B d n)
    {tok tok1 : token}
    (h : read_character_constant A c tok = Res.ok (0, c + n, tok1)) :
    read_character_constant B d tok = Res.ok (0, d + n, tok1) := by
  have hrel : c + d = d + c := by omega
  have h := reader_exit_zero h
  obtain ⟨⟨s2, c2⟩, h2, g1⟩ := bind_eq_ok h
  clear h
  obtain ⟨⟨r, c3, s3⟩, h3, g2⟩ := bind_eq_ok g1
  clear g1
  obtain ⟨u, hu, g3⟩ := bind_eq_ok g2
  clear g2
  obtain ⟨y, hy, g4⟩ := bind_eq_ok g3
  clear g3
  obtain ⟨u2, hu2, g5⟩ := bind_eq_ok g4
  clear g4
  obtain ⟨⟨s4, c4⟩, h4, g6⟩ := bind_eq_ok g5
  clear g5
  obtain ⟨s, hs, g7⟩ := bind_eq_ok g6
  clear g6
  simp only [pure_eq_ok, Res.ok.injEq, Prod.mk.injEq] at g7
  obtain ⟨q1, q2⟩ := g7
  change c4 = c + n at q1
  subst q1
  change APPADV A s3 c3 = Res.ok (s4, c + n) at h4
  change rd A c3 = Res.ok y at hy
  have hr : r = 0 := by simpa using error_if_ok hu
  subst hr
  obtain ⟨hc4, -⟩ := APPADV_step h4
  have hcl : c ≤ A.length + 1 := by
    by_contra hgt
    unfold read_character_constant.opening at h2
    rw [rd_gt (by omega)] at h2
    simp at h2
  obtain ⟨hlt2, hacc2⟩ := character_opening_ok (acc_entry A c hcl) h2
  obtain ⟨hle3, -, -⟩ := read_c_char_sequence_ok hacc2 h3
  obtain ⟨c2', hrel2, -, hB2⟩ := character_opening_window W hrel (Nat.le_refl c) h2
    (show c2 ≤ c + n by omega)
  obtain ⟨c3', hrel3, -, -, hB3⟩ := read_c_char_sequence_window W hacc2 hrel2
    (show c ≤ c2 by omega) h3 (show c3 < c + n by omega)
  have hyB := window_read_ok W hrel3 (show c ≤ c3 by omega) (show c3 < c + n by omega) hy
  obtain ⟨-, hB4⟩ := APPADV_window W hrel3 (show c ≤ c3 by omega)
    (show c3 < c + n by omega) h4
  have hcc : c3' + 1 = d + n := by omega
  rw [hcc] at hB4
  unfold read_character_constant
  simp only [hB2, ok_bind, hB3, hu, hyB, hu2, hB4, hs, pure_eq_ok, reader_exit]
  rw [← q2]

/-- `read_string_literal` returns 0 on `B` wherever it does on `A`, if `B` shows the same
text. -/
theorem read_string_window {A B : List Nat} {c d n : Nat} (W : Window A c B d n)
    {tok tok1 : token}
    (h : read_string_literal A c tok = Res.ok (0, c + n, tok1)) :
    read_string_literal B d tok = Res.ok (0, d + n, tok1) := by
  have hrel : c + d = d + c := by omega
  have h := reader_exit_zero h
  obtain ⟨⟨s2, c2⟩, h2, g1⟩ := bind_eq_ok h
  clear h
  obtain ⟨⟨r, c3, s3⟩, h3, g2⟩ := bind_eq_ok g1
  clear g1
  obtain ⟨u, hu, g3⟩ := bind_eq_ok g2
  clear g2
  obtain ⟨y, hy, g4⟩ := bind_eq_ok g3
  clear g3
  obtain ⟨u2, hu2, g5⟩ := bind_eq_ok g4
  clear g4
  obtain ⟨⟨s4, c4⟩, h4, g6⟩ := bind_eq_ok g5
  clear g5
  obtain ⟨s, hs, g7⟩ := bind_eq_ok g6
  clear g6
  simp only [pure_eq_ok, Res.ok.injEq, Prod.mk.injEq] at g7
  obtain ⟨q1, q2⟩ := g7
  change c4 = c + n at q1
  subst q1
  change APPADV A s3 c3 = Res.ok (s4, c + n) at h4
  change rd A c3 = Res.ok y at hy
  have hr : r = 0 := by simpa using error_if_ok hu
  subst hr
  obtain ⟨hc4, -⟩ := APPADV_step h4
  have hcl : c ≤ A.length + 1 := by
    by_contra hgt
    unfold read_string_literal.opening at h2
    rw [rd_gt (by omega)] at h2
    simp at h2
  obtain ⟨hlt2, hacc2⟩ := string_opening_ok (acc_entry A c hcl) h2
  obtain ⟨hle3, -, -⟩ := read_s_char_sequence_ok hacc2 h3
  obtain ⟨c2', hrel2, -, hB2⟩ := string_opening_window W hrel (Nat.le_refl c) h2
    (show c2 ≤ c + n by omega)
  obtain ⟨c3', hrel3, -, -, hB3⟩ := read_s_char_sequence_window W hacc2 hrel2
    (show c ≤ c2 by omega) h3 (show c3 < c + n by omega)
  have hyB := window_read_ok W hrel3 (show c ≤ c3 by omega) (show c3 < c + n by omega) hy
  obtain ⟨-, hB4⟩ := APPADV_window W hrel3 (show c ≤ c3 by omega)
    (show c3 < c + n by omega) h4
  have hcc : c3' + 1 = d + n := by omega
  rw [hcc] at hB4
  unfold read_string_literal
  simp only [hB2, ok_bind, hB3, hu, hyB, hu2, hB4, hs, pure_eq_ok, reader_exit]
  rw [← q2]

/-! ### Punctuators on the same text -/

theorem beq_other {y p q : Nat} (h : (y == p) = true) (hpq : p ≠ q) : (y == q) = false := by
  have hy : y = p := by simpa using h
  subst hy
  exact beq_false_of_ne hpq

/-- The decision tree of `read_punctuator` finds on `B` the punctuator it finds on `A`, if `B`
shows the same text followed by a character that ends every token. -/
theorem punctuator_tree_window {A B : List Nat} {c d n k : Nat} (W : Window A c B d n)
    (h : read_punctuator.tree A c = Res.ok (c + n, k)) :
    read_punctuator.tree B d = Res.ok (d + n, k) := by
  have hn : 0 < n := by have := (punctuator_tree_ok h).2.2; omega
  have hrel : c + d = d + c := by omega
  have hrel1 : c + 1 + d = d + 1 + c := by omega
  have hrel2 : c + 1 + 1 + d = d + 1 + 1 + c := by omega
  have hrel3 : c + 1 + 2 + d = d + 1 + 2 + c := by omega
  unfold read_punctuator.tree at h
  obtain ⟨x, hx, g⟩ := bind_eq_ok h
  clear h
  unfold read_punctuator.tree
  rw [window_read_ok W hrel (Nat.le_refl c) (show c < c + n by omega) hx, ok_bind]
  by_cases h0 : (x == '['.toNat) = true
  · rw [if_pos h0] at g
    rw [if_pos h0]
    simp only [pure_eq_ok, Res.ok.injEq, Prod.mk.injEq, ADV] at g ⊢
    exact ⟨by omega, g.2⟩
  rw [if_neg h0] at g
  rw [if_neg h0]
  by_cases h1 : (x == ']'.toNat) = true
  · rw [if_pos h1] at g
    rw [if_pos h1]
    simp only [pure_eq_ok, Res.ok.injEq, Prod.mk.injEq, ADV] at g ⊢
    exact ⟨by omega, g.2⟩
  rw [if_neg h1] at g
  rw [if_neg h1]
  by_cases h2 : (x == '('.toNat) = true
  · rw [if_pos h2] at g
    rw [if_pos h2]
    simp only [pure_eq_ok, Res.ok.injEq, Prod.mk.injEq, ADV] at g ⊢
    exact ⟨by omega, g.2⟩
  rw [if_neg h2] at g
  rw [if_neg h2]
  by_cases h3 : (x == ')'.toNat) = true
  · rw [if_pos h3] at g
    rw [if_pos h3]
    simp only [pure_eq_ok, Res.ok.injEq, Prod.mk.injEq, ADV] at g ⊢
    exact ⟨by omega, g.2⟩
  rw [if_neg h3] at g
  rw [if_neg h3]
  by_cases h4 : (x == '{'.toNat) = true
  · rw [if_pos h4] at g
    rw [if_pos h4]
    simp only [pure_eq_ok, Res.ok.injEq, Prod.mk.injEq, ADV] at g ⊢
    exact ⟨by omega, g.2⟩
  rw [if_neg h4] at g
  rw [if_neg h4]
  by_cases h5 : (x == '}'.toNat) = true
  · rw [if_pos h5] at g
    rw [if_pos h5]
    simp only [pure_eq_ok, Res.ok.injEq, Prod.mk.injEq, ADV] at g ⊢
    exact ⟨by omega, g.2⟩
  rw [if_neg h5] at g
  rw [if_neg h5]
  by_cases h6 : (x == '.'.toNat) = true
  · rw [if_pos h6] at g
    rw [if_pos h6]
    simp only [ADV] at g ⊢
    obtain ⟨y, hy, g2⟩ := bind_eq_ok g
    clear g
    rcases Nat.lt_or_ge 1 n with hn2 | hn2
    swap
    · obtain ⟨y', hy', hin⟩ := window_end W hrel1 (show c + 1 = c + n by omega)
      rw [hy', ok_bind]
      simp only [and_then, inert_beq hin _ (show 33 ≤ '>'.toNat by decide), inert_beq hin _ (show 33 ≤ '-'.toNat by decide), inert_beq hin _ (show 33 ≤ '='.toNat by decide), inert_beq hin _ (show 33 ≤ '+'.toNat by decide), inert_beq hin _ (show 33 ≤ '&'.toNat by decide), inert_beq hin _ (show 33 ≤ '|'.toNat by decide), inert_beq hin _ (show 33 ≤ '#'.toNat by decide), inert_beq hin _ (show 33 ≤ ':'.toNat by decide), inert_beq hin _ (show 33 ≤ '<'.toNat by decide), inert_beq hin _ (show 33 ≤ '%'.toNat by decide), inert_beq hin _ (show 33 ≤ '.'.toNat by decide),
        Bool.false_eq_true, if_false, pure_eq_ok, ok_bind, Res.ok.injEq, Prod.mk.injEq]
      repeat' (first | (split at g2) | (obtain ⟨_, _, g2⟩ := bind_eq_ok g2))
      all_goals (simp only [pure_eq_ok, Res.ok.injEq, Prod.mk.injEq] at g2)
      all_goals omega
    rw [window_read_ok W hrel1 (show c ≤ c + 1 by omega) (show c + 1 < c + n by omega) hy,
      ok_bind]
    obtain ⟨dots, hdots, g3⟩ := bind_eq_ok g2
    clear g2
    cases dots with
    | false =>
      simp only [Bool.false_eq_true, if_false, pure_eq_ok, Res.ok.injEq, Prod.mk.injEq] at g3
      omega
    | true =>
      obtain ⟨t1, hz0⟩ := and_then_true hdots
      obtain ⟨z, hz, hz2⟩ := bind_eq_ok hz0
      simp only [if_true, pure_eq_ok, Res.ok.injEq, Prod.mk.injEq] at g3 hz2
      have hzB := window_read_ok W hrel2 (show c ≤ c + 1 + 1 by omega)
        (show c + 1 + 1 < c + n by omega) hz
      simp only [and_then, t1, if_true, hzB, ok_bind, hz2, pure_eq_ok, Res.ok.injEq,
        Prod.mk.injEq]
      exact ⟨by omega, g3.2⟩
  rw [if_neg h6] at g
  rw [if_neg h6]
  by_cases h7 : (x == '-'.toNat) = true
  · rw [if_pos h7] at g
    rw [if_pos h7]
    simp only [ADV] at g ⊢
    obtain ⟨y, hy, g2⟩ := bind_eq_ok g
    clear g
    rcases Nat.lt_or_ge 1 n with hn2 | hn2
    swap
    · obtain ⟨y', hy', hin⟩ := window_end W hrel1 (show c + 1 = c + n by omega)
      rw [hy', ok_bind]
      simp only [and_then, inert_beq hin _ (show 33 ≤ '>'.toNat by decide), inert_beq hin _ (show 33 ≤ '-'.toNat by decide), inert_beq hin _ (show 33 ≤ '='.toNat by decide), inert_beq hin _ (show 33 ≤ '+'.toNat by decide), inert_beq hin _ (show 33 ≤ '&'.toNat by decide), inert_beq hin _ (show 33 ≤ '|'.toNat by decide), inert_beq hin _ (show 33 ≤ '#'.toNat by decide), inert_beq hin _ (show 33 ≤ ':'.toNat by decide), inert_beq hin _ (show 33 ≤ '<'.toNat by decide), inert_beq hin _ (show 33 ≤ '%'.toNat by decide), inert_beq hin _ (show 33 ≤ '.'.toNat by decide),
        Bool.false_eq_true, if_false, pure_eq_ok, ok_bind, Res.ok.injEq, Prod.mk.injEq]
      repeat' (first | (split at g2) | (obtain ⟨_, _, g2⟩ := bind_eq_ok g2))
      all_goals (simp only [pure_eq_ok, Res.ok.injEq, Prod.mk.injEq] at g2)
      all_goals omega
    rw [window_read_ok W hrel1 (show c ≤ c + 1 by omega) (show c + 1 < c + n by omega) hy,
      ok_bind]
    by_cases t1 : (y == '>'.toNat) = true
    · rw [if_pos t1] at g2
      rw [if_pos t1]
      simp only [pure_eq_ok, Res.ok.injEq, Prod.mk.injEq] at g2 ⊢
      exact ⟨by omega, g2.2⟩
    rw [if_neg t1] at g2
    rw [if_neg t1]
    by_cases t2 : (y == '-'.toNat) = true
    · rw [if_pos t2] at g2
      rw [if_pos t2]
      simp only [pure_eq_ok, Res.ok.injEq, Prod.mk.injEq] at g2 ⊢
      exact ⟨by omega, g2.2⟩
    rw [if_neg t2] at g2
    rw [if_neg t2]
    by_cases t3 : (y == '='.toNat) = true
    · rw [if_pos t3] at g2
      rw [if_pos t3]
      simp only [pure_eq_ok, Res.ok.injEq, Prod.mk.injEq] at g2 ⊢
      exact ⟨by omega, g2.2⟩
    rw [if_neg t3] at g2
    rw [if_neg t3]
    simp only [pure_eq_ok, Res.ok.injEq, Prod.mk.injEq] at g2 ⊢
    exact ⟨by omega, g2.2⟩
  rw [if_neg h7] at g
  rw [if_neg h7]
  by_cases h8 : (x == '+'.toNat) = true
  · rw [if_pos h8] at g
    rw [if_pos h8]
    simp only [ADV] at g ⊢
    obtain ⟨y, hy, g2⟩ := bind_eq_ok g
    clear g
    rcases Nat.lt_or_ge 1 n with hn2 | hn2
    swap
    · obtain ⟨y', hy', hin⟩ := window_end W hrel1 (show c + 1 = c + n by omega)
      rw [hy', ok_bind]
      simp only [and_then, inert_beq hin _ (show 33 ≤ '>'.toNat by decide), inert_beq hin _ (show 33 ≤ '-'.toNat by decide), inert_beq hin _ (show 33 ≤ '='.toNat by decide), inert_beq hin _ (show 33 ≤ '+'.toNat by decide), inert_beq hin _ (show 33 ≤ '&'.toNat by decide), inert_beq hin _ (show 33 ≤ '|'.toNat by decide), inert_beq hin _ (show 33 ≤ '#'.toNat by decide), inert_beq hin _ (show 33 ≤ ':'.toNat by decide), inert_beq hin _ (show 33 ≤ '<'.toNat by decide), inert_beq hin _ (show 33 ≤ '%'.toNat by decide), inert_beq hin _ (show 33 ≤ '.'.toNat by decide),
        Bool.false_eq_true, if_false, pure_eq_ok, ok_bind, Res.ok.injEq, Prod.mk.injEq]
      repeat' (first | (split at g2) | (obtain ⟨_, _, g2⟩ := bind_eq_ok g2))
      all_goals (simp only [pure_eq_ok, Res.ok.injEq, Prod.mk.injEq] at g2)
      all_goals omega
    rw [window_read_ok W hrel1 (show c ≤ c + 1 by omega) (show c + 1 < c + n by omega) hy,
      ok_bind]
    by_cases t1 : (y == '+'.toNat) = true
    · rw [if_pos t1] at g2
      rw [if_pos t1]
      simp only [pure_eq_ok, Res.ok.injEq, Prod.mk.injEq] at g2 ⊢
      exact ⟨by omega, g2.2⟩
    rw [if_neg t1] at g2
    rw [if_neg t1]
    by_cases t2 : (y == '='.toNat) = true
    · rw [if_pos t2] at g2
      rw [if_pos t2]
      simp only [pure_eq_ok, Res.ok.injEq, Prod.mk.injEq] at g2 ⊢
      exact ⟨by omega, g2.2⟩
    rw [if_neg t2] at g2
    rw [if_neg t2]
    simp only [pure_eq_ok, Res.ok.injEq, Prod.mk.injEq] at g2 ⊢
    exact ⟨by omega, g2.2⟩
  rw [if_neg h8] at g
  rw [if_neg h8]
  by_cases h9 : (x == '&'.toNat) = true
  · rw [if_pos h9] at g
    rw [if_pos h9]
    simp only [ADV] at g ⊢
    obtain ⟨y, hy, g2⟩ := bind_eq_ok g
    clear g
    rcases Nat.lt_or_ge 1 n with hn2 | hn2
    swap
    · obtain ⟨y', hy', hin⟩ := window_end W hrel1 (show c + 1 = c + n by omega)
      rw [hy', ok_bind]
      simp only [and_then, inert_beq hin _ (show 33 ≤ '>'.toNat by decide), inert_beq hin _ (show 33 ≤ '-'.toNat by decide), inert_beq hin _ (show 33 ≤ '='.toNat by decide), inert_beq hin _ (show 33 ≤ '+'.toNat by decide), inert_beq hin _ (show 33 ≤ '&'.toNat by decide), inert_beq hin _ (show 33 ≤ '|'.toNat by decide), inert_beq hin _ (show 33 ≤ '#'.toNat by decide), inert_beq hin _ (show 33 ≤ ':'.toNat by decide), inert_beq hin _ (show 33 ≤ '<'.toNat by decide), inert_beq hin _ (show 33 ≤ '%'.toNat by decide), inert_beq hin _ (show 33 ≤ '.'.toNat by decide),
        Bool.false_eq_true, if_false, pure_eq_ok, ok_bind, Res.ok.injEq, Prod.mk.injEq]
      repeat' (first | (split at g2) | (obtain ⟨_, _, g2⟩ := bind_eq_ok g2))
      all_goals (simp only [pure_eq_ok, Res.ok.injEq, Prod.mk.injEq] at g2)
      all_goals omega
    rw [window_read_ok W hrel1 (show c ≤ c + 1 by omega) (show c + 1 < c + n by omega) hy,
      ok_bind]
    by_cases t1 : (y == '&'.toNat) = true
    · rw [if_pos t1] at g2
      rw [if_pos t1]
      simp only [pure_eq_ok, Res.ok.injEq, Prod.mk.injEq] at g2 ⊢
      exact ⟨by omega, g2.2⟩
    rw [if_neg t1] at g2
    rw [if_neg t1]
    by_cases t2 : (y == '='.toNat) = true
    · rw [if_pos t2] at g2
      rw [if_pos t2]
      simp only [pure_eq_ok, Res.ok.injEq, Prod.mk.injEq] at g2 ⊢
      exact ⟨by omega, g2.2⟩
    rw [if_neg t2] at g2
    rw [if_neg t2]
    simp only [pure_eq_ok, Res.ok.injEq, Prod.mk.injEq] at g2 ⊢
    exact ⟨by omega, g2.2⟩
  rw [if_neg h9] at g
  rw [if_neg h9]
  by_cases h10 : (x == '*'.toNat) = true
  · rw [if_pos h10] at g
    rw [if_pos h10]
    simp only [ADV] at g ⊢
    obtain ⟨y, hy, g2⟩ := bind_eq_ok g
    clear g
    rcases Nat.lt_or_ge 1 n with hn2 | hn2
    swap
    · obtain ⟨y', hy', hin⟩ := window_end W hrel1 (show c + 1 = c + n by omega)
      rw [hy', ok_bind]
      simp only [and_then, inert_beq hin _ (show 33 ≤ '>'.toNat by decide), inert_beq hin _ (show 33 ≤ '-'.toNat by decide), inert_beq hin _ (show 33 ≤ '='.toNat by decide), inert_beq hin _ (show 33 ≤ '+'.toNat by decide), inert_beq hin _ (show 33 ≤ '&'.toNat by decide), inert_beq hin _ (show 33 ≤ '|'.toNat by decide), inert_beq hin _ (show 33 ≤ '#'.toNat by decide), inert_beq hin _ (show 33 ≤ ':'.toNat by decide), inert_beq hin _ (show 33 ≤ '<'.toNat by decide), inert_beq hin _ (show 33 ≤ '%'.toNat by decide), inert_beq hin _ (show 33 ≤ '.'.toNat by decide),
        Bool.false_eq_true, if_false, pure_eq_ok, ok_bind, Res.ok.injEq, Prod.mk.injEq]
      repeat' (first | (split at g2) | (obtain ⟨_, _, g2⟩ := bind_eq_ok g2))
      all_goals (simp only [pure_eq_ok, Res.ok.injEq, Prod.mk.injEq] at g2)
      all_goals omega
    rw [window_read_ok W hrel1 (show c ≤ c + 1 by omega) (show c + 1 < c + n by omega) hy,
      ok_bind]
    by_cases t1 : (y == '='.toNat) = true
    · rw [if_pos t1] at g2
      rw [if_pos t1]
      simp only [pure_eq_ok, Res.ok.injEq, Prod.mk.injEq] at g2 ⊢
      exact ⟨by omega, g2.2⟩
    rw [if_neg t1] at g2
    rw [if_neg t1]
    simp only [pure_eq_ok, Res.ok.injEq, Prod.mk.injEq] at g2 ⊢
    exact ⟨by omega, g2.2⟩
  rw [if_neg h10] at g
  rw [if_neg h10]
  by_cases h11 : (x == '~'.toNat) = true
  · rw [if_pos h11] at g
    rw [if_pos h11]
    simp only [pure_eq_ok, Res.ok.injEq, Prod.mk.injEq, ADV] at g ⊢
    exact ⟨by omega, g.2⟩
  rw [if_neg h11] at g
  rw [if_neg h11]
  by_cases h12 : (x == '!'.toNat) = true
  · rw [if_pos h12] at g
    rw [if_pos h12]
    simp only [ADV] at g ⊢
    obtain ⟨y, hy, g2⟩ := bind_eq_ok g
    clear g
    rcases Nat.lt_or_ge 1 n with hn2 | hn2
    swap
    · obtain ⟨y', hy', hin⟩ := window_end W hrel1 (show c + 1 = c + n by omega)
      rw [hy', ok_bind]
      simp only [and_then, inert_beq hin _ (show 33 ≤ '>'.toNat by decide), inert_beq hin _ (show 33 ≤ '-'.toNat by decide), inert_beq hin _ (show 33 ≤ '='.toNat by decide), inert_beq hin _ (show 33 ≤ '+'.toNat by decide), inert_beq hin _ (show 33 ≤ '&'.toNat by decide), inert_beq hin _ (show 33 ≤ '|'.toNat by decide), inert_beq hin _ (show 33 ≤ '#'.toNat by decide), inert_beq hin _ (show 33 ≤ ':'.toNat by decide), inert_beq hin _ (show 33 ≤ '<'.toNat by decide), inert_beq hin _ (show 33 ≤ '%'.toNat by decide), inert_beq hin _ (show 33 ≤ '.'.toNat by decide),
        Bool.false_eq_true, if_false, pure_eq_ok, ok_bind, Res.ok.injEq, Prod.mk.injEq]
      repeat' (first | (split at g2) | (obtain ⟨_, _, g2⟩ := bind_eq_ok g2))
      all_goals (simp only [pure_eq_ok, Res.ok.injEq, Prod.mk.injEq] at g2)
      all_goals omega
    rw [window_read_ok W hrel1 (show c ≤ c + 1 by omega) (show c + 1 < c + n by omega) hy,
      ok_bind]
    by_cases t1 : (y == '='.toNat) = true
    · rw [if_pos t1] at g2
      rw [if_pos t1]
      simp only [pure_eq_ok, Res.ok.injEq, Prod.mk.injEq] at g2 ⊢
      exact ⟨by omega, g2.2⟩
    rw [if_neg t1] at g2
    rw [if_neg t1]
    simp only [pure_eq_ok, Res.ok.injEq, Prod.mk.injEq] at g2 ⊢
    exact ⟨by omega, g2.2⟩
  rw [if_neg h12] at g
  rw [if_neg h12]
  by_cases h13 : (x == '/'.toNat) = true
  · rw [if_pos h13] at g
    rw [if_pos h13]
    simp only [ADV] at g ⊢
    obtain ⟨y, hy, g2⟩ := bind_eq_ok g
    clear g
    rcases Nat.lt_or_ge 1 n with hn2 | hn2
    swap
    · obtain ⟨y', hy', hin⟩ := window_end W hrel1 (show c + 1 = c + n by omega)
      rw [hy', ok_bind]
      simp only [and_then, inert_beq hin _ (show 33 ≤ '>'.toNat by decide), inert_beq hin _ (show 33 ≤ '-'.toNat by decide), inert_beq hin _ (show 33 ≤ '='.toNat by decide), inert_beq hin _ (show 33 ≤ '+'.toNat by decide), inert_beq hin _ (show 33 ≤ '&'.toNat by decide), inert_beq hin _ (show 33 ≤ '|'.toNat by decide), inert_beq hin _ (show 33 ≤ '#'.toNat by decide), inert_beq hin _ (show 33 ≤ ':'.toNat by decide), inert_beq hin _ (show 33 ≤ '<'.toNat by decide), inert_beq hin _ (show 33 ≤ '%'.toNat by decide), inert_beq hin _ (show 33 ≤ '.'.toNat by decide),
        Bool.false_eq_true, if_false, pure_eq_ok, ok_bind, Res.ok.injEq, Prod.mk.injEq]
      repeat' (first | (split at g2) | (obtain ⟨_, _, g2⟩ := bind_eq_ok g2))
      all_goals (simp only [pure_eq_ok, Res.ok.injEq, Prod.mk.injEq] at g2)
      all_goals omega
    rw [window_read_ok W hrel1 (show c ≤ c + 1 by omega) (show c + 1 < c + n by omega) hy,
      ok_bind]
    by_cases t1 : (y == '='.toNat) = true
    · rw [if_pos t1] at g2
      rw [if_pos t1]
      simp only [pure_eq_ok, Res.ok.injEq, Prod.mk.injEq] at g2 ⊢
      exact ⟨by omega, g2.2⟩
    rw [if_neg t1] at g2
    rw [if_neg t1]
    simp only [pure_eq_ok, Res.ok.injEq, Prod.mk.injEq] at g2 ⊢
    exact ⟨by omega, g2.2⟩
  rw [if_neg h13] at g
  rw [if_neg h13]
  by_cases h14 : (x == '%'.toNat) = true
  · rw [if_pos h14] at g
    rw [if_pos h14]
    simp only [ADV] at g ⊢
    obtain ⟨y, hy, g2⟩ := bind_eq_ok g
    clear g
    rcases Nat.lt_or_ge 1 n with hn2 | hn2
    swap
    · obtain ⟨y', hy', hin⟩ := window_end W hrel1 (show c + 1 = c + n by omega)
      rw [hy', ok_bind]
      simp only [and_then, inert_beq hin _ (show 33 ≤ '>'.toNat by decide), inert_beq hin _ (show 33 ≤ '-'.toNat by decide), inert_beq hin _ (show 33 ≤ '='.toNat by decide), inert_beq hin _ (show 33 ≤ '+'.toNat by decide), inert_beq hin _ (show 33 ≤ '&'.toNat by decide), inert_beq hin _ (show 33 ≤ '|'.toNat by decide), inert_beq hin _ (show 33 ≤ '#'.toNat by decide), inert_beq hin _ (show 33 ≤ ':'.toNat by decide), inert_beq hin _ (show 33 ≤ '<'.toNat by decide), inert_beq hin _ (show 33 ≤ '%'.toNat by decide), inert_beq hin _ (show 33 ≤ '.'.toNat by decide),
        Bool.false_eq_true, if_false, pure_eq_ok, ok_bind, Res.ok.injEq, Prod.mk.injEq]
      repeat' (first | (split at g2) | (obtain ⟨_, _, g2⟩ := bind_eq_ok g2))
      all_goals (simp only [pure_eq_ok, Res.ok.injEq, Prod.mk.injEq] at g2)
      all_goals omega
    rw [window_read_ok W hrel1 (show c ≤ c + 1 by omega) (show c + 1 < c + n by omega) hy,
      ok_bind]
    by_cases t1 : (y == '='.toNat) = true
    · rw [if_pos t1] at g2
      rw [if_pos t1]
      simp only [pure_eq_ok, Res.ok.injEq, Prod.mk.injEq] at g2 ⊢
      exact ⟨by omega, g2.2⟩
    rw [if_neg t1] at g2
    rw [if_neg t1]
    by_cases t2 : (y == '>'.toNat) = true
    · rw [if_pos t2] at g2
      rw [if_pos t2]
      simp only [pure_eq_ok, Res.ok.injEq, Prod.mk.injEq] at g2 ⊢
      exact ⟨by omega, g2.2⟩
    rw [if_neg t2] at g2
    rw [if_neg t2]
    by_cases t3 : (y == ':'.toNat) = true
    swap
    · simp only [and_then, t3, Bool.false_eq_true, if_false, pure_eq_ok, ok_bind, Res.ok.injEq,
        Prod.mk.injEq] at g2
      omega
    simp only [and_then, t3, if_true] at g2 ⊢
    obtain ⟨sharp, hsharp, g3⟩ := bind_eq_ok g2
    clear g2
    obtain ⟨z, hz, hz2⟩ := bind_eq_ok hsharp
    simp only [pure_eq_ok, Res.ok.injEq] at hz2
    subst hz2
    simp only [hz, ok_bind] at g3
    rcases Bool.eq_false_or_eq_true (z == '%'.toNat) with tz | tz
    · simp only [bne, tz, Bool.not_true, Bool.false_eq_true, if_false, if_true] at g3
      obtain ⟨two, htwo, g4⟩ := bind_eq_ok g3
      clear g3
      obtain ⟨w, hw, hw2⟩ := bind_eq_ok htwo
      simp only [pure_eq_ok, Res.ok.injEq] at hw2
      subst hw2
      rcases Bool.eq_false_or_eq_true (w == ':'.toNat) with tw | tw
      · simp only [tw, if_true, pure_eq_ok, Res.ok.injEq, Prod.mk.injEq, ADV] at g4
        have hzB := window_read_ok W hrel2 (show c ≤ c + 1 + 1 by omega)
          (show c + 1 + 1 < c + n by omega) hz
        have hwB := window_read_ok W hrel3 (show c ≤ c + 1 + 2 by omega)
          (show c + 1 + 2 < c + n by omega) hw
        simp only [hzB, ok_bind, bne, tz, Bool.not_true, Bool.false_eq_true, if_false, if_true,
          hwB, tw, pure_eq_ok, Res.ok.injEq, Prod.mk.injEq, ADV]
        exact ⟨by omega, g4.2⟩
      · simp only [tw, Bool.false_eq_true, if_false, pure_eq_ok, Res.ok.injEq,
          Prod.mk.injEq] at g4
        omega
    · simp only [bne, tz, Bool.not_false, if_true, pure_eq_ok, Res.ok.injEq,
        Prod.mk.injEq] at g3
      obtain ⟨z', hz', hin⟩ := window_end W hrel2 (show c + 1 + 1 = c + n by omega)
      simp only [hz', ok_bind, bne, inert_beq hin _ (show 33 ≤ '%'.toNat by decide),
        Bool.not_false, if_true, pure_eq_ok, Res.ok.injEq, Prod.mk.injEq]
      exact ⟨by omega, g3.2⟩
  rw [if_neg h14] at g
  rw [if_neg h14]
  by_cases h15 : (x == '<'.toNat) = true
  · rw [if_pos h15] at g
    rw [if_pos h15]
    simp only [ADV] at g ⊢
    obtain ⟨y, hy, g2⟩ := bind_eq_ok g
    clear g
    rcases Nat.lt_or_ge 1 n with hn2 | hn2
    swap
    · obtain ⟨y', hy', hin⟩ := window_end W hrel1 (show c + 1 = c + n by omega)
      rw [hy', ok_bind]
      simp only [and_then, inert_beq hin _ (show 33 ≤ '>'.toNat by decide), inert_beq hin _ (show 33 ≤ '-'.toNat by decide), inert_beq hin _ (show 33 ≤ '='.toNat by decide), inert_beq hin _ (show 33 ≤ '+'.toNat by decide), inert_beq hin _ (show 33 ≤ '&'.toNat by decide), inert_beq hin _ (show 33 ≤ '|'.toNat by decide), inert_beq hin _ (show 33 ≤ '#'.toNat by decide), inert_beq hin _ (show 33 ≤ ':'.toNat by decide), inert_beq hin _ (show 33 ≤ '<'.toNat by decide), inert_beq hin _ (show 33 ≤ '%'.toNat by decide), inert_beq hin _ (show 33 ≤ '.'.toNat by decide),
        Bool.false_eq_true, if_false, pure_eq_ok, ok_bind, Res.ok.injEq, Prod.mk.injEq]
      repeat' (first | (split at g2) | (obtain ⟨_, _, g2⟩ := bind_eq_ok g2))
      all_goals (simp only [pure_eq_ok, Res.ok.injEq, Prod.mk.injEq] at g2)
      all_goals omega
    rw [window_read_ok W hrel1 (show c ≤ c + 1 by omega) (show c + 1 < c + n by omega) hy,
      ok_bind]
    by_cases t1 : (y == '<'.toNat) = true
    · have hye : (y == '='.toNat) = false := beq_other t1 (by decide)
      have hyr0 : (y == ':'.toNat) = false := beq_other t1 (by decide)
      have hyr1 : (y == '%'.toNat) = false := beq_other t1 (by decide)
      simp only [and_then, t1, if_true] at g2 ⊢
      obtain ⟨shift, hshift, g3⟩ := bind_eq_ok g2
      clear g2
      obtain ⟨z, hz, hz2⟩ := bind_eq_ok hshift
      simp only [pure_eq_ok, Res.ok.injEq] at hz2
      subst hz2
      simp only [hz, ok_bind, hye, hyr0, hyr1, pure_eq_ok, Bool.false_eq_true, if_false] at g3
      rcases Nat.lt_or_ge 2 n with hn3 | hn3
      · have hzB := window_read_ok W hrel2 (show c ≤ c + 1 + 1 by omega)
          (show c + 1 + 1 < c + n by omega) hz
        simp only [hzB, ok_bind, hye, hyr0, hyr1, pure_eq_ok, Bool.false_eq_true, if_false]
        rcases Bool.eq_false_or_eq_true (z == '='.toNat) with tz | tz
        all_goals
          simp only [bne, tz, Bool.not_true, Bool.not_false, Bool.false_eq_true, if_true,
            if_false, pure_eq_ok, Res.ok.injEq, Prod.mk.injEq] at g3 ⊢
          exact ⟨by omega, g3.2⟩
      · obtain ⟨z', hz', hin⟩ := window_end W hrel2 (show c + 1 + 1 = c + n by omega)
        simp only [hz', ok_bind, bne, inert_beq hin _ (show 33 ≤ '='.toNat by decide),
          Bool.not_false, if_true, pure_eq_ok, Res.ok.injEq, Prod.mk.injEq]
        rcases Bool.eq_false_or_eq_true (z == '='.toNat) with tz | tz
        all_goals
          simp only [bne, tz, Bool.not_true, Bool.not_false, Bool.false_eq_true, if_true,
            if_false, pure_eq_ok, Res.ok.injEq, Prod.mk.injEq] at g3
          omega
    simp only [and_then, t1, Bool.false_eq_true, if_false, pure_eq_ok, ok_bind] at g2 ⊢
    by_cases t2 : (y == '='.toNat) = true
    · rw [if_pos t2] at g2
      rw [if_pos t2]
      simp only [pure_eq_ok, Res.ok.injEq, Prod.mk.injEq] at g2 ⊢
      exact ⟨by omega, g2.2⟩
    rw [if_neg t2] at g2
    rw [if_neg t2]
    by_cases t3 : (y == ':'.toNat) = true
    · rw [if_pos t3] at g2
      rw [if_pos t3]
      simp only [pure_eq_ok, Res.ok.injEq, Prod.mk.injEq] at g2 ⊢
      exact ⟨by omega, g2.2⟩
    rw [if_neg t3] at g2
    rw [if_neg t3]
    by_cases t4 : (y == '%'.toNat) = true
    · rw [if_pos t4] at g2
      rw [if_pos t4]
      simp only [pure_eq_ok, Res.ok.injEq, Prod.mk.injEq] at g2 ⊢
      exact ⟨by omega, g2.2⟩
    rw [if_neg t4] at g2
    rw [if_neg t4]
    simp only [pure_eq_ok, Res.ok.injEq, Prod.mk.injEq] at g2 ⊢
    exact ⟨by omega, g2.2⟩
  rw [if_neg h15] at g
  rw [if_neg h15]
  by_cases h16 : (x == '>'.toNat) = true
  · rw [if_pos h16] at g
    rw [if_pos h16]
    simp only [ADV] at g ⊢
    obtain ⟨y, hy, g2⟩ := bind_eq_ok g
    clear g
    rcases Nat.lt_or_ge 1 n with hn2 | hn2
    swap
    · obtain ⟨y', hy', hin⟩ := window_end W hrel1 (show c + 1 = c + n by omega)
      rw [hy', ok_bind]
      simp only [and_then, inert_beq hin _ (show 33 ≤ '>'.toNat by decide), inert_beq hin _ (show 33 ≤ '-'.toNat by decide), inert_beq hin _ (show 33 ≤ '='.toNat by decide), inert_beq hin _ (show 33 ≤ '+'.toNat by decide), inert_beq hin _ (show 33 ≤ '&'.toNat by decide), inert_beq hin _ (show 33 ≤ '|'.toNat by decide), inert_beq hin _ (show 33 ≤ '#'.toNat by decide), inert_beq hin _ (show 33 ≤ ':'.toNat by decide), inert_beq hin _ (show 33 ≤ '<'.toNat by decide), inert_beq hin _ (show 33 ≤ '%'.toNat by decide), inert_beq hin _ (show 33 ≤ '.'.toNat by decide),
        Bool.false_eq_true, if_false, pure_eq_ok, ok_bind, Res.ok.injEq, Prod.mk.injEq]
      repeat' (first | (split at g2) | (obtain ⟨_, _, g2⟩ := bind_eq_ok g2))
      all_goals (simp only [pure_eq_ok, Res.ok.injEq, Prod.mk.injEq] at g2)
      all_goals omega
    rw [window_read_ok W hrel1 (show c ≤ c + 1 by omega) (show c + 1 < c + n by omega) hy,
      ok_bind]
    by_cases t1 : (y == '>'.toNat) = true
    · have hye : (y == '='.toNat) = false := beq_other t1 (by decide)
      simp only [and_then, t1, if_true] at g2 ⊢
      obtain ⟨shift, hshift, g3⟩ := bind_eq_ok g2
      clear g2
      obtain ⟨z, hz, hz2⟩ := bind_eq_ok hshift
      simp only [pure_eq_ok, Res.ok.injEq] at hz2
      subst hz2
      simp only [hz, ok_bind, hye, pure_eq_ok, Bool.false_eq_true, if_false] at g3
      rcases Nat.lt_or_ge 2 n with hn3 | hn3
      · have hzB := window_read_ok W hrel2 (show c ≤ c + 1 + 1 by omega)
          (show c + 1 + 1 < c + n by omega) hz
        simp only [hzB, ok_bind, hye, pure_eq_ok, Bool.false_eq_true, if_false]
        rcases Bool.eq_false_or_eq_true (z == '='.toNat) with tz | tz
        all_goals
          simp only [bne, tz, Bool.not_true, Bool.not_false, Bool.false_eq_true, if_true,
            if_false, pure_eq_ok, Res.ok.injEq, Prod.mk.injEq] at g3 ⊢
          exact ⟨by omega, g3.2⟩
      · obtain ⟨z', hz', hin⟩ := window_end W hrel2 (show c + 1 + 1 = c + n by omega)
        simp only [hz', ok_bind, bne, inert_beq hin _ (show 33 ≤ '='.toNat by decide),
          Bool.not_false, if_true, pure_eq_ok, Res.ok.injEq, Prod.mk.injEq]
        rcases Bool.eq_false_or_eq_true (z == '='.toNat) with tz | tz
        all_goals
          simp only [bne, tz, Bool.not_true, Bool.not_false, Bool.false_eq_true, if_true,
            if_false, pure_eq_ok, Res.ok.injEq, Prod.mk.injEq] at g3
          omega
    simp only [and_then, t1, Bool.false_eq_true, if_false, pure_eq_ok, ok_bind] at g2 ⊢
    by_cases t2 : (y == '='.toNat) = true
    · rw [if_pos t2] at g2
      rw [if_pos t2]
      simp only [pure_eq_ok, Res.ok.injEq, Prod.mk.injEq] at g2 ⊢
      exact ⟨by omega, g2.2⟩
    rw [if_neg t2] at g2
    rw [if_neg t2]
    simp only [pure_eq_ok, Res.ok.injEq, Prod.mk.injEq] at g2 ⊢
    exact ⟨by omega, g2.2⟩
  rw [if_neg h16] at g
  rw [if_neg h16]
  by_cases h17 : (x == '='.toNat) = true
  · rw [if_pos h17] at g
    rw [if_pos h17]
    simp only [ADV] at g ⊢
    obtain ⟨y, hy, g2⟩ := bind_eq_ok g
    clear g
    rcases Nat.lt_or_ge 1 n with hn2 | hn2
    swap
    · obtain ⟨y', hy', hin⟩ := window_end W hrel1 (show c + 1 = c + n by omega)
      rw [hy', ok_bind]
      simp only [and_then, inert_beq hin _ (show 33 ≤ '>'.toNat by decide), inert_beq hin _ (show 33 ≤ '-'.toNat by decide), inert_beq hin _ (show 33 ≤ '='.toNat by decide), inert_beq hin _ (show 33 ≤ '+'.toNat by decide), inert_beq hin _ (show 33 ≤ '&'.toNat by decide), inert_beq hin _ (show 33 ≤ '|'.toNat by decide), inert_beq hin _ (show 33 ≤ '#'.toNat by decide), inert_beq hin _ (show 33 ≤ ':'.toNat by decide), inert_beq hin _ (show 33 ≤ '<'.toNat by decide), inert_beq hin _ (show 33 ≤ '%'.toNat by decide), inert_beq hin _ (show 33 ≤ '.'.toNat by decide),
        Bool.false_eq_true, if_false, pure_eq_ok, ok_bind, Res.ok.injEq, Prod.mk.injEq]
      repeat' (first | (split at g2) | (obtain ⟨_, _, g2⟩ := bind_eq_ok g2))
      all_goals (simp only [pure_eq_ok, Res.ok.injEq, Prod.mk.injEq] at g2)
      all_goals omega
    rw [window_read_ok W hrel1 (show c ≤ c + 1 by omega) (show c + 1 < c + n by omega) hy,
      ok_bind]
    by_cases t1 : (y == '='.toNat) = true
    · rw [if_pos t1] at g2
      rw [if_pos t1]
      simp only [pure_eq_ok, Res.ok.injEq, Prod.mk.injEq] at g2 ⊢
      exact ⟨by omega, g2.2⟩
    rw [if_neg t1] at g2
    rw [if_neg t1]
    simp only [pure_eq_ok, Res.ok.injEq, Prod.mk.injEq] at g2 ⊢
    exact ⟨by omega, g2.2⟩
  rw [if_neg h17] at g
  rw [if_neg h17]
  by_cases h18 : (x == '^'.toNat) = true
  · rw [if_pos h18] at g
    rw [if_pos h18]
    simp only [ADV] at g ⊢
    obtain ⟨y, hy, g2⟩ := bind_eq_ok g
    clear g
    rcases Nat.lt_or_ge 1 n with hn2 | hn2
    swap
    · obtain ⟨y', hy', hin⟩ := window_end W hrel1 (show c + 1 = c + n by omega)
      rw [hy', ok_bind]
      simp only [and_then, inert_beq hin _ (show 33 ≤ '>'.toNat by decide), inert_beq hin _ (show 33 ≤ '-'.toNat by decide), inert_beq hin _ (show 33 ≤ '='.toNat by decide), inert_beq hin _ (show 33 ≤ '+'.toNat by decide), inert_beq hin _ (show 33 ≤ '&'.toNat by decide), inert_beq hin _ (show 33 ≤ '|'.toNat by decide), inert_beq hin _ (show 33 ≤ '#'.toNat by decide), inert_beq hin _ (show 33 ≤ ':'.toNat by decide), inert_beq hin _ (show 33 ≤ '<'.toNat by decide), inert_beq hin _ (show 33 ≤ '%'.toNat by decide), inert_beq hin _ (show 33 ≤ '.'.toNat by decide),
        Bool.false_eq_true, if_false, pure_eq_ok, ok_bind, Res.ok.injEq, Prod.mk.injEq]
      repeat' (first | (split at g2) | (obtain ⟨_, _, g2⟩ := bind_eq_ok g2))
      all_goals (simp only [pure_eq_ok, Res.ok.injEq, Prod.mk.injEq] at g2)
      all_goals omega
    rw [window_read_ok W hrel1 (show c ≤ c + 1 by omega) (show c + 1 < c + n by omega) hy,
      ok_bind]
    by_cases t1 : (y == '='.toNat) = true
    · rw [if_pos t1] at g2
      rw [if_pos t1]
      simp only [pure_eq_ok, Res.ok.injEq, Prod.mk.injEq] at g2 ⊢
      exact ⟨by omega, g2.2⟩
    rw [if_neg t1] at g2
    rw [if_neg t1]
    simp only [pure_eq_ok, Res.ok.injEq, Prod.mk.injEq] at g2 ⊢
    exact ⟨by omega, g2.2⟩
  rw [if_neg h18] at g
  rw [if_neg h18]
  by_cases h19 : (x == '|'.toNat) = true
  · rw [if_pos h19] at g
    rw [if_pos h19]
    simp only [ADV] at g ⊢
    obtain ⟨y, hy, g2⟩ := bind_eq_ok g
    clear g
    rcases Nat.lt_or_ge 1 n with hn2 | hn2
    swap
    · obtain ⟨y', hy', hin⟩ := window_end W hrel1 (show c + 1 = c + n by omega)
      rw [hy', ok_bind]
      simp only [and_then, inert_beq hin _ (show 33 ≤ '>'.toNat by decide), inert_beq hin _ (show 33 ≤ '-'.toNat by decide), inert_beq hin _ (show 33 ≤ '='.toNat by decide), inert_beq hin _ (show 33 ≤ '+'.toNat by decide), inert_beq hin _ (show 33 ≤ '&'.toNat by decide), inert_beq hin _ (show 33 ≤ '|'.toNat by decide), inert_beq hin _ (show 33 ≤ '#'.toNat by decide), inert_beq hin _ (show 33 ≤ ':'.toNat by decide), inert_beq hin _ (show 33 ≤ '<'.toNat by decide), inert_beq hin _ (show 33 ≤ '%'.toNat by decide), inert_beq hin _ (show 33 ≤ '.'.toNat by decide),
        Bool.false_eq_true, if_false, pure_eq_ok, ok_bind, Res.ok.injEq, Prod.mk.injEq]
      repeat' (first | (split at g2) | (obtain ⟨_, _, g2⟩ := bind_eq_ok g2))
      all_goals (simp only [pure_eq_ok, Res.ok.injEq, Prod.mk.injEq] at g2)
      all_goals omega
    rw [window_read_ok W hrel1 (show c ≤ c + 1 by omega) (show c + 1 < c + n by omega) hy,
      ok_bind]
    by_cases t1 : (y == '|'.toNat) = true
    · rw [if_pos t1] at g2
      rw [if_pos t1]
      simp only [pure_eq_ok, Res.ok.injEq, Prod.mk.injEq] at g2 ⊢
      exact ⟨by omega, g2.2⟩
    rw [if_neg t1] at g2
    rw [if_neg t1]
    by_cases t2 : (y == '='.toNat) = true
    · rw [if_pos t2] at g2
      rw [if_pos t2]
      simp only [pure_eq_ok, Res.ok.injEq, Prod.mk.injEq] at g2 ⊢
      exact ⟨by omega, g2.2⟩
    rw [if_neg t2] at g2
    rw [if_neg t2]
    simp only [pure_eq_ok, Res.ok.injEq, Prod.mk.injEq] at g2 ⊢
    exact ⟨by omega, g2.2⟩
  rw [if_neg h19] at g
  rw [if_neg h19]
  by_cases h20 : (x == '?'.toNat) = true
  · rw [if_pos h20] at g
    rw [if_pos h20]
    simp only [pure_eq_ok, Res.ok.injEq, Prod.mk.injEq, ADV] at g ⊢
    exact ⟨by omega, g.2⟩
  rw [if_neg h20] at g
  rw [if_neg h20]
  by_cases h21 : (x == ':'.toNat) = true
  · rw [if_pos h21] at g
    rw [if_pos h21]
    simp only [ADV] at g ⊢
    obtain ⟨y, hy, g2⟩ := bind_eq_ok g
    clear g
    rcases Nat.lt_or_ge 1 n with hn2 | hn2
    swap
    · obtain ⟨y', hy', hin⟩ := window_end W hrel1 (show c + 1 = c + n by omega)
      rw [hy', ok_bind]
      simp only [and_then, inert_beq hin _ (show 33 ≤ '>'.toNat by decide), inert_beq hin _ (show 33 ≤ '-'.toNat by decide), inert_beq hin _ (show 33 ≤ '='.toNat by decide), inert_beq hin _ (show 33 ≤ '+'.toNat by decide), inert_beq hin _ (show 33 ≤ '&'.toNat by decide), inert_beq hin _ (show 33 ≤ '|'.toNat by decide), inert_beq hin _ (show 33 ≤ '#'.toNat by decide), inert_beq hin _ (show 33 ≤ ':'.toNat by decide), inert_beq hin _ (show 33 ≤ '<'.toNat by decide), inert_beq hin _ (show 33 ≤ '%'.toNat by decide), inert_beq hin _ (show 33 ≤ '.'.toNat by decide),
        Bool.false_eq_true, if_false, pure_eq_ok, ok_bind, Res.ok.injEq, Prod.mk.injEq]
      repeat' (first | (split at g2) | (obtain ⟨_, _, g2⟩ := bind_eq_ok g2))
      all_goals (simp only [pure_eq_ok, Res.ok.injEq, Prod.mk.injEq] at g2)
      all_goals omega
    rw [window_read_ok W hrel1 (show c ≤ c + 1 by omega) (show c + 1 < c + n by omega) hy,
      ok_bind]
    by_cases t1 : (y == '>'.toNat) = true
    · rw [if_pos t1] at g2
      rw [if_pos t1]
      simp only [pure_eq_ok, Res.ok.injEq, Prod.mk.injEq] at g2 ⊢
      exact ⟨by omega, g2.2⟩
    rw [if_neg t1] at g2
    rw [if_neg t1]
    simp only [pure_eq_ok, Res.ok.injEq, Prod.mk.injEq] at g2 ⊢
    exact ⟨by omega, g2.2⟩
  rw [if_neg h21] at g
  rw [if_neg h21]
  by_cases h22 : (x == ';'.toNat) = true
  · rw [if_pos h22] at g
    rw [if_pos h22]
    simp only [pure_eq_ok, Res.ok.injEq, Prod.mk.injEq, ADV] at g ⊢
    exact ⟨by omega, g.2⟩
  rw [if_neg h22] at g
  rw [if_neg h22]
  by_cases h23 : (x == ','.toNat) = true
  · rw [if_pos h23] at g
    rw [if_pos h23]
    simp only [pure_eq_ok, Res.ok.injEq, Prod.mk.injEq, ADV] at g ⊢
    exact ⟨by omega, g.2⟩
  rw [if_neg h23] at g
  rw [if_neg h23]
  by_cases h24 : (x == '#'.toNat) = true
  · rw [if_pos h24] at g
    rw [if_pos h24]
    simp only [ADV] at g ⊢
    obtain ⟨y, hy, g2⟩ := bind_eq_ok g
    clear g
    rcases Nat.lt_or_ge 1 n with hn2 | hn2
    swap
    · obtain ⟨y', hy', hin⟩ := window_end W hrel1 (show c + 1 = c + n by omega)
      rw [hy', ok_bind]
      simp only [and_then, inert_beq hin _ (show 33 ≤ '>'.toNat by decide), inert_beq hin _ (show 33 ≤ '-'.toNat by decide), inert_beq hin _ (show 33 ≤ '='.toNat by decide), inert_beq hin _ (show 33 ≤ '+'.toNat by decide), inert_beq hin _ (show 33 ≤ '&'.toNat by decide), inert_beq hin _ (show 33 ≤ '|'.toNat by decide), inert_beq hin _ (show 33 ≤ '#'.toNat by decide), inert_beq hin _ (show 33 ≤ ':'.toNat by decide), inert_beq hin _ (show 33 ≤ '<'.toNat by decide), inert_beq hin _ (show 33 ≤ '%'.toNat by decide), inert_beq hin _ (show 33 ≤ '.'.toNat by decide),
        Bool.false_eq_true, if_false, pure_eq_ok, ok_bind, Res.ok.injEq, Prod.mk.injEq]
      repeat' (first | (split at g2) | (obtain ⟨_, _, g2⟩ := bind_eq_ok g2))
      all_goals (simp only [pure_eq_ok, Res.ok.injEq, Prod.mk.injEq] at g2)
      all_goals omega
    rw [window_read_ok W hrel1 (show c ≤ c + 1 by omega) (show c + 1 < c + n by omega) hy,
      ok_bind]
    by_cases t1 : (y == '#'.toNat) = true
    · rw [if_pos t1] at g2
      rw [if_pos t1]
      simp only [pure_eq_ok, Res.ok.injEq, Prod.mk.injEq] at g2 ⊢
      exact ⟨by omega, g2.2⟩
    rw [if_neg t1] at g2
    rw [if_neg t1]
    simp only [pure_eq_ok, Res.ok.injEq, Prod.mk.injEq] at g2 ⊢
    exact ⟨by omega, g2.2⟩
  rw [if_neg h24] at g
  rw [if_neg h24]
  simp [goto_error] at g

/-- `read_punctuator` returns 0 on `B` wherever it does on `A`, if `B` shows the same text
followed by a character that ends every token. -/
theorem read_punctuator_window {A B : List Nat} {c d n : Nat} (W : Window A c B d n)
    {tok tok1 : token}
    (h : read_punctuator A c tok = Res.ok (0, c + n, tok1)) :
    read_punctuator B d tok = Res.ok (0, d + n, tok1) := by
  have h := reader_exit_zero h
  obtain ⟨⟨c2, k⟩, h2, g1⟩ := bind_eq_ok h
  clear h
  simp only [pure_eq_ok, Res.ok.injEq, Prod.mk.injEq] at g1
  obtain ⟨q1, q2⟩ := g1
  change c2 = c + n at q1
  subst q1
  unfold read_punctuator
  simp only [punctuator_tree_window W h2, ok_bind, pure_eq_ok, reader_exit]
  rw [← q2]

/-! ### Readers that fail on the first characters -/

theorem read_keyword_fails_first {line : List Nat} {c x : Nat} (hrd : rd line c = Res.ok x)
    (hx : is_identifier_nondigit x = false) (tok : token) :
    read_keyword_or_identifier line c tok = Res.ok (-1, c, tok) := by
  unfold read_keyword_or_identifier
  simp only [hrd, ok_bind, hx, Bool.not_false, error_if_true, error_bind, reader_exit]

theorem read_integer_fails_first {line : List Nat} {c x : Nat} (hrd : rd line c = Res.ok x)
    (hx : isdigit x = false) (tok : token) :
    read_integer_constant line c tok
      = Res.ok (-1, c, { tok with type := TOKEN_INT_CONST }) := by
  unfold read_integer_constant
  simp only [hrd, ok_bind, hx, Bool.not_false, error_if_true, error_bind, reader_exit]

theorem read_floating_fails_first {line : List Nat} {c x : Nat} (hrd : rd line c = Res.ok x)
    (hd : isdigit x = false) (hdot : (x == '.'.toNat) = false) (tok : token) :
    read_floating_constant line c tok
      = Res.ok (-1, c, { tok with type := TOKEN_FLOAT_CONST }) := by
  have hz : (x == '0'.toNat) = false := by
    rcases Bool.eq_false_or_eq_true (x == '0'.toNat) with h | h
    · have hx0 : x = '0'.toNat := by simpa using h
      rw [hx0] at hd
      exact absurd hd (by decide)
    · exact h
  have hloop : while_APPADV_cnt isdigit line (loop_bound line) string_init c 0
      = Res.ok (string_init, c, 0) := by
    show while_APPADV_cnt isdigit line (line.length + 1 + 1) string_init c 0 = _
    rw [while_APPADV_cnt]
    simp only [hrd, ok_bind, hd, Bool.false_eq_true, if_false, pure_eq_ok]
  have hdec : read_floating_constant.decimal line string_init c = Res.error := by
    unfold read_floating_constant.decimal
    simp only [hloop, hrd, ok_bind, hdot, Bool.false_eq_true, if_false,
      beq_self_eq_true, error_if_true, error_bind]
  unfold read_floating_constant
  simp only [hrd, ok_bind, hz, and_then, Bool.false_eq_true, if_false, pure_eq_ok, hdec,
    error_bind, reader_exit]

/-- A period that no digit follows is no floating constant. -/
theorem read_floating_fails_period {line : List Nat} {c y : Nat}
    (hrd : rd line c = Res.ok '.'.toNat) (hy : rd line (c + 1) = Res.ok y)
    (hd : isdigit y = false) (tok : token) :
    read_floating_constant line c tok
      = Res.ok (-1, c, { tok with type := TOKEN_FLOAT_CONST }) := by
  obtain ⟨s1, hs1, -⟩ := string_append_holds '.'.toNat string_init_holds (by decide)
  have hloop : while_APPADV_cnt isdigit line (loop_bound line) string_init c 0
      = Res.ok (string_init, c, 0) := by
    show while_APPADV_cnt isdigit line (line.length + 1 + 1) string_init c 0 = _
    rw [while_APPADV_cnt]
    simp only [hrd, ok_bind, show isdigit '.'.toNat = false from rfl, Bool.false_eq_true,
      if_false, pure_eq_ok]
  have happ : APPADV line string_init c = Res.ok (s1, c + 1) := by
    unfold APPADV
    simp only [hrd, ok_bind, hs1, pure_eq_ok]
  have hloop2 : while_APPADV_cnt isdigit line (loop_bound line) s1 (c + 1) (0 + 1)
      = Res.ok (s1, c + 1, 0 + 1) := by
    show while_APPADV_cnt isdigit line (line.length + 1 + 1) s1 (c + 1) (0 + 1) = _
    rw [while_APPADV_cnt]
    simp only [hy, ok_bind, hd, Bool.false_eq_true, if_false, pure_eq_ok]
  have hdec : read_floating_constant.decimal line string_init c = Res.error := by
    unfold read_floating_constant.decimal
    simp only [hloop, hrd, ok_bind, beq_self_eq_true, if_true, happ, hloop2, Nat.zero_add,
      error_if_true, error_bind]
  unfold read_floating_constant
  simp only [hrd, ok_bind, and_then, show ('.'.toNat == '0'.toNat) = false from rfl,
    Bool.false_eq_true, if_false, pure_eq_ok, hdec, error_bind, reader_exit]

/-- No character constant starts with a character that is neither a quote nor one of `L`,
`u`, `U` in front of a quote. -/
theorem read_character_fails_of {line : List Nat} {c x : Nat} (hrd : rd line c = Res.ok x)
    (hq : (x == '\''.toNat) = false)
    (henc : (x == 'L'.toNat || x == 'u'.toNat || x == 'U'.toNat) = false
      ∨ ∃ y, rd line (c + 1) = Res.ok y ∧ (y == '\''.toNat) = false) (tok : token) :
    read_character_constant line c tok
      = Res.ok (-1, c, { tok with type := TOKEN_CHAR_CONST }) := by
  have hopen : read_character_constant.opening line string_init c = Res.error := by
    unfold read_character_constant.opening
    simp only [hrd, ok_bind, hq, Bool.false_eq_true, if_false]
    rcases Bool.eq_false_or_eq_true (x == 'L'.toNat || x == 'u'.toNat || x == 'U'.toNat)
      with hl | hl
    · rcases henc with h | ⟨y, hy, hyq⟩
      · rw [h] at hl
        exact absurd hl (by decide)
      · simp only [and_then, hl, if_true, hy, ok_bind, pure_eq_ok, hyq, Bool.false_eq_true,
          if_false, goto_error]
    · simp only [and_then, hl, Bool.false_eq_true, if_false, pure_eq_ok, ok_bind, goto_error]
  unfold read_character_constant
  simp only [hopen, error_bind, reader_exit]

theorem read_string_fails_first {line : List Nat} {c x : Nat} (hrd : rd line c = Res.ok x)
    (hq : (x == '\"'.toNat) = false)
    (hl : (x == 'u'.toNat || x == 'U'.toNat || x == 'L'.toNat) = false) (tok : token) :
    read_string_literal line c tok
      = Res.ok (-1, c, { tok with type := TOKEN_STRING_LITERAL }) := by
  have hu : (x == 'u'.toNat) = false := by
    simp only [Bool.or_eq_false_iff] at hl
    exact hl.1.1
  have hopen : read_string_literal.opening line string_init c = Res.error := by
    unfold read_string_literal.opening read_string_literal.u8
    simp only [hrd, ok_bind, hq, Bool.false_eq_true, if_false, and_then, hl, pure_eq_ok]
    simp only [hu, Bool.false_eq_true, if_false, ok_bind, goto_error]
  unfold read_string_literal
  simp only [hopen, error_bind, reader_exit]

/-- The first character of a punctuator: no letter, digit or underscore, no quote, and not
a character that ends every token. -/
theorem punctuator_first {line : List Nat} {c c1 k : Nat}
    (h : read_punctuator.tree line c = Res.ok (c1, k)) :
    ∃ x, rd line c = Res.ok x ∧ is_identifier x = false ∧ inert x = false
      ∧ (x == '\''.toNat) = false ∧ (x == '\"'.toNat) = false := by
  unfold read_punctuator.tree at h
  obtain ⟨x, hx, g⟩ := bind_eq_ok h
  clear h
  refine ⟨x, hx, ?_⟩
  have key : ∀ ch : Nat, (x == ch) = true → is_identifier ch = false → inert ch = false →
      (ch == '\''.toNat) = false → (ch == '\"'.toNat) = false →
      is_identifier x = false ∧ inert x = false
        ∧ (x == '\''.toNat) = false ∧ (x == '\"'.toNat) = false := by
    intro ch hch h1 h2 h3 h4
    have hxc : x = ch := by simpa using hch
    subst hxc
    exact ⟨h1, h2, h3, h4⟩
  by_cases h0 : (x == '['.toNat) = true
  · exact key _ h0 (by decide) (by decide) (by decide) (by decide)
  rw [if_neg h0] at g
  by_cases h1 : (x == ']'.toNat) = true
  · exact key _ h1 (by decide) (by decide) (by decide) (by decide)
  rw [if_neg h1] at g
  by_cases h2 : (x == '('.toNat) = true
  · exact key _ h2 (by decide) (by decide) (by decide) (by decide)
  rw [if_neg h2] at g
  by_cases h3 : (x == ')'.toNat) = true
  · exact key _ h3 (by decide) (by decide) (by decide) (by decide)
  rw [if_neg h3] at g
  by_cases h4 : (x == '{'.toNat) = true
  · exact key _ h4 (by decide) (by decide) (by decide) (by decide)
  rw [if_neg h4] at g
  by_cases h5 : (x == '}'.toNat) = true
  · exact key _ h5 (by decide) (by decide) (by decide) (by decide)
  rw [if_neg h5] at g
  by_cases h6 : (x == '.'.toNat) = true
  · exact key _ h6 (by decide) (by decide) (by decide) (by decide)
  rw [if_neg h6] at g
  by_cases h7 : (x == '-'.toNat) = true
  · exact key _ h7 (by decide) (by decide) (by decide) (by decide)
  rw [if_neg h7] at g
  by_cases h8 : (x == '+'.toNat) = true
  · exact key _ h8 (by decide) (by decide) (by decide) (by decide)
  rw [if_neg h8] at g
  by_cases h9 : (x == '&'.toNat) = true
  · exact key _ h9 (by decide) (by decide) (by decide) (by decide)
  rw [if_neg h9] at g
  by_cases h10 : (x == '*'.toNat) = true
  · exact key _ h10 (by decide) (by decide) (by decide) (by decide)
  rw [if_neg h10] at g
  by_cases h11 : (x == '~'.toNat) = true
  · exact key _ h11 (by decide) (by decide) (by decide) (by decide)
  rw [if_neg h11] at g
  by_cases h12 : (x == '!'.toNat) = true
  · exact key _ h12 (by decide) (by decide) (by decide) (by decide)
  rw [if_neg h12] at g
  by_cases h13 : (x == '/'.toNat) = true
  · exact key _ h13 (by decide) (by decide) (by decide) (by decide)
  rw [if_neg h13] at g
  by_cases h14 : (x == '%'.toNat) = true
  · exact key _ h14 (by decide) (by decide) (by decide) (by decide)
  rw [if_neg h14] at g
  by_cases h15 : (x == '<'.toNat) = true
  · exact key _ h15 (by decide) (by decide) (by decide) (by decide)
  rw [if_neg h15] at g
  by_cases h16 : (x == '>'.toNat) = true
  · exact key _ h16 (by decide) (by decide) (by decide) (by decide)
  rw [if_neg h16] at g
  by_cases h17 : (x == '='.toNat) = true
  · exact key _ h17 (by decide) (by decide) (by decide) (by decide)
  rw [if_neg h17] at g
  by_cases h18 : (x == '^'.toNat) = true
  · exact key _ h18 (by decide) (by decide) (by decide) (by decide)
  rw [if_neg h18] at g
  by_cases h19 : (x == '|'.toNat) = true
  · exact key _ h19 (by decide) (by decide) (by decide) (by decide)
  rw [if_neg h19] at g
  by_cases h20 : (x == '?'.toNat) = true
  · exact key _ h20 (by decide) (by decide) (by decide) (by decide)
  rw [if_neg h20] at g
  by_cases h21 : (x == ':'.toNat) = true
  · exact key _ h21 (by decide) (by decide) (by decide) (by decide)
  rw [if_neg h21] at g
  by_cases h22 : (x == ';'.toNat) = true
  · exact key _ h22 (by decide) (by decide) (by decide) (by decide)
  rw [if_neg h22] at g
  by_cases h23 : (x == ','.toNat) = true
  · exact key _ h23 (by decide) (by decide) (by decide) (by decide)
  rw [if_neg h23] at g
  by_cases h24 : (x == '#'.toNat) = true
  · exact key _ h24 (by decide) (by decide) (by decide) (by decide)
  rw [if_neg h24] at g
  simp [goto_error] at g

/-- A punctuator that starts with a period is the period alone or the ellipsis. -/
theorem punctuator_period {line : List Nat} {c n k : Nat}
    (h : read_punctuator.tree line c = Res.ok (c + n, k))
    (hx : rd line c = Res.ok '.'.toNat) :
    n = 1 ∨ (n = 3 ∧ rd line (c + 1) = Res.ok '.'.toNat) := by
  unfold read_punctuator.tree at h
  rw [hx, ok_bind] at h
  rw [if_neg (show ¬ ('.'.toNat == '['.toNat) = true by decide),
    if_neg (show ¬ ('.'.toNat == ']'.toNat) = true by decide),
    if_neg (show ¬ ('.'.toNat == '('.toNat) = true by decide),
    if_neg (show ¬ ('.'.toNat == ')'.toNat) = true by decide),
    if_neg (show ¬ ('.'.toNat == '{'.toNat) = true by decide),
    if_neg (show ¬ ('.'.toNat == '}'.toNat) = true by decide),
    if_pos (show ('.'.toNat == '.'.toNat) = true by decide)] at h
  simp only [ADV] at h
  obtain ⟨y, hy, g2⟩ := bind_eq_ok h
  clear h
  obtain ⟨dots, hdots, g3⟩ := bind_eq_ok g2
  clear g2
  cases dots with
  | false =>
    simp only [Bool.false_eq_true, if_false, pure_eq_ok, Res.ok.injEq, Prod.mk.injEq] at g3
    left
    omega
  | true =>
    obtain ⟨t1, -⟩ := and_then_true hdots
    simp only [if_true, pure_eq_ok, Res.ok.injEq, Prod.mk.injEq] at g3
    have hyd : y = '.'.toNat := by simpa using t1
    subst hyd
    right
    exact ⟨by omega, hy⟩

/-! ### The keyword reader in front of a quote -/

theorem is_identifier_of_nondigit {x : Nat} (h : is_identifier_nondigit x = true) :
    is_identifier x = true := by
  simp only [is_identifier_nondigit, Bool.or_eq_true] at h
  simp only [is_identifier, isalnum, Bool.or_eq_true]
  tauto

theorem quote_not_identifier {q : Nat} (h : (q == '\''.toNat || q == '\"'.toNat) = true) :
    is_identifier q = false := by
  simp only [Bool.or_eq_true, beq_iff_eq] at h
  rcases h with h | h <;> subst h <;> decide

/-- An identifier character in front of a quote: `read_keyword_or_identifier` gives way to
the readers of character constants and string literals (lexer.c:242). -/
theorem read_keyword_fails_one {line : List Nat} {c x q : Nat} {s2 : string}
    (hrd : rd line c = Res.ok x) (hx : is_identifier_nondigit x = true)
    (happ : APPADV line string_init c = Res.ok (s2, c + 1))
    (hq : rd line (c + 1) = Res.ok q) (hqq : (q == '\''.toNat || q == '\"'.toNat) = true)
    (tok : token) : read_keyword_or_identifier line c tok = Res.ok (-1, c, tok) := by
  have hloop : while_APPADV is_identifier line (loop_bound line) string_init c
      = Res.ok (s2, c + 1) := by
    show while_APPADV is_identifier line (line.length + 1 + 1) string_init c = _
    rw [while_APPADV]
    simp only [hrd, ok_bind, is_identifier_of_nondigit hx, if_true, happ]
    rw [while_APPADV]
    simp only [hq, ok_bind, quote_not_identifier hqq, Bool.false_eq_true, if_false, pure_eq_ok]
  unfold read_keyword_or_identifier
  simp only [hrd, ok_bind, hx, Bool.not_true, error_if_false, hloop, hq, hqq, error_if_true,
    error_bind, reader_exit]

theorem read_keyword_fails_two {line : List Nat} {c x y q : Nat} {s2 s3 : string}
    (hrd : rd line c = Res.ok x) (hx : is_identifier_nondigit x = true)
    (happ : APPADV line string_init c = Res.ok (s2, c + 1))
    (hy : rd line (c + 1) = Res.ok y) (hyi : is_identifier y = true)
    (happ2 : APPADV line s2 (c + 1) = Res.ok (s3, c + 1 + 1))
    (hq : rd line (c + 1 + 1) = Res.ok q) (hqq : (q == '\''.toNat || q == '\"'.toNat) = true)
    (tok : token) : read_keyword_or_identifier line c tok = Res.ok (-1, c, tok) := by
  have hlen := rd_ok_le hq
  obtain ⟨k, hk⟩ : ∃ k, loop_bound line = k + 1 + 1 + 1 :=
    ⟨line.length - 1, by simp only [loop_bound]; omega⟩
  have hloop : while_APPADV is_identifier line (loop_bound line) string_init c
      = Res.ok (s3, c + 1 + 1) := by
    rw [hk, while_APPADV]
    simp only [hrd, ok_bind, is_identifier_of_nondigit hx, if_true, happ]
    rw [while_APPADV]
    simp only [hy, ok_bind, hyi, if_true, happ2]
    rw [while_APPADV]
    simp only [hq, ok_bind, quote_not_identifier hqq, Bool.false_eq_true, if_false, pure_eq_ok]
  unfold read_keyword_or_identifier
  simp only [hrd, ok_bind, hx, Bool.not_true, error_if_false, hloop, hq, hqq, error_if_true,
    error_bind, reader_exit]

theorem encoding_letter {x : Nat}
    (h : (x == 'L'.toNat || x == 'u'.toNat || x == 'U'.toNat) = true) :
    is_identifier_nondigit x = true ∧ isdigit x = false ∧ (x == '.'.toNat) = false
      ∧ (x == '\''.toNat) = false ∧ (x == '\"'.toNat) = false := by
  simp only [Bool.or_eq_true, beq_iff_eq] at h
  rcases h with (h | h) | h <;> subst h <;> decide

/-- The opening a character constant was read with. -/
theorem character_opening_shape {line : List Nat} {c c1 : Nat} {s1 : string}
    (h : read_character_constant.opening line string_init c = Res.ok (s1, c1)) :
    ∃ x, rd line c = Res.ok x ∧ ((x == '\''.toNat) = true
      ∨ ((x == 'L'.toNat || x == 'u'.toNat || x == 'U'.toNat) = true
        ∧ ∃ s2, APPADV line string_init c = Res.ok (s2, c + 1)
          ∧ rd line (c + 1) = Res.ok '\''.toNat)) := by
  unfold read_character_constant.opening at h
  obtain ⟨x, hx, g1⟩ := bind_eq_ok h
  clear h
  refine ⟨x, hx, ?_⟩
  by_cases hq : (x == '\''.toNat) = true
  · exact Or.inl hq
  · simp only [hq, Bool.false_eq_true, if_false] at g1
    obtain ⟨enc, henc, g2⟩ := bind_eq_ok g1
    clear g1
    cases enc with
    | false => simp [goto_error] at g2
    | true =>
      simp only [if_true] at g2
      obtain ⟨⟨s2, c2⟩, h2, -⟩ := bind_eq_ok g2
      obtain ⟨hc2, -⟩ := APPADV_step h2
      subst hc2
      obtain ⟨hL, hy⟩ := and_then_true henc
      obtain ⟨y, hy, g4⟩ := bind_eq_ok hy
      simp only [pure_eq_ok, Res.ok.injEq, beq_iff_eq] at g4
      subst g4
      exact Or.inr ⟨hL, s2, h2, hy⟩

/-- The opening a string literal was read with. -/
theorem string_opening_shape {line : List Nat} {c c1 : Nat} {s1 : string}
    (h : read_string_literal.opening line string_init c = Res.ok (s1, c1)) :
    ∃ x, rd line c = Res.ok x ∧ ((x == '\"'.toNat) = true
      ∨ ((x == 'L'.toNat || x == 'u'.toNat || x == 'U'.toNat) = true
        ∧ ∃ s2 y, APPADV line string_init c = Res.ok (s2, c + 1)
          ∧ rd line (c + 1) = Res.ok y
          ∧ (y = '\"'.toNat
            ∨ (y = '8'.toNat ∧ ∃ s3, APPADV line s2 (c + 1) = Res.ok (s3, c + 1 + 1)
                ∧ rd line (c + 1 + 1) = Res.ok '\"'.toNat)))) := by
  unfold read_string_literal.opening at h
  obtain ⟨x, hx, g1⟩ := bind_eq_ok h
  clear h
  refine ⟨x, hx, ?_⟩
  by_cases hq : (x == '\"'.toNat) = true
  · exact Or.inl hq
  · simp only [hq, Bool.false_eq_true, if_false] at g1
    obtain ⟨enc, henc, g2⟩ := bind_eq_ok g1
    clear g1
    cases enc with
    | true =>
      simp only [if_true] at g2
      obtain ⟨⟨s2, c2⟩, h2, -⟩ := bind_eq_ok g2
      obtain ⟨hc2, -⟩ := APPADV_step h2
      subst hc2
      obtain ⟨hL, hy⟩ := and_then_true henc
      obtain ⟨y, hy, g4⟩ := bind_eq_ok hy
      simp only [pure_eq_ok, Res.ok.injEq, beq_iff_eq] at g4
      subst g4
      have hL' : (x == 'L'.toNat || x == 'u'.toNat || x == 'U'.toNat) = true := by
        simp only [Bool.or_eq_true] at hL ⊢
        tauto
      exact Or.inr ⟨hL', s2, _, h2, hy, Or.inl rfl⟩
    | false =>
      simp only [Bool.false_eq_true, if_false] at g2
      obtain ⟨enc8, henc8, g3⟩ := bind_eq_ok g2
      clear g2
      cases enc8 with
      | false => simp [goto_error] at g3
      | true =>
        simp only [if_true] at g3
        obtain ⟨⟨s2, c2⟩, h2, g4⟩ := bind_eq_ok g3
        clear g3
        obtain ⟨hc2, -⟩ := APPADV_step h2
        subst hc2
        obtain ⟨⟨s3, c3⟩, h3, -⟩ := bind_eq_ok g4
        change APPADV line s2 (c + 1) = Res.ok (s3, c3) at h3
        obtain ⟨hc3, -⟩ := APPADV_step h3
        subst hc3
        unfold read_string_literal.u8 at henc8
        obtain ⟨x8, hx8, g6⟩ := bind_eq_ok henc8
        obtain rfl := rd_inj hx hx8
        obtain ⟨hu, g7⟩ := and_then_true g6
        obtain ⟨y, hy, g8⟩ := bind_eq_ok g7
        obtain ⟨h8, g9⟩ := and_then_true g8
        obtain ⟨z, hz, g10⟩ := bind_eq_ok g9
        simp only [pure_eq_ok, Res.ok.injEq, beq_iff_eq] at g10 h8
        subst g10 h8
        have hL' : (x == 'L'.toNat || x == 'u'.toNat || x == 'U'.toNat) = true := by
          simp only [Bool.or_eq_true]
          tauto
        exact Or.inr ⟨hL', s2, _, h2, hy, Or.inr ⟨rfl, s3, h3, hz⟩⟩

/-! ### The integer reader on the text of a floating constant -/

theorem while_APPADV_of_cnt (p : Nat → Bool) {line : List Nat} (fuel : Nat) :
    ∀ {c c1 cnt cnt1 : Nat} {str s1 : string},
      while_APPADV_cnt p line fuel str c cnt = Res.ok (s1, c1, cnt1) →
      while_APPADV p line fuel str c = Res.ok (s1, c1) := by
  induction fuel with
  | zero => intro c c1 cnt cnt1 str s1 h; simp [while_APPADV_cnt] at h
  | succ fuel ih =>
    intro c c1 cnt cnt1 str s1 h
    rw [while_APPADV_cnt] at h
    obtain ⟨x, hx, g⟩ := bind_eq_ok h
    clear h
    rw [while_APPADV]
    by_cases hp : p x = true
    · simp only [hp, if_true] at g
      obtain ⟨⟨s2, c2⟩, h2, g2⟩ := bind_eq_ok g
      simp only [hx, ok_bind, hp, if_true, h2]
      exact ih g2
    · simp only [hp, Bool.false_eq_true, if_false, pure_eq_ok, Res.ok.injEq,
        Prod.mk.injEq] at g
      obtain ⟨q1, q2, -⟩ := g
      subst q1 q2
      simp only [hx, ok_bind, hp, Bool.false_eq_true, if_false, pure_eq_ok]

/-- Where a loop over the characters with `q` runs through, a loop over those with `p`, a
part of them, stops: at the same cursor, or earlier in front of a character with `q`. -/
theorem while_APPADV_part (p q : Nat → Bool) (hpq : ∀ x, p x = true → q x = true)
    {line : List Nat} (fuel : Nat) :
    ∀ {fuel1 c c1 cnt cnt1 : Nat} {str s1 : string}, fuel ≤ fuel1 →
      while_APPADV_cnt q line fuel str c cnt = Res.ok (s1, c1, cnt1) →
      ∃ s2 e y, while_APPADV p line fuel1 str c = Res.ok (s2, e) ∧ c ≤ e
        ∧ rd line e = Res.ok y ∧ p y = false ∧ (q y = true ∨ e = c1) := by
  induction fuel with
  | zero => intro fuel1 c c1 cnt cnt1 str s1 _ h; simp [while_APPADV_cnt] at h
  | succ fuel ih =>
    intro fuel1 c c1 cnt cnt1 str s1 hf h
    rw [while_APPADV_cnt] at h
    obtain ⟨x, hx, g⟩ := bind_eq_ok h
    clear h
    obtain ⟨fuel1, rfl⟩ : ∃ k, fuel1 = k + 1 := ⟨fuel1 - 1, by omega⟩
    rw [while_APPADV]
    rcases Bool.eq_false_or_eq_true (p x) with hp | hp
    · have hq := hpq x hp
      simp only [hq, if_true] at g
      obtain ⟨⟨s2, c2⟩, h2, g2⟩ := bind_eq_ok g
      obtain ⟨hc2, -⟩ := APPADV_step h2
      subst hc2
      obtain ⟨s3, e, y, h3, hle, hy, hpy, hor⟩ := ih (show fuel ≤ fuel1 by omega) g2
      refine ⟨s3, e, y, ?_, by omega, hy, hpy, hor⟩
      simp only [hx, ok_bind, hp, if_true, h2, h3]
    · refine ⟨str, c, x, ?_, Nat.le_refl _, hx, hp, ?_⟩
      · simp only [hx, ok_bind, hp, Bool.false_eq_true, if_false, pure_eq_ok]
      · rcases Bool.eq_false_or_eq_true (q x) with hq | hq
        · exact Or.inl hq
        · simp only [hq, Bool.false_eq_true, if_false, pure_eq_ok, Res.ok.injEq,
            Prod.mk.injEq] at g
          exact Or.inr g.2.1

theorem is_octal_digit_isdigit (x : Nat) (h : is_octal_digit x = true) : isdigit x = true := by
  simp only [is_octal_digit, Bool.or_eq_true, beq_iff_eq] at h
  rcases h with ((((((h | h) | h) | h) | h) | h) | h) | h <;> subst h <;> decide

/-- A character under which no integer constant ends and no integer-suffix starts. -/
theorem digit_blocks_integer {y : Nat} (h : isdigit y = true) :
    (y == 'u'.toNat || y == 'U'.toNat) = false ∧ (y == 'l'.toNat || y == 'L'.toNat) = false
      ∧ (is_identifier y = true ∨ (y == '.'.toNat) = true) := by
  refine ⟨?_, ?_, Or.inl ?_⟩
  · simp only [isdigit, Char.reduceToNat, Bool.and_eq_true, decide_eq_true_eq] at h
    simp only [Char.reduceToNat, Bool.or_eq_false_iff, beq_eq_false_iff_ne]
    omega
  · simp only [isdigit, Char.reduceToNat, Bool.and_eq_true, decide_eq_true_eq] at h
    simp only [Char.reduceToNat, Bool.or_eq_false_iff, beq_eq_false_iff_ne]
    omega
  · simp only [is_identifier, isalnum, h, Bool.or_true, Bool.true_or]

/-- The integer reader behind its digits, under a character that blocks it. -/
theorem read_integer_blocked {line : List Nat} {c e x y : Nat} {s : string}
    (hrd : rd line c = Res.ok x) (hd : isdigit x = true)
    (hdig : read_integer_constant.digits line string_init c = Res.ok (s, e))
    (hy : rd line e = Res.ok y)
    (hb : (y == 'u'.toNat || y == 'U'.toNat) = false
      ∧ (y == 'l'.toNat || y == 'L'.toNat) = false
      ∧ (is_identifier y = true ∨ (y == '.'.toNat) = true)) (tok : token) :
    read_integer_constant line c tok
      = Res.ok (-1, c, { tok with type := TOKEN_INT_CONST }) := by
  obtain ⟨hb1, hb2, hb3⟩ := hb
  have hsuf : read_integer_constant.suffix line s e = Res.ok (s, e) := by
    unfold read_integer_constant.suffix
    simp only [hy, ok_bind, hb1, hb2, Bool.false_eq_true, if_false, pure_eq_ok]
  unfold read_integer_constant
  simp only [hrd, ok_bind, hd, Bool.not_true, error_if_false, hdig, hsuf, hy]
  rcases Bool.eq_false_or_eq_true (is_identifier y) with hi | hi
  · simp only [hi, error_if_true, error_bind, reader_exit]
  · rcases hb3 with h | h
    · rw [h] at hi
      exact absurd hi (by decide)
    · simp only [hi, error_if_false, ok_bind, h, error_if_true, error_bind, reader_exit]

theorem read_integer_digits_error {line : List Nat} {c x : Nat}
    (hrd : rd line c = Res.ok x) (hd : isdigit x = true)
    (hdig : read_integer_constant.digits line string_init c = Res.error) (tok : token) :
    read_integer_constant line c tok
      = Res.ok (-1, c, { tok with type := TOKEN_INT_CONST }) := by
  unfold read_integer_constant
  simp only [hrd, ok_bind, hd, Bool.not_true, error_if_false, hdig, error_bind, reader_exit]

/-- The character behind the leading digits of a decimal floating constant. -/
theorem decimal_stop {line : List Nat} {c c1 : Nat} {str s1 : string}
    (h : read_floating_constant.decimal line str c = Res.ok (s1, c1)) :
    ∃ s3 c3 cnt3 x3,
      while_APPADV_cnt isdigit line (loop_bound line) str c 0 = Res.ok (s3, c3, cnt3)
      ∧ rd line c3 = Res.ok x3
      ∧ ((x3 == '.'.toNat) = true ∨ x3 = 'e'.toNat ∨ x3 = 'E'.toNat) := by
  unfold read_floating_constant.decimal at h
  obtain ⟨⟨s3, c3, cnt3⟩, h3, g1⟩ := bind_eq_ok h
  clear h
  obtain ⟨x3, hx3, g2⟩ := bind_eq_ok g1
  clear g1
  change rd line c3 = Res.ok x3 at hx3
  refine ⟨s3, c3, cnt3, x3, h3, hx3, ?_⟩
  by_cases hdot : (x3 == '.'.toNat) = true
  · exact Or.inl hdot
  · right
    obtain ⟨⟨s4, c4, dso⟩, h4, g3⟩ := bind_eq_ok g2
    clear g2
    simp only [hdot, Bool.false_eq_true, if_false] at h4
    obtain ⟨u, -, g4⟩ := bind_eq_ok h4
    simp only [pure_eq_ok, Res.ok.injEq, Prod.mk.injEq] at g4
    obtain ⟨q1, q2, q3⟩ := g4
    subst q1 q2 q3
    obtain ⟨x4, hx4, g5⟩ := bind_eq_ok g3
    clear g3
    change rd line c3 = Res.ok x4 at hx4
    obtain rfl := rd_inj hx3 hx4
    obtain ⟨u2, hu2, -⟩ := bind_eq_ok g5
    have := error_if_ok hu2
    simp only [Bool.true_and, Bool.and_eq_false_imp, bne_iff_ne, ne_eq,
      bne_eq_false_iff_eq] at this
    by_cases he : x3 = 'e'.toNat
    · exact Or.inl he
    · exact Or.inr (this he)

/-- The character behind the leading digits of a hexadecimal floating constant. -/
theorem hexadecimal_stop {line : List Nat} {c c1 : Nat} {str s1 : string}
    (h : read_floating_constant.hexadecimal line str c = Res.ok (s1, c1)) :
    ∃ s1 s2 s3 c3 cnt3 x3, APPADV line str c = Res.ok (s1, c + 1)
      ∧ APPADV line s1 (c + 1) = Res.ok (s2, c + 1 + 1)
      ∧ while_APPADV_cnt isxdigit line (loop_bound line) s2 (c + 1 + 1) 0
          = Res.ok (s3, c3, cnt3)
      ∧ rd line c3 = Res.ok x3
      ∧ ((x3 == '.'.toNat) = true ∨ x3 = 'p'.toNat ∨ x3 = 'P'.toNat) := by
  unfold read_floating_constant.hexadecimal at h
  obtain ⟨⟨s1, c1'⟩, h1, g0⟩ := bind_eq_ok h
  clear h
  obtain ⟨hc1, -⟩ := APPADV_step h1
  subst hc1
  obtain ⟨⟨s2, c2⟩, h2, g1⟩ := bind_eq_ok g0
  clear g0
  change APPADV line s1 (c + 1) = Res.ok (s2, c2) at h2
  obtain ⟨hc2, -⟩ := APPADV_step h2
  subst hc2
  obtain ⟨⟨s3, c3, cnt3⟩, h3, g2⟩ := bind_eq_ok g1
  clear g1
  change while_APPADV_cnt isxdigit line (loop_bound line) s2 (c + 1 + 1) 0
    = Res.ok (s3, c3, cnt3) at h3
  obtain ⟨x3, hx3, g3⟩ := bind_eq_ok g2
  clear g2
  change rd line c3 = Res.ok x3 at hx3
  refine ⟨s1, s2, s3, c3, cnt3, x3, h1, h2, h3, hx3, ?_⟩
  by_cases hdot : (x3 == '.'.toNat) = true
  · exact Or.inl hdot
  · right
    obtain ⟨⟨s4, c4⟩, h4, g4⟩ := bind_eq_ok g3
    clear g3
    simp only [hdot, Bool.false_eq_true, if_false] at h4
    obtain ⟨u, -, g5⟩ := bind_eq_ok h4
    simp only [pure_eq_ok, Res.ok.injEq, Prod.mk.injEq] at g5
    obtain ⟨q1, q2⟩ := g5
    subst q1 q2
    obtain ⟨x4, hx4, g6⟩ := bind_eq_ok g4
    clear g4
    change rd line c3 = Res.ok x4 at hx4
    obtain rfl := rd_inj hx3 hx4
    obtain ⟨u2, hu2, -⟩ := bind_eq_ok g6
    have := error_if_ok hu2
    simp only [Bool.and_eq_false_imp, bne_iff_ne, ne_eq, bne_eq_false_iff_eq] at this
    by_cases he : x3 = 'p'.toNat
    · exact Or.inl he
    · exact Or.inr (this he)

theorem stop_blocks_integer {y : Nat}
    (h : (y == '.'.toNat) = true ∨ ((y = 'e'.toNat ∨ y = 'E'.toNat)
      ∨ (y = 'p'.toNat ∨ y = 'P'.toNat))) :
    (y == 'u'.toNat || y == 'U'.toNat) = false ∧ (y == 'l'.toNat || y == 'L'.toNat) = false
      ∧ (is_identifier y = true ∨ (y == '.'.toNat) = true) := by
  rcases h with h | (h | h) | (h | h)
  · have hy : y = '.'.toNat := by simpa using h
    subst hy
    exact ⟨by decide, by decide, Or.inr (by decide)⟩
  all_goals
    subst h
    exact ⟨by decide, by decide, Or.inl (by decide)⟩

/-- Where `read_floating_constant` returns 0, `read_integer_constant` returns -1: behind the
digits that the two share stands a period or an exponent letter, or a digit that is not
octal. -/
theorem read_integer_fails_at_floating {line : List Nat} {c c1 : Nat} {tok tok1 : token}
    (h : read_floating_constant line c tok = Res.ok (0, c1, tok1)) (tok2 : token) :
    read_integer_constant line c tok2
      = Res.ok (-1, c, { tok2 with type := TOKEN_INT_CONST }) := by
  have h := reader_exit_zero h
  obtain ⟨x, hx, g1⟩ := bind_eq_ok h
  clear h
  obtain ⟨hex, hhex, g2⟩ := bind_eq_ok g1
  clear g1
  obtain ⟨⟨s5, c5⟩, h5, -⟩ := bind_eq_ok g2
  clear g2
  rcases Bool.eq_false_or_eq_true (isdigit x) with hd | hd
  swap
  · exact read_integer_fails_first hx hd tok2
  cases hex with
  | true =>
    simp only [if_true] at h5
    obtain ⟨hx0, hy0⟩ := and_then_true hhex
    obtain ⟨y, hy, hyx⟩ := bind_eq_ok hy0
    simp only [pure_eq_ok, Res.ok.injEq] at hyx
    obtain ⟨s1, s2, s3, c3, cnt3, x3, a1, a2, a3, hx3, hstop⟩ := hexadecimal_stop h5
    have hloop := while_APPADV_of_cnt isxdigit _ a3
    have hle3 := rd_ok_le hx3
    have hnz : is_nonzero_digit x = false := by
      have : x = '0'.toNat := by simpa using hx0
      subst this
      decide
    have hdigits : ∀ r, (do
        let p ← rd line (c3 - 1)
        error_if (p == 'x'.toNat || p == 'X'.toNat)
        pure (s3, c3)) = r → read_integer_constant.digits line string_init c = r := by
      intro r hr
      unfold read_integer_constant.digits
      simp only [hx, ok_bind, hnz, Bool.false_eq_true, if_false, hx0, if_true, a1, hy, hyx,
        a2, hloop]
      exact hr
    rw [rd_drop (show c3 - 1 ≤ line.length by omega)] at hdigits
    simp only [ok_bind] at hdigits
    rcases Bool.eq_false_or_eq_true ((line.drop (c3 - 1)).headD 0 == 'x'.toNat
        || (line.drop (c3 - 1)).headD 0 == 'X'.toNat) with hp | hp
    · exact read_integer_digits_error hx hd
        (hdigits Res.error (by simp only [hp, error_if_true, error_bind])) tok2
    · refine read_integer_blocked hx hd
        (hdigits (Res.ok (s3, c3)) (by simp only [hp, error_if_false, ok_bind, pure_eq_ok])) hx3
        (stop_blocks_integer ?_) tok2
      rcases hstop with h | h | h
      · exact Or.inl h
      · exact Or.inr (Or.inr (Or.inl h))
      · exact Or.inr (Or.inr (Or.inr h))
  | false =>
    simp only [Bool.false_eq_true, if_false] at h5
    obtain ⟨s3, c3, cnt3, x3, a3, hx3, hstop⟩ := decimal_stop h5
    have hblock := stop_blocks_integer (y := x3) (by
      rcases hstop with h | h | h
      · exact Or.inl h
      · exact Or.inr (Or.inl (Or.inl h))
      · exact Or.inr (Or.inl (Or.inr h)))
    rcases Bool.eq_false_or_eq_true (is_nonzero_digit x) with hnz | hnz
    · have hloop := while_APPADV_of_cnt isdigit _ a3
      have hdig : read_integer_constant.digits line string_init c = Res.ok (s3, c3) := by
        unfold read_integer_constant.digits
        simp only [hx, ok_bind, hnz, if_true, hloop]
      exact read_integer_blocked hx hd hdig hx3 hblock tok2
    · have hx0 : (x == '0'.toNat) = true := by
        simp only [is_nonzero_digit, hd, Bool.true_and, bne_eq_false_iff_eq] at hnz
        simpa using hnz
      have hy0 : (do
          let y ← rd line (c + 1)
          pure (y == 'x'.toNat || y == 'X'.toNat)) = Res.ok false := by
        rcases and_then_false hhex with h | ⟨-, h⟩
        · rw [hx0] at h
          exact absurd h (by decide)
        · exact h
      obtain ⟨y, hy, hyx⟩ := bind_eq_ok hy0
      simp only [pure_eq_ok, Res.ok.injEq] at hyx
      have a3' : while_APPADV_cnt isdigit line (line.length + 1 + 1) string_init c 0
          = Res.ok (s3, c3, cnt3) := a3
      rw [while_APPADV_cnt] at a3'
      simp only [hx, ok_bind, hd, if_true] at a3'
      obtain ⟨⟨s1, c1'⟩, a1, a4⟩ := bind_eq_ok a3'
      obtain ⟨hc1, -⟩ := APPADV_step a1
      subst hc1
      obtain ⟨s2, e, y2, hloop, -, hy2, hp2, hor⟩ :=
        while_APPADV_part is_octal_digit isdigit is_octal_digit_isdigit _
          (show line.length + 1 ≤ loop_bound line by simp only [loop_bound]; omega) a4
      have hdig : read_integer_constant.digits line string_init c = Res.ok (s2, e) := by
        unfold read_integer_constant.digits
        simp only [hx, ok_bind, hnz, Bool.false_eq_true, if_false, hx0, if_true, a1, hy, hyx,
          hloop]
      refine read_integer_blocked hx hd hdig hy2 ?_ tok2
      rcases hor with h | h
      · exact digit_blocks_integer h
      · subst h
        obtain rfl := rd_inj hy2 hx3
        exact hblock

/-! ### The readers in front of the one that succeeds -/

theorem not_identifier_facts {x : Nat} (h : is_identifier x = false) :
    is_identifier_nondigit x = false ∧ isdigit x = false
      ∧ (x == 'L'.toNat || x == 'u'.toNat || x == 'U'.toNat) = false
      ∧ (x == 'u'.toNat || x == 'U'.toNat || x == 'L'.toNat) = false := by
  have h1 : is_identifier_nondigit x = false := by
    rcases Bool.eq_false_or_eq_true (is_identifier_nondigit x) with h1 | h1
    · rw [is_identifier_of_nondigit h1] at h
      exact absurd h (by decide)
    · exact h1
  have h2 : isdigit x = false := by
    rcases Bool.eq_false_or_eq_true (isdigit x) with h2 | h2
    · rw [(digit_blocks_integer h2).2.2.resolve_right (by
        intro hd
        have hx : x = '.'.toNat := by simpa using hd
        rw [hx] at h2
        exact absurd h2 (by decide))] at h
      exact absurd h (by decide)
    · exact h2
  have h3 : (x == 'L'.toNat || x == 'u'.toNat || x == 'U'.toNat) = false := by
    rcases Bool.eq_false_or_eq_true (x == 'L'.toNat || x == 'u'.toNat || x == 'U'.toNat)
      with h3 | h3
    · rw [(encoding_letter h3).1] at h1
      exact absurd h1 (by decide)
    · exact h3
  refine ⟨h1, h2, h3, ?_⟩
  simp only [Bool.or_eq_false_iff] at h3 ⊢
  exact ⟨⟨h3.1.2, h3.2⟩, h3.1.1⟩

theorem digit_not_nondigit {x : Nat} (h : isdigit x = true) :
    is_identifier_nondigit x = false := by
  simp only [isdigit, Char.reduceToNat, Bool.and_eq_true, decide_eq_true_eq] at h
  simp only [is_identifier_nondigit, isalpha, Char.reduceToNat, Bool.or_eq_false_iff,
    Bool.and_eq_false_imp, decide_eq_true_eq, decide_eq_false_iff_not, beq_eq_false_iff_ne]
  omega

theorem integer_success_first {line : List Nat} {c c1 : Nat} {tok tok1 : token}
    (h : read_integer_constant line c tok = Res.ok (0, c1, tok1)) :
    ∃ x, rd line c = Res.ok x ∧ isdigit x = true := by
  have h := reader_exit_zero h
  obtain ⟨x, hx, g1⟩ := bind_eq_ok h
  obtain ⟨u, hu, -⟩ := bind_eq_ok g1
  exact ⟨x, hx, by simpa using error_if_ok hu⟩

theorem floating_success_first {line : List Nat} {c c1 : Nat} {tok tok1 : token}
    (h : read_floating_constant line c tok = Res.ok (0, c1, tok1)) :
    ∃ x, rd line c = Res.ok x ∧ is_identifier_nondigit x = false := by
  obtain ⟨x, hx, -⟩ := bind_eq_ok (reader_exit_zero h)
  refine ⟨x, hx, ?_⟩
  rcases Bool.eq_false_or_eq_true (isdigit x) with hd | hd
  · exact digit_not_nondigit hd
  · rcases Bool.eq_false_or_eq_true (x == '.'.toNat) with hdot | hdot
    · have hxd : x = '.'.toNat := by simpa using hdot
      rw [hxd]
      decide
    · rw [read_floating_fails_first hx hd hdot tok] at h
      simp at h

theorem fails_before_integer {line : List Nat} {c c1 : Nat} {tok tok1 : token}
    (h : read_integer_constant line c tok = Res.ok (0, c1, tok1)) (t : token) :
    read_keyword_or_identifier line c t = Res.ok (-1, c, t) := by
  obtain ⟨x, hx, hd⟩ := integer_success_first h
  exact read_keyword_fails_first hx (digit_not_nondigit hd) t

theorem fails_before_floating {line : List Nat} {c c1 : Nat} {tok tok1 : token}
    (h : read_floating_constant line c tok = Res.ok (0, c1, tok1)) :
    (∀ t, read_keyword_or_identifier line c t = Res.ok (-1, c, t))
    ∧ ∀ t, read_integer_constant line c t
        = Res.ok (-1, c, { t with type := TOKEN_INT_CONST }) := by
  obtain ⟨x, hx, hnd⟩ := floating_success_first h
  exact ⟨fun t => read_keyword_fails_first hx hnd t,
    fun t => read_integer_fails_at_floating h t⟩

theorem quote_facts {x : Nat} (h : (x == '\''.toNat) = true ∨ (x == '\"'.toNat) = true) :
    is_identifier_nondigit x = false ∧ isdigit x = false ∧ (x == '.'.toNat) = false
      ∧ (x == 'L'.toNat || x == 'u'.toNat || x == 'U'.toNat) = false := by
  rcases h with h | h
  · have hx : x = '\''.toNat := by simpa using h
    subst hx
    exact ⟨by decide, by decide, by decide, by decide⟩
  · have hx : x = '\"'.toNat := by simpa using h
    subst hx
    exact ⟨by decide, by decide, by decide, by decide⟩

theorem fails_before_character {line : List Nat} {c c1 : Nat} {tok tok1 : token}
    (h : read_character_constant line c tok = Res.ok (0, c1, tok1)) :
    (∀ t, read_keyword_or_identifier line c t = Res.ok (-1, c, t))
    ∧ (∀ t, read_integer_constant line c t
        = Res.ok (-1, c, { t with type := TOKEN_INT_CONST }))
    ∧ ∀ t, read_floating_constant line c t
        = Res.ok (-1, c, { t with type := TOKEN_FLOAT_CONST }) := by
  obtain ⟨⟨s2, c2⟩, h2, -⟩ := bind_eq_ok (reader_exit_zero h)
  obtain ⟨x, hx, hq | ⟨hl, s3, happ, hy⟩⟩ := character_opening_shape h2
  · obtain ⟨f1, f2, f3, -⟩ := quote_facts (Or.inl hq)
    exact ⟨fun t => read_keyword_fails_first hx f1 t,
      fun t => read_integer_fails_first hx f2 t,
      fun t => read_floating_fails_first hx f2 f3 t⟩
  · obtain ⟨f1, f2, f3, -, -⟩ := encoding_letter hl
    exact ⟨fun t => read_keyword_fails_one hx f1 happ hy (by decide) t,
      fun t => read_integer_fails_first hx f2 t,
      fun t => read_floating_fails_first hx f2 f3 t⟩

theorem fails_before_string {line : List Nat} {c c1 : Nat} {tok tok1 : token}
    (h : read_string_literal line c tok = Res.ok (0, c1, tok1)) :
    (∀ t, read_keyword_or_identifier line c t = Res.ok (-1, c, t))
    ∧ (∀ t, read_integer_constant line c t
        = Res.ok (-1, c, { t with type := TOKEN_INT_CONST }))
    ∧ (∀ t, read_floating_constant line c t
        = Res.ok (-1, c, { t with type := TOKEN_FLOAT_CONST }))
    ∧ ∀ t, read_character_constant line c t
        = Res.ok (-1, c, { t with type := TOKEN_CHAR_CONST }) := by
  obtain ⟨⟨s2, c2⟩, h2, -⟩ := bind_eq_ok (reader_exit_zero h)
  obtain ⟨x, hx, hq | ⟨hl, s3, y, happ, hy, hyq⟩⟩ := string_opening_shape h2
  · obtain ⟨f1, f2, f3, f4⟩ := quote_facts (Or.inr hq)
    have f5 : (x == '\''.toNat) = false := by
      have hxq : x = '\"'.toNat := by simpa using hq
      rw [hxq]
      decide
    exact ⟨fun t => read_keyword_fails_first hx f1 t,
      fun t => read_integer_fails_first hx f2 t,
      fun t => read_floating_fails_first hx f2 f3 t,
      fun t => read_character_fails_of hx f5 (Or.inl f4) t⟩
  · obtain ⟨f1, f2, f3, f5, -⟩ := encoding_letter hl
    refine ⟨fun t => ?_, fun t => read_integer_fails_first hx f2 t,
      fun t => read_floating_fails_first hx f2 f3 t, fun t => ?_⟩
    · rcases hyq with hyq | ⟨hy8, s4, happ2, hz⟩
      · subst hyq
        exact read_keyword_fails_one hx f1 happ hy (by decide) t
      · subst hy8
        exact read_keyword_fails_two hx f1 happ hy (by decide) happ2 hz (by decide) t
    · refine read_character_fails_of hx f5 (Or.inr ⟨y, hy, ?_⟩) t
      rcases hyq with hyq | ⟨hy8, -⟩
      · subst hyq
        decide
      · subst hy8
        decide

theorem fails_before_punctuator {line : List Nat} {c n : Nat} {tok tok1 : token}
    (h : read_punctuator line c tok = Res.ok (0, c + n, tok1))
    (hend : ∃ y, rd line (c + n) = Res.ok y ∧ inert y = true) :
    (∀ t, read_keyword_or_identifier line c t = Res.ok (-1, c, t))
    ∧ (∀ t, read_integer_constant line c t
        = Res.ok (-1, c, { t with type := TOKEN_INT_CONST }))
    ∧ (∀ t, read_floating_constant line c t
        = Res.ok (-1, c, { t with type := TOKEN_FLOAT_CONST }))
    ∧ (∀ t, read_character_constant line c t
        = Res.ok (-1, c, { t with type := TOKEN_CHAR_CONST }))
    ∧ ∀ t, read_string_literal line c t
        = Res.ok (-1, c, { t with type := TOKEN_STRING_LITERAL }) := by
  obtain ⟨⟨c2, k⟩, h2, g1⟩ := bind_eq_ok (reader_exit_zero h)
  simp only [pure_eq_ok, Res.ok.injEq, Prod.mk.injEq] at g1
  obtain ⟨q1, -⟩ := g1
  change c2 = c + n at q1
  subst q1
  obtain ⟨x, hx, hid, -, hq1, hq2⟩ := punctuator_first h2
  obtain ⟨f1, f2, f3, f4⟩ := not_identifier_facts hid
  refine ⟨fun t => read_keyword_fails_first hx f1 t,
    fun t => read_integer_fails_first hx f2 t, fun t => ?_,
    fun t => read_character_fails_of hx hq1 (Or.inl f3) t,
    fun t => read_string_fails_first hx hq2 f4 t⟩
  rcases Bool.eq_false_or_eq_true (x == '.'.toNat) with hdot | hdot
  · have hxd : x = '.'.toNat := by simpa using hdot
    subst hxd
    rcases punctuator_period h2 hx with hn | ⟨-, hy⟩
    · subst hn
      obtain ⟨y, hy, hin⟩ := hend
      exact read_floating_fails_period hx hy (inert_isdigit hin) t
    · exact read_floating_fails_period hx hy (by decide) t
  · exact read_floating_fails_first hx f2 hdot t

/-! ### The dispatcher on the same text -/

/-- The dispatcher finds on `B` the token it finds on `A`, if `B` shows the same text
followed by a character that ends every token. -/
theorem try_readers_window {A B : List Nat} {c d n : Nat} (W : Window A c B d n)
    {tok0 tok : token}
    (h : try_readers A c tok0 = Res.ok (false, c + n, tok)) :
    try_readers B d tok0 = Res.ok (false, d + n, tok) := by
  have hm1 : ((-1 : Int) == 0) = false := rfl
  unfold try_readers at h
  obtain ⟨⟨r1, c2, t2⟩, h1, g1⟩ := bind_eq_ok h
  clear h
  by_cases hr1 : r1 = 0
  · subst hr1
    simp only [beq_self_eq_true, if_true, pure_eq_ok, Res.ok.injEq, Prod.mk.injEq, true_and] at g1
    obtain ⟨e1, e2⟩ := g1
    subst e1 e2
    have hB := read_keyword_window W h1
    unfold try_readers
    simp only [hB, ok_bind, beq_self_eq_true, if_true, pure_eq_ok]
  have hb1 : (r1 == 0) = false := beq_false_of_ne hr1
  simp only [hb1, Bool.false_eq_true, if_false] at g1
  obtain ⟨e1, s1⟩ := reader_exit_nonzero h1 hr1
  subst e1 s1
  obtain ⟨⟨r2, c3, t3⟩, h2, g2⟩ := bind_eq_ok g1
  clear g1
  by_cases hr2 : r2 = 0
  · subst hr2
    simp only [beq_self_eq_true, if_true, pure_eq_ok, Res.ok.injEq, Prod.mk.injEq, true_and] at g2
    obtain ⟨e1, e2⟩ := g2
    subst e1 e2
    have hB := read_integer_window W h2
    have hk := fails_before_integer hB
    unfold try_readers
    simp only [hk, hB, ok_bind, hm1, Bool.false_eq_true, if_false, beq_self_eq_true, if_true,
      pure_eq_ok]
  have hb2 : (r2 == 0) = false := beq_false_of_ne hr2
  simp only [hb2, Bool.false_eq_true, if_false] at g2
  obtain ⟨e1, s2⟩ := reader_exit_nonzero h2 hr2
  subst e1 s2
  obtain ⟨⟨r3, c4, t4⟩, h3, g3⟩ := bind_eq_ok g2
  clear g2
  by_cases hr3 : r3 = 0
  · subst hr3
    simp only [beq_self_eq_true, if_true, pure_eq_ok, Res.ok.injEq, Prod.mk.injEq, true_and] at g3
    obtain ⟨e1, e2⟩ := g3
    subst e1 e2
    have hB := read_floating_window W h3
    obtain ⟨hk, hi⟩ := fails_before_floating hB
    unfold try_readers
    simp only [hk, hi, hB, ok_bind, hm1, Bool.false_eq_true, if_false, beq_self_eq_true,
      if_true, pure_eq_ok]
  have hb3 : (r3 == 0) = false := beq_false_of_ne hr3
  simp only [hb3, Bool.false_eq_true, if_false] at g3
  obtain ⟨e1, s3⟩ := reader_exit_nonzero h3 hr3
  subst e1 s3
  obtain ⟨⟨r4, c5, t5⟩, h4, g4⟩ := bind_eq_ok g3
  clear g3
  by_cases hr4 : r4 = 0
  · subst hr4
    simp only [beq_self_eq_true, if_true, pure_eq_ok, Res.ok.injEq, Prod.mk.injEq, true_and] at g4
    obtain ⟨e1, e2⟩ := g4
    subst e1 e2
    have hB := read_character_window W h4
    obtain ⟨hk, hi, hf⟩ := fails_before_character hB
    unfold try_readers
    simp only [hk, hi, hf, hB, ok_bind, hm1, Bool.false_eq_true, if_false, beq_self_eq_true,
      if_true, pure_eq_ok]
  have hb4 : (r4 == 0) = false := beq_false_of_ne hr4
  simp only [hb4, Bool.false_eq_true, if_false] at g4
  obtain ⟨e1, s4⟩ := reader_exit_nonzero h4 hr4
  subst e1 s4
  obtain ⟨⟨r5, c6, t6⟩, h5, g5⟩ := bind_eq_ok g4
  clear g4
  by_cases hr5 : r5 = 0
  · subst hr5
    simp only [beq_self_eq_true, if_true, pure_eq_ok, Res.ok.injEq, Prod.mk.injEq, true_and] at g5
    obtain ⟨e1, e2⟩ := g5
    subst e1 e2
    have hB := read_string_window W h5
    obtain ⟨hk, hi, hf, hc⟩ := fails_before_string hB
    unfold try_readers
    simp only [hk, hi, hf, hc, hB, ok_bind, hm1, Bool.false_eq_true, if_false,
      beq_self_eq_true, if_true, pure_eq_ok]
  have hb5 : (r5 == 0) = false := beq_false_of_ne hr5
  simp only [hb5, Bool.false_eq_true, if_false] at g5
  obtain ⟨e1, s5⟩ := reader_exit_nonzero h5 hr5
  subst e1 s5
  obtain ⟨⟨r6, c7, t7⟩, h6, g6⟩ := bind_eq_ok g5
  clear g5
  by_cases hr6 : r6 = 0
  · subst hr6
    simp only [beq_self_eq_true, if_true, pure_eq_ok, Res.ok.injEq, Prod.mk.injEq, true_and] at g6
    obtain ⟨e1, e2⟩ := g6
    subst e1 e2
    have hB := read_punctuator_window W h6
    obtain ⟨hk, hi, hf, hc, hs⟩ := fails_before_punctuator hB W.2
    unfold try_readers
    simp only [hk, hi, hf, hc, hs, hB, ok_bind, hm1, Bool.false_eq_true, if_false,
      beq_self_eq_true, if_true, pure_eq_ok]
  have hb6 : (r6 == 0) = false := beq_false_of_ne hr6
  simp [hb6] at g6

/-! ### C12: white space around a token -/

theorem rd_append_right (l1 l2 : List Nat) (j : Nat) :
    rd (l1 ++ l2) (l1.length + j) = rd l2 j := by
  unfold rd
  rw [List.append_assoc, List.getElem?_append_right (Nat.le_add_right _ _),
    Nat.add_sub_cancel_left]

theorem rd_append_left {l1 : List Nat} (l2 : List Nat) {i : Nat} (h : i < l1.length) :
    rd (l1 ++ l2) i = rd l1 i := by
  unfold rd
  rw [List.append_assoc, List.getElem?_append_left h, List.getElem?_append_left h]

theorem rd_mem {line : List Nat} {i : Nat} (h : i < line.length) :
    ∃ y, rd line i = Res.ok y ∧ y ∈ line := by
  refine ⟨line.getD i 0, rd_lt h, ?_⟩
  rw [List.getD_eq_getElem _ _ h]
  exact List.getElem_mem h

theorem blank_isspace {x : Nat} (h : x = ' '.toNat ∨ x = '\t'.toNat) : isspace x = true := by
  rcases h with h | h <;> subst h <;> decide

theorem isspace_inert {x : Nat} (h : isspace x = true) : inert x = true := by
  simp only [inert, h, Bool.or_true]

/-- What the loop `while (isspace(*c)) c++;` passes over and where it stops. -/
theorem skip_space_run {line : List Nat} (fuel : Nat) :
    ∀ {c s : Nat}, skip_space line fuel c = Res.ok s →
      c ≤ s ∧ (∀ i, c ≤ i → i < s → ∃ y, rd line i = Res.ok y ∧ isspace y = true)
        ∧ ∃ y, rd line s = Res.ok y ∧ isspace y = false := by
  induction fuel with
  | zero => intro c s h; simp [skip_space] at h
  | succ fuel ih =>
    intro c s h
    rw [skip_space] at h
    obtain ⟨x, hx, g⟩ := bind_eq_ok h
    clear h
    rcases Bool.eq_false_or_eq_true (isspace x) with hsp | hsp
    · simp only [hsp, if_true] at g
      obtain ⟨hle, hall, hstop⟩ := ih g
      refine ⟨by omega, fun i hi1 hi2 => ?_, hstop⟩
      rcases Nat.eq_or_lt_of_le hi1 with he | hlt
      · subst he
        exact ⟨x, hx, hsp⟩
      · exact hall i (by omega) hi2
    · simp only [hsp, Bool.false_eq_true, if_false, pure_eq_ok, Res.ok.injEq] at g
      subst g
      exact ⟨Nat.le_refl _, fun i hi1 hi2 => by omega, x, hx, hsp⟩

/-- The loop `while (isspace(*c)) c++;` passes over a run of white space and stops under the
first character behind it. -/
theorem skip_space_intro {line : List Nat} (fuel : Nat) :
    ∀ {c s : Nat}, c ≤ s → s - c < fuel →
      (∀ i, c ≤ i → i < s → ∃ y, rd line i = Res.ok y ∧ isspace y = true) →
      (∃ y, rd line s = Res.ok y ∧ isspace y = false) →
      skip_space line fuel c = Res.ok s := by
  induction fuel with
  | zero => intro c s _ hf; omega
  | succ fuel ih =>
    intro c s hle hf hall hstop
    rw [skip_space]
    rcases Nat.eq_or_lt_of_le hle with he | hlt
    · subst he
      obtain ⟨y, hy, hsp⟩ := hstop
      simp only [hy, ok_bind, hsp, Bool.false_eq_true, if_false, pure_eq_ok]
    · obtain ⟨y, hy, hsp⟩ := hall c (Nat.le_refl _) hlt
      simp only [hy, ok_bind, hsp, if_true]
      exact ih (by omega) (by omega) (fun i hi1 hi2 => hall i (by omega) hi2) hstop

/-- A line with exactly one token: white space, the token, white space, and the null that
ends the scan. -/
theorem one_token_line {line : List Nat} {tok : token}
    (h : line_tokens line (loop_bound line) 0 = Res.ok (false, [tok])) :
    ∃ s0 x c1 s1, skip_space line (loop_bound line) 0 = Res.ok s0 ∧ rd line s0 = Res.ok x
      ∧ x ≠ 0 ∧ try_readers line s0 fresh_token = Res.ok (false, c1, tok)
      ∧ skip_space line (loop_bound line) c1 = Res.ok s1 ∧ rd line s1 = Res.ok 0 := by
  have h : line_tokens line (line.length + 1 + 1) 0 = Res.ok (false, [tok]) := h
  rw [line_tokens] at h
  obtain ⟨s0, hs0, g1⟩ := bind_eq_ok h
  clear h
  obtain ⟨x, hx, g2⟩ := bind_eq_ok g1
  clear g1
  rcases Bool.eq_false_or_eq_true (x == 0) with hx0 | hx0
  · simp [hx0] at g2
  simp only [hx0, Bool.false_eq_true, if_false] at g2
  obtain ⟨⟨failed, c1, tok1⟩, h3, g3⟩ := bind_eq_ok g2
  clear g2
  cases failed with
  | true => simp at g3
  | false =>
    simp only [Bool.false_eq_true, if_false] at g3
    obtain ⟨⟨failed2, toks⟩, h4, g4⟩ := bind_eq_ok g3
    clear g3
    simp only [pure_eq_ok, Res.ok.injEq, Prod.mk.injEq, List.cons.injEq] at g4
    obtain ⟨q1, q2, q3⟩ := g4
    subst q1 q2 q3
    rw [line_tokens] at h4
    obtain ⟨s1, hs1, g5⟩ := bind_eq_ok h4
    clear h4
    obtain ⟨y, hy, g6⟩ := bind_eq_ok g5
    clear g5
    rcases Bool.eq_false_or_eq_true (y == 0) with hy0 | hy0
    · have hyz : y = 0 := by simpa using hy0
      subst hyz
      exact ⟨s0, x, c1, s1, hs0, hx, by simpa using hx0, h3, hs1, hy⟩
    · simp only [hy0, Bool.false_eq_true, if_false] at g6
      obtain ⟨⟨failed3, c3, tok3⟩, -, g7⟩ := bind_eq_ok g6
      cases failed3 with
      | true => simp at g7
      | false =>
        simp only [Bool.false_eq_true, if_false] at g7
        obtain ⟨⟨failed4, toks4⟩, -, g8⟩ := bind_eq_ok g7
        simp at g8

theorem one_token_line_intro {line : List Nat} {tok : token} {s0 x c1 s1 : Nat}
    (hs0 : skip_space line (loop_bound line) 0 = Res.ok s0) (hx : rd line s0 = Res.ok x)
    (hx0 : x ≠ 0) (htry : try_readers line s0 fresh_token = Res.ok (false, c1, tok))
    (hs1 : skip_space line (loop_bound line) c1 = Res.ok s1) (hy : rd line s1 = Res.ok 0) :
    line_tokens line (loop_bound line) 0 = Res.ok (false, [tok]) := by
  show line_tokens line (line.length + 1 + 1) 0 = Res.ok (false, [tok])
  rw [line_tokens]
  simp only [hs0, ok_bind, hx, beq_false_of_ne hx0, Bool.false_eq_true, if_false, htry]
  rw [line_tokens]
  simp only [hs1, ok_bind, hy, beq_self_eq_true, if_true, pure_eq_ok]

theorem cells_one {r : Res (Bool × List token)} {tok : token} :
    cells r = Res.ok (false, [some tok]) ↔ r = Res.ok (false, [tok]) := by
  constructor
  · intro h
    unfold cells at h
    obtain ⟨⟨failed, toks⟩, hr, g⟩ := bind_eq_ok h
    simp only [pure_eq_ok, Res.ok.injEq, Prod.mk.injEq] at g
    obtain ⟨q1, q2⟩ := g
    subst q1
    have : toks = [tok] := by
      cases toks with
      | nil => simp at q2
      | cons t ts =>
        cases ts with
        | nil => simpa using q2
        | cons t2 ts => simp at q2
    rw [hr, this]
  · intro h
    rw [h]
    rfl

/-- C12: white space around a token.  If the text `t`, lexed as a line of its own, gives
exactly one token, then with any run of spaces and tabs in front of it and any behind it,
the line gives exactly one token again, and the same one: the same kind and the same
lexeme. -/
theorem whitespace_insensitivity (t a b : List Nat) (tok : token)
    (ha : ∀ x ∈ a, x = ' '.toNat ∨ x = '\t'.toNat)
    (hb : ∀ x ∈ b, x = ' '.toNat ∨ x = '\t'.toNat)
    (h : lexer_tokens [t] = Res.ok (false, [some tok])) :
    lexer_tokens [a ++ t ++ b] = Res.ok (false, [some tok]) := by
  rw [lexer_tokens_line, cells_one] at h ⊢
  obtain ⟨s0, x, c1, s1, hs0, hx, hx0, htry, hs1, hy⟩ := one_token_line h
  obtain ⟨-, hall0, y0, hy0, hsp0⟩ := skip_space_run _ hs0
  obtain ⟨hle1, hall1, -⟩ := skip_space_run _ hs1
  have hlt0 : s0 < t.length := rd_ok_ne_zero hx hx0
  have hlt1 : s0 < c1 := try_readers_progress htry
  have hle2 : s1 ≤ t.length := rd_ok_le hy
  have hlen : (a ++ t ++ b).length = a.length + t.length + b.length := by
    simp only [List.length_append]
  -- reading the padded line
  have hmid : ∀ j, j < t.length → rd (a ++ t ++ b) (a.length + j) = rd t j := by
    intro j hj
    rw [rd_append_left b (by simp only [List.length_append]; omega), rd_append_right]
  have hpre : ∀ i, i < a.length → ∃ y, rd (a ++ t ++ b) i = Res.ok y ∧ isspace y = true := by
    intro i hi
    obtain ⟨y, hy, hmem⟩ := rd_mem hi
    refine ⟨y, ?_, blank_isspace (ha y hmem)⟩
    rw [rd_append_left b (by simp only [List.length_append]; omega), rd_append_left t hi, hy]
  have hpost : ∀ k, k < b.length →
      ∃ y, rd (a ++ t ++ b) (a.length + t.length + k) = Res.ok y ∧ isspace y = true := by
    intro k hk
    obtain ⟨y, hy, hmem⟩ := rd_mem hk
    refine ⟨y, ?_, blank_isspace (hb y hmem)⟩
    rw [← List.length_append, rd_append_right, hy]
  have hend : rd (a ++ t ++ b) (a.length + t.length + b.length) = Res.ok 0 := by
    rw [← hlen]
    exact rd_length _
  -- the first pass over white space
  have hB0 : skip_space (a ++ t ++ b) (loop_bound (a ++ t ++ b)) 0
      = Res.ok (a.length + s0) := by
    refine skip_space_intro _ (Nat.zero_le _) (by simp only [loop_bound, hlen]; omega) ?_ ?_
    · intro i _ hi
      rcases Nat.lt_or_ge i a.length with h1 | h1
      · exact hpre i h1
      · obtain ⟨y, hy, hsp⟩ := hall0 (i - a.length) (Nat.zero_le _) (by omega)
        refine ⟨y, ?_, hsp⟩
        have := hmid (i - a.length) (by omega)
        rwa [show a.length + (i - a.length) = i by omega, hy] at this
    · refine ⟨y0, ?_, hsp0⟩
      rw [hmid s0 hlt0, hy0]
  have hBx : rd (a ++ t ++ b) (a.length + s0) = Res.ok x := by
    rw [hmid s0 hlt0, hx]
  -- the token
  have W : Window t s0 (a ++ t ++ b) (a.length + s0) (c1 - s0) := by
    refine ⟨fun i hi => ?_, ?_⟩
    · rw [Nat.add_assoc, hmid (s0 + i) (by omega)]
    · rw [Nat.add_assoc, show s0 + (c1 - s0) = c1 by omega]
      rcases Nat.lt_or_ge c1 t.length with h1 | h1
      · rw [hmid c1 h1]
        rcases Nat.lt_or_ge c1 s1 with h2 | h2
        · obtain ⟨y, hy1, hsp⟩ := hall1 c1 (Nat.le_refl _) h2
          exact ⟨y, hy1, isspace_inert hsp⟩
        · have : c1 = s1 := by omega
          rw [this]
          exact ⟨0, hy, by decide⟩
      · have hc1 : c1 = t.length := by omega
        rw [hc1]
        rcases Nat.eq_zero_or_pos b.length with h3 | h3
        · have := hend
          rw [h3, Nat.add_zero] at this
          exact ⟨0, this, by decide⟩
        · obtain ⟨y, hy1, hsp⟩ := hpost 0 h3
          exact ⟨y, hy1, isspace_inert hsp⟩
  have htryB : try_readers (a ++ t ++ b) (a.length + s0) fresh_token
      = Res.ok (false, a.length + c1, tok) := by
    have := try_readers_window W
      (show try_readers t s0 fresh_token = Res.ok (false, s0 + (c1 - s0), tok) by
        rw [show s0 + (c1 - s0) = c1 by omega]; exact htry)
    rwa [Nat.add_assoc, show s0 + (c1 - s0) = c1 by omega] at this
  -- the second pass over white space, up to the null that ends the scan
  have hB1 : ∃ s, skip_space (a ++ t ++ b) (loop_bound (a ++ t ++ b)) (a.length + c1)
      = Res.ok s ∧ rd (a ++ t ++ b) s = Res.ok 0 := by
    have hbetween : ∀ i, a.length + c1 ≤ i → i < a.length + s1 →
        ∃ y, rd (a ++ t ++ b) i = Res.ok y ∧ isspace y = true := by
      intro i hi1 hi2
      obtain ⟨y, hy1, hsp⟩ := hall1 (i - a.length) (by omega) (by omega)
      refine ⟨y, ?_, hsp⟩
      have := hmid (i - a.length) (by omega)
      rwa [show a.length + (i - a.length) = i by omega, hy1] at this
    rcases Nat.lt_or_ge s1 t.length with h1 | h1
    · refine ⟨a.length + s1, ?_, by rw [hmid s1 h1, hy]⟩
      refine skip_space_intro _ (by omega) (by simp only [loop_bound, hlen]; omega) hbetween
        ⟨0, by rw [hmid s1 h1, hy], by decide⟩
    · have hs1 : s1 = t.length := by omega
      subst hs1
      refine ⟨a.length + t.length + b.length, ?_, hend⟩
      refine skip_space_intro _ (by omega) (by simp only [loop_bound, hlen]; omega) ?_
        ⟨0, hend, by decide⟩
      intro i hi1 hi2
      rcases Nat.lt_or_ge i (a.length + t.length) with h2 | h2
      · exact hbetween i hi1 h2
      · have := hpost (i - (a.length + t.length)) (by omega)
        rwa [show a.length + t.length + (i - (a.length + t.length)) = i by omega] at this
  obtain ⟨s, hB1, hBy⟩ := hB1
  exact one_token_line_intro hB0 hBx hx0 htryB hB1 hBy

/-- Witness for C12: `0x1F` alone on a line gives one integer constant, and so does the same
text with a space and a tab in front of it and a tab and two spaces behind it. -/
theorem whitespace_insensitivity_witness :
    lexer_tokens [cs "0x1F"]
      = Res.ok (false, [some { type := TOKEN_INT_CONST, str := string_lit (cs "0x1F") }])
    ∧ lexer_tokens [cs " \t" ++ cs "0x1F" ++ cs "\t  "]
      = Res.ok (false, [some { type := TOKEN_INT_CONST, str := string_lit (cs "0x1F") }]) :=
  ⟨by decide,
   whitespace_insensitivity (cs "0x1F") (cs " \t") (cs "\t  ")
    { type := TOKEN_INT_CONST, str := string_lit (cs "0x1F") } (by decide) (by decide)
    (by decide)⟩

/-! ### C11: lexing the lexemes again -/

theorem join_spaces_eq_intercalate (ws : List (List Nat)) :
    join_spaces ws = List.intercalate [' '.toNat] ws := by
  induction ws with
  | nil => rfl
  | cons w ws ih =>
    cases ws with
    | nil => simp [join_spaces, List.intercalate]
    | cons v vs =>
      rw [join_spaces, ih]
      simp [List.intercalate, List.intersperse]

theorem lexeme_string_lit {tok : token} {w : List Nat} (h : tok.str = string_lit w) :
    lexeme tok = w := by
  unfold lexeme
  rw [h]
  simp only [string_lit, List.map_append, List.take_left', List.length_map]
  simp [List.filterMap_map]

theorem lexeme_string_init {tok : token} (h : tok.str = string_init) : lexeme tok = [] := by
  unfold lexeme
  rw [h]
  rfl

/-- Reading the buffer of a line whose cells from cursor `p` on are known. -/
theorem rd_of_drop {B : List Nat} {p : Nat} {v : List Nat} (h : (B ++ [0]).drop p = v)
    {i : Nat} (hi : i < v.length) : rd B (p + i) = Res.ok (v.getD i 0) := by
  unfold rd
  have : (B ++ [0])[p + i]? = v[i]? := by rw [← h, List.getElem?_drop]
  rw [this, List.getElem?_eq_getElem hi, List.getD_eq_getElem _ _ hi]

theorem buffer_cons {B : List Nat} {p x : Nat} {rest : List Nat}
    (h : (B ++ [0]).drop p = x :: rest) :
    rd B p = Res.ok x ∧ (B ++ [0]).drop (p + 1) = rest := by
  refine ⟨?_, ?_⟩
  · have := rd_of_drop h (i := 0) (by simp)
    simpa using this
  · rw [← List.drop_drop, h]
    rfl

theorem drop_length_le {B : List Nat} {p : Nat} {v : List Nat}
    (h : (B ++ [0]).drop p = v) : p + v.length ≤ B.length + 1 ∨ v = [] := by
  rcases Nat.lt_or_ge B.length p with hp | hp
  · right
    rw [← h]
    exact List.drop_eq_nil_of_le (by simp; omega)
  · left
    rw [← h]
    simp
    omega

/-- The loop `while (isspace(*c)) c++;` over `k` spaces. -/
theorem skip_blanks {B : List Nat} (k : Nat) :
    ∀ {fuel p x : Nat} {rest : List Nat}, k < fuel →
      (B ++ [0]).drop p = List.replicate k ' '.toNat ++ x :: rest → isspace x = false →
      skip_space B fuel p = Res.ok (p + k) := by
  induction k with
  | zero =>
    intro fuel p x rest hf h hx
    obtain ⟨fuel, rfl⟩ : ∃ m, fuel = m + 1 := ⟨fuel - 1, by omega⟩
    rw [skip_space]
    simp only [List.replicate_zero, List.nil_append] at h
    simp only [(buffer_cons h).1, ok_bind, hx, Bool.false_eq_true, if_false, pure_eq_ok,
      Nat.add_zero]
  | succ k ih =>
    intro fuel p x rest hf h hx
    obtain ⟨fuel, rfl⟩ : ∃ m, fuel = m + 1 := ⟨fuel - 1, by omega⟩
    rw [skip_space]
    rw [List.replicate_succ, List.cons_append] at h
    obtain ⟨h1, h2⟩ := buffer_cons h
    simp only [h1, ok_bind, show isspace ' '.toNat = true from rfl, if_true]
    rw [ih (by omega) h2 hx]
    congr 1
    omega

/-- The scan of a line ends where only spaces and the terminating null are left. -/
theorem scan_end {B : List Nat} {p k fuel : Nat}
    (h : (B ++ [0]).drop p = List.replicate k ' '.toNat ++ [0]) :
    line_tokens B (fuel + 1) p = Res.ok (false, []) := by
  have hlen : k < loop_bound B := by
    rcases drop_length_le h with h1 | h1
    · simp only [List.length_append, List.length_replicate, List.length_singleton] at h1
      simp only [loop_bound]
      omega
    · simp at h1
  have hskip := skip_blanks k hlen h (by decide)
  have hrd : rd B (p + k) = Res.ok 0 := by
    have := rd_of_drop h (i := k) (by simp)
    rwa [List.getD_append_right _ _ _ _ (by simp), List.length_replicate, Nat.sub_self] at this
  rw [line_tokens]
  simp only [hskip, ok_bind, hrd, beq_self_eq_true, if_true, pure_eq_ok]

/-- No token starts under a character that ends every token. -/
theorem read_punctuator_fails_inert {line : List Nat} {c x : Nat} (hx : rd line c = Res.ok x)
    (hin : inert x = true) (tok : token) :
    read_punctuator line c tok = Res.ok (-1, c, tok) := by
  have htree : read_punctuator.tree line c = Res.error := by
    unfold read_punctuator.tree
    rw [hx, ok_bind]
    simp only [inert_beq hin _ (show 33 ≤ '['.toNat by decide),
      inert_beq hin _ (show 33 ≤ ']'.toNat by decide),
      inert_beq hin _ (show 33 ≤ '('.toNat by decide),
      inert_beq hin _ (show 33 ≤ ')'.toNat by decide),
      inert_beq hin _ (show 33 ≤ '{'.toNat by decide),
      inert_beq hin _ (show 33 ≤ '}'.toNat by decide),
      inert_beq hin _ (show 33 ≤ '.'.toNat by decide),
      inert_beq hin _ (show 33 ≤ '-'.toNat by decide),
      inert_beq hin _ (show 33 ≤ '+'.toNat by decide),
      inert_beq hin _ (show 33 ≤ '&'.toNat by decide),
      inert_beq hin _ (show 33 ≤ '*'.toNat by decide),
      inert_beq hin _ (show 33 ≤ '~'.toNat by decide),
      inert_beq hin _ (show 33 ≤ '!'.toNat by decide),
      inert_beq hin _ (show 33 ≤ '/'.toNat by decide),
      inert_beq hin _ (show 33 ≤ '%'.toNat by decide),
      inert_beq hin _ (show 33 ≤ '<'.toNat by decide),
      inert_beq hin _ (show 33 ≤ '>'.toNat by decide),
      inert_beq hin _ (show 33 ≤ '='.toNat by decide),
      inert_beq hin _ (show 33 ≤ '^'.toNat by decide),
      inert_beq hin _ (show 33 ≤ '|'.toNat by decide),
      inert_beq hin _ (show 33 ≤ '?'.toNat by decide),
      inert_beq hin _ (show 33 ≤ ':'.toNat by decide),
      inert_beq hin _ (show 33 ≤ ';'.toNat by decide),
      inert_beq hin _ (show 33 ≤ ','.toNat by decide),
      inert_beq hin _ (show 33 ≤ '#'.toNat by decide),
      Bool.false_eq_true, if_false, goto_error]
  unfold read_punctuator
  simp only [htree, error_bind, reader_exit]

theorem try_readers_first {line : List Nat} {c c1 : Nat} {tok0 tok : token}
    (h : try_readers line c tok0 = Res.ok (false, c1, tok)) :
    ∃ x, rd line c = Res.ok x ∧ inert x = false := by
  have hm1 : ((-1 : Int) == 0) = false := rfl
  cases hr : rd line c with
  | error =>
    unfold rd at hr
    split at hr <;> simp at hr
  | fault f =>
    unfold try_readers read_keyword_or_identifier at h
    simp [hr, reader_exit] at h
  | ok x =>
    refine ⟨x, rfl, ?_⟩
    rcases Bool.eq_false_or_eq_true (inert x) with hin | hin
    swap
    · exact hin
    exfalso
    have hid := inert_is_identifier hin
    obtain ⟨f1, f2, f3, f4⟩ := not_identifier_facts hid
    have hk := read_keyword_fails_first hr f1
    have hi := read_integer_fails_first hr f2
    have hf := read_floating_fails_first hr f2
      (inert_beq hin _ (show 33 ≤ '.'.toNat by decide))
    have hc := read_character_fails_of hr
      (inert_beq hin _ (show 33 ≤ '\''.toNat by decide)) (Or.inl f3)
    have hs := read_string_fails_first hr
      (inert_beq hin _ (show 33 ≤ '\"'.toNat by decide)) f4
    have hp := read_punctuator_fails_inert hr hin
    unfold try_readers at h
    simp only [hk, hi, hf, hc, hs, hp, ok_bind, hm1, Bool.false_eq_true, if_false,
      pure_eq_ok, Res.ok.injEq, Prod.mk.injEq] at h
    exact absurd h.1 (by decide)

/-- The lexeme of a token that is no punctuator is the text the dispatcher passed over, if
it holds no null. -/
theorem try_readers_text {line : List Nat} {c c1 : Nat} {tok : token}
    (h : try_readers line c fresh_token = Res.ok (false, c1, tok)) (hnul : 0 ∉ lexeme tok)
    (hkind : tok.type < TOKEN_BRACKET_OPEN) :
    c < c1 ∧ c1 ≤ line.length ∧ lexeme tok = (line.drop c).take (c1 - c) := by
  rcases try_readers_ok h with h1 | ⟨t, -, h1 | h1 | h1 | h1 | h1⟩
  · obtain ⟨hcons, -⟩ := read_keyword_or_identifier_ok h1
    exact ⟨hcons.1, hcons.2.1,
      lexeme_string_lit (consumed_lexeme hcons (consumed_null_free hcons hnul))⟩
  · obtain ⟨hcons, -⟩ := read_integer_constant_ok h1
    exact ⟨hcons.1, hcons.2.1,
      lexeme_string_lit (consumed_lexeme hcons (consumed_null_free hcons hnul))⟩
  · obtain ⟨hcons, -⟩ := read_floating_constant_ok h1
    exact ⟨hcons.1, hcons.2.1,
      lexeme_string_lit (consumed_lexeme hcons (consumed_null_free hcons hnul))⟩
  · obtain ⟨hcons, -⟩ := read_character_constant_ok h1
    exact ⟨hcons.1, hcons.2.1,
      lexeme_string_lit (consumed_lexeme hcons (consumed_null_free hcons hnul))⟩
  · obtain ⟨hcons, -⟩ := read_string_literal_ok h1
    exact ⟨hcons.1, hcons.2.1,
      lexeme_string_lit (consumed_lexeme hcons (consumed_null_free hcons hnul))⟩
  · obtain ⟨-, hlo, -, -⟩ := read_punctuator_ok h1
    exact absurd hkind (by omega)

/-- One pass of the inner loop over a line that shows, behind `k` spaces, the text of a token
of another line, followed by a character that ends every token: the pass appends that
token. -/
theorem token_step {A B : List Nat} {c c1 p k y fuel : Nat} {tok : token} {tail : List Nat}
    (hA : try_readers A c fresh_token = Res.ok (false, c1, tok)) (hc1 : c1 ≤ A.length)
    (hB : (B ++ [0]).drop p
      = List.replicate k ' '.toNat ++ ((A.drop c).take (c1 - c) ++ y :: tail))
    (hy : inert y = true) :
    line_tokens B (fuel + 1) p = (do
      let (failed, toks) ← line_tokens B fuel (p + k + (c1 - c))
      pure (failed, tok :: toks)) := by
  have hlt := try_readers_progress hA
  obtain ⟨x, hx, hxin⟩ := try_readers_first hA
  obtain ⟨n, hn⟩ : ∃ n, c1 = c + n := ⟨c1 - c, by omega⟩
  subst hn
  rw [Nat.add_sub_cancel_left] at hB ⊢
  have hwlen : ((A.drop c).take n).length = n := by
    rw [List.length_take, List.length_drop]
    omega
  -- the text on `A`
  have hAdrop : (A ++ [0]).drop c = (A.drop c).take n ++ (A.drop (c + n) ++ [0]) := by
    rw [List.drop_append_of_le_length (by omega), ← List.append_assoc, ← List.drop_drop,
      List.take_append_drop]
  have hArd : ∀ i, i < n → rd A (c + i) = Res.ok (((A.drop c).take n).getD i 0) := by
    intro i hi
    rw [rd_of_drop hAdrop (by rw [List.length_append, hwlen]; omega),
      List.getD_append _ _ _ _ (by rw [hwlen]; exact hi)]
  -- the text on `B`
  have hBdrop : (B ++ [0]).drop (p + k) = (A.drop c).take n ++ y :: tail := by
    rw [← List.drop_drop, hB, List.drop_left' (List.length_replicate _ _)]
  have hBrd : ∀ i, i < n → rd B (p + k + i) = Res.ok (((A.drop c).take n).getD i 0) := by
    intro i hi
    rw [rd_of_drop hBdrop (by rw [List.length_append, hwlen]; omega),
      List.getD_append _ _ _ _ (by rw [hwlen]; exact hi)]
  have hBend : rd B (p + k + n) = Res.ok y := by
    rw [rd_of_drop hBdrop (by simp [hwlen]),
      List.getD_append_right _ _ _ _ (by rw [hwlen]), hwlen, Nat.sub_self]
    rfl
  have W : Window A c B (p + k) n :=
    ⟨fun i hi => by rw [hArd i hi, hBrd i hi], y, hBend, hy⟩
  have htry := try_readers_window W hA
  have hBx : rd B (p + k) = Res.ok x := by
    have h1 := hBrd 0 (by omega)
    have h2 := hArd 0 (by omega)
    rw [Nat.add_zero] at h1 h2
    rw [h1, ← h2, hx]
  have hx0 : (x == 0) = false := by
    simp only [inert, Bool.or_eq_false_iff] at hxin
    exact hxin.1
  have hxsp : isspace x = false := by
    simp only [inert, Bool.or_eq_false_iff] at hxin
    exact hxin.2
  -- the pass
  have hklt : k < loop_bound B := by
    rcases drop_length_le hB with h1 | h1
    · simp only [List.length_append, List.length_replicate] at h1
      simp only [loop_bound]
      omega
    · simp at h1
  have hBfirst : (B ++ [0]).drop p = List.replicate k ' '.toNat
      ++ x :: (((A.drop c).take n).drop 1 ++ y :: tail) := by
    rw [hB]
    congr 1
    have hne : (A.drop c).take n ≠ [] := by
      intro he
      rw [he] at hwlen
      simp at hwlen
      omega
    obtain ⟨z, zs, hz⟩ := List.exists_cons_of_ne_nil hne
    have h2 := hArd 0 (by omega)
    rw [Nat.add_zero, hx, hz] at h2
    simp only [List.getD_cons_zero, Res.ok.injEq] at h2
    rw [hz, h2]
    rfl
  have hskip := skip_blanks k hklt hBfirst hxsp
  rw [line_tokens]
  simp only [hskip, ok_bind, hBx, hx0, Bool.false_eq_true, if_false, htry]

theorem join_spaces_cons (w : List Nat) (ws : List (List Nat)) :
    ∃ k y tail, join_spaces (w :: ws) ++ [0] = w ++ y :: tail ∧ inert y = true
      ∧ y :: tail = List.replicate k ' '.toNat ++ (join_spaces ws ++ [0]) := by
  cases ws with
  | nil => exact ⟨0, 0, [], rfl, by decide, rfl⟩
  | cons v vs =>
    refine ⟨1, ' '.toNat, join_spaces (v :: vs) ++ [0], ?_, by decide, rfl⟩
    rw [join_spaces, List.append_assoc]
    rfl

/-- The inner loop over a line that shows, from cursor `p` on, `k` spaces and then the
lexemes of tokens that `lexer` returned, joined by single spaces: the loop appends those of
the tokens that are no punctuators, and leaves at the terminating null. -/
theorem relex_scan (toks : List token) :
    (∀ tok ∈ toks, ∃ A c c1, 0 ∉ lexeme tok
      ∧ try_readers A c fresh_token = Res.ok (false, c1, tok)) →
    ∀ (B : List Nat) (p k fuel : Nat),
      (B ++ [0]).drop p
        = List.replicate k ' '.toNat ++ (join_spaces (toks.map lexeme) ++ [0]) →
      B.length + 1 - p < fuel →
      line_tokens B fuel p = Res.ok (false, toks.filter token.carries_text) := by
  induction toks with
  | nil =>
    intro _ B p k fuel hB hfuel
    obtain ⟨fuel, rfl⟩ : ∃ m, fuel = m + 1 := ⟨fuel - 1, by omega⟩
    exact scan_end hB
  | cons t rest ih =>
    intro hlexed B p k fuel hB hfuel
    obtain ⟨A, c, c1, hnul, hA⟩ := hlexed t (List.mem_cons_self _ _)
    have ih := ih (fun tok hm => hlexed tok (List.mem_cons_of_mem _ hm)) B
    have hp : p ≤ B.length := by
      rcases drop_length_le hB with h1 | h1
      · simp only [List.length_append, List.length_singleton] at h1
        omega
      · simp at h1
    rw [List.map_cons] at hB
    obtain ⟨k1, y, tail, hj, hy, htail⟩ := join_spaces_cons (lexeme t) (rest.map lexeme)
    rw [hj] at hB
    rcases try_readers_lexeme hA with ⟨hkind, -⟩ | ⟨hkind, -, hstr⟩
    · -- a token with text
      obtain ⟨hlt, hle, hlex⟩ := try_readers_text hA hnul hkind
      have hcarry : t.carries_text = true := by
        simp only [token.carries_text, decide_eq_true_eq]
        exact hkind
      rw [List.filter_cons_of_pos hcarry]
      obtain ⟨fuel, rfl⟩ : ∃ m, fuel = m + 1 := ⟨fuel - 1, by omega⟩
      rw [hlex] at hB
      rw [token_step hA hle hB hy]
      have hnext : (B ++ [0]).drop (p + k + (c1 - c))
          = List.replicate k1 ' '.toNat ++ (join_spaces (rest.map lexeme) ++ [0]) := by
        have hwlen : ((A.drop c).take (c1 - c)).length = c1 - c := by
          rw [List.length_take, List.length_drop]
          omega
        rw [Nat.add_assoc, ← List.drop_drop, hB, ← List.append_assoc,
          List.drop_left' (by rw [List.length_append, List.length_replicate, hwlen]), htail]
      rw [ih (p + k + (c1 - c)) k1 fuel hnext (by omega)]
      rfl
    · -- a punctuator: no text
      have hcarry : ¬ t.carries_text = true := by
        simp only [token.carries_text, decide_eq_true_eq]
        omega
      rw [List.filter_cons_of_neg hcarry]
      rw [lexeme_string_init hstr, List.nil_append, htail, ← List.append_assoc,
        ← List.replicate_add] at hB
      exact ih p (k + k1) fuel hB hfuel

/-- Every token of a line was returned by the dispatcher at some cursor of the line. -/
theorem line_tokens_lexed {line : List Nat} (fuel : Nat) :
    ∀ {c : Nat} {failed : Bool} {toks : List token},
      line_tokens line fuel c = Res.ok (failed, toks) →
      ∀ tok ∈ toks, ∃ s c1, try_readers line s fresh_token = Res.ok (false, c1, tok) := by
  induction fuel with
  | zero => intro c failed toks h; simp [line_tokens] at h
  | succ fuel ih =>
    intro c failed toks h
    rw [line_tokens] at h
    obtain ⟨s, -, g1⟩ := bind_eq_ok h
    clear h
    obtain ⟨x, -, g2⟩ := bind_eq_ok g1
    clear g1
    rcases Bool.eq_false_or_eq_true (x == 0) with hx0 | hx0
    · simp only [hx0, if_true, pure_eq_ok, Res.ok.injEq, Prod.mk.injEq] at g2
      rw [← g2.2]
      intro tok hm
      simp at hm
    simp only [hx0, Bool.false_eq_true, if_false] at g2
    obtain ⟨⟨fl, c2, tok1⟩, h3, g3⟩ := bind_eq_ok g2
    clear g2
    cases fl with
    | true =>
      simp only [if_true, pure_eq_ok, Res.ok.injEq, Prod.mk.injEq] at g3
      rw [← g3.2]
      intro tok hm
      simp at hm
    | false =>
      simp only [Bool.false_eq_true, if_false] at g3
      obtain ⟨⟨fl2, toks2⟩, h4, g4⟩ := bind_eq_ok g3
      simp only [pure_eq_ok, Res.ok.injEq, Prod.mk.injEq] at g4
      rw [← g4.2]
      intro tok hm
      rcases List.mem_cons.mp hm with he | hm2
      · subst he
        exact ⟨s, c2, h3⟩
      · exact ih h4 tok hm2

theorem file_tokens_lexed (file : List (List Nat)) :
    ∀ {buf : List Nat} {failed : Bool} {toks : List token},
      file_tokens file buf = Res.ok (failed, toks) →
      ∀ tok ∈ toks, ∃ line ∈ buffers buf file, ∃ s c1,
        try_readers line s fresh_token = Res.ok (false, c1, tok) := by
  induction file with
  | nil =>
    intro buf failed toks h
    simp only [file_tokens, pure_eq_ok, Res.ok.injEq, Prod.mk.injEq] at h
    rw [← h.2]
    intro tok hm
    simp at hm
  | cons l rest ih =>
    intro buf failed toks h
    rw [file_tokens] at h
    obtain ⟨⟨fl, toks1⟩, h1, g1⟩ := bind_eq_ok h
    clear h
    have hline := line_tokens_lexed _ h1
    cases fl with
    | true =>
      simp only [if_true, pure_eq_ok, Res.ok.injEq, Prod.mk.injEq] at g1
      rw [← g1.2]
      intro tok hm
      obtain ⟨s, c1, ht⟩ := hline tok hm
      exact ⟨getline buf l, List.mem_cons_self _ _, s, c1, ht⟩
    | false =>
      simp only [Bool.false_eq_true, if_false] at g1
      obtain ⟨⟨fl2, toks2⟩, h2, g2⟩ := bind_eq_ok g1
      simp only [pure_eq_ok, Res.ok.injEq, Prod.mk.injEq] at g2
      rw [← g2.2]
      intro tok hm
      rcases List.mem_append.mp hm with hm1 | hm2
      · obtain ⟨s, c1, ht⟩ := hline tok hm1
        exact ⟨getline buf l, List.mem_cons_self _ _, s, c1, ht⟩
      · obtain ⟨b, hb, s, c1, ht⟩ := ih h2 tok hm2
        exact ⟨b, List.mem_cons_of_mem _ hb, s, c1, ht⟩

theorem cells_ok {r : Res (Bool × List token)} {failed : Bool} {toks : List token}
    (h : cells r = Res.ok (failed, toks.map some)) : r = Res.ok (failed, toks) := by
  unfold cells at h
  obtain ⟨⟨fl, toks1⟩, hr, g⟩ := bind_eq_ok h
  simp only [pure_eq_ok, Res.ok.injEq, Prod.mk.injEq] at g
  obtain ⟨q1, q2⟩ := g
  subst q1
  have := List.map_injective_iff.mpr (Option.some_injective token) q2
  rw [hr, this]

/-- C11 fails on the line `x = 1;`: `lexer` returns an identifier, `=`, an integer constant
and `;`; the two punctuators have the empty lexeme, so the lexemes joined by single spaces
are the line `x  1 `, and lexing that returns the identifier and the integer constant
only: two kinds, not four. -/
theorem relex_loses_punctuators :
    lexer_tokens [cs "x = 1;"] = Res.ok (false,
        [some { type := TOKEN_IDENTIFER, str := string_lit (cs "x") },
         some { type := TOKEN_ASSIGN, str := string_init },
         some { type := TOKEN_INT_CONST, str := string_lit (cs "1") },
         some { type := TOKEN_SEMICOLON, str := string_init }])
    ∧ join_spaces (List.map lexeme
        [{ type := TOKEN_IDENTIFER, str := string_lit (cs "x") },
         { type := TOKEN_ASSIGN, str := string_init },
         { type := TOKEN_INT_CONST, str := string_lit (cs "1") },
         { type := TOKEN_SEMICOLON, str := string_init }]) = cs "x  1 "
    ∧ lexer_tokens [cs "x  1 "] = Res.ok (false,
        [some { type := TOKEN_IDENTIFER, str := string_lit (cs "x") },
         some { type := TOKEN_INT_CONST, str := string_lit (cs "1") }])
    ∧ [TOKEN_IDENTIFER, TOKEN_INT_CONST]
        ≠ [TOKEN_IDENTIFER, TOKEN_ASSIGN, TOKEN_INT_CONST, TOKEN_SEMICOLON] := by
  refine ⟨?_, ?_, ?_, ?_⟩ <;> decide

/-- C11 as amended.  For every input on which `lexer` succeeds with the tokens `toks`, none
of them with a null character in its lexeme (as a literal has that was read across the
terminating null of its line), lexing the single line of their lexemes joined by single
spaces succeeds, and returns exactly those of `toks` that are no punctuators, in order and
unchanged (same kind, same lexeme); the punctuators, whose lexeme is empty, are lost.  So
the sequence of kinds is the same if and only if `toks` holds no punctuator. -/
theorem relex_keeps_all_but_punctuators (file : List (List Nat)) (toks : List token)
    (hnul : ∀ tok ∈ toks, 0 ∉ lexeme tok)
    (h : lexer_tokens file = Res.ok (false, toks.map some)) :
    lexer_tokens [join_spaces (toks.map lexeme)]
        = Res.ok (false, (toks.filter token.carries_text).map some)
    ∧ ((toks.filter token.carries_text).map token.type = toks.map token.type
        ↔ ∀ tok ∈ toks, tok.type < TOKEN_BRACKET_OPEN) := by
  refine ⟨?_, ?_⟩
  · rw [lexer_tokens_eq] at h
    have hfile := cells_ok h
    have hlexed : ∀ tok ∈ toks, ∃ A c c1, 0 ∉ lexeme tok
        ∧ try_readers A c fresh_token = Res.ok (false, c1, tok) := by
      intro tok hm
      obtain ⟨line, -, s, c1, ht⟩ := file_tokens_lexed file hfile tok hm
      exact ⟨line, s, c1, hnul tok hm, ht⟩
    rw [lexer_tokens_line,
      relex_scan toks hlexed (join_spaces (toks.map lexeme)) 0 0 _ rfl
        (by simp only [loop_bound]; omega)]
    rfl
  · constructor
    · intro hk tok hm
      have hlen : (toks.filter token.carries_text).length = toks.length := by
        have := congrArg List.length hk
        simpa using this
      have hall := List.filter_eq_self.mp ((List.filter_sublist _).eq_of_length hlen)
      have := hall tok hm
      simpa [token.carries_text] using this
    · intro hall
      rw [List.filter_eq_self.mpr (fun tok hm => by
        simp only [token.carries_text, decide_eq_true_eq]
        exact hall tok hm)]

/-- Witness for C11 as amended, at the two lines `int x;` and `y = 'a' + 2.5e3;`: nine
tokens, four of them punctuators; lexing the joined lexemes returns the other five. -/
theorem relex_keeps_all_but_punctuators_witness :
    lexer_tokens [cs "int x;\n", cs "y = 'a' + 2.5e3;\n"]
      = Res.ok (false, List.map some
        [{ type := TOKEN_INT, str := string_lit (cs "int") },
         { type := TOKEN_IDENTIFER, str := string_lit (cs "x") },
         { type := TOKEN_SEMICOLON, str := string_init },
         { type := TOKEN_IDENTIFER, str := string_lit (cs "y") },
         { type := TOKEN_ASSIGN, str := string_init },
         { type := TOKEN_CHAR_CONST, str := string_lit (cs "'a'") },
         { type := TOKEN_PLUS, str := string_init },
         { type := TOKEN_FLOAT_CONST, str := string_lit (cs "2.5e3") },
         { type := TOKEN_SEMICOLON, str := string_init }])
    ∧ lexer_tokens [join_spaces (List.map lexeme
        [{ type := TOKEN_INT, str := string_lit (cs "int") },
         { type := TOKEN_IDENTIFER, str := string_lit (cs "x") },
         { type := TOKEN_SEMICOLON, str := string_init },
         { type := TOKEN_IDENTIFER, str := string_lit (cs "y") },
         { type := TOKEN_ASSIGN, str := string_init },
         { type := TOKEN_CHAR_CONST, str := string_lit (cs "'a'") },
         { type := TOKEN_PLUS, str := string_init },
         { type := TOKEN_FLOAT_CONST, str := string_lit (cs "2.5e3") },
         { type := TOKEN_SEMICOLON, str := string_init }])]
      = Res.ok (false, List.map some (List.filter token.carries_text
        [{ type := TOKEN_INT, str := string_lit (cs "int") },
         { type := TOKEN_IDENTIFER, str := string_lit (cs "x") },
         { type := TOKEN_SEMICOLON, str := string_init },
         { type := TOKEN_IDENTIFER, str := string_lit (cs "y") },
         { type := TOKEN_ASSIGN, str := string_init },
         { type := TOKEN_CHAR_CONST, str := string_lit (cs "'a'") },
         { type := TOKEN_PLUS, str := string_init },
         { type := TOKEN_FLOAT_CONST, str := string_lit (cs "2.5e3") },
         { type := TOKEN_SEMICOLON, str := string_init }])) :=
  ⟨by decide,
   (relex_keeps_all_but_punctuators [cs "int x;\n", cs "y = 'a' + 2.5e3;\n"]
        [{ type := TOKEN_INT, str := string_lit (cs "int") },
         { type := TOKEN_IDENTIFER, str := string_lit (cs "x") },
         { type := TOKEN_SEMICOLON, str := string_init },
         { type := TOKEN_IDENTIFER, str := string_lit (cs "y") },
         { type := TOKEN_ASSIGN, str := string_init },
         { type := TOKEN_CHAR_CONST, str := string_lit (cs "'a'") },
         { type := TOKEN_PLUS, str := string_init },
         { type := TOKEN_FLOAT_CONST, str := string_lit (cs "2.5e3") },
         { type := TOKEN_SEMICOLON, str := string_init }]
    (by decide) (by decide)).1⟩

/-! ### C25: the empty character constant -/

theorem APPADV_at {line : List Nat} {c x : Nat} {str s1 : string}
    (hrd : rd line c = Res.ok x) (hs : string_append str x = Res.ok s1) :
    APPADV line str c = Res.ok (s1, c + 1) := by
  unfold APPADV
  simp only [hrd, ok_bind, hs, pure_eq_ok]

/-- Under a quote, `read_c_char_sequence` returns 0 at once: the cursor and the string are
as they were. -/
theorem empty_sequence {line : List Nat} {c : Nat} (str : string)
    (hq : rd line c = Res.ok '\''.toNat) :
    read_c_char_sequence line c str = Res.ok (0, c, str) := by
  unfold read_c_char_sequence
  show (char_sequence_loop '\''.toNat line (line.length + 1 + 1) str c >>= _) = _
  rw [char_sequence_loop]
  simp only [hq, ok_bind, bne_self_eq_false, Bool.false_eq_true, if_false, pure_eq_ok,
    char_sequence_exit]

theorem empty_constant_plain {line : List Nat} {c : Nat} {rest : List Nat} {tok : token}
    (hdrop : line.drop c = '\''.toNat :: '\''.toNat :: rest) (htok : tok.str = string_init) :
    read_character_constant line c tok
        = Res.ok (0, c + 1 + 1, { type := TOKEN_CHAR_CONST, str := string_lit (cs "''") })
    ∧ ∃ s, read_character_constant.opening line string_init c = Res.ok (s, c + 1)
        ∧ read_c_char_sequence line (c + 1) s = Res.ok (0, c + 1, s) := by
  obtain ⟨h0, hd1, -⟩ := drop_cons_rd hdrop
  obtain ⟨h1, -, -⟩ := drop_cons_rd hd1
  obtain ⟨s1, a1, k1⟩ := string_append_holds '\''.toNat string_init_holds (by decide)
  obtain ⟨s2, a2, k2⟩ := string_append_holds '\''.toNat k1 (by decide)
  have hopen : read_character_constant.opening line string_init c = Res.ok (s1, c + 1) := by
    unfold read_character_constant.opening
    simp only [h0, ok_bind, beq_self_eq_true, if_true, APPADV_at h0 a1]
  have hseq := empty_sequence s1 h1
  have hcopy : string_copy string_init s2 = Res.ok (string_lit (cs "''")) :=
    string_copy_holds k2 (by decide) (by decide)
  refine ⟨?_, s1, hopen, hseq⟩
  unfold read_character_constant
  simp only [hopen, ok_bind, hseq, bne_self_eq_false, error_if_false, h1, APPADV_at h1 a2,
    htok, hcopy, pure_eq_ok, reader_exit]

theorem empty_constant_encoded {line : List Nat} {c x : Nat} {rest : List Nat} {tok : token}
    (hx : x = 'L'.toNat ∨ x = 'u'.toNat ∨ x = 'U'.toNat)
    (hdrop : line.drop c = x :: '\''.toNat :: '\''.toNat :: rest)
    (htok : tok.str = string_init) :
    read_character_constant line c tok
        = Res.ok (0, c + 1 + 1 + 1,
            { type := TOKEN_CHAR_CONST, str := string_lit [x, '\''.toNat, '\''.toNat] })
    ∧ ∃ s, read_character_constant.opening line string_init c = Res.ok (s, c + 1 + 1)
        ∧ read_c_char_sequence line (c + 1 + 1) s = Res.ok (0, c + 1 + 1, s) := by
  obtain ⟨h0, hd1, -⟩ := drop_cons_rd hdrop
  obtain ⟨h1, hd2, -⟩ := drop_cons_rd hd1
  obtain ⟨h2, -, -⟩ := drop_cons_rd hd2
  have hxq : (x == '\''.toNat) = false := by
    rcases hx with h | h | h <;> subst h <;> decide
  have hxl : (x == 'L'.toNat || x == 'u'.toNat || x == 'U'.toNat) = true := by
    rcases hx with h | h | h <;> subst h <;> decide
  have hx0 : (0 : Nat) ∉ [x, '\''.toNat, '\''.toNat] := by
    rcases hx with h | h | h <;> subst h <;> decide
  obtain ⟨s1, a1, k1⟩ := string_append_holds x string_init_holds (by decide)
  obtain ⟨s2, a2, k2⟩ := string_append_holds '\''.toNat k1
    (by simp only [List.length_append, List.length_nil, List.length_singleton]; decide)
  obtain ⟨s3, a3, k3⟩ := string_append_holds '\''.toNat k2
    (by simp only [List.length_append, List.length_nil, List.length_singleton]; decide)
  have hopen : read_character_constant.opening line string_init c
      = Res.ok (s2, c + 1 + 1) := by
    unfold read_character_constant.opening
    simp only [h0, ok_bind, hxq, Bool.false_eq_true, if_false, and_then, hxl, if_true, h1,
      pure_eq_ok, beq_self_eq_true, APPADV_at h0 a1, APPADV_at h1 a2]
  have hseq := empty_sequence s2 h2
  have hcopy : string_copy string_init s3
      = Res.ok (string_lit [x, '\''.toNat, '\''.toNat]) :=
    string_copy_holds k3 (by simp) hx0
  refine ⟨?_, s2, hopen, hseq⟩
  unfold read_character_constant
  simp only [hopen, ok_bind, hseq, bne_self_eq_false, error_if_false, h2, APPADV_at h2 a3,
    htok, hcopy, pure_eq_ok, reader_exit]

/-- C25: `read_character_constant` accepts the empty character constant.  Wherever a line
shows one of the openings `'`, `L'`, `u'`, `U'` and at once the closing quote, the reader,
entered there with the reset token, returns 0 with the cursor behind the closing quote, kind
`TOKEN_CHAR_CONST` and as lexeme the opening and the closing quote, whatever follows:
`read_c_char_sequence` returns 0 under the closing quote without having moved the cursor or
touched the string.  Through `lexer`, the lines `''` and `L''` give one character constant
each, and in `c = u'';` it stands between `=` and `;`. -/
theorem empty_character_constant :
    (∀ (line : List Nat) (c : Nat) (op rest : List Nat) (tok : token),
      op ∈ character_openings → line.drop c = op ++ '\''.toNat :: rest →
      tok.str = string_init →
      read_character_constant line c tok
          = Res.ok (0, c + op.length + 1,
              { type := TOKEN_CHAR_CONST, str := string_lit (op ++ ['\''.toNat]) })
      ∧ ∃ s, read_character_constant.opening line string_init c
            = Res.ok (s, c + op.length)
          ∧ read_c_char_sequence line (c + op.length) s = Res.ok (0, c + op.length, s))
    ∧ lexer_tokens [cs "''"] = one_token TOKEN_CHAR_CONST (string_lit (cs "''"))
    ∧ lexer_tokens [cs "L''\n"] = one_token TOKEN_CHAR_CONST (string_lit (cs "L''"))
    ∧ lexer_tokens [cs "c = u'';"] = Res.ok (false,
        [some { type := TOKEN_IDENTIFER, str := string_lit (cs "c") },
         some { type := TOKEN_ASSIGN, str := string_init },
         some { type := TOKEN_CHAR_CONST, str := string_lit (cs "u''") },
         some { type := TOKEN_SEMICOLON, str := string_init }]) := by
  refine ⟨?_, by decide, by decide, by decide⟩
  intro line c op rest tok hop hdrop htok
  simp only [character_openings, List.mem_cons, List.mem_singleton, List.not_mem_nil,
    or_false] at hop
  rcases hop with h | h | h | h <;> subst h
  · exact empty_constant_plain hdrop htok
  · exact empty_constant_encoded (Or.inl rfl) hdrop htok
  · exact empty_constant_encoded (Or.inr (Or.inl rfl)) hdrop htok
  · exact empty_constant_encoded (Or.inr (Or.inr rfl)) hdrop htok

/-- C25 at the line `x = U''+1;`, cursor 4: the reader returns 0 with exit cursor 7 and the
lexeme `U''`. -/
theorem empty_character_constant_witness :
    read_character_constant (cs "x = U''+1;") 4 fresh_token
        = Res.ok (0, 4 + (cs "U'").length + 1,
            { type := TOKEN_CHAR_CONST, str := string_lit (cs "U'" ++ ['\''.toNat]) })
    ∧ ∃ s, read_character_constant.opening (cs "x = U''+1;") string_init 4
          = Res.ok (s, 4 + (cs "U'").length)
        ∧ read_c_char_sequence (cs "x = U''+1;") (4 + (cs "U'").length) s
          = Res.ok (0, 4 + (cs "U'").length, s) :=
  empty_character_constant.1 (cs "x = U''+1;") 4 (cs "U'") (cs "+1;") fresh_token
    (by decide) (by decide) rfl

/-! ### C21: the token sequence is append-only -/

/-- One call of `token_array_append`: the cells in use stay as they are, the token goes
into the next cell, and the block is doubled exactly when it was full. -/
theorem token_array_append_frame {tokarr : token_array} (tok : token) (hwf : tokarr.WF) :
    ∃ tokarr1, token_array_append tokarr tok = Res.ok tokarr1
      ∧ tokarr1.len = tokarr.len + 1
      ∧ (∀ i, i < tokarr.len → tokarr1.tokens[i]? = tokarr.tokens[i]?)
      ∧ tokarr1.tokens[tokarr.len]? = some (some tok)
      ∧ tokarr1.capacity
          = (if tokarr.len = tokarr.capacity then tokarr.capacity * 2 else tokarr.capacity)
      ∧ tokarr1.WF := by
  obtain ⟨hlen, hle, hpos⟩ := hwf
  unfold token_array_append
  by_cases hfull : tokarr.len = tokarr.capacity
  · have hb : (tokarr.len == tokarr.capacity) = true := by simp [hfull]
    have htake : tokarr.tokens.take (tokarr.capacity * 2) = tokarr.tokens :=
      List.take_of_length_le (by omega)
    have hlt : tokarr.len < (tokarr.tokens.take (tokarr.capacity * 2)
        ++ List.replicate (tokarr.capacity * 2 - tokarr.tokens.length) none).length := by
      simp only [List.length_append, List.length_take, List.length_replicate]
      omega
    simp only [hb, if_true, hlt, pure_eq_ok]
    refine ⟨_, rfl, rfl, ?_, ?_, ?_, ?_, ?_, ?_⟩
    · intro i hi
      simp only
      rw [List.getElem?_set_ne (by omega), htake,
        List.getElem?_append_left (by omega)]
    · simp only
      rw [List.getElem?_set_self hlt]
    · simp only [hfull, if_true]
    · simp only [List.length_set, List.length_append, List.length_take, List.length_replicate]
      omega
    · simp only; omega
    · simp only; omega
  · have hb : (tokarr.len == tokarr.capacity) = false := beq_false_of_ne hfull
    have hlt : tokarr.len < tokarr.tokens.length := by omega
    simp only [hb, Bool.false_eq_true, if_false, hlt, if_true, pure_eq_ok]
    refine ⟨_, rfl, rfl, ?_, ?_, ?_, ?_, ?_, ?_⟩
    · intro i hi
      simp only
      rw [List.getElem?_set_ne (by omega)]
    · simp only
      rw [List.getElem?_set_self hlt]
    · simp only [hfull, if_false]
    · simp only [List.length_set]; exact hlen
    · simp only; omega
    · exact hpos

/-- The tokens of a line were read one behind the other. -/
theorem line_tokens_scanned {line : List Nat} (fuel : Nat) :
    ∀ {c : Nat} {failed : Bool} {toks : List token},
      line_tokens line fuel c = Res.ok (failed, toks) → ∃ c1, Scanned line c toks c1 := by
  induction fuel with
  | zero => intro c failed toks h; simp [line_tokens] at h
  | succ fuel ih =>
    intro c failed toks h
    rw [line_tokens] at h
    obtain ⟨s, hs, g1⟩ := bind_eq_ok h
    clear h
    obtain ⟨x, hx, g2⟩ := bind_eq_ok g1
    clear g1
    rcases Bool.eq_false_or_eq_true (x == 0) with hx0 | hx0
    · simp only [hx0, if_true, pure_eq_ok, Res.ok.injEq, Prod.mk.injEq] at g2
      rw [← g2.2]
      exact ⟨c, Scanned.done c⟩
    simp only [hx0, Bool.false_eq_true, if_false] at g2
    obtain ⟨⟨fl, c2, tok1⟩, h3, g3⟩ := bind_eq_ok g2
    clear g2
    cases fl with
    | true =>
      simp only [if_true, pure_eq_ok, Res.ok.injEq, Prod.mk.injEq] at g3
      rw [← g3.2]
      exact ⟨c, Scanned.done c⟩
    | false =>
      simp only [Bool.false_eq_true, if_false] at g3
      obtain ⟨⟨fl2, toks2⟩, h4, g4⟩ := bind_eq_ok g3
      simp only [pure_eq_ok, Res.ok.injEq, Prod.mk.injEq] at g4
      rw [← g4.2]
      obtain ⟨c3, hsc⟩ := ih h4
      exact ⟨c3, Scanned.step c s x c2 c3 tok1 toks2 hs hx (by simpa using hx0) h3 hsc⟩

theorem scanned_located {line : List Nat} {c c1 : Nat} {toks : List token}
    (h : Scanned line c toks c1) (r : Nat) :
    ∃ locs : List located, locs.map located.tok = toks ∧ locs.Pairwise located.before
      ∧ ∀ l ∈ locs, l.row = r ∧ c ≤ l.start ∧ l.start < l.stop
          ∧ try_readers line l.start fresh_token = Res.ok (false, l.stop, l.tok) := by
  induction h with
  | done c => exact ⟨[], rfl, List.Pairwise.nil, fun l hl => by simp at hl⟩
  | step c s x c2 c3 tok toks hskip hrd hx htry _ ih =>
    obtain ⟨locs, hmap, hpair, hall⟩ := ih
    have hcs := skip_space_ge _ hskip
    have hprog := try_readers_progress htry
    refine ⟨⟨r, s, c2, tok⟩ :: locs, by rw [List.map_cons, hmap], ?_, ?_⟩
    · refine List.Pairwise.cons (fun l hl => ?_) hpair
      obtain ⟨h1, h2, -, -⟩ := hall l hl
      exact Or.inr ⟨h1.symm, h2⟩
    · intro l hl
      rcases List.mem_cons.mp hl with he | hm
      · subst he
        exact ⟨rfl, hcs, hprog, htry⟩
      · obtain ⟨h1, h2, h3, h4⟩ := hall l hm
        exact ⟨h1, by omega, h3, h4⟩

theorem file_tokens_located (file : List (List Nat)) :
    ∀ {buf : List Nat} {failed : Bool} {toks : List token} (r : Nat),
      file_tokens file buf = Res.ok (failed, toks) →
      ∃ locs : List located, locs.map located.tok = toks ∧ locs.Pairwise located.before
        ∧ ∀ l ∈ locs, r ≤ l.row ∧ l.start < l.stop
            ∧ ∃ line, (buffers buf file)[l.row - r]? = some line
              ∧ try_readers line l.start fresh_token = Res.ok (false, l.stop, l.tok) := by
  induction file with
  | nil =>
    intro buf failed toks r h
    simp only [file_tokens, pure_eq_ok, Res.ok.injEq, Prod.mk.injEq] at h
    exact ⟨[], by rw [← h.2]; rfl, List.Pairwise.nil, fun l hl => by simp at hl⟩
  | cons line rest ih =>
    intro buf failed toks r h
    rw [file_tokens] at h
    obtain ⟨⟨fl, toks1⟩, h1, g1⟩ := bind_eq_ok h
    clear h
    obtain ⟨c1, hsc⟩ := line_tokens_scanned _ h1
    obtain ⟨locs1, hmap1, hpair1, hall1⟩ := scanned_located hsc r
    have hfirst : ∀ l ∈ locs1, r ≤ l.row ∧ l.start < l.stop
        ∧ ∃ ln, (buffers buf (line :: rest))[l.row - r]? = some ln
          ∧ try_readers ln l.start fresh_token = Res.ok (false, l.stop, l.tok) := by
      intro l hl
      obtain ⟨h1, -, h3, h4⟩ := hall1 l hl
      refine ⟨by omega, h3, getline buf line, ?_, h4⟩
      rw [h1, Nat.sub_self, buffers, List.getElem?_cons_zero]
    cases fl with
    | true =>
      simp only [if_true, pure_eq_ok, Res.ok.injEq, Prod.mk.injEq] at g1
      exact ⟨locs1, by rw [hmap1, g1.2], hpair1, hfirst⟩
    | false =>
      simp only [Bool.false_eq_true, if_false] at g1
      obtain ⟨⟨fl2, toks2⟩, h2, g2⟩ := bind_eq_ok g1
      simp only [pure_eq_ok, Res.ok.injEq, Prod.mk.injEq] at g2
      obtain ⟨locs2, hmap2, hpair2, hall2⟩ := ih (r + 1) h2
      refine ⟨locs1 ++ locs2, by rw [List.map_append, hmap1, hmap2, g2.2], ?_, ?_⟩
      · rw [List.pairwise_append]
        refine ⟨hpair1, hpair2, fun a ha b hb => ?_⟩
        have h1 := (hall1 a ha).1
        have h2 := (hall2 b hb).1
        exact Or.inl (by omega)
      · intro l hl
        rcases List.mem_append.mp hl with hm | hm
        · exact hfirst l hm
        · obtain ⟨h1, h3, ln, h4, h5⟩ := hall2 l hm
          refine ⟨by omega, h3, ln, ?_, h5⟩
          rw [show l.row - r = (l.row - (r + 1)) + 1 by omega, buffers,
            List.getElem?_cons_succ]
          exact h4

/-- The buffer during the scan of a line is what `getline` has made of that line. -/
theorem buffers_row (file : List (List Nat)) :
    ∀ (buf : List Nat) (i : Nat) (b : List Nat), (buffers buf file)[i]? = some b →
      ∃ l0 prev, file[i]? = some l0 ∧ b = getline prev l0 := by
  induction file with
  | nil => intro buf i b h; simp [buffers] at h
  | cons l rest ih =>
    intro buf i b h
    cases i with
    | zero =>
      rw [buffers, List.getElem?_cons_zero] at h
      simp only [Option.some.injEq] at h
      exact ⟨l, buf, List.getElem?_cons_zero, h.symm⟩
    | succ i =>
      rw [buffers, List.getElem?_cons_succ] at h
      obtain ⟨l0, prev, h1, h2⟩ := ih _ i b h
      exact ⟨l0, prev, by rw [List.getElem?_cons_succ]; exact h1, h2⟩

/-- A run of `lexer` that returns, in terms of the tokens of the file. -/
theorem lexer_file_tokens {file : List (List Nat)} {failed : Bool} {tokarr : token_array}
    (h : lexer file = Res.ok (failed, tokarr)) :
    ∃ toks, file_tokens file [] = Res.ok (failed, toks)
      ∧ tokarr.elems = toks.map some := by
  obtain ⟨h1, h2, h3⟩ := scan_lines_tokens file [] token_array_init token_array_init_wf
  unfold lexer at h
  cases hf : file_tokens file [] with
  | error => rw [h2 hf] at h; simp at h
  | fault f => rw [h3 f hf] at h; simp at h
  | ok r =>
    obtain ⟨fl, toks⟩ := r
    obtain ⟨tokarr1, hs, -, helems⟩ := h1 fl toks hf
    rw [hs] at h
    simp only [Res.ok.injEq, Prod.mk.injEq] at h
    obtain ⟨q1, q2⟩ := h
    subst q1 q2
    refine ⟨toks, rfl, ?_⟩
    rw [helems]
    simp [token_array.elems, token_array_init]

/-- C21: the token sequence is append-only with stable indices.  On every `struct
token_array` whose block has `capacity` cells, with `len ≤ capacity` and `capacity ≥ 1`,
`token_array_append` returns; the new sequence has length `len + 1`; its cells `0 .. len-1`
are the old ones, unchanged and in place; cell `len` holds the appended token; and the
capacity is doubled if `len` equalled it and unchanged otherwise.  Hence the tokens `lexer`
returns stand in source order: each was read by the dispatcher at a cursor of the buffer
while a line of the file stood in it (the buffer being what `getline` had made of that
line), and of two tokens the earlier one in the sequence was read during an earlier line, or
during the same line and ends before the later one starts. -/
theorem token_sequence_append_only :
    (∀ (tokarr : token_array) (tok : token), tokarr.WF →
      ∃ tokarr1, token_array_append tokarr tok = Res.ok tokarr1
        ∧ tokarr1.len = tokarr.len + 1
        ∧ (∀ i, i < tokarr.len → tokarr1.tokens[i]? = tokarr.tokens[i]?)
        ∧ tokarr1.tokens[tokarr.len]? = some (some tok)
        ∧ tokarr1.capacity
            = (if tokarr.len = tokarr.capacity then tokarr.capacity * 2 else tokarr.capacity)
        ∧ tokarr1.WF)
    ∧ (∀ (file : List (List Nat)) (failed : Bool) (tokarr : token_array),
      lexer file = Res.ok (failed, tokarr) →
      ∃ locs : List located, tokarr.elems = locs.map (fun l => some l.tok)
        ∧ locs.Pairwise located.before
        ∧ ∀ l ∈ locs, l.start < l.stop
            ∧ ∃ l0 line, file[l.row]? = some l0 ∧ (buffers [] file)[l.row]? = some line
              ∧ (∃ prev, line = getline prev l0)
              ∧ try_readers line l.start fresh_token = Res.ok (false, l.stop, l.tok)) := by
  refine ⟨fun tokarr tok hwf => token_array_append_frame tok hwf, ?_⟩
  intro file failed tokarr h
  obtain ⟨toks, hf, helems⟩ := lexer_file_tokens h
  obtain ⟨locs, hmap, hpair, hall⟩ := file_tokens_located file 0 hf
  refine ⟨locs, ?_, hpair, fun l hl => ?_⟩
  · rw [helems, ← hmap, List.map_map]
    rfl
  · obtain ⟨-, h2, ln, h3, h4⟩ := hall l hl
    rw [Nat.sub_zero] at h3
    obtain ⟨l0, prev, h5, h6⟩ := buffers_row file [] l.row ln h3
    exact ⟨h2, l0, ln, h5, h3, ⟨prev, h6⟩, h4⟩

/-- C21 at a full sequence and at a run of `lexer`: appending to eight tokens in a block of
eight cells doubles the block and keeps the eight; the two lines `a b` and `c` give three
tokens, which stand in source order. -/
theorem token_sequence_append_only_witness :
    (∃ tokarr1, token_array_append
          { len := 8, capacity := 8, tokens := List.replicate 8 (some fresh_token) }
          { type := TOKEN_SEMICOLON, str := string_init } = Res.ok tokarr1
        ∧ tokarr1.len = 8 + 1
        ∧ (∀ i, i < 8 → tokarr1.tokens[i]? = (List.replicate 8 (some fresh_token))[i]?)
        ∧ tokarr1.tokens[8]? = some (some { type := TOKEN_SEMICOLON, str := string_init })
        ∧ tokarr1.capacity = (if 8 = 8 then 8 * 2 else 8)
        ∧ tokarr1.WF)
    ∧ lexer [cs "a b\n", cs "c\n"] = Res.ok (false,
        { len := 3, capacity := 8,
          tokens := [some { type := TOKEN_IDENTIFER, str := string_lit (cs "a") },
            some { type := TOKEN_IDENTIFER, str := string_lit (cs "b") },
            some { type := TOKEN_IDENTIFER, str := string_lit (cs "c") }]
            ++ List.replicate 5 none })
    ∧ ∃ locs : List located,
        token_array.elems
        { len := 3, capacity := 8,
          tokens := [some { type := TOKEN_IDENTIFER, str := string_lit (cs "a") },
            some { type := TOKEN_IDENTIFER, str := string_lit (cs "b") },
            some { type := TOKEN_IDENTIFER, str := string_lit (cs "c") }]
            ++ List.replicate 5 none } = locs.map (fun l => some l.tok)
        ∧ locs.Pairwise located.before
        ∧ ∀ l ∈ locs, l.start < l.stop
            ∧ ∃ l0 line, [cs "a b\n", cs "c\n"][l.row]? = some l0
              ∧ (buffers [] [cs "a b\n", cs "c\n"])[l.row]? = some line
              ∧ (∃ prev, line = getline prev l0)
              ∧ try_readers line l.start fresh_token = Res.ok (false, l.stop, l.tok) :=
  ⟨token_sequence_append_only.1
      { len := 8, capacity := 8, tokens := List.replicate 8 (some fresh_token) }
      { type := TOKEN_SEMICOLON, str := string_init } ⟨by decide, by decide, by decide⟩,
   by decide,
   token_sequence_append_only.2 [cs "a b\n", cs "c\n"] false
        { len := 3, capacity := 8,
          tokens := [some { type := TOKEN_IDENTIFER, str := string_lit (cs "a") },
            some { type := TOKEN_IDENTIFER, str := string_lit (cs "b") },
            some { type := TOKEN_IDENTIFER, str := string_lit (cs "c") }]
            ++ List.replicate 5 none } (by decide)⟩

/-! ### C24: the lexeme is the text between the cursors -/

theorem no_null_of_all (p : Nat → Bool) (hp : ∀ x, p x = true → x ≠ 0) {w : List Nat}
    (h : ∀ x ∈ w, p x = true) : 0 ∉ w :=
  fun hm => hp 0 (h 0 hm) rfl

theorem isdigit_ne_zero {z : Nat} (h : isdigit z = true) : z ≠ 0 := by
  intro hz; subst hz; simp [isdigit] at h

theorem integer_suffixes_no_null : ∀ s ∈ integer_suffixes, 0 ∉ s := by decide

theorem floating_suffixes_no_null : ∀ s ∈ floating_suffixes, 0 ∉ s := by decide

theorem integer_digits_no_null {w : List Nat} (h : integer_digits w = true) : 0 ∉ w := by
  cases w with
  | nil => simp [integer_digits] at h
  | cons d ds =>
    simp only [integer_digits, Bool.or_eq_true, Bool.and_eq_true, List.all_eq_true,
      beq_iff_eq] at h
    rcases h with (⟨hd, hall⟩ | ⟨hd, hall⟩) | ⟨hd, hrest⟩
    · intro hm
      rcases List.mem_cons.mp hm with he | hm2
      · rw [← he] at hd
        exact absurd hd (by decide)
      · exact isdigit_ne_zero (hall 0 hm2) rfl
    · intro hm
      rcases List.mem_cons.mp hm with he | hm2
      · rw [← he] at hd
        exact absurd hd (by decide)
      · exact is_octal_digit_ne_zero (hall 0 hm2) rfl
    · cases ds with
      | nil => simp at hrest
      | cons x hs =>
        simp only [Bool.and_eq_true, Bool.or_eq_true, beq_iff_eq, List.all_eq_true] at hrest
        obtain ⟨⟨hx, -⟩, hall⟩ := hrest
        intro hm
        rcases List.mem_cons.mp hm with he | hm2
        · rw [← he] at hd
          exact absurd hd (by decide)
        · rcases List.mem_cons.mp hm2 with he | hm3
          · rw [← he] at hx
            rcases hx with hx | hx <;> exact absurd hx (by decide)
          · exact isxdigit_ne_zero (hall 0 hm3) rfl

theorem integer_constant_no_null {w : List Nat} (h : integer_constant w) : 0 ∉ w := by
  obtain ⟨digits, suffix, hw, hd, hs⟩ := h
  rw [hw]
  intro hm
  rcases List.mem_append.mp hm with h1 | h1
  · exact integer_digits_no_null hd h1
  · exact integer_suffixes_no_null suffix hs h1

theorem exponent_part_no_null {m1 m2 : Nat} (h1 : m1 ≠ 0) (h2 : m2 ≠ 0) {w : List Nat}
    (h : exponent_part m1 m2 w) : 0 ∉ w := by
  obtain ⟨m, sign, digits, hw, hm, hsign, -, hall⟩ := h
  rw [hw]
  intro hmem
  rcases List.mem_cons.mp hmem with he | hmem2
  · rcases hm with hm | hm
    · exact h1 (by rw [← hm, ← he])
    · exact h2 (by rw [← hm, ← he])
  · rcases List.mem_append.mp hmem2 with h3 | h3
    · rcases hsign with hs | hs | hs <;> rw [hs] at h3 <;> simp at h3
    · exact isdigit_ne_zero (hall 0 h3) rfl

theorem fractional_part_no_null (p : Nat → Bool) (hp : ∀ x, p x = true → x ≠ 0)
    {w : List Nat} (h : fractional_part p w) : 0 ∉ w := by
  obtain ⟨whole, frac, hw, -, h1, h2⟩ := h
  rw [hw]
  intro hm
  rcases List.mem_append.mp hm with h3 | h3
  · exact hp 0 (h1 0 h3) rfl
  · rcases List.mem_cons.mp h3 with he | h4
    · exact absurd he (by decide)
    · exact hp 0 (h2 0 h4) rfl

theorem floating_constant_no_null {w : List Nat} (h : floating_constant w) : 0 ∉ w := by
  obtain ⟨body, suffix, hw, hs, hbody⟩ := h
  rw [hw]
  intro hm
  rcases List.mem_append.mp hm with h1 | h1
  swap
  · exact floating_suffixes_no_null suffix hs h1
  rcases hbody with ⟨ds, ex, hb, hfr, hex⟩ | ⟨ds, ex, hb, hseq, hex⟩
      | ⟨x, hs2, ex, hb, hx, hfr, hex⟩
  · rw [hb] at h1
    rcases List.mem_append.mp h1 with h2 | h2
    · exact fractional_part_no_null isdigit (fun _ => isdigit_ne_zero) hfr h2
    · rcases hex with he | he
      · rw [he] at h2
        simp at h2
      · exact exponent_part_no_null (by decide) (by decide) he h2
  · rw [hb] at h1
    rcases List.mem_append.mp h1 with h2 | h2
    · exact isdigit_ne_zero (hseq.2 0 h2) rfl
    · exact exponent_part_no_null (by decide) (by decide) hex h2
  · rw [hb] at h1
    rcases List.mem_cons.mp h1 with he | h2
    · exact absurd he (by decide)
    rcases List.mem_cons.mp h2 with he | h3
    · rw [← he] at hx
      rcases hx with hx | hx <;> exact absurd hx (by decide)
    rcases List.mem_append.mp h3 with h4 | h4
    · rcases hfr with hf | hf
      · exact fractional_part_no_null isxdigit (fun _ => isxdigit_ne_zero) hf h4
      · exact isxdigit_ne_zero (hf.2 0 h4) rfl
    · exact exponent_part_no_null (by decide) (by decide) hex h4

/-- The text `read_keyword_or_identifier` passes over: identifier characters only. -/
theorem keyword_text {line : List Nat} {c c1 : Nat} {tok tok1 : token}
    (h : read_keyword_or_identifier line c tok = Res.ok (0, c1, tok1)) :
    ∀ x ∈ slice line c c1, is_identifier x = true := by
  have h := reader_exit_zero h
  obtain ⟨x, hx, g1⟩ := bind_eq_ok h
  clear h
  obtain ⟨u, hu, g2⟩ := bind_eq_ok g1
  clear g1
  obtain ⟨⟨s2, c2⟩, h2, g3⟩ := bind_eq_ok g2
  clear g2
  obtain ⟨y, hy, g4⟩ := bind_eq_ok g3
  clear g3
  obtain ⟨u2, hu2, g5⟩ := bind_eq_ok g4
  clear g4
  obtain ⟨tok2, hk, g6⟩ := bind_eq_ok g5
  clear g5
  obtain ⟨s, hs, g7⟩ := bind_eq_ok g6
  clear g6
  simp only [pure_eq_ok, Res.ok.injEq, Prod.mk.injEq] at g7
  obtain ⟨q1, -⟩ := g7
  change c2 = c1 at q1
  subst q1
  exact (while_APPADV_run is_identifier _ h2).2.1

/-- The text `read_integer_constant` passes over is an integer constant. -/
theorem integer_text {line : List Nat} {c c1 : Nat} {tok tok1 : token}
    (h : read_integer_constant line c tok = Res.ok (0, c1, tok1)) :
    integer_constant (slice line c c1) := by
  obtain ⟨x0, c2, s2, s3, hx0, hd, hdig, hsuf, -⟩ := read_integer_constant_run h
  obtain ⟨hlt, -⟩ := digits_shape hdig hx0 hd
  obtain ⟨hle, hmem, -⟩ := suffix_shape hsuf
  exact ⟨slice line c c2, slice line c2 c1, slice_append line (Nat.le_of_lt hlt) hle,
    digits_valid hdig hx0 hd, hmem⟩

/-- The text `read_floating_constant` passes over is a floating constant. -/
theorem floating_text {line : List Nat} {c c1 : Nat} {tok tok1 : token}
    (h : read_floating_constant line c tok = Res.ok (0, c1, tok1)) :
    floating_constant (slice line c c1) := by
  obtain ⟨x0, c5, s5, hx0, hbranch, hle, hsuf, -⟩ := read_floating_constant_run h
  refine ⟨slice line c c5, slice line c5 c1, ?_, hsuf, ?_⟩
  · have hacc := acc_entry line c (by have := rd_ok_le hx0; omega)
    rcases hbranch with ⟨-, -, hb⟩ | ⟨-, hb⟩
    · exact slice_append line (Nat.le_of_lt (hexadecimal_ok hacc hb).1) hle
    · exact slice_append line (Nat.le_of_lt (decimal_ok hacc hb).1) hle
  · rcases hbranch with ⟨hz, ⟨x1, hx1, hxx⟩, hb⟩ | ⟨-, hb⟩
    · subst hz
      obtain ⟨hs, ex, he, hfr, hex⟩ := hexadecimal_valid hb hx0 hx1
      exact Or.inr (Or.inr ⟨x1, hs, ex, he, hxx, hfr, hex⟩)
    · rcases decimal_valid hb with h1 | h2
      · exact Or.inl h1
      · exact Or.inr (Or.inl h2)

/-- A reader that copied a text without null: the token's string is that text. -/
theorem consumed_text {line : List Nat} {c c1 : Nat} {tok tok1 : token}
    (h : Consumed line c tok c1 tok1) (hw : 0 ∉ slice line c c1) :
    c < c1 ∧ c1 ≤ line.length ∧ tok1.str = string_lit (slice line c c1)
      ∧ lexeme tok1 = slice line c c1 ∧ tok1.str.len = c1 - c := by
  have hlen := (consumed_len h).1
  obtain ⟨hlt, hle, str, hholds, hcopy⟩ := h
  have hne : slice line c c1 ≠ [] := slice_ne_nil hlt (by omega)
  rw [string_copy_ok_dest hcopy, string_copy_holds hholds hne hw] at hcopy
  simp only [Res.ok.injEq] at hcopy
  exact ⟨hlt, hle, hcopy.symm, lexeme_string_lit hcopy.symm, hlen⟩

/-- C24: for `read_keyword_or_identifier`, `read_integer_constant` and
`read_floating_constant`, whenever the reader returns 0, entered at cursor `c` and left at
cursor `c1`, the cursor has moved forward inside the line and the token's lexeme is exactly
the text of the line from `c` up to `c1`: every character passed over was appended once, in
order, and copied into the token, so the length of the lexeme is `c1 - c`.  (None of the
three readers passes over a null character, so `strncpy` in `string_copy` copies the whole
text.) -/
theorem lexeme_is_consumed_text (line : List Nat) (c c1 : Nat) (tok tok1 : token)
    (h : read_keyword_or_identifier line c tok = Res.ok (0, c1, tok1)
      ∨ read_integer_constant line c tok = Res.ok (0, c1, tok1)
      ∨ read_floating_constant line c tok = Res.ok (0, c1, tok1)) :
    c < c1 ∧ c1 ≤ line.length ∧ tok1.str = string_lit (slice line c c1)
      ∧ lexeme tok1 = slice line c c1 ∧ tok1.str.len = c1 - c := by
  rcases h with h | h | h
  · exact consumed_text (read_keyword_or_identifier_ok h).1
      (no_null_of_all is_identifier (fun _ => is_identifier_ne_zero) (keyword_text h))
  · exact consumed_text (read_integer_constant_ok h).1
      (integer_constant_no_null (integer_text h))
  · exact consumed_text (read_floating_constant_ok h).1
      (floating_constant_no_null (floating_text h))

/-- C24 at the line `while (n1 <= 0x1FuL) n1 += 1.5e-3f;`: the keyword at cursor 0, the
identifier at cursor 7, the integer constant at cursor 13 and the floating constant at
cursor 27. -/
theorem lexeme_is_consumed_text_witness :
    read_keyword_or_identifier (cs "while (n1 <= 0x1FuL) n1 += 1.5e-3f;") 0 fresh_token
      = Res.ok (0, 5, { type := TOKEN_WHILE, str := string_lit (cs "while") })
    ∧ read_keyword_or_identifier (cs "while (n1 <= 0x1FuL) n1 += 1.5e-3f;") 7 fresh_token
      = Res.ok (0, 9, { type := TOKEN_IDENTIFER, str := string_lit (cs "n1") })
    ∧ read_integer_constant (cs "while (n1 <= 0x1FuL) n1 += 1.5e-3f;") 13 fresh_token
      = Res.ok (0, 19, { type := TOKEN_INT_CONST, str := string_lit (cs "0x1FuL") })
    ∧ read_floating_constant (cs "while (n1 <= 0x1FuL) n1 += 1.5e-3f;") 27 fresh_token
      = Res.ok (0, 34, { type := TOKEN_FLOAT_CONST, str := string_lit (cs "1.5e-3f") })
    ∧ (27 < 34 ∧ 34 ≤ (cs "while (n1 <= 0x1FuL) n1 += 1.5e-3f;").length
      ∧ ({ type := TOKEN_FLOAT_CONST, str := string_lit (cs "1.5e-3f") } : token).str
          = string_lit (slice (cs "while (n1 <= 0x1FuL) n1 += 1.5e-3f;") 27 34)
      ∧ lexeme { type := TOKEN_FLOAT_CONST, str := string_lit (cs "1.5e-3f") }
          = slice (cs "while (n1 <= 0x1FuL) n1 += 1.5e-3f;") 27 34
      ∧ ({ type := TOKEN_FLOAT_CONST, str := string_lit (cs "1.5e-3f") } : token).str.len
          = 34 - 27) :=
  ⟨by decide, by decide, by decide, by decide,
   lexeme_is_consumed_text (cs "while (n1 <= 0x1FuL) n1 += 1.5e-3f;") 27 34 fresh_token
     { type := TOKEN_FLOAT_CONST, str := string_lit (cs "1.5e-3f") }
     (Or.inr (Or.inr (by decide)))⟩

/-! ### C22: the integer and the floating reader exclude each other -/

/-- Where a loop over the characters with `p` stops under a character without `q`, and `p`
is part of `q`, the counting loop over the characters with `q` does the same. -/
theorem while_APPADV_cnt_super (p q : Nat → Bool) (hpq : ∀ x, p x = true → q x = true)
    {line : List Nat} (fuel : Nat) :
    ∀ {fuel1 c c1 cnt z : Nat} {str s1 : string},
      while_APPADV p line fuel str c = Res.ok (s1, c1) → rd line c1 = Res.ok z →
      q z = false → c1 - c < fuel1 →
      while_APPADV_cnt q line fuel1 str c cnt = Res.ok (s1, c1, cnt + (c1 - c)) := by
  induction fuel with
  | zero => intro fuel1 c c1 cnt z str s1 h; simp [while_APPADV] at h
  | succ fuel ih =>
    intro fuel1 c c1 cnt z str s1 h hz hqz hf
    rw [while_APPADV] at h
    obtain ⟨x, hx, g⟩ := bind_eq_ok h
    clear h
    obtain ⟨fuel1, rfl⟩ : ∃ k, fuel1 = k + 1 := ⟨fuel1 - 1, by omega⟩
    rw [while_APPADV_cnt]
    rcases Bool.eq_false_or_eq_true (p x) with hp | hp
    · simp only [hp, if_true] at g
      obtain ⟨⟨s2, c2⟩, h2, g2⟩ := bind_eq_ok g
      obtain ⟨hc2, -⟩ := APPADV_step h2
      subst hc2
      have hle := (while_APPADV_run p _ g2).1
      simp only [hx, ok_bind, hpq x hp, if_true, h2]
      rw [ih g2 hz hqz (by omega)]
      congr 3
      omega
    · simp only [hp, Bool.false_eq_true, if_false, pure_eq_ok, Res.ok.injEq,
        Prod.mk.injEq] at g
      obtain ⟨q1, q2⟩ := g
      subst q1 q2
      obtain rfl := rd_inj hx hz
      simp only [hx, ok_bind, hqz, Bool.false_eq_true, if_false, pure_eq_ok, Nat.sub_self,
        Nat.add_zero]

/-- The character behind the digits of an integer constant: one of `u`, `U`, `l`, `L`, or
one that is neither identifier-continue nor a period.  No floating constant goes on with
it. -/
theorem integer_stop_facts {z : Nat}
    (h : (is_identifier z = false ∧ z ≠ '.'.toNat)
      ∨ z = 'u'.toNat ∨ z = 'U'.toNat ∨ z = 'l'.toNat ∨ z = 'L'.toNat) :
    isdigit z = false ∧ isxdigit z = false ∧ (z == '.'.toNat) = false
      ∧ (z != 'e'.toNat && z != 'E'.toNat) = true
      ∧ (z != 'p'.toNat && z != 'P'.toNat) = true := by
  rcases h with ⟨hid, hdot⟩ | h | h | h | h
  · simp only [is_identifier, isalnum, isalpha, isdigit, Char.reduceToNat,
      Bool.or_eq_false_iff, Bool.and_eq_false_imp, decide_eq_true_eq,
      decide_eq_false_iff_not, beq_eq_false_iff_ne] at hid
    simp only [Char.reduceToNat] at hdot
    refine ⟨?_, ?_, ?_, ?_, ?_⟩
    · simp only [isdigit, Char.reduceToNat, Bool.and_eq_false_imp, decide_eq_true_eq,
        decide_eq_false_iff_not]
      omega
    · simp only [isxdigit, isdigit, Char.reduceToNat, Bool.or_eq_false_iff,
        Bool.and_eq_false_imp, decide_eq_true_eq, decide_eq_false_iff_not]
      omega
    · simp only [Char.reduceToNat, beq_eq_false_iff_ne]
      omega
    · simp only [Char.reduceToNat, Bool.and_eq_true, bne_iff_ne]
      omega
    · simp only [Char.reduceToNat, Bool.and_eq_true, bne_iff_ne]
      omega
  all_goals
    subst h
    exact ⟨by decide, by decide, by decide, by decide, by decide⟩

/-- Where `read_integer_constant` returns 0, `read_floating_constant` returns -1: its digits
end where those of the integer constant end, and neither a period nor an exponent follows. -/
theorem read_floating_fails_at_integer {line : List Nat} {c c1 : Nat} {tok tok1 : token}
    (h : read_integer_constant line c tok = Res.ok (0, c1, tok1)) (tok2 : token) :
    read_floating_constant line c tok2
      = Res.ok (-1, c, { tok2 with type := TOKEN_FLOAT_CONST }) := by
  obtain ⟨x0, c2, s2, s3, hx0, hd, hdig, hsuf, y, hy, hyid, hydot⟩ :=
    read_integer_constant_run h
  obtain ⟨hlt, -⟩ := digits_shape hdig hx0 hd
  obtain ⟨hle, -, hstop⟩ := suffix_shape hsuf
  -- the character behind the digits
  obtain ⟨z, hz, hzf⟩ : ∃ z, rd line c2 = Res.ok z
      ∧ ((is_identifier z = false ∧ z ≠ '.'.toNat)
        ∨ z = 'u'.toNat ∨ z = 'U'.toNat ∨ z = 'l'.toNat ∨ z = 'L'.toNat) := by
    rcases hstop with he | ⟨x, hx, hxs⟩
    · subst he
      exact ⟨y, hy, Or.inl ⟨hyid, hydot⟩⟩
    · exact ⟨x, hx, Or.inr hxs⟩
  obtain ⟨f1, f2, f3, f4, f5⟩ := integer_stop_facts hzf
  have hc2 : c2 ≤ line.length := rd_ok_le hz
  unfold read_integer_constant.digits at hdig
  simp only [hx0, ok_bind] at hdig
  rcases Bool.eq_false_or_eq_true (is_nonzero_digit x0) with hnz | hnz
  · -- a nonzero digit and decimal digits
    simp only [hnz, if_true] at hdig
    have hx00 : (x0 == '0'.toNat) = false := by
      simp only [is_nonzero_digit, Bool.and_eq_true, bne_iff_ne] at hnz
      exact beq_false_of_ne hnz.2
    have hloop : while_APPADV_cnt isdigit line (loop_bound line) string_init c 0
        = Res.ok (s2, c2, 0 + (c2 - c)) :=
      while_APPADV_cnt_super isdigit isdigit (fun _ hx => hx) _ hdig hz f1
        (by simp only [loop_bound]; omega)
    have hcnt : (0 + (c2 - c) == 0) = false := beq_false_of_ne (by omega)
    have hdec : read_floating_constant.decimal line string_init c = Res.error := by
      unfold read_floating_constant.decimal
      simp only [hloop, ok_bind, hz, f3, Bool.false_eq_true, if_false, hcnt, error_if_false,
        pure_eq_ok, Bool.true_and, f4, error_if_true, error_bind]
    unfold read_floating_constant
    simp only [hx0, ok_bind, and_then, hx00, Bool.false_eq_true, if_false, pure_eq_ok, hdec,
      error_bind, reader_exit]
  simp only [hnz, Bool.false_eq_true, if_false] at hdig
  have hx00 : (x0 == '0'.toNat) = true := by
    simp only [is_nonzero_digit, hd, Bool.true_and, bne_eq_false_iff_eq] at hnz
    simpa using hnz
  simp only [hx00, if_true] at hdig
  obtain ⟨⟨s1, c1'⟩, a1, g1⟩ := bind_eq_ok hdig
  clear hdig
  obtain ⟨hc1, -⟩ := APPADV_step a1
  subst hc1
  obtain ⟨x1, hx1, g2⟩ := bind_eq_ok g1
  clear g1
  change rd line (c + 1) = Res.ok x1 at hx1
  rcases Bool.eq_false_or_eq_true (x1 == 'x'.toNat || x1 == 'X'.toNat) with hxx | hxx
  · -- `0x` and hexadecimal digits
    simp only [hxx, if_true] at g2
    obtain ⟨⟨sA, cA⟩, a2, g3⟩ := bind_eq_ok g2
    clear g2
    obtain ⟨hcA, -⟩ := APPADV_step a2
    change cA = c + 1 + 1 at hcA
    subst hcA
    obtain ⟨⟨sB, cB⟩, a3, g4⟩ := bind_eq_ok g3
    clear g3
    change while_APPADV isxdigit line (loop_bound line) sA (c + 1 + 1) = Res.ok (sB, cB) at a3
    obtain ⟨pp, hpp, g5⟩ := bind_eq_ok g4
    clear g4
    change rd line (cB - 1) = Res.ok pp at hpp
    obtain ⟨u, hu, g6⟩ := bind_eq_ok g5
    clear g5
    simp only [pure_eq_ok, Res.ok.injEq, Prod.mk.injEq] at g6
    obtain ⟨q1, q2⟩ := g6
    subst q1 q2
    have hleB := (while_APPADV_run isxdigit _ a3).1
    have hltB : c + 1 + 1 < cB := by
      rcases Nat.eq_or_lt_of_le hleB with he | hl
      · exfalso
        rw [← he, Nat.add_sub_cancel] at hpp
        obtain rfl := rd_inj hx1 hpp
        have := error_if_ok hu
        rw [hxx] at this
        exact absurd this (by decide)
      · exact hl
    have hloop : while_APPADV_cnt isxdigit line (loop_bound line) sA (c + 1 + 1) 0
        = Res.ok (sB, cB, 0 + (cB - (c + 1 + 1))) :=
      while_APPADV_cnt_super isxdigit isxdigit (fun _ hx => hx) _ a3 hz f2
        (by simp only [loop_bound]; omega)
    have hcnt : (0 + (cB - (c + 1 + 1)) == 0) = false := beq_false_of_ne (by omega)
    have hhex : read_floating_constant.hexadecimal line string_init c = Res.error := by
      unfold read_floating_constant.hexadecimal
      simp only [a1, ok_bind, a2, hloop, hz, f3, Bool.false_eq_true, if_false, hcnt,
        error_if_false, pure_eq_ok, f5, error_if_true, error_bind]
    unfold read_floating_constant
    simp only [hx0, ok_bind, and_then, hx00, if_true, hx1, pure_eq_ok, hxx, hhex,
      error_bind, reader_exit]
  · -- `0` and octal digits
    simp only [hxx, Bool.false_eq_true, if_false] at g2
    change while_APPADV is_octal_digit line (loop_bound line) s1 (c + 1) = Res.ok (s2, c2)
      at g2
    have hle2 := (while_APPADV_run is_octal_digit _ g2).1
    have hrest : while_APPADV_cnt isdigit line (line.length + 1) s1 (c + 1) (0 + 1)
        = Res.ok (s2, c2, 0 + 1 + (c2 - (c + 1))) :=
      while_APPADV_cnt_super is_octal_digit isdigit is_octal_digit_isdigit _ g2 hz f1
        (by omega)
    have hloop : while_APPADV_cnt isdigit line (loop_bound line) string_init c 0
        = Res.ok (s2, c2, 0 + 1 + (c2 - (c + 1))) := by
      show while_APPADV_cnt isdigit line (line.length + 1 + 1) string_init c 0 = _
      rw [while_APPADV_cnt]
      simp only [hx0, ok_bind, hd, if_true, a1, hrest]
    have hcnt : (0 + 1 + (c2 - (c + 1)) == 0) = false := beq_false_of_ne (by omega)
    have hdec : read_floating_constant.decimal line string_init c = Res.error := by
      unfold read_floating_constant.decimal
      simp only [hloop, ok_bind, hz, f3, Bool.false_eq_true, if_false, hcnt, error_if_false,
        pure_eq_ok, Bool.true_and, f4, error_if_true, error_bind]
    unfold read_floating_constant
    simp only [hx0, ok_bind, and_then, hx00, if_true, hx1, pure_eq_ok, hxx,
      Bool.false_eq_true, if_false, hdec, error_bind, reader_exit]

/-- The kind a token had before does not matter to `read_integer_constant`. -/
theorem read_integer_any_kind (line : List Nat) (c : Nat) {tok tok2 : token}
    (h : tok.str = tok2.str) :
    read_integer_constant line c tok = read_integer_constant line c tok2 := by
  cases tok
  cases tok2
  simp only at h
  subst h
  rfl

/-- The kind a token had before does not matter to `read_floating_constant`. -/
theorem read_floating_any_kind (line : List Nat) (c : Nat) {tok tok2 : token}
    (h : tok.str = tok2.str) :
    read_floating_constant line c tok = read_floating_constant line c tok2 := by
  cases tok
  cases tok2
  simp only at h
  subst h
  rfl

theorem numeric_order_forward {line : List Nat} {c c1 : Nat} {tok t1 : token}
    (h : integer_then_floating line c tok = Res.ok (0, c1, t1)) :
    floating_then_integer line c tok = Res.ok (0, c1, t1) := by
  have hm1 : ((-1 : Int) == 0) = false := rfl
  unfold integer_then_floating at h
  obtain ⟨⟨r, c2, t2⟩, h1, g1⟩ := bind_eq_ok h
  clear h
  unfold floating_then_integer
  by_cases hr : r = 0
  · subst hr
    simp only [beq_self_eq_true, if_true, pure_eq_ok, Res.ok.injEq, Prod.mk.injEq,
      true_and] at g1
    obtain ⟨q1, q2⟩ := g1
    subst q1 q2
    have hf := read_floating_fails_at_integer h1 tok
    simp only [hf, ok_bind, hm1, Bool.false_eq_true, if_false]
    rw [← h1]
    exact read_integer_any_kind line c rfl
  · have hb : (r == 0) = false := beq_false_of_ne hr
    simp only [hb, Bool.false_eq_true, if_false] at g1
    obtain ⟨e1, e2⟩ := reader_exit_nonzero h1 hr
    subst e1 e2
    have hf : read_floating_constant line c2 tok = Res.ok (0, c1, t1) := by
      rw [← g1]
      exact read_floating_any_kind line c2 rfl
    simp only [hf, ok_bind, beq_self_eq_true, if_true, pure_eq_ok]

theorem numeric_order_backward {line : List Nat} {c c1 : Nat} {tok t1 : token}
    (h : floating_then_integer line c tok = Res.ok (0, c1, t1)) :
    integer_then_floating line c tok = Res.ok (0, c1, t1) := by
  have hm1 : ((-1 : Int) == 0) = false := rfl
  unfold floating_then_integer at h
  obtain ⟨⟨r, c2, t2⟩, h1, g1⟩ := bind_eq_ok h
  clear h
  unfold integer_then_floating
  by_cases hr : r = 0
  · subst hr
    simp only [beq_self_eq_true, if_true, pure_eq_ok, Res.ok.injEq, Prod.mk.injEq,
      true_and] at g1
    obtain ⟨q1, q2⟩ := g1
    subst q1 q2
    have hf := read_integer_fails_at_floating h1 tok
    simp only [hf, ok_bind, hm1, Bool.false_eq_true, if_false]
    rw [← h1]
    exact read_floating_any_kind line c rfl
  · have hb : (r == 0) = false := beq_false_of_ne hr
    simp only [hb, Bool.false_eq_true, if_false] at g1
    obtain ⟨e1, e2⟩ := reader_exit_nonzero h1 hr
    subst e1 e2
    have hf : read_integer_constant line c2 tok = Res.ok (0, c1, t1) := by
      rw [← g1]
      exact read_integer_any_kind line c2 rfl
    simp only [hf, ok_bind, beq_self_eq_true, if_true, pure_eq_ok]

/-- C22: `read_integer_constant` and `read_floating_constant` exclude each other.  On every
line and at every cursor, the two never both return 0: where the integer reader returns 0,
the floating reader returns -1 and leaves the cursor where it was, and where the floating
reader returns 0, the integer reader returns -1, whatever token they are entered with.  So the
order of the two does not matter to what is recognised: tried in the order of the
dispatcher or in the other order, the two readers return 0 in the same cases, with the
same exit cursor and the same token (kind and lexeme). -/
theorem integer_floating_exclusive :
    (∀ (line : List Nat) (c c1 c2 : Nat) (tok tok2 t1 t2 : token),
      ¬ (read_integer_constant line c tok = Res.ok (0, c1, t1)
        ∧ read_floating_constant line c tok2 = Res.ok (0, c2, t2)))
    ∧ (∀ (line : List Nat) (c c1 : Nat) (tok tok2 t1 : token),
      read_integer_constant line c tok = Res.ok (0, c1, t1) →
      read_floating_constant line c tok2
        = Res.ok (-1, c, { tok2 with type := TOKEN_FLOAT_CONST }))
    ∧ (∀ (line : List Nat) (c c1 : Nat) (tok tok2 t1 : token),
      read_floating_constant line c tok = Res.ok (0, c1, t1) →
      read_integer_constant line c tok2
        = Res.ok (-1, c, { tok2 with type := TOKEN_INT_CONST }))
    ∧ ∀ (line : List Nat) (c c1 : Nat) (tok t1 : token),
      integer_then_floating line c tok = Res.ok (0, c1, t1)
        ↔ floating_then_integer line c tok = Res.ok (0, c1, t1) := by
  refine ⟨?_, ?_, ?_, ?_⟩
  · intro line c c1 c2 tok tok2 t1 t2 ⟨h1, h2⟩
    rw [read_floating_fails_at_integer h1 tok2] at h2
    simp at h2
  · intro line c c1 tok tok2 t1 h
    exact read_floating_fails_at_integer h tok2
  · intro line c c1 tok tok2 t1 h
    exact read_integer_fails_at_floating h tok2
  · intro line c c1 tok t1
    exact ⟨numeric_order_forward, numeric_order_backward⟩

/-- C22 at the line `0x1F + 1.5`: at cursor 0 the integer reader returns 0 and the floating
reader -1, at cursor 7 the floating reader returns 0 and the integer reader -1, and the two
orders agree at both cursors. -/
theorem integer_floating_exclusive_witness :
    read_integer_constant (cs "0x1F + 1.5") 0 fresh_token
      = Res.ok (0, 4, { type := TOKEN_INT_CONST, str := string_lit (cs "0x1F") })
    ∧ read_floating_constant (cs "0x1F + 1.5") 0 fresh_token
      = Res.ok (-1, 0, { fresh_token with type := TOKEN_FLOAT_CONST })
    ∧ read_floating_constant (cs "0x1F + 1.5") 7 fresh_token
      = Res.ok (0, 10, { type := TOKEN_FLOAT_CONST, str := string_lit (cs "1.5") })
    ∧ read_integer_constant (cs "0x1F + 1.5") 7 fresh_token
      = Res.ok (-1, 7, { fresh_token with type := TOKEN_INT_CONST })
    ∧ floating_then_integer (cs "0x1F + 1.5") 0 fresh_token
      = Res.ok (0, 4, { type := TOKEN_INT_CONST, str := string_lit (cs "0x1F") })
    ∧ integer_then_floating (cs "0x1F + 1.5") 7 fresh_token
      = Res.ok (0, 10, { type := TOKEN_FLOAT_CONST, str := string_lit (cs "1.5") }) :=
  ⟨by decide,
   integer_floating_exclusive.2.1 (cs "0x1F + 1.5") 0 4 fresh_token fresh_token
     { type := TOKEN_INT_CONST, str := string_lit (cs "0x1F") } (by decide),
   by decide,
   integer_floating_exclusive.2.2.1 (cs "0x1F + 1.5") 7 10 fresh_token fresh_token
     { type := TOKEN_FLOAT_CONST, str := string_lit (cs "1.5") } (by decide),
   (integer_floating_exclusive.2.2.2 (cs "0x1F + 1.5") 0 4 fresh_token
     { type := TOKEN_INT_CONST, str := string_lit (cs "0x1F") }).1 (by decide),
   (integer_floating_exclusive.2.2.2 (cs "0x1F + 1.5") 7 10 fresh_token
     { type := TOKEN_FLOAT_CONST, str := string_lit (cs "1.5") }).2 (by decide)⟩

/-! ### C23: no loop runs into its bound -/

theorem bind_eq_fault_iff {α β : Type} {x : Res α} {f : α → Res β} {e : Fault} :
    (x >>= f) = Res.fault e ↔ x = Res.fault e ∨ ∃ a, x = Res.ok a ∧ f a = Res.fault e := by
  cases x with
  | ok a => simp
  | error => simp
  | fault g => simp

theorem rd_ne_fuel (line : List Nat) (c : Nat) : rd line c ≠ Res.fault Fault.fuel := by
  unfold rd
  split <;> simp

theorem load_ne_fuel (p : Ptr) (i : Nat) : load p i ≠ Res.fault Fault.fuel := by
  unfold load
  split
  · simp
  · split <;> simp

theorem store_ne_fuel (p : Ptr) (i v : Nat) : store p i v ≠ Res.fault Fault.fuel := by
  unfold store
  split
  · simp
  · split <;> simp

theorem error_if_ne_fuel (b : Bool) : error_if b ≠ Res.fault Fault.fuel := by
  cases b <;> simp

theorem string_append_ne_fuel (str : string) (x : Nat) :
    string_append str x ≠ Res.fault Fault.fuel := by
  unfold string_append
  simp [bind_eq_fault_iff, ite_eq_iff, store_ne_fuel]

theorem strncpy_bytes_ne_fuel (src : Ptr) (n : Nat) :
    ∀ i, strncpy_bytes src n i ≠ Res.fault Fault.fuel := by
  induction n with
  | zero => intro i; simp [strncpy_bytes]
  | succ n ih =>
    intro i
    rw [strncpy_bytes]
    simp [bind_eq_fault_iff, ite_eq_iff, load_ne_fuel, ih]

theorem string_copy_ne_fuel (dest src : string) :
    string_copy dest src ≠ Res.fault Fault.fuel := by
  unfold string_copy strncpy malloc
  simp [bind_eq_fault_iff, ite_eq_iff, strncpy_bytes_ne_fuel]

theorem strcmp_eq_ne_fuel (p : Ptr) (q : List Nat) :
    ∀ i, strcmp_eq p q i ≠ Res.fault Fault.fuel := by
  induction q with
  | nil => intro i; simp [strcmp_eq, bind_eq_fault_iff, load_ne_fuel]
  | cons y q ih =>
    intro i
    rw [strcmp_eq]
    simp [bind_eq_fault_iff, ite_eq_iff, load_ne_fuel, ih]

theorem keyword_lookup_ne_fuel (str : string) (n : Nat) :
    ∀ i tok, keyword_lookup str n i tok ≠ Res.fault Fault.fuel := by
  induction n with
  | zero => intro i tok; simp [keyword_lookup]
  | succ n ih =>
    intro i tok
    rw [keyword_lookup]
    simp [bind_eq_fault_iff, ite_eq_iff, strcmp_eq_ne_fuel, ih]

theorem APPADV_ne_fuel (line : List Nat) (str : string) (c : Nat) :
    APPADV line str c ≠ Res.fault Fault.fuel := by
  unfold APPADV
  simp [bind_eq_fault_iff, rd_ne_fuel, string_append_ne_fuel]

theorem APPADV_cursor {line : List Nat} {str str1 : string} {c c1 : Nat}
    (h : APPADV line str c = Res.ok (str1, c1)) : c1 = c + 1 ∧ c ≤ line.length := by
  unfold APPADV at h
  obtain ⟨x, hx, g1⟩ := bind_eq_ok h
  obtain ⟨s, hs, g2⟩ := bind_eq_ok g1
  simp only [pure_eq_ok, Res.ok.injEq, Prod.mk.injEq] at g2
  exact ⟨g2.2.symm, rd_ok_le hx⟩

theorem while_APPADV_ne_fuel (p : Nat → Bool) (line : List Nat) (fuel : Nat) :
    ∀ (str : string) (c : Nat), line.length + 1 - c < fuel →
      while_APPADV p line fuel str c ≠ Res.fault Fault.fuel := by
  induction fuel with
  | zero => intro str c h; omega
  | succ fuel ih =>
    intro str c hf h
    rw [while_APPADV] at h
    rcases bind_eq_fault_iff.1 h with h1 | ⟨x, hx, h1⟩
    · exact rd_ne_fuel _ _ h1
    · split at h1
      · rcases bind_eq_fault_iff.1 h1 with h2 | ⟨⟨s1, c1⟩, h2, h3⟩
        · exact APPADV_ne_fuel _ _ _ h2
        · obtain ⟨e1, e2⟩ := APPADV_cursor h2
          exact ih s1 c1 (by omega) h3
      · simp at h1

theorem while_APPADV_cursor (p : Nat → Bool) {line : List Nat} (fuel : Nat) :
    ∀ {str str1 : string} {c c1 : Nat},
      while_APPADV p line fuel str c = Res.ok (str1, c1) → c ≤ c1 := by
  induction fuel with
  | zero => intro str str1 c c1 h; simp [while_APPADV] at h
  | succ fuel ih =>
    intro str str1 c c1 h
    rw [while_APPADV] at h
    obtain ⟨x, hx, h1⟩ := bind_eq_ok h
    split at h1
    · obtain ⟨⟨s1, c2⟩, h2, h3⟩ := bind_eq_ok h1
      have := (APPADV_cursor h2).1
      have := ih h3
      omega
    · simp only [pure_eq_ok, Res.ok.injEq, Prod.mk.injEq] at h1
      omega

theorem while_APPADV_cnt_ne_fuel (p : Nat → Bool) (line : List Nat) (fuel : Nat) :
    ∀ (str : string) (c cnt : Nat), line.length + 1 - c < fuel →
      while_APPADV_cnt p line fuel str c cnt ≠ Res.fault Fault.fuel := by
  induction fuel with
  | zero => intro str c cnt h; omega
  | succ fuel ih =>
    intro str c cnt hf h
    rw [while_APPADV_cnt] at h
    rcases bind_eq_fault_iff.1 h with h1 | ⟨x, hx, h1⟩
    · exact rd_ne_fuel _ _ h1
    · split at h1
      · rcases bind_eq_fault_iff.1 h1 with h2 | ⟨⟨s1, c1⟩, h2, h3⟩
        · exact APPADV_ne_fuel _ _ _ h2
        · obtain ⟨e1, e2⟩ := APPADV_cursor h2
          exact ih s1 c1 _ (by omega) h3
      · simp at h1

theorem skip_space_ne_fuel (line : List Nat) (fuel : Nat) :
    ∀ (c : Nat), line.length + 1 - c < fuel →
      skip_space line fuel c ≠ Res.fault Fault.fuel := by
  induction fuel with
  | zero => intro c h; omega
  | succ fuel ih =>
    intro c hf h
    rw [skip_space] at h
    rcases bind_eq_fault_iff.1 h with h1 | ⟨x, hx, h1⟩
    · exact rd_ne_fuel _ _ h1
    · have := rd_ok_le hx
      split at h1
      · exact ih (c + 1) (by omega) h1
      · simp at h1

theorem loop_bound_gt (line : List Nat) (c : Nat) : line.length + 1 - c < loop_bound line := by
  unfold loop_bound
  omega

theorem reader_exit_fuel {co : Nat} {tok : token} {body : Res (Nat × token)}
    (h : body ≠ Res.fault Fault.fuel) : reader_exit co tok body ≠ Res.fault Fault.fuel := by
  unfold reader_exit
  cases body with
  | ok a => simp
  | error => simp
  | fault f => simpa using h

theorem and_then_ne_fuel {a : Bool} {b : Res Bool} (h : b ≠ Res.fault Fault.fuel) :
    and_then a b ≠ Res.fault Fault.fuel := by
  unfold and_then
  split
  · exact h
  · simp

theorem read_keyword_or_identifier_ne_fuel (line : List Nat) (c : Nat) (tok : token) :
    read_keyword_or_identifier line c tok ≠ Res.fault Fault.fuel := by
  unfold read_keyword_or_identifier
  apply reader_exit_fuel
  simp [bind_eq_fault_iff, rd_ne_fuel, error_if_ne_fuel, string_copy_ne_fuel,
    keyword_lookup_ne_fuel, while_APPADV_ne_fuel _ _ _ _ _ (loop_bound_gt _ _)]

theorem digits_ne_fuel (line : List Nat) (str : string) (c : Nat) :
    read_integer_constant.digits line str c ≠ Res.fault Fault.fuel := by
  unfold read_integer_constant.digits
  simp [bind_eq_fault_iff, ite_eq_iff, rd_ne_fuel, error_if_ne_fuel, APPADV_ne_fuel,
    while_APPADV_ne_fuel _ _ _ _ _ (loop_bound_gt _ _)]

theorem suffix_ne_fuel (line : List Nat) (str : string) (c : Nat) :
    read_integer_constant.suffix line str c ≠ Res.fault Fault.fuel := by
  unfold read_integer_constant.suffix
  simp [bind_eq_fault_iff, ite_eq_iff, rd_ne_fuel, error_if_ne_fuel, APPADV_ne_fuel]

theorem read_integer_constant_ne_fuel (line : List Nat) (c : Nat) (tok : token) :
    read_integer_constant line c tok ≠ Res.fault Fault.fuel := by
  unfold read_integer_constant
  apply reader_exit_fuel
  simp [bind_eq_fault_iff, rd_ne_fuel, error_if_ne_fuel, string_copy_ne_fuel,
    digits_ne_fuel, suffix_ne_fuel]

theorem exponent_digits_ne_fuel (line : List Nat) (str : string) (c : Nat) :
    read_floating_constant.exponent_digits line str c ≠ Res.fault Fault.fuel := by
  unfold read_floating_constant.exponent_digits
  simp [bind_eq_fault_iff, ite_eq_iff, rd_ne_fuel, error_if_ne_fuel, APPADV_ne_fuel,
    while_APPADV_ne_fuel _ _ _ _ _ (loop_bound_gt _ _)]

theorem hexadecimal_ne_fuel (line : List Nat) (str : string) (c : Nat) :
    read_floating_constant.hexadecimal line str c ≠ Res.fault Fault.fuel := by
  unfold read_floating_constant.hexadecimal
  simp [bind_eq_fault_iff, ite_eq_iff, rd_ne_fuel, error_if_ne_fuel, APPADV_ne_fuel,
    exponent_digits_ne_fuel, while_APPADV_cnt_ne_fuel _ _ _ _ _ _ (loop_bound_gt _ _)]

theorem decimal_ne_fuel (line : List Nat) (str : string) (c : Nat) :
    read_floating_constant.decimal line str c ≠ Res.fault Fault.fuel := by
  unfold read_floating_constant.decimal
  simp [bind_eq_fault_iff, ite_eq_iff, rd_ne_fuel, error_if_ne_fuel, APPADV_ne_fuel,
    exponent_digits_ne_fuel, while_APPADV_cnt_ne_fuel _ _ _ _ _ _ (loop_bound_gt _ _)]

theorem read_floating_constant_ne_fuel (line : List Nat) (c : Nat) (tok : token) :
    read_floating_constant line c tok ≠ Res.fault Fault.fuel := by
  unfold read_floating_constant
  apply reader_exit_fuel
  simp [bind_eq_fault_iff, ite_eq_iff, and_then, rd_ne_fuel, error_if_ne_fuel,
    string_copy_ne_fuel, APPADV_ne_fuel, hexadecimal_ne_fuel, decimal_ne_fuel]

theorem char_sequence_body_ne_fuel (line : List Nat) (str : string) (c : Nat) :
    char_sequence_body line str c ≠ Res.fault Fault.fuel := by
  unfold char_sequence_body read_universal_character_name
  simp [bind_eq_fault_iff, ite_eq_iff, rd_ne_fuel, APPADV_ne_fuel,
    while_APPADV_ne_fuel _ _ _ _ _ (loop_bound_gt _ _)]

theorem char_sequence_body_advances {line : List Nat} {str str1 : string} {c c1 : Nat}
    (h : char_sequence_body line str c = Res.ok (true, str1, c1)) :
    c < c1 ∧ c ≤ line.length := by
  unfold char_sequence_body read_universal_character_name at h
  obtain ⟨x, hx, h⟩ := bind_eq_ok h
  have hc := rd_ok_le hx
  refine ⟨?_, hc⟩
  split at h
  · simp at h
  split at h
  · obtain ⟨⟨s1, c2⟩, h1, h⟩ := bind_eq_ok h
    have e1 := (APPADV_cursor h1).1
    obtain ⟨y, hy, h⟩ := bind_eq_ok h
    split at h
    · obtain ⟨⟨s2, c3⟩, h2, h⟩ := bind_eq_ok h
      have e2 := (APPADV_cursor h2).1
      simp only [pure_eq_ok, Res.ok.injEq, Prod.mk.injEq] at h
      omega
    split at h
    · obtain ⟨⟨s2, c3⟩, h2, h⟩ := bind_eq_ok h
      have e2 := (APPADV_cursor h2).1
      obtain ⟨y2, hy2, h⟩ := bind_eq_ok h
      split at h
      · obtain ⟨⟨s3, c4⟩, h3, h⟩ := bind_eq_ok h
        have e3 := (APPADV_cursor h3).1
        obtain ⟨y3, hy3, h⟩ := bind_eq_ok h
        split at h
        · obtain ⟨⟨s4, c5⟩, h4, h⟩ := bind_eq_ok h
          have e4 := (APPADV_cursor h4).1
          simp only [pure_eq_ok, Res.ok.injEq, Prod.mk.injEq] at h
          omega
        · simp only [pure_eq_ok, Res.ok.injEq, Prod.mk.injEq] at h
          omega
      · simp only [pure_eq_ok, Res.ok.injEq, Prod.mk.injEq] at h
        omega
    split at h
    · obtain ⟨⟨s2, c3⟩, h2, h⟩ := bind_eq_ok h
      have e2 := (APPADV_cursor h2).1
      obtain ⟨⟨s3, c4⟩, h3, h⟩ := bind_eq_ok h
      have e3 := while_APPADV_cursor _ _ h3
      simp only [pure_eq_ok, Res.ok.injEq, Prod.mk.injEq] at h
      omega
    · simp at h
  · obtain ⟨⟨s1, c2⟩, h1, h⟩ := bind_eq_ok h
    have e1 := (APPADV_cursor h1).1
    simp only [pure_eq_ok, Res.ok.injEq, Prod.mk.injEq] at h
    omega

theorem char_sequence_loop_ne_fuel (q : Nat) (line : List Nat) (fuel : Nat) :
    ∀ (str : string) (c : Nat), line.length + 1 - c < fuel →
      char_sequence_loop q line fuel str c ≠ Res.fault Fault.fuel := by
  induction fuel with
  | zero => intro str c h; omega
  | succ fuel ih =>
    intro str c hf h
    rw [char_sequence_loop] at h
    rcases bind_eq_fault_iff.1 h with h1 | ⟨x, hx, h1⟩
    · exact rd_ne_fuel _ _ h1
    · split at h1
      · rcases bind_eq_fault_iff.1 h1 with h2 | ⟨⟨go_on, s1, c1⟩, h2, h3⟩
        · exact char_sequence_body_ne_fuel _ _ _ h2
        · cases go_on with
          | false => simp at h3
          | true =>
            obtain ⟨e1, e2⟩ := char_sequence_body_advances h2
            simp only [if_true] at h3
            exact ih s1 c1 (by omega) h3
      · simp at h1

theorem char_sequence_exit_ne_fuel (leno : Nat) (r : Bool × string × Nat) :
    char_sequence_exit leno r ≠ Res.fault Fault.fuel := by
  obtain ⟨flag, s, c⟩ := r
  cases flag <;> simp [char_sequence_exit, bind_eq_fault_iff, store_ne_fuel]

theorem read_c_char_sequence_ne_fuel (line : List Nat) (c : Nat) (str : string) :
    read_c_char_sequence line c str ≠ Res.fault Fault.fuel := by
  unfold read_c_char_sequence
  simp [bind_eq_fault_iff, char_sequence_exit_ne_fuel,
    char_sequence_loop_ne_fuel _ _ _ _ _ (loop_bound_gt _ _)]

theorem read_s_char_sequence_ne_fuel (line : List Nat) (c : Nat) (str : string) :
    read_s_char_sequence line c str ≠ Res.fault Fault.fuel := by
  unfold read_s_char_sequence
  simp [bind_eq_fault_iff, char_sequence_exit_ne_fuel,
    char_sequence_loop_ne_fuel _ _ _ _ _ (loop_bound_gt _ _)]

theorem character_opening_ne_fuel (line : List Nat) (str : string) (c : Nat) :
    read_character_constant.opening line str c ≠ Res.fault Fault.fuel := by
  unfold read_character_constant.opening
  simp [bind_eq_fault_iff, ite_eq_iff, and_then, goto_error, rd_ne_fuel, APPADV_ne_fuel]

theorem read_character_constant_ne_fuel (line : List Nat) (c : Nat) (tok : token) :
    read_character_constant line c tok ≠ Res.fault Fault.fuel := by
  unfold read_character_constant
  apply reader_exit_fuel
  simp [bind_eq_fault_iff, rd_ne_fuel, error_if_ne_fuel, string_copy_ne_fuel,
    APPADV_ne_fuel, character_opening_ne_fuel, read_c_char_sequence_ne_fuel]

theorem string_opening_ne_fuel (line : List Nat) (str : string) (c : Nat) :
    read_string_literal.opening line str c ≠ Res.fault Fault.fuel := by
  unfold read_string_literal.opening read_string_literal.u8
  simp [bind_eq_fault_iff, ite_eq_iff, and_then, goto_error, rd_ne_fuel, APPADV_ne_fuel]

theorem read_string_literal_ne_fuel (line : List Nat) (c : Nat) (tok : token) :
    read_string_literal line c tok ≠ Res.fault Fault.fuel := by
  unfold read_string_literal
  apply reader_exit_fuel
  simp [bind_eq_fault_iff, rd_ne_fuel, error_if_ne_fuel, string_copy_ne_fuel,
    APPADV_ne_fuel, string_opening_ne_fuel, read_s_char_sequence_ne_fuel]

theorem punctuator_tree_ne_fuel (line : List Nat) (c : Nat) :
    read_punctuator.tree line c ≠ Res.fault Fault.fuel := by
  unfold read_punctuator.tree
  simp [bind_eq_fault_iff, ite_eq_iff, and_then, goto_error, rd_ne_fuel]

theorem read_punctuator_ne_fuel (line : List Nat) (c : Nat) (tok : token) :
    read_punctuator line c tok ≠ Res.fault Fault.fuel := by
  unfold read_punctuator
  apply reader_exit_fuel
  simp [bind_eq_fault_iff, punctuator_tree_ne_fuel]

theorem try_readers_ne_fuel (line : List Nat) (c : Nat) (tok : token) :
    try_readers line c tok ≠ Res.fault Fault.fuel := by
  unfold try_readers
  simp [bind_eq_fault_iff, ite_eq_iff, read_keyword_or_identifier_ne_fuel,
    read_integer_constant_ne_fuel, read_floating_constant_ne_fuel,
    read_character_constant_ne_fuel, read_string_literal_ne_fuel, read_punctuator_ne_fuel]

theorem token_array_append_ne_fuel (tokarr : token_array) (tok : token) :
    token_array_append tokarr tok ≠ Res.fault Fault.fuel := by
  unfold token_array_append
  simp [bind_eq_fault_iff, ite_eq_iff]

/-! ### C23: progress of the readers and of the dispatcher -/

theorem rd_ok_iff {line : List Nat} {i x : Nat} :
    rd line i = Res.ok x
      ↔ (i < line.length ∧ line.getD i 0 = x) ∨ (i = line.length ∧ x = 0) := by
  constructor
  · intro h
    rcases Nat.lt_or_eq_of_le (rd_ok_le h) with h1 | h1
    · left
      refine ⟨h1, ?_⟩
      rw [rd_lt h1] at h
      simpa using h
    · right
      subst h1
      rw [rd_length] at h
      simp only [Res.ok.injEq] at h
      exact ⟨rfl, h.symm⟩
  · rintro (⟨h1, h2⟩ | ⟨h1, h2⟩)
    · rw [rd_lt h1, h2]
    · subst h1 h2
      exact rd_length line

theorem bind_eq_ok_iff {α β : Type} {x : Res α} {f : α → Res β} {b : β} :
    (x >>= f) = Res.ok b ↔ ∃ a, x = Res.ok a ∧ f a = Res.ok b := by
  cases x with
  | ok a => simp
  | error => simp
  | fault g => simp

theorem punctuator_tree_bound {line : List Nat} {c c1 k : Nat}
    (h : read_punctuator.tree line c = Res.ok (c1, k)) : c1 ≤ line.length := by
  unfold read_punctuator.tree at h
  obtain ⟨x, hx, g⟩ := bind_eq_ok h
  clear h
  by_cases h0 : (x == '['.toNat) = true
  · rw [if_pos h0] at g
    have hc : c < line.length :=
      rd_ok_ne_zero hx (by rw [beq_iff_eq.1 h0]; decide)
    clear hx h0
    simp only [pure_eq_ok, Res.ok.injEq, Prod.mk.injEq, ADV] at g
    omega
  rw [if_neg h0] at g
  by_cases h1 : (x == ']'.toNat) = true
  · rw [if_pos h1] at g
    have hc : c < line.length :=
      rd_ok_ne_zero hx (by rw [beq_iff_eq.1 h1]; decide)
    clear hx h0 h1
    simp only [pure_eq_ok, Res.ok.injEq, Prod.mk.injEq, ADV] at g
    omega
  rw [if_neg h1] at g
  by_cases h2 : (x == '('.toNat) = true
  · rw [if_pos h2] at g
    have hc : c < line.length :=
      rd_ok_ne_zero hx (by rw [beq_iff_eq.1 h2]; decide)
    clear hx h0 h1 h2
    simp only [pure_eq_ok, Res.ok.injEq, Prod.mk.injEq, ADV] at g
    omega
  rw [if_neg h2] at g
  by_cases h3 : (x == ')'.toNat) = true
  · rw [if_pos h3] at g
    have hc : c < line.length :=
      rd_ok_ne_zero hx (by rw [beq_iff_eq.1 h3]; decide)
    clear hx h0 h1 h2 h3
    simp only [pure_eq_ok, Res.ok.injEq, Prod.mk.injEq, ADV] at g
    omega
  rw [if_neg h3] at g
  by_cases h4 : (x == '{'.toNat) = true
  · rw [if_pos h4] at g
    have hc : c < line.length :=
      rd_ok_ne_zero hx (by rw [beq_iff_eq.1 h4]; decide)
    clear hx h0 h1 h2 h3 h4
    simp only [pure_eq_ok, Res.ok.injEq, Prod.mk.injEq, ADV] at g
    omega
  rw [if_neg h4] at g
  by_cases h5 : (x == '}'.toNat) = true
  · rw [if_pos h5] at g
    have hc : c < line.length :=
      rd_ok_ne_zero hx (by rw [beq_iff_eq.1 h5]; decide)
    clear hx h0 h1 h2 h3 h4 h5
    simp only [pure_eq_ok, Res.ok.injEq, Prod.mk.injEq, ADV] at g
    omega
  rw [if_neg h5] at g
  by_cases h6 : (x == '.'.toNat) = true
  · rw [if_pos h6] at g
    have hc : c < line.length :=
      rd_ok_ne_zero hx (by rw [beq_iff_eq.1 h6]; decide)
    clear hx h0 h1 h2 h3 h4 h5 h6
    simp only [and_then, ADV] at g
    repeat' (first | split at g | (replace g := bind_eq_ok g; obtain ⟨_, _, g⟩ := g))
    all_goals (simp only [rd_ok_iff, pure_eq_ok, Res.ok.injEq, Prod.mk.injEq, beq_iff_eq,
      bne_iff_ne, Char.reduceToNat, reduceCtorEq, Bool.false_eq_true, ne_eq,
      decide_eq_true_eq] at *)
    all_goals (try subst_vars)
    all_goals (try simp [bind_eq_ok_iff, rd_ok_iff, ite_eq_iff] at *)
    all_goals (try omega)
  rw [if_neg h6] at g
  by_cases h7 : (x == '-'.toNat) = true
  · rw [if_pos h7] at g
    have hc : c < line.length :=
      rd_ok_ne_zero hx (by rw [beq_iff_eq.1 h7]; decide)
    clear hx h0 h1 h2 h3 h4 h5 h6 h7
    simp only [and_then, ADV] at g
    repeat' (first | split at g | (replace g := bind_eq_ok g; obtain ⟨_, _, g⟩ := g))
    all_goals (simp only [rd_ok_iff, pure_eq_ok, Res.ok.injEq, Prod.mk.injEq, beq_iff_eq,
      bne_iff_ne, Char.reduceToNat, reduceCtorEq, Bool.false_eq_true, ne_eq,
      decide_eq_true_eq] at *)
    all_goals (try subst_vars)
    all_goals (try simp [bind_eq_ok_iff, rd_ok_iff, ite_eq_iff] at *)
    all_goals (try omega)
  rw [if_neg h7] at g
  by_cases h8 : (x == '+'.toNat) = true
  · rw [if_pos h8] at g
    have hc : c < line.length :=
      rd_ok_ne_zero hx (by rw [beq_iff_eq.1 h8]; decide)
    clear hx h0 h1 h2 h3 h4 h5 h6 h7 h8
    simp only [and_then, ADV] at g
    repeat' (first | split at g | (replace g := bind_eq_ok g; obtain ⟨_, _, g⟩ := g))
    all_goals (simp only [rd_ok_iff, pure_eq_ok, Res.ok.injEq, Prod.mk.injEq, beq_iff_eq,
      bne_iff_ne, Char.reduceToNat, reduceCtorEq, Bool.false_eq_true, ne_eq,
      decide_eq_true_eq] at *)
    all_goals (try subst_vars)
    all_goals (try simp [bind_eq_ok_iff, rd_ok_iff, ite_eq_iff] at *)
    all_goals (try omega)
  rw [if_neg h8] at g
  by_cases h9 : (x == '&'.toNat) = true
  · rw [if_pos h9] at g
    have hc : c < line.length :=
      rd_ok_ne_zero hx (by rw [beq_iff_eq.1 h9]; decide)
    clear hx h0 h1 h2 h3 h4 h5 h6 h7 h8 h9
    simp only [and_then, ADV] at g
    repeat' (first | split at g | (replace g := bind_eq_ok g; obtain ⟨_, _, g⟩ := g))
    all_goals (simp only [rd_ok_iff, pure_eq_ok, Res.ok.injEq, Prod.mk.injEq, beq_iff_eq,
      bne_iff_ne, Char.reduceToNat, reduceCtorEq, Bool.false_eq_true, ne_eq,
      decide_eq_true_eq] at *)
    all_goals (try subst_vars)
    all_goals (try simp [bind_eq_ok_iff, rd_ok_iff, ite_eq_iff] at *)
    all_goals (try omega)
  rw [if_neg h9] at g
  by_cases h10 : (x == '*'.toNat) = true
  · rw [if_pos h10] at g
    have hc : c < line.length :=
      rd_ok_ne_zero hx (by rw [beq_iff_eq.1 h10]; decide)
    clear hx h0 h1 h2 h3 h4 h5 h6 h7 h8 h9 h10
    simp only [and_then, ADV] at g
    repeat' (first | split at g | (replace g := bind_eq_ok g; obtain ⟨_, _, g⟩ := g))
    all_goals (simp only [rd_ok_iff, pure_eq_ok, Res.ok.injEq, Prod.mk.injEq, beq_iff_eq,
      bne_iff_ne, Char.reduceToNat, reduceCtorEq, Bool.false_eq_true, ne_eq,
      decide_eq_true_eq] at *)
    all_goals (try subst_vars)
    all_goals (try simp [bind_eq_ok_iff, rd_ok_iff, ite_eq_iff] at *)
    all_goals (try omega)
  rw [if_neg h10] at g
  by_cases h11 : (x == '~'.toNat) = true
  · rw [if_pos h11] at g
    have hc : c < line.length :=
      rd_ok_ne_zero hx (by rw [beq_iff_eq.1 h11]; decide)
    clear hx h0 h1 h2 h3 h4 h5 h6 h7 h8 h9 h10 h11
    simp only [pure_eq_ok, Res.ok.injEq, Prod.mk.injEq, ADV] at g
    omega
  rw [if_neg h11] at g
  by_cases h12 : (x == '!'.toNat) = true
  · rw [if_pos h12] at g
    have hc : c < line.length :=
      rd_ok_ne_zero hx (by rw [beq_iff_eq.1 h12]; decide)
    clear hx h0 h1 h2 h3 h4 h5 h6 h7 h8 h9 h10 h11 h12
    simp only [and_then, ADV] at g
    repeat' (first | split at g | (replace g := bind_eq_ok g; obtain ⟨_, _, g⟩ := g))
    all_goals (simp only [rd_ok_iff, pure_eq_ok, Res.ok.injEq, Prod.mk.injEq, beq_iff_eq,
      bne_iff_ne, Char.reduceToNat, reduceCtorEq, Bool.false_eq_true, ne_eq,
      decide_eq_true_eq] at *)
    all_goals (try subst_vars)
    all_goals (try simp [bind_eq_ok_iff, rd_ok_iff, ite_eq_iff] at *)
    all_goals (try omega)
  rw [if_neg h12] at g
  by_cases h13 : (x == '/'.toNat) = true
  · rw [if_pos h13] at g
    have hc : c < line.length :=
      rd_ok_ne_zero hx (by rw [beq_iff_eq.1 h13]; decide)
    clear hx h0 h1 h2 h3 h4 h5 h6 h7 h8 h9 h10 h11 h12 h13
    simp only [and_then, ADV] at g
    repeat' (first | split at g | (replace g := bind_eq_ok g; obtain ⟨_, _, g⟩ := g))
    all_goals (simp only [rd_ok_iff, pure_eq_ok, Res.ok.injEq, Prod.mk.injEq, beq_iff_eq,
      bne_iff_ne, Char.reduceToNat, reduceCtorEq, Bool.false_eq_true, ne_eq,
      decide_eq_true_eq] at *)
    all_goals (try subst_vars)
    all_goals (try simp [bind_eq_ok_iff, rd_ok_iff, ite_eq_iff] at *)
    all_goals (try omega)
  rw [if_neg h13] at g
  by_cases h14 : (x == '%'.toNat) = true
  · rw [if_pos h14] at g
    have hc : c < line.length :=
      rd_ok_ne_zero hx (by rw [beq_iff_eq.1 h14]; decide)
    clear hx h0 h1 h2 h3 h4 h5 h6 h7 h8 h9 h10 h11 h12 h13 h14
    simp only [and_then, ADV] at g
    repeat' (first | split at g | (replace g := bind_eq_ok g; obtain ⟨_, _, g⟩ := g))
    all_goals (simp only [rd_ok_iff, pure_eq_ok, Res.ok.injEq, Prod.mk.injEq, beq_iff_eq,
      bne_iff_ne, Char.reduceToNat, reduceCtorEq, Bool.false_eq_true, ne_eq,
      decide_eq_true_eq] at *)
    all_goals (try subst_vars)
    all_goals (try simp [bind_eq_ok_iff, rd_ok_iff, ite_eq_iff] at *)
    all_goals (try omega)
  rw [if_neg h14] at g
  by_cases h15 : (x == '<'.toNat) = true
  · rw [if_pos h15] at g
    have hc : c < line.length :=
      rd_ok_ne_zero hx (by rw [beq_iff_eq.1 h15]; decide)
    clear hx h0 h1 h2 h3 h4 h5 h6 h7 h8 h9 h10 h11 h12 h13 h14 h15
    simp only [and_then, ADV] at g
    repeat' (first | split at g | (replace g := bind_eq_ok g; obtain ⟨_, _, g⟩ := g))
    all_goals (simp only [rd_ok_iff, pure_eq_ok, Res.ok.injEq, Prod.mk.injEq, beq_iff_eq,
      bne_iff_ne, Char.reduceToNat, reduceCtorEq, Bool.false_eq_true, ne_eq,
      decide_eq_true_eq] at *)
    all_goals (try subst_vars)
    all_goals (try simp [bind_eq_ok_iff, rd_ok_iff, ite_eq_iff] at *)
    all_goals (try omega)
  rw [if_neg h15] at g
  by_cases h16 : (x == '>'.toNat) = true
  · rw [if_pos h16] at g
    have hc : c < line.length :=
      rd_ok_ne_zero hx (by rw [beq_iff_eq.1 h16]; decide)
    clear hx h0 h1 h2 h3 h4 h5 h6 h7 h8 h9 h10 h11 h12 h13 h14 h15 h16
    simp only [and_then, ADV] at g
    repeat' (first | split at g | (replace g := bind_eq_ok g; obtain ⟨_, _, g⟩ := g))
    all_goals (simp only [rd_ok_iff, pure_eq_ok, Res.ok.injEq, Prod.mk.injEq, beq_iff_eq,
      bne_iff_ne, Char.reduceToNat, reduceCtorEq, Bool.false_eq_true, ne_eq,
      decide_eq_true_eq] at *)
    all_goals (try subst_vars)
    all_goals (try simp [bind_eq_ok_iff, rd_ok_iff, ite_eq_iff] at *)
    all_goals (try omega)
  rw [if_neg h16] at g
  by_cases h17 : (x == '='.toNat) = true
  · rw [if_pos h17] at g
    have hc : c < line.length :=
      rd_ok_ne_zero hx (by rw [beq_iff_eq.1 h17]; decide)
    clear hx h0 h1 h2 h3 h4 h5 h6 h7 h8 h9 h10 h11 h12 h13 h14 h15 h16 h17
    simp only [and_then, ADV] at g
    repeat' (first | split at g | (replace g := bind_eq_ok g; obtain ⟨_, _, g⟩ := g))
    all_goals (simp only [rd_ok_iff, pure_eq_ok, Res.ok.injEq, Prod.mk.injEq, beq_iff_eq,
      bne_iff_ne, Char.reduceToNat, reduceCtorEq, Bool.false_eq_true, ne_eq,
      decide_eq_true_eq] at *)
    all_goals (try subst_vars)
    all_goals (try simp [bind_eq_ok_iff, rd_ok_iff, ite_eq_iff] at *)
    all_goals (try omega)
  rw [if_neg h17] at g
  by_cases h18 : (x == '^'.toNat) = true
  · rw [if_pos h18] at g
    have hc : c < line.length :=
      rd_ok_ne_zero hx (by rw [beq_iff_eq.1 h18]; decide)
    clear hx h0 h1 h2 h3 h4 h5 h6 h7 h8 h9 h10 h11 h12 h13 h14 h15 h16 h17 h18
    simp only [and_then, ADV] at g
    repeat' (first | split at g | (replace g := bind_eq_ok g; obtain ⟨_, _, g⟩ := g))
    all_goals (simp only [rd_ok_iff, pure_eq_ok, Res.ok.injEq, Prod.mk.injEq, beq_iff_eq,
      bne_iff_ne, Char.reduceToNat, reduceCtorEq, Bool.false_eq_true, ne_eq,
      decide_eq_true_eq] at *)
    all_goals (try subst_vars)
    all_goals (try simp [bind_eq_ok_iff, rd_ok_iff, ite_eq_iff] at *)
    all_goals (try omega)
  rw [if_neg h18] at g
  by_cases h19 : (x == '|'.toNat) = true
  · rw [if_pos h19] at g
    have hc : c < line.length :=
      rd_ok_ne_zero hx (by rw [beq_iff_eq.1 h19]; decide)
    clear hx h0 h1 h2 h3 h4 h5 h6 h7 h8 h9 h10 h11 h12 h13 h14 h15 h16 h17 h18 h19
    simp only [and_then, ADV] at g
    repeat' (first | split at g | (replace g := bind_eq_ok g; obtain ⟨_, _, g⟩ := g))
    all_goals (simp only [rd_ok_iff, pure_eq_ok, Res.ok.injEq, Prod.mk.injEq, beq_iff_eq,
      bne_iff_ne, Char.reduceToNat, reduceCtorEq, Bool.false_eq_true, ne_eq,
      decide_eq_true_eq] at *)
    all_goals (try subst_vars)
    all_goals (try simp [bind_eq_ok_iff, rd_ok_iff, ite_eq_iff] at *)
    all_goals (try omega)
  rw [if_neg h19] at g
  by_cases h20 : (x == '?'.toNat) = true
  · rw [if_pos h20] at g
    have hc : c < line.length :=
      rd_ok_ne_zero hx (by rw [beq_iff_eq.1 h20]; decide)
    clear hx h0 h1 h2 h3 h4 h5 h6 h7 h8 h9 h10 h11 h12 h13 h14 h15 h16 h17 h18 h19 h20
    simp only [pure_eq_ok, Res.ok.injEq, Prod.mk.injEq, ADV] at g
    omega
  rw [if_neg h20] at g
  by_cases h21 : (x == ':'.toNat) = true
  · rw [if_pos h21] at g
    have hc : c < line.length :=
      rd_ok_ne_zero hx (by rw [beq_iff_eq.1 h21]; decide)
    clear hx h0 h1 h2 h3 h4 h5 h6 h7 h8 h9 h10 h11 h12 h13 h14 h15 h16 h17 h18 h19 h20 h21
    simp only [and_then, ADV] at g
    repeat' (first | split at g | (replace g := bind_eq_ok g; obtain ⟨_, _, g⟩ := g))
    all_goals (simp only [rd_ok_iff, pure_eq_ok, Res.ok.injEq, Prod.mk.injEq, beq_iff_eq,
      bne_iff_ne, Char.reduceToNat, reduceCtorEq, Bool.false_eq_true, ne_eq,
      decide_eq_true_eq] at *)
    all_goals (try subst_vars)
    all_goals (try simp [bind_eq_ok_iff, rd_ok_iff, ite_eq_iff] at *)
    all_goals (try omega)
  rw [if_neg h21] at g
  by_cases h22 : (x == ';'.toNat) = true
  · rw [if_pos h22] at g
    have hc : c < line.length :=
      rd_ok_ne_zero hx (by rw [beq_iff_eq.1 h22]; decide)
    clear hx h0 h1 h2 h3 h4 h5 h6 h7 h8 h9 h10 h11 h12 h13 h14 h15 h16 h17 h18 h19 h20 h21 h22
    simp only [pure_eq_ok, Res.ok.injEq, Prod.mk.injEq, ADV] at g
    omega
  rw [if_neg h22] at g
  by_cases h23 : (x == ','.toNat) = true
  · rw [if_pos h23] at g
    have hc : c < line.length :=
      rd_ok_ne_zero hx (by rw [beq_iff_eq.1 h23]; decide)
    clear hx h0 h1 h2 h3 h4 h5 h6 h7 h8 h9 h10 h11 h12 h13 h14 h15 h16 h17 h18 h19 h20 h21 h22 h23
    simp only [pure_eq_ok, Res.ok.injEq, Prod.mk.injEq, ADV] at g
    omega
  rw [if_neg h23] at g
  by_cases h24 : (x == '#'.toNat) = true
  · rw [if_pos h24] at g
    have hc : c < line.length :=
      rd_ok_ne_zero hx (by rw [beq_iff_eq.1 h24]; decide)
    clear hx h0 h1 h2 h3 h4 h5 h6 h7 h8 h9 h10 h11 h12 h13 h14 h15 h16 h17 h18 h19 h20 h21 h22 h23 h24
    simp only [and_then, ADV] at g
    repeat' (first | split at g | (replace g := bind_eq_ok g; obtain ⟨_, _, g⟩ := g))
    all_goals (simp only [rd_ok_iff, pure_eq_ok, Res.ok.injEq, Prod.mk.injEq, beq_iff_eq,
      bne_iff_ne, Char.reduceToNat, reduceCtorEq, Bool.false_eq_true, ne_eq,
      decide_eq_true_eq] at *)
    all_goals (try subst_vars)
    all_goals (try simp [bind_eq_ok_iff, rd_ok_iff, ite_eq_iff] at *)
    all_goals (try omega)
  rw [if_neg h24] at g
  simp [goto_error] at g

theorem bind_congr_ok {α β : Type} {x : Res α} {f g : α → Res β}
    (h : ∀ a, x = Res.ok a → f a = g a) : (x >>= f) = (x >>= g) := by
  cases x with
  | ok a => simpa using h a rfl
  | error => rfl
  | fault e => rfl

/-- A reader that returns 0 has moved the cursor forward, and not past the last null that
was written to the buffer. -/
theorem reader_progress {reader : List Nat → Nat → token → Res (Int × Nat × token)}
    (hreader : reader ∈ token_readers) {line : List Nat} {c c1 : Nat} {tok tok1 : token}
    (h : reader line c tok = Res.ok (0, c1, tok1)) : c < c1 ∧ c1 ≤ line.length := by
  simp only [token_readers, List.mem_cons, List.mem_singleton, List.not_mem_nil, or_false]
    at hreader
  rcases hreader with e | e | e | e | e | e <;> subst e
  · obtain ⟨⟨h1, h2, -⟩, -⟩ := read_keyword_or_identifier_ok h
    exact ⟨h1, h2⟩
  · obtain ⟨⟨h1, h2, -⟩, -⟩ := read_integer_constant_ok h
    exact ⟨h1, h2⟩
  · obtain ⟨⟨h1, h2, -⟩, -⟩ := read_floating_constant_ok h
    exact ⟨h1, h2⟩
  · obtain ⟨⟨h1, h2, -⟩, -⟩ := read_character_constant_ok h
    exact ⟨h1, h2⟩
  · obtain ⟨⟨h1, h2, -⟩, -⟩ := read_string_literal_ok h
    exact ⟨h1, h2⟩
  · obtain ⟨-, -, -, h1⟩ := read_punctuator_ok h
    refine ⟨h1, ?_⟩
    have g := reader_exit_zero h
    obtain ⟨⟨c2, k⟩, g2, g3⟩ := bind_eq_ok g
    simp only [pure_eq_ok, Res.ok.injEq, Prod.mk.injEq] at g3
    rw [← g3.1]
    exact punctuator_tree_bound g2

/-- The inner loop does not run into its bound when the bound is larger than the number of
characters in front of the cursor. -/
theorem scan_line_ne_fuel (line : List Nat) (fuel : Nat) :
    ∀ (c : Nat) (tokarr : token_array), line.length - c < fuel →
      scan_line line fuel c tokarr ≠ Res.fault Fault.fuel := by
  induction fuel with
  | zero => intro c tokarr h; omega
  | succ fuel ih =>
    intro c tokarr hf h
    rw [scan_line] at h
    rcases bind_eq_fault_iff.1 h with h1 | ⟨s, hs, h1⟩
    · exact skip_space_ne_fuel _ _ _ (loop_bound_gt _ _) h1
    rcases bind_eq_fault_iff.1 h1 with h2 | ⟨x, hx, h2⟩
    · exact rd_ne_fuel _ _ h2
    rcases Bool.eq_false_or_eq_true (x == 0) with hx0 | hx0
    · simp [hx0] at h2
    simp only [hx0, Bool.false_eq_true, if_false] at h2
    rcases bind_eq_fault_iff.1 h2 with h3 | ⟨⟨failed, c2, tok⟩, h3, h4⟩
    · exact try_readers_ne_fuel _ _ _ h3
    cases failed with
    | true => simp at h4
    | false =>
      simp only [Bool.false_eq_true, if_false] at h4
      rcases bind_eq_fault_iff.1 h4 with h5 | ⟨ta, h5, h6⟩
      · exact token_array_append_ne_fuel _ _ h5
      have hcs := skip_space_ge _ hs
      have hlt := rd_ok_ne_zero hx (by simpa using hx0)
      have hprog := try_readers_progress h3
      exact ih c2 ta (by omega) h6

/-- The result of the inner loop does not depend on the bound, once the bound is larger than
the number of characters in front of the cursor. -/
theorem scan_line_fuel (line : List Nat) (f1 : Nat) :
    ∀ (f2 c : Nat) (tokarr : token_array), line.length - c < f1 → line.length - c < f2 →
      scan_line line f1 c tokarr = scan_line line f2 c tokarr := by
  induction f1 with
  | zero => intro f2 c tokarr h; omega
  | succ f1 ih =>
    intro f2 c tokarr hf1 hf2
    cases f2 with
    | zero => omega
    | succ f2 =>
      rw [scan_line, scan_line]
      refine bind_congr_ok (fun s hs => ?_)
      refine bind_congr_ok (fun x hx => ?_)
      rcases Bool.eq_false_or_eq_true (x == 0) with hx0 | hx0
      · simp only [hx0, if_true]
      simp only [hx0, Bool.false_eq_true, if_false]
      refine bind_congr_ok (fun r h3 => ?_)
      obtain ⟨failed, c2, tok⟩ := r
      cases failed with
      | true => rfl
      | false =>
        simp only [Bool.false_eq_true, if_false]
        refine bind_congr_ok (fun ta _ => ?_)
        have hcs := skip_space_ge _ hs
        have hlt := rd_ok_ne_zero hx (by simpa using hx0)
        have hprog := try_readers_progress h3
        exact ih f2 c2 ta (by omega) (by omega)

/-- A run of the inner loop that returns made no more attempts than there are characters
in front of the cursor: every attempt but a failing last one appended one token. -/
theorem scan_line_attempts (line : List Nat) (fuel : Nat) :
    ∀ (c : Nat) (tokarr : token_array) (failed : Bool) (tokarr1 : token_array), tokarr.WF →
      scan_line line fuel c tokarr = Res.ok (failed, tokarr1) →
      c ≤ line.length
        ∧ tokarr1.len + (if failed then 1 else 0) + c ≤ tokarr.len + line.length := by
  induction fuel with
  | zero => intro c tokarr failed tokarr1 _ h; simp [scan_line] at h
  | succ fuel ih =>
    intro c tokarr failed tokarr1 hwf h
    rw [scan_line] at h
    obtain ⟨s, hs, h1⟩ := bind_eq_ok h
    clear h
    obtain ⟨x, hx, h2⟩ := bind_eq_ok h1
    clear h1
    have hcs := skip_space_ge _ hs
    have hle := rd_ok_le hx
    rcases Bool.eq_false_or_eq_true (x == 0) with hx0 | hx0
    · simp only [hx0, if_true, pure_eq_ok, Res.ok.injEq, Prod.mk.injEq] at h2
      obtain ⟨e1, e2⟩ := h2
      subst e1 e2
      simp only [Bool.false_eq_true, if_false]
      omega
    simp only [hx0, Bool.false_eq_true, if_false] at h2
    have hlt := rd_ok_ne_zero hx (by simpa using hx0)
    obtain ⟨⟨fl, c2, tok⟩, h3, h4⟩ := bind_eq_ok h2
    clear h2
    cases fl with
    | true =>
      simp only [if_true, pure_eq_ok, Res.ok.injEq, Prod.mk.injEq] at h4
      obtain ⟨e1, e2⟩ := h4
      subst e1 e2
      simp only [if_true]
      omega
    | false =>
      simp only [Bool.false_eq_true, if_false] at h4
      obtain ⟨ta, h5, h6⟩ := bind_eq_ok h4
      clear h4
      have hprog := try_readers_progress h3
      obtain ⟨ta2, q1, q2, -, -, -, q3⟩ := token_array_append_frame tok hwf
      rw [q1] at h5
      simp only [Res.ok.injEq] at h5
      subst h5
      obtain ⟨r1, r2⟩ := ih c2 ta2 failed tokarr1 q3 h6
      omega

theorem scan_lines_ne_fuel (file : List (List Nat)) :
    ∀ (buf : List Nat) (tokarr : token_array),
      scan_lines file buf tokarr ≠ Res.fault Fault.fuel := by
  induction file with
  | nil => intro buf tokarr; simp [scan_lines]
  | cons line rest ih =>
    intro buf tokarr h
    rw [scan_lines] at h
    rcases bind_eq_fault_iff.1 h with h1 | ⟨⟨failed, ta⟩, h1, h2⟩
    · exact scan_line_ne_fuel _ _ 0 tokarr (by unfold loop_bound; omega) h1
    cases failed with
    | true => simp at h2
    | false =>
      simp only [Bool.false_eq_true, if_false] at h2
      exact ih _ ta h2

theorem slice_no_null {line : List Nat} {c c1 : Nat}
    (h : ∀ i, c ≤ i → i < c1 → rd line i ≠ Res.ok 0) : 0 ∉ slice line c c1 := by
  intro hm
  unfold slice at hm
  obtain ⟨j, hj⟩ := List.mem_iff_getElem?.mp hm
  by_cases hlt : j < c1 - c
  · rw [List.getElem?_take_of_lt hlt, List.getElem?_drop] at hj
    refine h (c + j) (by omega) (by omega) ?_
    unfold rd
    rw [hj]
  · rw [List.getElem?_eq_none (by rw [List.length_take]; omega)] at hj
    simp at hj

/-- No character that `read_punctuator` passes over is the null: each was compared equal to
a character of a punctuator. -/
theorem punctuator_tree_no_null {line : List Nat} {c c1 k : Nat}
    (h : read_punctuator.tree line c = Res.ok (c1, k)) :
    ∀ i, c ≤ i → i < c1 → rd line i ≠ Res.ok 0 := by
  intro i hi1 hi2 hz
  unfold read_punctuator.tree at h
  obtain ⟨x, hx, g⟩ := bind_eq_ok h
  clear h
  by_cases h0 : (x == '['.toNat) = true
  · rw [if_pos h0] at g
    simp only [pure_eq_ok, Res.ok.injEq, Prod.mk.injEq, ADV] at g
    obtain rfl : i = c := by omega
    simp only [rd_ok_iff, beq_iff_eq, Char.reduceToNat] at hx hz h0
    omega
  rw [if_neg h0] at g
  by_cases h1 : (x == ']'.toNat) = true
  · rw [if_pos h1] at g
    clear h0
    simp only [pure_eq_ok, Res.ok.injEq, Prod.mk.injEq, ADV] at g
    obtain rfl : i = c := by omega
    simp only [rd_ok_iff, beq_iff_eq, Char.reduceToNat] at hx hz h1
    omega
  rw [if_neg h1] at g
  by_cases h2 : (x == '('.toNat) = true
  · rw [if_pos h2] at g
    clear h0 h1
    simp only [pure_eq_ok, Res.ok.injEq, Prod.mk.injEq, ADV] at g
    obtain rfl : i = c := by omega
    simp only [rd_ok_iff, beq_iff_eq, Char.reduceToNat] at hx hz h2
    omega
  rw [if_neg h2] at g
  by_cases h3 : (x == ')'.toNat) = true
  · rw [if_pos h3] at g
    clear h0 h1 h2
    simp only [pure_eq_ok, Res.ok.injEq, Prod.mk.injEq, ADV] at g
    obtain rfl : i = c := by omega
    simp only [rd_ok_iff, beq_iff_eq, Char.reduceToNat] at hx hz h3
    omega
  rw [if_neg h3] at g
  by_cases h4 : (x == '{'.toNat) = true
  · rw [if_pos h4] at g
    clear h0 h1 h2 h3
    simp only [pure_eq_ok, Res.ok.injEq, Prod.mk.injEq, ADV] at g
    obtain rfl : i = c := by omega
    simp only [rd_ok_iff, beq_iff_eq, Char.reduceToNat] at hx hz h4
    omega
  rw [if_neg h4] at g
  by_cases h5 : (x == '}'.toNat) = true
  · rw [if_pos h5] at g
    clear h0 h1 h2 h3 h4
    simp only [pure_eq_ok, Res.ok.injEq, Prod.mk.injEq, ADV] at g
    obtain rfl : i = c := by omega
    simp only [rd_ok_iff, beq_iff_eq, Char.reduceToNat] at hx hz h5
    omega
  rw [if_neg h5] at g
  by_cases h6 : (x == '.'.toNat) = true
  · rw [if_pos h6] at g
    clear h0 h1 h2 h3 h4 h5
    simp only [and_then, ADV] at g
    repeat' (first | split at g | (replace g := bind_eq_ok g; obtain ⟨_, _, g⟩ := g))
    all_goals (simp only [rd_ok_iff, pure_eq_ok, Res.ok.injEq, Prod.mk.injEq, beq_iff_eq,
      bne_iff_ne, Char.reduceToNat, reduceCtorEq, Bool.false_eq_true, ne_eq,
      decide_eq_true_eq] at *)
    all_goals (try subst_vars)
    all_goals (try simp [bind_eq_ok_iff, rd_ok_iff, ite_eq_iff] at *)
    all_goals (
      have hi : i = c ∨ i = c + 1 ∨ i = c + 2 ∨ i = c + 3 := by omega
      rcases hi with rfl | rfl | rfl | rfl <;>
        (try simp only [Nat.add_assoc, Nat.reduceAdd] at *) <;> omega)
  rw [if_neg h6] at g
  by_cases h7 : (x == '-'.toNat) = true
  · rw [if_pos h7] at g
    clear h0 h1 h2 h3 h4 h5 h6
    simp only [and_then, ADV] at g
    repeat' (first | split at g | (replace g := bind_eq_ok g; obtain ⟨_, _, g⟩ := g))
    all_goals (simp only [rd_ok_iff, pure_eq_ok, Res.ok.injEq, Prod.mk.injEq, beq_iff_eq,
      bne_iff_ne, Char.reduceToNat, reduceCtorEq, Bool.false_eq_true, ne_eq,
      decide_eq_true_eq] at *)
    all_goals (try subst_vars)
    all_goals (try simp [bind_eq_ok_iff, rd_ok_iff, ite_eq_iff] at *)
    all_goals (
      have hi : i = c ∨ i = c + 1 ∨ i = c + 2 ∨ i = c + 3 := by omega
      rcases hi with rfl | rfl | rfl | rfl <;>
        (try simp only [Nat.add_assoc, Nat.reduceAdd] at *) <;> omega)
  rw [if_neg h7] at g
  by_cases h8 : (x == '+'.toNat) = true
  · rw [if_pos h8] at g
    clear h0 h1 h2 h3 h4 h5 h6 h7
    simp only [and_then, ADV] at g
    repeat' (first | split at g | (replace g := bind_eq_ok g; obtain ⟨_, _, g⟩ := g))
    all_goals (simp only [rd_ok_iff, pure_eq_ok, Res.ok.injEq, Prod.mk.injEq, beq_iff_eq,
      bne_iff_ne, Char.reduceToNat, reduceCtorEq, Bool.false_eq_true, ne_eq,
      decide_eq_true_eq] at *)
    all_goals (try subst_vars)
    all_goals (try simp [bind_eq_ok_iff, rd_ok_iff, ite_eq_iff] at *)
    all_goals (
      have hi : i = c ∨ i = c + 1 ∨ i = c + 2 ∨ i = c + 3 := by omega
      rcases hi with rfl | rfl | rfl | rfl <;>
        (try simp only [Nat.add_assoc, Nat.reduceAdd] at *) <;> omega)
  rw [if_neg h8] at g
  by_cases h9 : (x == '&'.toNat) = true
  · rw [if_pos h9] at g
    clear h0 h1 h2 h3 h4 h5 h6 h7 h8
    simp only [and_then, ADV] at g
    repeat' (first | split at g | (replace g := bind_eq_ok g; obtain ⟨_, _, g⟩ := g))
    all_goals (simp only [rd_ok_iff, pure_eq_ok, Res.ok.injEq, Prod.mk.injEq, beq_iff_eq,
      bne_iff_ne, Char.reduceToNat, reduceCtorEq, Bool.false_eq_true, ne_eq,
      decide_eq_true_eq] at *)
    all_goals (try subst_vars)
    all_goals (try simp [bind_eq_ok_iff, rd_ok_iff, ite_eq_iff] at *)
    all_goals (
      have hi : i = c ∨ i = c + 1 ∨ i = c + 2 ∨ i = c + 3 := by omega
      rcases hi with rfl | rfl | rfl | rfl <;>
        (try simp only [Nat.add_assoc, Nat.reduceAdd] at *) <;> omega)
  rw [if_neg h9] at g
  by_cases h10 : (x == '*'.toNat) = true
  · rw [if_pos h10] at g
    clear h0 h1 h2 h3 h4 h5 h6 h7 h8 h9
    simp only [and_then, ADV] at g
    repeat' (first | split at g | (replace g := bind_eq_ok g; obtain ⟨_, _, g⟩ := g))
    all_goals (simp only [rd_ok_iff, pure_eq_ok, Res.ok.injEq, Prod.mk.injEq, beq_iff_eq,
      bne_iff_ne, Char.reduceToNat, reduceCtorEq, Bool.false_eq_true, ne_eq,
      decide_eq_true_eq] at *)
    all_goals (try subst_vars)
    all_goals (try simp [bind_eq_ok_iff, rd_ok_iff, ite_eq_iff] at *)
    all_goals (
      have hi : i = c ∨ i = c + 1 ∨ i = c + 2 ∨ i = c + 3 := by omega
      rcases hi with rfl | rfl | rfl | rfl <;>
        (try simp only [Nat.add_assoc, Nat.reduceAdd] at *) <;> omega)
  rw [if_neg h10] at g
  by_cases h11 : (x == '~'.toNat) = true
  · rw [if_pos h11] at g
    clear h0 h1 h2 h3 h4 h5 h6 h7 h8 h9 h10
    simp only [pure_eq_ok, Res.ok.injEq, Prod.mk.injEq, ADV] at g
    obtain rfl : i = c := by omega
    simp only [rd_ok_iff, beq_iff_eq, Char.reduceToNat] at hx hz h11
    omega
  rw [if_neg h11] at g
  by_cases h12 : (x == '!'.toNat) = true
  · rw [if_pos h12] at g
    clear h0 h1 h2 h3 h4 h5 h6 h7 h8 h9 h10 h11
    simp only [and_then, ADV] at g
    repeat' (first | split at g | (replace g := bind_eq_ok g; obtain ⟨_, _, g⟩ := g))
    all_goals (simp only [rd_ok_iff, pure_eq_ok, Res.ok.injEq, Prod.mk.injEq, beq_iff_eq,
      bne_iff_ne, Char.reduceToNat, reduceCtorEq, Bool.false_eq_true, ne_eq,
      decide_eq_true_eq] at *)
    all_goals (try subst_vars)
    all_goals (try simp [bind_eq_ok_iff, rd_ok_iff, ite_eq_iff] at *)
    all_goals (
      have hi : i = c ∨ i = c + 1 ∨ i = c + 2 ∨ i = c + 3 := by omega
      rcases hi with rfl | rfl | rfl | rfl <;>
        (try simp only [Nat.add_assoc, Nat.reduceAdd] at *) <;> omega)
  rw [if_neg h12] at g
  by_cases h13 : (x == '/'.toNat) = true
  · rw [if_pos h13] at g
    clear h0 h1 h2 h3 h4 h5 h6 h7 h8 h9 h10 h11 h12
    simp only [and_then, ADV] at g
    repeat' (first | split at g | (replace g := bind_eq_ok g; obtain ⟨_, _, g⟩ := g))
    all_goals (simp only [rd_ok_iff, pure_eq_ok, Res.ok.injEq, Prod.mk.injEq, beq_iff_eq,
      bne_iff_ne, Char.reduceToNat, reduceCtorEq, Bool.false_eq_true, ne_eq,
      decide_eq_true_eq] at *)
    all_goals (try subst_vars)
    all_goals (try simp [bind_eq_ok_iff, rd_ok_iff, ite_eq_iff] at *)
    all_goals (
      have hi : i = c ∨ i = c + 1 ∨ i = c + 2 ∨ i = c + 3 := by omega
      rcases hi with rfl | rfl | rfl | rfl <;>
        (try simp only [Nat.add_assoc, Nat.reduceAdd] at *) <;> omega)
  rw [if_neg h13] at g
  by_cases h14 : (x == '%'.toNat) = true
  · rw [if_pos h14] at g
    clear h0 h1 h2 h3 h4 h5 h6 h7 h8 h9 h10 h11 h12 h13
    simp only [and_then, ADV] at g
    repeat' (first | split at g | (replace g := bind_eq_ok g; obtain ⟨_, _, g⟩ := g))
    all_goals (simp only [rd_ok_iff, pure_eq_ok, Res.ok.injEq, Prod.mk.injEq, beq_iff_eq,
      bne_iff_ne, Char.reduceToNat, reduceCtorEq, Bool.false_eq_true, ne_eq,
      decide_eq_true_eq] at *)
    all_goals (try subst_vars)
    all_goals (try simp [bind_eq_ok_iff, rd_ok_iff, ite_eq_iff] at *)
    all_goals (
      have hi : i = c ∨ i = c + 1 ∨ i = c + 2 ∨ i = c + 3 := by omega
      rcases hi with rfl | rfl | rfl | rfl <;>
        (try simp only [Nat.add_assoc, Nat.reduceAdd] at *) <;> omega)
  rw [if_neg h14] at g
  by_cases h15 : (x == '<'.toNat) = true
  · rw [if_pos h15] at g
    clear h0 h1 h2 h3 h4 h5 h6 h7 h8 h9 h10 h11 h12 h13 h14
    simp only [and_then, ADV] at g
    repeat' (first | split at g | (replace g := bind_eq_ok g; obtain ⟨_, _, g⟩ := g))
    all_goals (simp only [rd_ok_iff, pure_eq_ok, Res.ok.injEq, Prod.mk.injEq, beq_iff_eq,
      bne_iff_ne, Char.reduceToNat, reduceCtorEq, Bool.false_eq_true, ne_eq,
      decide_eq_true_eq] at *)
    all_goals (try subst_vars)
    all_goals (try simp [bind_eq_ok_iff, rd_ok_iff, ite_eq_iff] at *)
    all_goals (
      have hi : i = c ∨ i = c + 1 ∨ i = c + 2 ∨ i = c + 3 := by omega
      rcases hi with rfl | rfl | rfl | rfl <;>
        (try simp only [Nat.add_assoc, Nat.reduceAdd] at *) <;> omega)
  rw [if_neg h15] at g
  by_cases h16 : (x == '>'.toNat) = true
  · rw [if_pos h16] at g
    clear h0 h1 h2 h3 h4 h5 h6 h7 h8 h9 h10 h11 h12 h13 h14 h15
    simp only [and_then, ADV] at g
    repeat' (first | split at g | (replace g := bind_eq_ok g; obtain ⟨_, _, g⟩ := g))
    all_goals (simp only [rd_ok_iff, pure_eq_ok, Res.ok.injEq, Prod.mk.injEq, beq_iff_eq,
      bne_iff_ne, Char.reduceToNat, reduceCtorEq, Bool.false_eq_true, ne_eq,
      decide_eq_true_eq] at *)
    all_goals (try subst_vars)
    all_goals (try simp [bind_eq_ok_iff, rd_ok_iff, ite_eq_iff] at *)
    all_goals (
      have hi : i = c ∨ i = c + 1 ∨ i = c + 2 ∨ i = c + 3 := by omega
      rcases hi with rfl | rfl | rfl | rfl <;>
        (try simp only [Nat.add_assoc, Nat.reduceAdd] at *) <;> omega)
  rw [if_neg h16] at g
  by_cases h17 : (x == '='.toNat) = true
  · rw [if_pos h17] at g
    clear h0 h1 h2 h3 h4 h5 h6 h7 h8 h9 h10 h11 h12 h13 h14 h15 h16
    simp only [and_then, ADV] at g
    repeat' (first | split at g | (replace g := bind_eq_ok g; obtain ⟨_, _, g⟩ := g))
    all_goals (simp only [rd_ok_iff, pure_eq_ok, Res.ok.injEq, Prod.mk.injEq, beq_iff_eq,
      bne_iff_ne, Char.reduceToNat, reduceCtorEq, Bool.false_eq_true, ne_eq,
      decide_eq_true_eq] at *)
    all_goals (try subst_vars)
    all_goals (try simp [bind_eq_ok_iff, rd_ok_iff, ite_eq_iff] at *)
    all_goals (
      have hi : i = c ∨ i = c + 1 ∨ i = c + 2 ∨ i = c + 3 := by omega
      rcases hi with rfl | rfl | rfl | rfl <;>
        (try simp only [Nat.add_assoc, Nat.reduceAdd] at *) <;> omega)
  rw [if_neg h17] at g
  by_cases h18 : (x == '^'.toNat) = true
  · rw [if_pos h18] at g
    clear h0 h1 h2 h3 h4 h5 h6 h7 h8 h9 h10 h11 h12 h13 h14 h15 h16 h17
    simp only [and_then, ADV] at g
    repeat' (first | split at g | (replace g := bind_eq_ok g; obtain ⟨_, _, g⟩ := g))
    all_goals (simp only [rd_ok_iff, pure_eq_ok, Res.ok.injEq, Prod.mk.injEq, beq_iff_eq,
      bne_iff_ne, Char.reduceToNat, reduceCtorEq, Bool.false_eq_true, ne_eq,
      decide_eq_true_eq] at *)
    all_goals (try subst_vars)
    all_goals (try simp [bind_eq_ok_iff, rd_ok_iff, ite_eq_iff] at *)
    all_goals (
      have hi : i = c ∨ i = c + 1 ∨ i = c + 2 ∨ i = c + 3 := by omega
      rcases hi with rfl | rfl | rfl | rfl <;>
        (try simp only [Nat.add_assoc, Nat.reduceAdd] at *) <;> omega)
  rw [if_neg h18] at g
  by_cases h19 : (x == '|'.toNat) = true
  · rw [if_pos h19] at g
    clear h0 h1 h2 h3 h4 h5 h6 h7 h8 h9 h10 h11 h12 h13 h14 h15 h16 h17 h18
    simp only [and_then, ADV] at g
    repeat' (first | split at g | (replace g := bind_eq_ok g; obtain ⟨_, _, g⟩ := g))
    all_goals (simp only [rd_ok_iff, pure_eq_ok, Res.ok.injEq, Prod.mk.injEq, beq_iff_eq,
      bne_iff_ne, Char.reduceToNat, reduceCtorEq, Bool.false_eq_true, ne_eq,
      decide_eq_true_eq] at *)
    all_goals (try subst_vars)
    all_goals (try simp [bind_eq_ok_iff, rd_ok_iff, ite_eq_iff] at *)
    all_goals (
      have hi : i = c ∨ i = c + 1 ∨ i = c + 2 ∨ i = c + 3 := by omega
      rcases hi with rfl | rfl | rfl | rfl <;>
        (try simp only [Nat.add_assoc, Nat.reduceAdd] at *) <;> omega)
  rw [if_neg h19] at g
  by_cases h20 : (x == '?'.toNat) = true
  · rw [if_pos h20] at g
    clear h0 h1 h2 h3 h4 h5 h6 h7 h8 h9 h10 h11 h12 h13 h14 h15 h16 h17 h18 h19
    simp only [pure_eq_ok, Res.ok.injEq, Prod.mk.injEq, ADV] at g
    obtain rfl : i = c := by omega
    simp only [rd_ok_iff, beq_iff_eq, Char.reduceToNat] at hx hz h20
    omega
  rw [if_neg h20] at g
  by_cases h21 : (x == ':'.toNat) = true
  · rw [if_pos h21] at g
    clear h0 h1 h2 h3 h4 h5 h6 h7 h8 h9 h10 h11 h12 h13 h14 h15 h16 h17 h18 h19 h20
    simp only [and_then, ADV] at g
    repeat' (first | split at g | (replace g := bind_eq_ok g; obtain ⟨_, _, g⟩ := g))
    all_goals (simp only [rd_ok_iff, pure_eq_ok, Res.ok.injEq, Prod.mk.injEq, beq_iff_eq,
      bne_iff_ne, Char.reduceToNat, reduceCtorEq, Bool.false_eq_true, ne_eq,
      decide_eq_true_eq] at *)
    all_goals (try subst_vars)
    all_goals (try simp [bind_eq_ok_iff, rd_ok_iff, ite_eq_iff] at *)
    all_goals (
      have hi : i = c ∨ i = c + 1 ∨ i = c + 2 ∨ i = c + 3 := by omega
      rcases hi with rfl | rfl | rfl | rfl <;>
        (try simp only [Nat.add_assoc, Nat.reduceAdd] at *) <;> omega)
  rw [if_neg h21] at g
  by_cases h22 : (x == ';'.toNat) = true
  · rw [if_pos h22] at g
    clear h0 h1 h2 h3 h4 h5 h6 h7 h8 h9 h10 h11 h12 h13 h14 h15 h16 h17 h18 h19 h20 h21
    simp only [pure_eq_ok, Res.ok.injEq, Prod.mk.injEq, ADV] at g
    obtain rfl : i = c := by omega
    simp only [rd_ok_iff, beq_iff_eq, Char.reduceToNat] at hx hz h22
    omega
  rw [if_neg h22] at g
  by_cases h23 : (x == ','.toNat) = true
  · rw [if_pos h23] at g
    clear h0 h1 h2 h3 h4 h5 h6 h7 h8 h9 h10 h11 h12 h13 h14 h15 h16 h17 h18 h19 h20 h21 h22
    simp only [pure_eq_ok, Res.ok.injEq, Prod.mk.injEq, ADV] at g
    obtain rfl : i = c := by omega
    simp only [rd_ok_iff, beq_iff_eq, Char.reduceToNat] at hx hz h23
    omega
  rw [if_neg h23] at g
  by_cases h24 : (x == '#'.toNat) = true
  · rw [if_pos h24] at g
    clear h0 h1 h2 h3 h4 h5 h6 h7 h8 h9 h10 h11 h12 h13 h14 h15 h16 h17 h18 h19 h20 h21 h22 h23
    simp only [and_then, ADV] at g
    repeat' (first | split at g | (replace g := bind_eq_ok g; obtain ⟨_, _, g⟩ := g))
    all_goals (simp only [rd_ok_iff, pure_eq_ok, Res.ok.injEq, Prod.mk.injEq, beq_iff_eq,
      bne_iff_ne, Char.reduceToNat, reduceCtorEq, Bool.false_eq_true, ne_eq,
      decide_eq_true_eq] at *)
    all_goals (try subst_vars)
    all_goals (try simp [bind_eq_ok_iff, rd_ok_iff, ite_eq_iff] at *)
    all_goals (
      have hi : i = c ∨ i = c + 1 ∨ i = c + 2 ∨ i = c + 3 := by omega
      rcases hi with rfl | rfl | rfl | rfl <;>
        (try simp only [Nat.add_assoc, Nat.reduceAdd] at *) <;> omega)
  rw [if_neg h24] at g
  simp [goto_error] at g

/-- The four readers that do not read literals pass over no null. -/
theorem reader_stays_in_line
    {reader : List Nat → Nat → token → Res (Int × Nat × token)}
    (hreader : reader ∈ [read_keyword_or_identifier, read_integer_constant,
      read_floating_constant, read_punctuator])
    {line : List Nat} {c c1 : Nat} {tok tok1 : token}
    (h : reader line c tok = Res.ok (0, c1, tok1)) : 0 ∉ slice line c c1 := by
  simp only [List.mem_cons, List.mem_singleton, List.not_mem_nil, or_false] at hreader
  rcases hreader with e | e | e | e <;> subst e
  · exact no_null_of_all is_identifier (fun x hx => is_identifier_ne_zero hx)
      (keyword_text h)
  · exact integer_constant_no_null (integer_text h)
  · exact floating_constant_no_null (floating_text h)
  · have g := reader_exit_zero h
    obtain ⟨⟨c2, k⟩, g2, g3⟩ := bind_eq_ok g
    simp only [pure_eq_ok, Res.ok.injEq, Prod.mk.injEq] at g3
    rw [← g3.1]
    exact slice_no_null (punctuator_tree_no_null g2)

/-- C23 fails for the two readers of literals.  Behind the line `L'';` the line `'`, the last
of a file and without newline, stands in the buffer of `lexer` as `'`, its terminating null
at cursor 1, and the cells `';` and newline that the first line has left.
`read_character_constant`, entered at cursor 0, takes the null for a character of the
constant, finds the quote at cursor 2 and returns 0 with cursor 3, behind the terminating
null; the inner loop goes on from there and makes two attempts on a line of one character.
What holds: whenever one of the six readers returns 0, the cursor has moved forward by at
least one character and stands at most on the last null that was written to the buffer; the
four readers that do not read literals pass over no null, so they stop at the terminating
null of the line at the latest.  The inner loop, entered at cursor `c` of a buffer, ends
within `line.length - c + 1` passes: with that bound, and with every larger one, the model
of the loop never stops at the bound, and its result is the same for all of them.  A run
that returns has made at most as many attempts as the buffer has cells in front of its last
null and behind the cursor: each attempt but a failing last one appended one token.  No run
of `lexer` stops at a loop bound. -/
theorem progress_past_the_terminator :
    (getline (cs "L'';\n") (cs "'") = cs "'" ++ 0 :: cs "';\n"
      ∧ rd (cs "'" ++ 0 :: cs "';\n") 1 = Res.ok 0
      ∧ read_character_constant (cs "'" ++ 0 :: cs "';\n") 0 fresh_token
          = Res.ok (0, 3,
              { type := TOKEN_CHAR_CONST,
                str := { len := 3, capacity := 4,
                         arr := some ((cs "'" ++ [0, 0, 0]).map some) } })
      ∧ line_tokens (cs "'" ++ 0 :: cs "';\n") (loop_bound (cs "'" ++ 0 :: cs "';\n")) 0
          = Res.ok (false,
              [{ type := TOKEN_CHAR_CONST,
                 str := { len := 3, capacity := 4,
                          arr := some ((cs "'" ++ [0, 0, 0]).map some) } },
               { type := TOKEN_SEMICOLON, str := string_init }])
      ∧ lexer_tokens [cs "L'';\n", cs "'"]
          = Res.ok (false,
              [some { type := TOKEN_CHAR_CONST, str := string_lit (cs "L''") },
               some { type := TOKEN_SEMICOLON, str := string_init },
               some { type := TOKEN_CHAR_CONST,
                      str := { len := 3, capacity := 4,
                               arr := some ((cs "'" ++ [0, 0, 0]).map some) } },
               some { type := TOKEN_SEMICOLON, str := string_init }]))
    ∧ (∀ reader ∈ token_readers, ∀ (line : List Nat) (c c1 : Nat) (tok tok1 : token),
      reader line c tok = Res.ok (0, c1, tok1) → c < c1 ∧ c1 ≤ line.length)
    ∧ (∀ reader ∈ [read_keyword_or_identifier, read_integer_constant,
          read_floating_constant, read_punctuator],
      ∀ (line : List Nat) (c c1 : Nat) (tok tok1 : token),
      reader line c tok = Res.ok (0, c1, tok1) → 0 ∉ slice line c c1)
    ∧ (∀ (line : List Nat) (fuel c : Nat) (tokarr : token_array), line.length - c < fuel →
        scan_line line fuel c tokarr ≠ Res.fault Fault.fuel
        ∧ scan_line line fuel c tokarr = scan_line line (line.length - c + 1) c tokarr)
    ∧ (∀ (line : List Nat) (fuel c : Nat) (tokarr tokarr1 : token_array) (failed : Bool),
        tokarr.WF → scan_line line fuel c tokarr = Res.ok (failed, tokarr1) →
        tokarr1.len + (if failed then 1 else 0) ≤ tokarr.len + (line.length - c))
    ∧ (∀ file : List (List Nat), lexer file ≠ Res.fault Fault.fuel) := by
  refine ⟨⟨by decide, by decide, by decide, by decide, by decide⟩,
    fun reader hreader line c c1 tok tok1 h => reader_progress hreader h,
    fun reader hreader line c c1 tok tok1 h => reader_stays_in_line hreader h,
    fun line fuel c tokarr hf =>
      ⟨scan_line_ne_fuel line fuel c tokarr hf,
       scan_line_fuel line fuel _ c tokarr hf (by omega)⟩,
    fun line fuel c tokarr tokarr1 failed hwf h => ?_,
    fun file => scan_lines_ne_fuel file _ _⟩
  obtain ⟨h1, h2⟩ := scan_line_attempts line fuel c tokarr failed tokarr1 hwf h
  omega

/-- C23 where it holds, at the line `a+=1;`: `read_punctuator` entered at cursor 1 stops at
cursor 3 and has passed over no null, and the inner loop appends four tokens to the empty
sequence, no more than the line has characters. -/
theorem progress_past_the_terminator_witness :
    read_punctuator (cs "a+=1;") 1 fresh_token
      = Res.ok (0, 3, { type := TOKEN_ADD_ASSIGN, str := string_init })
    ∧ (1 < 3 ∧ 3 ≤ (cs "a+=1;").length)
    ∧ 0 ∉ slice (cs "a+=1;") 1 3
    ∧ scan_line (cs "a+=1;") (loop_bound (cs "a+=1;")) 0 token_array_init
      = Res.ok (false,
          { len := 4, capacity := 8,
            tokens := [some { type := TOKEN_IDENTIFER, str := string_lit (cs "a") },
              some { type := TOKEN_ADD_ASSIGN, str := string_init },
              some { type := TOKEN_INT_CONST, str := string_lit (cs "1") },
              some { type := TOKEN_SEMICOLON, str := string_init },
              none, none, none, none] })
    ∧ 4 + (if false then 1 else 0) ≤ 0 + ((cs "a+=1;").length - 0) :=
  ⟨by decide,
   progress_past_the_terminator.2.1 read_punctuator (by simp [token_readers]) (cs "a+=1;") 1 3
     fresh_token { type := TOKEN_ADD_ASSIGN, str := string_init } (by decide),
   progress_past_the_terminator.2.2.1 read_punctuator (by simp) (cs "a+=1;") 1 3
     fresh_token { type := TOKEN_ADD_ASSIGN, str := string_init } (by decide),
   by decide,
   progress_past_the_terminator.2.2.2.2.1 (cs "a+=1;") (loop_bound (cs "a+=1;")) 0
     token_array_init
     { len := 4, capacity := 8,
       tokens := [some { type := TOKEN_IDENTIFER, str := string_lit (cs "a") },
         some { type := TOKEN_ADD_ASSIGN, str := string_init },
         some { type := TOKEN_INT_CONST, str := string_lit (cs "1") },
         some { type := TOKEN_SEMICOLON, str := string_init },
         none, none, none, none] }
     false token_array_init_wf (by decide)⟩

end CISC
